import Mathlib

/-!
# 808x core (src/cpu/808x.c): shallow embedding

The file-scope variables of `808x.c` and the parts of `cpu_state` that the
core touches are gathered in one record `State`; every C function becomes a
Lean function on that record.  Unsigned C integers are `Nat` (with the
truncation of their C type written out where a store can overflow), signed
C `int`s are `Int`.  Code outside `808x.c` (device callbacks, the timer
service, the PIC) is an `Env` of functions on the part of the state such
code can reach (`Ext`).
-/

namespace PCBox

/-! ## Constants -/

/-- Flag masks of `x86.h` (architectural 8086 FLAGS layout; `808x.c` itself
uses the literals 4, 0x10, 0x40, 0x80 and 0x800 for P, A, Z, S and V). -/
def C_FLAG : Nat := 0x0001
def P_FLAG : Nat := 0x0004
def A_FLAG : Nat := 0x0010
def Z_FLAG : Nat := 0x0040
def N_FLAG : Nat := 0x0080
def T_FLAG : Nat := 0x0100
def I_FLAG : Nat := 0x0200
def D_FLAG : Nat := 0x0400
def V_FLAG : Nat := 0x0800

def BUS_OUT : Nat := 1
def BUS_HIGH : Nat := 2
def BUS_WIDE : Nat := 4
def BUS_CODE : Nat := 8
def BUS_IO : Nat := 16
def BUS_MEM : Nat := 32
def BUS_PIC : Nat := 64
def BUS_ACCESS_TYPE : Nat := BUS_CODE ||| BUS_IO ||| BUS_MEM ||| BUS_PIC

def BUS_T1 : Nat := 0
def BUS_T2 : Nat := 1
def BUS_T3 : Nat := 2
def BUS_T4 : Nat := 3

/-! ## State -/

/-- Segment register `x86seg`: selector and cached linear base. -/
structure X86Seg where
  base : Nat
  seg : Nat
deriving DecidableEq

/-- State that code outside `808x.c` can change: directly (`cycles`, `tsc`,
memory, its own device state `dev`, the NMI latches of `nmi.h` and
`pic.int_pending`) or through the exported `sub_cycles`, `resub_cycles` and
`refreshread` (`not_ready`, `hlda`, `refresh`). -/
structure Ext where
  cycles : Int
  tsc : Nat
  not_ready : Int
  hlda : Int
  refresh : Int
  mem : Nat → Nat
  dev : Nat
  nmi : Nat
  nmi_enable : Nat
  nmi_mask : Nat
  pic_int_pending : Nat

/-- External collaborators of the core (section 6 of the specification). -/
structure Env where
  /-- Port input `inb(port)`: value read and effect on the outside. -/
  inb : Nat → Ext → Nat × Ext
  /-- Port input `inw(port)`. -/
  inw : Nat → Ext → Nat × Ext
  /-- Port output `outb(port, val)`. -/
  outb : Nat → Nat → Ext → Ext
  /-- Port output `outw(port, val)`. -/
  outw : Nat → Nat → Ext → Ext
  /-- Interrupt acknowledge `pic_irq_ack()`. -/
  pic_irq_ack : Ext → Nat × Ext
  /-- Timer service `timer_process()`. -/
  timer_process : Ext → Ext
  /-- Comparison `TIMER_VAL_LESS_THAN_VAL(timer_target, (uint32_t) tsc)`;
  `timer_target` belongs to the timer subsystem. -/
  timer_due : Ext → Bool
  /-- Integer part `xt_cpu_multi >> 32` of the clock multiplier. -/
  xt_cpu_multi_hi : Nat

/-- The variables of `808x.c` together with the fields of `cpu_state` and the
globals the core uses. -/
structure State where
  /- CPU variant -/
  is8086 : Bool
  is186 : Bool
  is_nec : Bool
  is286 : Bool
  /- cpu_state.regs[0..7].w -/
  ax : Nat
  cx : Nat
  dx : Nat
  bx : Nat
  sp : Nat
  bp : Nat
  si : Nat
  di : Nat
  /- cpu_state.seg_es, seg_cs, seg_ss, seg_ds -/
  seg_es : X86Seg
  seg_cs : X86Seg
  seg_ss : X86Seg
  seg_ds : X86Seg
  pc : Nat
  oldpc : Nat
  flags : Nat
  eaaddr : Nat
  /- decode -/
  opcode : Nat
  rmdat : Nat
  cpu_mod : Nat
  cpu_reg : Nat
  cpu_rm : Nat
  easeg : Nat
  /- prefetch queue -/
  pfq : List Nat
  biu_cycles : Nat
  pfq_pos : Int
  pfq_ip : Nat
  pfq_size : Int
  /- execution unit -/
  noint : Nat
  in_lock : Nat
  cpu_alu_op : Nat
  cpu_src : Nat
  cpu_dest : Nat
  cpu_data : Nat
  last_addr : Nat
  ovr_seg : Option Nat
  prefetching : Nat
  completed : Nat
  in_rep : Nat
  repeating : Nat
  rep_c_flag : Nat
  oldc : Nat
  clear_lock : Nat
  use_custom_nmi_vector : Nat
  custom_nmi_vector : Nat
  refresh : Int
  cycdiff : Int
  /- bus interface unit -/
  access_code : Nat
  hlda : Int
  not_ready : Int
  bus_request_type : Nat
  pic_data : Int
  last_was_code : Nat
  mem_data : Nat
  mem_seg : Nat
  mem_addr : Nat
  schedule_fetch : Nat
  pasv : Nat
  /- globals owned by collaborators -/
  cycles : Int
  tsc : Nat
  mem : Nat → Nat
  dev : Nat
  nmi : Nat
  nmi_enable : Nat
  nmi_mask : Nat
  pic_int_pending : Nat
  /- ghost: request flags of every physical access made by bus_do_io and
     bus_do_mem, oldest first -/
  bus_log : List Nat

/-- The externally reachable part of a state. -/
def State.ext (s : State) : Ext :=
  { cycles := s.cycles, tsc := s.tsc, not_ready := s.not_ready, hlda := s.hlda,
    refresh := s.refresh, mem := s.mem, dev := s.dev, nmi := s.nmi,
    nmi_enable := s.nmi_enable, nmi_mask := s.nmi_mask, pic_int_pending := s.pic_int_pending }

/-- Write back what an external call left behind. -/
def State.setExt (s : State) (e : Ext) : State :=
  { s with cycles := e.cycles, tsc := e.tsc, not_ready := e.not_ready, hlda := e.hlda,
           refresh := e.refresh, mem := e.mem, dev := e.dev, nmi := e.nmi,
           nmi_enable := e.nmi_enable, nmi_mask := e.nmi_mask,
           pic_int_pending := e.pic_int_pending }

/-! ## Flags and ALU (808x.c 1496-1761) -/

/-- C expression `x & ~m` stored to a `uint16_t`. -/
def andNot16 (x m : Nat) : Nat := x &&& (0xFFFF ^^^ m)

/-- GCC builtin `__builtin_parity(x)` on a 32-bit unsigned: the number of
1-bits of `x` modulo 2. -/
def builtin_parity (x : Nat) : Nat :=
  ((List.range 32).filter (fun i => x.testBit i)).length % 2

def set_cf (cond : Bool) (s : State) : State :=
  { s with flags := andNot16 s.flags C_FLAG ||| (if cond then C_FLAG else 0) }

def set_if (cond : Bool) (s : State) : State :=
  { s with flags := andNot16 s.flags I_FLAG ||| (if cond then I_FLAG else 0) }

def set_df (cond : Bool) (s : State) : State :=
  { s with flags := andNot16 s.flags D_FLAG ||| (if cond then D_FLAG else 0) }

def set_of (of : Nat) (s : State) : State :=
  { s with flags := andNot16 s.flags 0x800 ||| (if of ≠ 0 then 0x800 else 0) }

/-- Source `top_bit(uint16_t w, int bits)`: `w & (1 << (bits - 1))`. -/
def top_bit (w : Nat) (bits : Nat) : Nat :=
  (w % 65536) &&& (1 <<< (bits - 1))

def set_of_add (bits : Nat) (s : State) : State :=
  set_of (top_bit ((s.cpu_data ^^^ s.cpu_src) &&& (s.cpu_data ^^^ s.cpu_dest)) bits) s

def set_of_sub (bits : Nat) (s : State) : State :=
  set_of (top_bit ((s.cpu_dest ^^^ s.cpu_src) &&& (s.cpu_data ^^^ s.cpu_dest)) bits) s

def set_af (af : Bool) (s : State) : State :=
  { s with flags := andNot16 s.flags 0x10 ||| (if af then 0x10 else 0) }

def do_af (s : State) : State :=
  set_af (decide (((s.cpu_data ^^^ s.cpu_src ^^^ s.cpu_dest) &&& 0x10) ≠ 0)) s

def set_sf (bits : Nat) (s : State) : State :=
  { s with flags := andNot16 s.flags 0x80 ||| (if top_bit s.cpu_data bits ≠ 0 then 0x80 else 0) }

def set_pf (s : State) : State :=
  { s with flags := andNot16 s.flags 4 |||
      ((if builtin_parity (s.cpu_data &&& 0xFF) = 0 then 1 else 0) <<< 2) }

def set_zf_ex (zf : Bool) (s : State) : State :=
  { s with flags := andNot16 s.flags 0x40 ||| (if zf then 0x40 else 0) }

def set_zf (bits : Nat) (s : State) : State :=
  let size_mask := (1 <<< bits) - 1
  set_zf_ex (decide ((s.cpu_data &&& size_mask) = 0)) s

def set_pzs (bits : Nat) (s : State) : State :=
  set_sf bits (set_zf bits (set_pf s))

def set_apzs (bits : Nat) (s : State) : State :=
  do_af (set_pzs bits s)

def bitwise (bits : Nat) (data : Nat) (s : State) : State :=
  let s1 := { s with cpu_data := data % 65536 }
  let s2 := { s1 with flags := andNot16 s1.flags (C_FLAG ||| A_FLAG ||| V_FLAG) }
  set_pzs bits s2

def test (bits : Nat) (dest src : Nat) (s : State) : State :=
  let s1 := { s with cpu_dest := dest % 65536, cpu_src := src % 65536 }
  bitwise bits (s1.cpu_dest &&& s1.cpu_src) s1

/-- Source `add(bits)`; `cpu_data`, `cpu_src`, `cpu_dest` are `uint32_t`. -/
def add (bits : Nat) (s : State) : State :=
  let size_mask := (1 <<< bits) - 1
  let s1 := { s with cpu_data := (s.cpu_dest + s.cpu_src) % 4294967296 }
  let s2 := set_apzs bits s1
  let s3 := set_of_add bits s2
  if s3.cpu_alu_op = 2 ∧ (s3.cpu_src &&& size_mask) = 0 ∧ (s3.flags &&& C_FLAG) ≠ 0 then
    { s3 with flags := s3.flags ||| C_FLAG }
  else
    set_cf (decide ((s3.cpu_src &&& size_mask) > (s3.cpu_data &&& size_mask))) s3

/-- Source `sub(bits)`; the subtraction wraps in `uint32_t`. -/
def sub (bits : Nat) (s : State) : State :=
  let size_mask := (1 <<< bits) - 1
  let s1 := { s with cpu_data := (s.cpu_dest + 4294967296 - s.cpu_src % 4294967296) % 4294967296 }
  let s2 := set_apzs bits s1
  let s3 := set_of_sub bits s2
  if s3.cpu_alu_op = 3 ∧ (s3.cpu_src &&& size_mask) = 0 ∧ (s3.flags &&& C_FLAG) ≠ 0 then
    { s3 with flags := s3.flags ||| C_FLAG }
  else
    set_cf (decide ((s3.cpu_src &&& size_mask) > (s3.cpu_dest &&& size_mask))) s3

/-- The statement `cpu_src++` on a `uint32_t`. -/
def inc_src (s : State) : State :=
  { s with cpu_src := (s.cpu_src + 1) % 4294967296 }

/-- Source `alu_op(bits)`: cases 2 and 3 add the carry to `cpu_src` and fall
through to `add` and `sub`. -/
def alu_op (bits : Nat) (s : State) : State :=
  match s.cpu_alu_op with
  | 1 => bitwise bits (s.cpu_dest ||| s.cpu_src) s
  | 2 => add bits (if (s.flags &&& C_FLAG) ≠ 0 then inc_src s else s)
  | 0 => add bits s
  | 3 => sub bits (if (s.flags &&& C_FLAG) ≠ 0 then inc_src s else s)
  | 5 => sub bits s
  | 7 => sub bits s
  | 4 => test bits s.cpu_dest s.cpu_src s
  | 6 => bitwise bits (s.cpu_dest ^^^ s.cpu_src) s
  | _ => s

/-! ## Segment registers (808x.c 911-923) -/

def load_cs (seg : Nat) (s : State) : State :=
  let seg16 := seg % 65536
  { s with seg_cs := { base := (seg16 <<< 4) % 4294967296, seg := seg16 &&& 0xffff } }

/-- Segment register `_opseg[i]`: 0 = ES, 1 = CS, 2 = SS, 3 = DS. -/
def get_opseg (i : Nat) (s : State) : X86Seg :=
  match i with
  | 0 => s.seg_es
  | 1 => s.seg_cs
  | 2 => s.seg_ss
  | _ => s.seg_ds

def set_opseg (i : Nat) (v : X86Seg) (s : State) : State :=
  match i with
  | 0 => { s with seg_es := v }
  | 1 => { s with seg_cs := v }
  | 2 => { s with seg_ss := v }
  | _ => { s with seg_ds := v }

/-- Source `load_seg(seg, s)` with `s == _opseg[i]`. -/
def load_seg (seg : Nat) (i : Nat) (s : State) : State :=
  let seg16 := seg % 65536
  set_opseg i { base := (seg16 <<< 4) % 4294967296, seg := seg16 &&& 0xffff } s

/-- The invariant `base == selector << 4` on ES, CS, SS and DS. -/
def segs_ok (s : State) : Prop :=
  ∀ i, i < 4 → (get_opseg i s).base = (get_opseg i s).seg <<< 4

/-! ## Timing and bus primitives (808x.c 191-350) -/

def BUS_CYCLE (s : State) : Nat := s.biu_cycles &&& 3

def clock_start (s : State) : State :=
  { s with cycdiff := s.cycles }

/-- Source `clock_end()`: `diff` is converted to `uint64_t` before the
multiplication. -/
def clock_end (env : Env) (s : State) : State :=
  let diff := s.cycdiff - s.cycles
  let s1 := { s with tsc := (s.tsc + (diff % 18446744073709551616).toNat * env.xt_cpu_multi_hi)
                              % 18446744073709551616 }
  if env.timer_due s1.ext then s1.setExt (env.timer_process s1.ext) else s1

def process_timers (env : Env) (s : State) : State :=
  clock_start (clock_end env s)

def cycles_forward (env : Env) (c : Int) (s : State) : State :=
  let s1 := { s with cycles := s.cycles - c }
  if !s1.is286 then process_timers env s1 else s1

/-- The loop of `resub_cycles`: `n` times `if (not_ready > 0) not_ready--`. -/
def resub_loop : Nat → State → State
  | 0, s => s
  | n + 1, s => resub_loop n (if s.not_ready > 0 then { s with not_ready := s.not_ready - 1 } else s)

def resub_cycles (env : Env) (old_cycles : Int) (s : State) : State :=
  let s1 := if old_cycles > s.cycles then resub_loop (old_cycles - s.cycles).toNat s else s
  process_timers env s1

def bus_outb (env : Env) (port val : Nat) (s : State) : State :=
  let old_cycles := s.cycles
  let s1 := { s with cycles := s.cycles - 1 }
  let s2 := s1.setExt (env.outb port val s1.ext)
  resub_cycles env old_cycles s2

def bus_outw (env : Env) (port val : Nat) (s : State) : State :=
  let old_cycles := s.cycles
  let s1 := { s with cycles := s.cycles - 1 }
  let s2 := s1.setExt (env.outw port val s1.ext)
  resub_cycles env old_cycles s2

def bus_inb (env : Env) (port : Nat) (s : State) : Nat × State :=
  let old_cycles := s.cycles
  let s1 := { s with cycles := s.cycles - 1 }
  let r := env.inb port s1.ext
  (r.1 % 256, resub_cycles env old_cycles (s1.setExt r.2))

def bus_inw (env : Env) (port : Nat) (s : State) : Nat × State :=
  let old_cycles := s.cycles
  let s1 := { s with cycles := s.cycles - 1 }
  let r := env.inw port s1.ext
  (r.1 % 65536, resub_cycles env old_cycles (s1.setExt r.2))

/-- Registers `AL` and `AH` of `cpu_state.regs[0]`. -/
def AL (s : State) : Nat := s.ax % 256
def AH (s : State) : Nat := s.ax / 256 % 256
def set_AL (v : Nat) (s : State) : State := { s with ax := AH s * 256 + v % 256 }
def set_AH (v : Nat) (s : State) : State := { s with ax := (v % 256) * 256 + AL s }

def bus_do_io (env : Env) (io_type : Nat) (s : State) : State :=
  let s0 := { s with last_was_code := 0, bus_log := s.bus_log ++ [io_type] }
  let port := s0.eaaddr % 65536
  let s1 :=
    if io_type &&& BUS_OUT ≠ 0 then
      if io_type &&& BUS_WIDE ≠ 0 then bus_outw env port (s0.ax % 65536) s0
      else if io_type &&& BUS_HIGH ≠ 0 then bus_outb env ((port + 1) &&& 0xffff) (AH s0) s0
      else bus_outb env port (AL s0) s0
    else
      if io_type &&& BUS_WIDE ≠ 0 then
        let r := bus_inw env port s0
        { r.2 with ax := r.1 }
      else if io_type &&& BUS_HIGH ≠ 0 then
        let r := bus_inb env ((port + 1) &&& 0xffff) s0
        set_AH r.1 r.2
      else
        let r := bus_inb env port s0
        set_AL r.1 r.2
  process_timers env s1

/-- Modelled from the spec: the memory primitives `read_mem_b`, `read_mem_w`,
`write_mem_b`, `write_mem_w` of the memory subsystem (section 6) are not
part of `808x.c`; memory is a byte array indexed by the 20-bit physical
address (`rammask = 0xfffff`), words are little-endian. -/
def read_mem_b (s : State) (addr : Nat) : Nat :=
  s.mem (addr % 1048576) % 256

def read_mem_w (s : State) (addr : Nat) : Nat :=
  read_mem_b s addr ||| (read_mem_b s (addr + 1) <<< 8)

def write_mem_b (addr val : Nat) (s : State) : State :=
  { s with mem := fun a => if a = addr % 1048576 then val % 256 else s.mem a }

def write_mem_w (addr val : Nat) (s : State) : State :=
  write_mem_b (addr + 1) (val / 256 % 256) (write_mem_b addr (val % 256) s)

def bus_writeb (seg addr val : Nat) (s : State) : State :=
  write_mem_b ((seg + addr) % 4294967296) (val % 256) s

def bus_writew (seg addr val : Nat) (s : State) : State :=
  write_mem_w ((seg + addr) % 4294967296) (val % 65536) s

def bus_readb (seg addr : Nat) (s : State) : Nat :=
  read_mem_b s ((seg + addr) % 4294967296)

def bus_readw (seg addr : Nat) (s : State) : Nat :=
  read_mem_w s ((seg + addr) % 4294967296)

def bus_do_mem (io_type : Nat) (s : State) : State :=
  let s0 := { s with last_was_code := 0, bus_log := s.bus_log ++ [io_type] }
  if io_type &&& BUS_OUT ≠ 0 then
    if io_type &&& BUS_WIDE ≠ 0 then bus_writew s0.mem_seg s0.mem_addr s0.mem_data s0
    else if io_type &&& BUS_HIGH ≠ 0 then
      if s0.is186 && !s0.is_nec then bus_writeb s0.mem_seg (s0.mem_addr + 1) (s0.mem_data >>> 8) s0
      else bus_writeb s0.mem_seg ((s0.mem_addr + 1) &&& 0xffff) (s0.mem_data >>> 8) s0
    else bus_writeb s0.mem_seg s0.mem_addr (s0.mem_data &&& 0xff) s0
  else
    if io_type &&& BUS_WIDE ≠ 0 then
      { s0 with mem_data := bus_readw s0.mem_seg s0.mem_addr s0 }
    else if io_type &&& BUS_HIGH ≠ 0 then
      if s0.is186 && !s0.is_nec then
        { s0 with mem_data := (s0.mem_data &&& 0x00ff) |||
            ((bus_readb s0.mem_seg (s0.mem_addr + 1) s0) <<< 8) }
      else
        { s0 with mem_data := (s0.mem_data &&& 0x00ff) |||
            ((bus_readb s0.mem_seg ((s0.mem_addr + 1) &&& 0xffff) s0) <<< 8) }
    else
      { s0 with mem_data := (s0.mem_data &&& 0xff00) ||| bus_readb s0.mem_seg s0.mem_addr s0 }

/-! ## Bus cycle state machine and bus interface unit (808x.c 352-529) -/

def pfq_schedule (on_ : Nat) (s : State) : State :=
  { s with schedule_fetch :=
      if on_ ≠ 0 ∧ s.prefetching ≠ 0 ∧ s.pfq_pos < s.pfq_size then 1 else 0 }

/-- Source `readmembf(a)`: code byte at `cs + (a & 0xffff)`, no BIU advance. -/
def readmembf (a : Nat) (s : State) : Nat × State :=
  (read_mem_b s ((s.seg_cs.base + (a &&& 0xffff)) % 4294967296), { s with last_was_code := 1 })

def readmemwf (a : Nat) (s : State) : Nat × State :=
  (read_mem_w s ((s.seg_cs.base + (a &&& 0xffff)) % 4294967296), { s with last_was_code := 1 })

/-- Source `pfq_write()`; the word store `*(uint16_t *) &pfq[pfq_pos]` puts the
low byte at `pfq_pos` and the high byte at `pfq_pos + 1`. -/
def pfq_write (s : State) : State :=
  let fetch_word : Bool := s.is8086 && decide ((s.pfq_ip &&& 1) = 0)
  let s1 : State :=
    if fetch_word = true ∧ s.pfq_pos < s.pfq_size - 1 then
      let r := readmemwf s.pfq_ip s
      let s2 : State := { r.2 with
        pfq := (r.2.pfq.set s.pfq_pos.toNat (r.1 &&& 0xff)).set (s.pfq_pos.toNat + 1) (r.1 >>> 8),
        pfq_ip := (s.pfq_ip + 2) &&& 0xffff,
        pfq_pos := s.pfq_pos + 2 }
      if s2.pfq_pos ≥ s2.pfq_size - 1 then pfq_schedule 0 s2 else s2
    else if fetch_word = false ∧ s.pfq_pos < s.pfq_size then
      let r := readmembf s.pfq_ip s
      let s2 : State := { r.2 with
        pfq := r.2.pfq.set s.pfq_pos.toNat r.1,
        pfq_ip := (s.pfq_ip + 1) &&& 0xffff,
        pfq_pos := s.pfq_pos + 1 }
      if s2.pfq_pos ≥ s2.pfq_size then pfq_schedule 0 s2 else s2
    else s
  if s1.pfq_pos ≥ s1.pfq_size then { s1 with pfq_pos := s1.pfq_size } else s1

/-- Indices of `pfq` that `pfq_write` stores to in state `s`. -/
def pfq_write_indices (s : State) : List Int :=
  let fetch_word : Bool := s.is8086 && decide ((s.pfq_ip &&& 1) = 0)
  if fetch_word = true ∧ s.pfq_pos < s.pfq_size - 1 then [s.pfq_pos, s.pfq_pos + 1]
  else if fetch_word = false ∧ s.pfq_pos < s.pfq_size then [s.pfq_pos]
  else []

/-- The loop `for (i = 0; i < pfq_size - 1; i++) pfq[i] = pfq[i + 1]`. -/
def pfq_shift (n : Nat) (q : List Nat) : List Nat :=
  (List.range n).foldl (fun q i => q.set i (q.getD (i + 1) 0)) q

def pfq_read (s : State) : Nat × State :=
  let temp := s.pfq.getD 0 0
  let q := pfq_shift (s.pfq_size - 1).toNat s.pfq
  let pos := s.pfq_pos - 1
  (temp, { s with pfq := q, pfq_pos := if pos < 0 then 0 else pos, pc := (s.pc + 1) &&& 0xffff })

/-- Indices of `pfq` that `pfq_read` loads from or stores to in state `s`. -/
def pfq_read_indices (s : State) : List Int :=
  (0 : Int) :: (List.range (s.pfq_size - 1).toNat).flatMap (fun i => [(i : Int), (i : Int) + 1])

def pfq_add (s : State) : State :=
  if s.prefetching ≠ 0 ∧ s.pfq_pos < s.pfq_size then pfq_write s else s

def pfq_clear (s : State) : State :=
  { s with pfq_pos := 0, biu_cycles := 0 }

/-- The wait-state block `if (not_ready > 0) { ... }` of `run_bus_cycle`. -/
def bus_ready (env : Env) (s : State) : State :=
  if s.not_ready > 0 then { cycles_forward env s.not_ready s with not_ready := 0 } else s

def run_bus_cycle (env : Env) (io_type : Nat) (s : State) : State :=
  if io_type ≠ 0 ∧ ((io_type &&& BUS_CODE) = 0 ∨ s.schedule_fetch ≠ 0) then
    let s1 := bus_ready env s
    match BUS_CYCLE s1 with
    | 0 => { s1 with access_code := if (io_type &&& BUS_CODE) ≠ 0 then 1 else 0 }
    | 1 =>
      if (io_type &&& BUS_ACCESS_TYPE) = BUS_IO then
        (if (io_type &&& BUS_OUT) ≠ 0 then bus_do_io env io_type s1 else s1)
      else if (io_type &&& BUS_ACCESS_TYPE) = BUS_MEM then
        (if (io_type &&& BUS_OUT) ≠ 0 then bus_do_mem io_type s1 else s1)
      else s1
    | 2 =>
      if (io_type &&& BUS_ACCESS_TYPE) = BUS_CODE then
        { pfq_add s1 with last_was_code := 1 }
      else if (io_type &&& BUS_ACCESS_TYPE) = BUS_IO then
        (if (io_type &&& BUS_OUT) = 0 then bus_do_io env io_type s1 else s1)
      else if (io_type &&& BUS_ACCESS_TYPE) = BUS_MEM then
        (if (io_type &&& BUS_OUT) = 0 then bus_do_mem io_type s1 else s1)
      else if (io_type &&& BUS_ACCESS_TYPE) = BUS_PIC then
        let r := env.pic_irq_ack s1.ext
        { s1.setExt r.2 with pic_data := ((r.1 % 256 : Nat) : Int), last_was_code := 0 }
      else s1
    | _ => s1
  else s

def run_dma_cycle (idle : Nat) (s : State) : State :=
  if s.not_ready > 0 then { s with not_ready := s.not_ready - 1 }
  else if s.hlda > 0 then
    let s1 := { s with hlda := s.hlda - 1 }
    if s1.hlda = 0 then { s1 with not_ready := 6 } else s1
  else if s.refresh > 0 ∧ s.in_lock = 0 ∧ (idle ≠ 0 ∨ BUS_CYCLE s ≥ BUS_T3) then
    { s with hlda := 2, refresh := s.refresh - 1 }
  else s

/-- Source `cycles_idle(c)`: the loop runs `c` times (not at all for `c <= 0`). -/
def cycles_idle_loop (env : Env) : Nat → State → State
  | 0, s => s
  | n + 1, s => cycles_idle_loop env n (run_dma_cycle 1 (cycles_forward env 1 s))

def cycles_idle (env : Env) (c : Int) (s : State) : State :=
  cycles_idle_loop env c.toNat s

/-- The block of `cycles_biu` run when an operand access begins while a code
fetch is scheduled: the prefetch is aborted. -/
def biu_abort (env : Env) (s : State) : State :=
  let sb : State :=
    if BUS_CYCLE s = BUS_T1 ∨ BUS_CYCLE s = BUS_T2 then { s with biu_cycles := 0 }
    else { cycles_idle env (5 - (BUS_CYCLE s : Int)) s with biu_cycles := 0 }
  { pfq_schedule 0 sb with access_code := 0 }

/-- The statement `if (bus) { ... } else { ... }` of `cycles_biu`. -/
def biu_access (env : Env) (bus init : Nat) (s : State) : State :=
  if bus ≠ 0 then
    let sa : State := if init ≠ 0 ∧ s.schedule_fetch ≠ 0 then biu_abort env s else s
    run_bus_cycle env sa.bus_request_type sa
  else if s.schedule_fetch ≠ 0 then run_bus_cycle env BUS_CODE s
  else s

def cycles_biu (env : Env) (bus init : Nat) (s : State) : State :=
  let s0 : State := { s with pasv :=
    if bus ≠ 0 ∨ (BUS_CYCLE s = BUS_T1 ∧ s.schedule_fetch ≠ 0) then 0 else 1 }
  let s1 := biu_access env bus init s0
  let s2 := if BUS_CYCLE s1 = BUS_T2 then pfq_schedule 1 s1 else s1
  let s3 := run_dma_cycle s2.pasv s2
  { s3 with biu_cycles := (s3.biu_cycles + 1) &&& 3 }

def cycles_pasv (s : State) : State :=
  run_dma_cycle 1 (pfq_schedule 1 s)

/-- One iteration `d` of the loop of `wait(c, bus)`. -/
def wait_tick (env : Env) (bus d : Nat) (s : State) : State :=
  let s1 :=
    if bus = 0 ∧ s.schedule_fetch = 0 ∧ BUS_CYCLE s = BUS_T1 then cycles_pasv s
    else cycles_biu env bus (if d = 0 then 1 else 0) s
  cycles_forward env 1 s1

/-- Iterations `d, d + 1, ..., d + n - 1` of the loop of `wait`. -/
def wait_from (env : Env) (bus : Nat) : Nat → Nat → State → State
  | 0, _, s => s
  | n + 1, d, s => wait_from env bus n (d + 1) (wait_tick env bus d s)

/-- Source `wait(c, bus)`; a negative `c` is only logged. -/
def wait (env : Env) (c : Int) (bus : Nat) (s : State) : State :=
  wait_from env bus c.toNat 0 s

/-! ## Prefetch queue reads and control transfers (808x.c 819-909, 978-1012, 1461-1494) -/

/-- The loop `while (pfq_pos == 0) wait(1, 0)` of `pfq_fetchb_common`, run for
at most `fuel` iterations; `none` when the queue is still empty after that. -/
def pfq_fill (env : Env) : Nat → State → Option State
  | 0, s => if s.pfq_pos = 0 then none else some s
  | fuel + 1, s => if s.pfq_pos = 0 then pfq_fill env fuel (wait env 1 0 s) else some s

def pfq_fetchb_common (env : Env) (fuel : Nat) (s : State) : Option (Nat × State) :=
  if s.pfq_pos = 0 then
    (pfq_fill env fuel { s with pfq_ip := s.pc % 65536 }).map pfq_read
  else some (pfq_read s)

def pfq_fetchb (env : Env) (fuel : Nat) (s : State) : Option (Nat × State) :=
  (pfq_fetchb_common env fuel s).map (fun r => (r.1, wait env 1 0 r.2))

def pfq_fetchw (env : Env) (fuel : Nat) (s : State) : Option (Nat × State) :=
  (pfq_fetchb_common env fuel s).bind (fun r1 =>
    (pfq_fetchb_common env fuel (wait env 1 0 r1.2)).map (fun r2 =>
      (r1.1 ||| (r2.1 <<< 8), r2.2)))

/-- The loop `while (BUS_CYCLE != BUS_T1) wait(1, 0)` of `pfq_do_suspend`, run
for at most `fuel` iterations. -/
def suspend_loop (env : Env) : Nat → State → Option State
  | 0, s => if BUS_CYCLE s ≠ BUS_T1 then none else some s
  | fuel + 1, s =>
    if BUS_CYCLE s ≠ BUS_T1 then suspend_loop env fuel (wait env 1 0 s) else some s

def pfq_do_suspend (env : Env) (fuel : Nat) (s : State) : Option State :=
  (suspend_loop env fuel s).map (fun s1 =>
    { pfq_schedule 0 (wait env 1 0 s1) with prefetching := 0 })

def pfq_suspend (env : Env) (fuel : Nat) (s : State) : Option State :=
  (pfq_do_suspend env fuel s).map pfq_clear

/-- Source `set_ip(uint16_t new_ip)`. -/
def set_ip (new_ip : Nat) (s : State) : State :=
  pfq_schedule 1 { s with pfq_ip := new_ip % 65536, pc := new_ip % 65536, prefetching := 1 }

/-- Source `sign_extend(uint8_t data)`, result `uint16_t`. -/
def sign_extend (data : Nat) : Nat :=
  ((data % 256) + (if data % 256 < 0x80 then 0 else 0xff00)) % 65536

/-- Source `jump(uint16_t delta)`: returns the old IP and the new state. -/
def jump (env : Env) (fuel : Nat) (delta : Nat) (s : State) : Option (Nat × State) :=
  (pfq_suspend env fuel (wait env 1 0 s)).map (fun s1 =>
    let s2 := cycles_idle env 1 s1
    (s2.pc % 65536, set_ip ((s2.pc + delta % 65536) &&& 0xffff) s2))

def jump_short (env : Env) (fuel : Nat) (s : State) : Option State :=
  (jump env fuel (sign_extend (s.cpu_data % 256)) s).map (fun r => r.2)

def jump_near (env : Env) (fuel : Nat) (s : State) : Option (Nat × State) :=
  (pfq_fetchw env fuel s).bind (fun r => jump env fuel r.1 r.2)

/-- Source `jcc(uint8_t opcode, int cond)`. -/
def jcc (env : Env) (fuel : Nat) (opcode : Nat) (cond : Nat) (s : State) : Option State :=
  (pfq_fetchb env fuel (wait env 1 0 s)).bind (fun r =>
    let s1 := wait env 1 0 { r.2 with cpu_data := r.1 }
    if (decide (cond = 0)) = (decide ((opcode &&& 0x01) ≠ 0)) then jump_short env fuel s1
    else some s1)

/-- The `cond` argument that `execx86` passes to `jcc` for the conditional
jumps 0x70..0x7F and their aliases 0x60..0x6F. -/
def jcc_cond (opcode : Nat) (flags : Nat) : Nat :=
  let temp : Nat := if (flags &&& N_FLAG) ≠ 0 then 1 else 0
  let temp2 : Nat := if (flags &&& V_FLAG) ≠ 0 then 1 else 0
  match opcode with
  | 0x60 | 0x70 | 0x61 | 0x71 => flags &&& V_FLAG
  | 0x62 | 0x72 | 0x63 | 0x73 => flags &&& C_FLAG
  | 0x64 | 0x74 | 0x65 | 0x75 => flags &&& Z_FLAG
  | 0x66 | 0x76 | 0x67 | 0x77 => flags &&& (C_FLAG ||| Z_FLAG)
  | 0x68 | 0x78 | 0x69 | 0x79 => flags &&& N_FLAG
  | 0x6A | 0x7A | 0x6B | 0x7B => flags &&& P_FLAG
  | 0x6C | 0x7C | 0x6D | 0x7D => temp ^^^ temp2
  | 0x6E | 0x7E | 0x6F | 0x7F => if (flags &&& Z_FLAG) ≠ 0 ∨ temp ≠ temp2 then 1 else 0
  | _ => 0

/-- The conditional-jump cases of the opcode switch of `execx86`. -/
def exec_jcc (env : Env) (fuel : Nat) (s : State) : Option State :=
  jcc env fuel (s.opcode % 256) (jcc_cond s.opcode s.flags) s

/-! ## Operand access and decoding (808x.c 605-657, 1014-1094, 3216-3228) -/

/-- Source `cpu_state.regs[r].w` for `r` in 0..7 (AX, CX, DX, BX, SP, BP, SI, DI). -/
def get_reg16 (r : Nat) (s : State) : Nat :=
  match r with
  | 0 => s.ax
  | 1 => s.cx
  | 2 => s.dx
  | 3 => s.bx
  | 4 => s.sp
  | 5 => s.bp
  | 6 => s.si
  | _ => s.di

/-- Source `readmemb(s, a)`. -/
def readmemb (env : Env) (seg a : Nat) (s : State) : Nat × State :=
  let s1 := { s with mem_seg := seg % 4294967296, mem_addr := a % 65536,
                     bus_request_type := BUS_MEM }
  let s2 := wait env 4 1 s1
  (s2.mem_data &&& 0xff, { s2 with bus_request_type := 0 })

/-- Source `readmemw(s, a)`. -/
def readmemw (env : Env) (seg a : Nat) (s : State) : Nat × State :=
  let s1 : State := { s with mem_seg := seg % 4294967296, mem_addr := a % 65536 }
  let s2 : State :=
    if s1.is8086 && decide (((a % 65536) &&& 1) = 0) then
      wait env 4 1 { s1 with bus_request_type := BUS_MEM ||| BUS_WIDE }
    else
      let s3 := wait env 4 1 { s1 with bus_request_type := BUS_MEM ||| BUS_HIGH }
      let s4 := pfq_schedule 0 s3
      wait env 4 1 { s4 with bus_request_type := BUS_MEM }
  (s2.mem_data, { s2 with bus_request_type := 0 })

/-- Modelled from the spec: the tables `mod1add` and `mod1seg` are filled outside
`808x.c`; section 4.4.1 describes them as the standard table of base + index forms with
DS as default segment and SS for the forms involving BP.  Base register of `r/m`. -/
def mod1add0 (rm : Nat) (s : State) : Nat :=
  match rm with
  | 0 => s.bx
  | 1 => s.bx
  | 2 => s.bp
  | 3 => s.bp
  | 4 => s.si
  | 5 => s.di
  | 6 => s.bp
  | _ => s.bx

/-- Modelled from the spec: index register of `r/m` in `mod1add` (zero for 4..7). -/
def mod1add1 (rm : Nat) (s : State) : Nat :=
  match rm with
  | 0 => s.si
  | 1 => s.di
  | 2 => s.si
  | 3 => s.di
  | _ => 0

/-- Modelled from the spec: default segment base of `r/m` in `mod1seg`. -/
def mod1seg (rm : Nat) (s : State) : Nat :=
  match rm with
  | 2 => s.seg_ss.base
  | 3 => s.seg_ss.base
  | 6 => s.seg_ss.base
  | _ => s.seg_ds.base

/-- The value `ovr_seg ? *ovr_seg : dflt`; `ovr_seg` points at the base of `opseg[i]`. -/
def seg_or_override (dflt : Nat) (s : State) : Nat :=
  match s.ovr_seg with
  | some i => (get_opseg i s).base
  | none => dflt

/-- Source `do_mod_rm()`. -/
def do_mod_rm (env : Env) (fuel : Nat) (s : State) : Option State :=
  (pfq_fetchb env fuel s).bind (fun r =>
    let s1 : State := { r.2 with rmdat := r.1 % 256, cpu_reg := ((r.1 % 256) >>> 3) &&& 7,
                                 cpu_mod := ((r.1 % 256) >>> 6) &&& 3, cpu_rm := (r.1 % 256) &&& 7 }
    if s1.cpu_mod = 3 then some s1
    else
      let s2 := wait env 2 0 s1
      if (s2.rmdat &&& 0xc7) = 0x06 then
        (pfq_fetchw env fuel s2).map (fun w =>
          wait env 2 0 { w.2 with eaaddr := w.1,
                                  easeg := seg_or_override w.2.seg_ds.base w.2 })
      else
        let s3 : State :=
          match s2.cpu_rm with
          | 0 => wait env 2 0 s2
          | 3 => wait env 2 0 s2
          | 1 => wait env 3 0 s2
          | 2 => wait env 3 0 s2
          | _ => s2
        let s4 : State := { s3 with
          eaaddr := (mod1add0 s3.cpu_rm s3 + mod1add1 s3.cpu_rm s3) % 4294967296,
          easeg := seg_or_override (mod1seg s3.cpu_rm s3) s3 }
        let s5 : Option State :=
          if (s4.rmdat &&& 0xc0) = 0x40 then
            (pfq_fetchb env fuel (wait env 2 0 s4)).map (fun b =>
              wait env 1 0 { b.2 with eaaddr := (b.2.eaaddr + sign_extend b.1) % 4294967296 })
          else if (s4.rmdat &&& 0xc0) = 0x80 then
            (pfq_fetchw env fuel (wait env 2 0 s4)).map (fun w =>
              wait env 1 0 { w.2 with eaaddr := (w.2.eaaddr + w.1) % 4294967296 })
          else some s4
        s5.map (fun s6 => wait env 2 0 { s6 with eaaddr := s6.eaaddr &&& 0xffff }))

/-- Source `geteaw()`. -/
def geteaw (env : Env) (s : State) : Nat × State :=
  if s.cpu_mod = 3 then (get_reg16 s.cpu_rm s, s)
  else readmemw env s.easeg s.eaaddr s

/-- Case 0x8E (`MOV sreg, r/m16`) of the opcode switch of `execx86`. -/
def exec_mov_sreg (env : Env) (fuel : Nat) (s : State) : Option State :=
  (do_mod_rm env fuel s).map (fun s1 =>
    let r := geteaw env s1
    let s2 : State :=
      if (r.2.rmdat &&& 0x18) = 0x08 then load_cs r.1 r.2
      else load_seg r.1 ((r.2.rmdat &&& 0x18) >>> 3) r.2
    let s3 := wait env 1 0 s2
    let s4 := if s3.cpu_mod ≠ 3 then wait env 1 0 s3 else s3
    if ((s4.rmdat &&& 0x18) >>> 3) = 2 then { s4 with noint := 1 } else s4)

/-! ## Stack, flags transfer and LOOP (808x.c 704-747, 1201-1222, 3045-3066, 3306-3320, 3851-3880) -/

/-- Source `cpu_state.regs[r].w = v` for `r` in 0..7. -/
def set_reg16 (r : Nat) (v : Nat) (s : State) : State :=
  match r with
  | 0 => { s with ax := v }
  | 1 => { s with cx := v }
  | 2 => { s with dx := v }
  | 3 => { s with bx := v }
  | 4 => { s with sp := v }
  | 5 => { s with bp := v }
  | 6 => { s with si := v }
  | _ => { s with di := v }

/-- The tail of `writememb` and `writememw`: `bus_request_type = 0` and the update of
`last_addr` for addresses in the ROM window. -/
def write_done (addr : Nat) (s : State) : State :=
  let s1 := { s with bus_request_type := 0 }
  if addr ≥ 0xf0000 ∧ addr ≤ 0xfffff then { s1 with last_addr := addr &&& 0xffff } else s1

/-- Source `writememb(s, a, v)`. -/
def writememb (env : Env) (seg a v : Nat) (s : State) : State :=
  let s1 := { s with mem_seg := seg % 4294967296, mem_addr := a % 65536, mem_data := v % 256,
                     bus_request_type := BUS_MEM ||| BUS_OUT }
  write_done ((seg + a) % 4294967296) (wait env 4 1 s1)

/-- Source `writememw(s, a, v)`. -/
def writememw (env : Env) (seg a v : Nat) (s : State) : State :=
  let s1 : State := { s with mem_seg := seg % 4294967296, mem_addr := a % 65536,
                             mem_data := v % 65536 }
  let s2 : State :=
    if s1.is8086 && decide (((a % 4294967296) &&& 1) = 0) then
      wait env 4 1 { s1 with bus_request_type := BUS_MEM ||| BUS_OUT ||| BUS_WIDE }
    else
      let s3 := wait env 4 1 { s1 with bus_request_type := BUS_MEM ||| BUS_OUT ||| BUS_HIGH }
      let s4 := pfq_schedule 0 s3
      wait env 4 1 { s4 with bus_request_type := BUS_MEM ||| BUS_OUT }
  write_done ((seg + a) % 4294967296) s2

/-- Source `push(uint16_t *val)`; `rd` reads `*val` in the state at the time of the
call to `writememw`, so a pointer to SP yields the decremented SP. -/
def push (env : Env) (rd : State → Nat) (s : State) : State :=
  if (s.is186 && !s.is_nec) = true ∧ s.sp = 1 then
    let s1 := writememw env ((s.seg_ss.base + 4294967295) % 4294967296) 0 (rd s) s
    { s1 with sp := 0xFFFF, eaaddr := 0xFFFF }
  else
    let s1 : State := { s with sp := (s.sp + 65534) % 65536 }
    let s2 : State := { s1 with eaaddr := s1.sp &&& 0xffff }
    writememw env s2.seg_ss.base s2.eaaddr (rd s2) s2

/-- Source `pop()`. -/
def pop (env : Env) (s : State) : Nat × State :=
  let s1 : State := { s with eaaddr := s.sp &&& 0xffff }
  let s2 : State := { s1 with sp := (s1.sp + 2) % 65536 }
  readmemw env s2.seg_ss.base s2.eaaddr s2

/-- Cases 0x50..0x57 (`PUSH r16`) of the opcode switch of `execx86`. -/
def exec_push_r16 (env : Env) (s : State) : State :=
  push env (get_reg16 (s.opcode &&& 0x07)) (wait env 3 0 s)

/-- Cases 0x58..0x5F (`POP r16`) of the opcode switch of `execx86`. -/
def exec_pop_r16 (env : Env) (s : State) : State :=
  let r := pop env (wait env 1 0 s)
  set_reg16 (r.2.opcode &&& 0x07) r.1 r.2

/-- Case 0x9C (`PUSHF`) of the opcode switch of `execx86`. -/
def exec_pushf (env : Env) (s : State) : State :=
  let s1 := wait env 4 0 s
  let tempw : Nat :=
    if s1.is_nec then (s1.flags &&& 0x8fd7) ||| 0x7000 else (s1.flags &&& 0x0fd7) ||| 0xf000
  push env (fun _ => tempw) s1

/-- Case 0x9D (`POPF`) of the opcode switch of `execx86`. -/
def exec_popf (env : Env) (s : State) : State :=
  let r := pop env (wait env 1 0 s)
  if r.2.is_nec then { r.2 with flags := r.1 ||| 0x8002 }
  else { r.2 with flags := r.1 ||| 0x0002 }

/-- Cases 0xE0..0xE3 of the opcode switch of `execx86`, the statements after
`cpu_data = pfq_fetchb()`; `d` is the byte fetched. -/
def exec_loop_body (env : Env) (fuel : Nat) (d : Nat) (q : State) : Option State :=
  let s1 : State := { q with cpu_data := d }
  let s2 : State := if s1.opcode ≠ 0xe2 then wait env 1 0 s1 else s1
  let s3 : State :=
    if s2.opcode ≠ 0xe3 then
      let s4 : State := { s2 with cx := (s2.cx + 65535) % 65536 }
      let s5 : State := { s4 with oldc := if s4.cx ≠ 0 then 1 else 0 }
      match s5.opcode with
      | 0xE0 => if (s5.flags &&& Z_FLAG) ≠ 0 then { s5 with oldc := 0 } else s5
      | 0xE1 => if (s5.flags &&& Z_FLAG) = 0 then { s5 with oldc := 0 } else s5
      | _ => s5
    else { s2 with oldc := if s2.cx = 0 then 1 else 0 }
  if s3.oldc ≠ 0 then jump_short env fuel s3 else some s3

/-- Cases 0xE0..0xE3 (`LOOPNE`, `LOOPE`, `LOOP`, `JCXZ`) of the opcode switch of
`execx86`. -/
def exec_loop (env : Env) (fuel : Nat) (s : State) : Option State :=
  (pfq_fetchb env fuel (wait env 3 0 s)).bind (fun r => exec_loop_body env fuel r.1 r.2)

/-! ## Reset and interrupt acknowledge (808x.c 925-976, 1360-1370) -/

/-- Modelled from the spec: `MD_FLAG` is defined outside `808x.c`; it is bit 15 of FLAGS,
the bit that the NEC masks `0x8fd7` and `0x8002` of this file add to the 8086 ones. -/
def MD_FLAG : Nat := 0x8000

/-- Source `reset_808x(hard)`; the `opseg` pointer tables and `rammask` are not part of
the state modelled here. -/
def reset_808x (hard : Bool) (s : State) : State :=
  let s1 : State := { s with biu_cycles := 0, in_rep := 0, in_lock := 0, completed := 1,
                             repeating := 0, clear_lock := 0, refresh := 0, ovr_seg := none }
  let s2 : State :=
    if hard then pfq_clear { s1 with pfq_size := if s1.is8086 then 6 else 4 } else s1
  let s3 : State := { load_cs 0xFFFF s2 with pc := 0 }
  let s4 : State := if s3.is_nec then { s3 with flags := (s3.flags ||| MD_FLAG) % 65536 } else s3
  let s5 : State := { s4 with pasv := 0, cpu_alu_op := 0, use_custom_nmi_vector := 0,
                              custom_nmi_vector := 0, access_code := 0, hlda := 0,
                              not_ready := 0, bus_request_type := 0, pic_data := -1,
                              last_was_code := 0, mem_data := 0, mem_seg := 0, mem_addr := 0,
                              prefetching := 1 }
  pfq_schedule 1 s5

/-- Source `bus_pic_ack()`: one acknowledge cycle under LOCK. -/
def bus_pic_ack (env : Env) (s : State) : Int × State :=
  let s1 : State := { s with in_lock := 1, bus_request_type := BUS_PIC }
  let s2 := wait env 4 1 s1
  (s2.pic_data, { s2 with in_lock := s.in_lock })

/-! ## Calls and interrupts (808x.c 1224-1416, 3610-3615) -/

/-- Source `nearcall(new_ip)`. -/
def nearcall (env : Env) (new_ip : Nat) (s : State) : State :=
  let ret_ip := s.pc &&& 0xffff
  let s1 := wait env 1 0 s
  let s2 := pfq_clear (set_ip new_ip s1)
  let s3 := wait env 3 0 s2
  push env (fun _ => ret_ip) s3

/-- Source `farcall2(new_cs, new_ip)`; `CS` is `cpu_state.seg_cs.seg`. -/
def farcall2 (env : Env) (new_cs new_ip : Nat) (s : State) : State :=
  let s1 := wait env 3 0 s
  let s2 := push env (fun t => t.seg_cs.seg) s1
  let s3 := load_cs new_cs s2
  let s4 := wait env 2 0 s3
  nearcall env new_ip s4

/-- The block of `intr_routine`, `sw_int` and `custom_nmi` that reads the two words of the
vector: `eaaddr = ea`, `new_ip = readmemw(0, eaaddr)`, `wait(1, 0)`,
`eaaddr = (eaaddr + 2) & 0xffff`, `new_cs = readmemw(0, eaaddr)`.  The result is
`((new_ip, new_cs), state)`. -/
def read_vector (env : Env) (ea : Nat) (s : State) : (Nat × Nat) × State :=
  let s3 : State := { s with eaaddr := ea }
  let r1 := readmemw env 0 s3.eaaddr s3
  let s4 := wait env 1 0 r1.2
  let s5 : State := { s4 with eaaddr := (s4.eaaddr + 2) &&& 0xffff }
  let r2 := readmemw env 0 s5.eaaddr s5
  ((r1.1, r2.1), r2.2)

/-- The block `wait(2, 0); push(&tempf); cpu_state.flags &= ~(I_FLAG | T_FLAG)` of
`intr_routine`, `sw_int` and `custom_nmi`. -/
def push_flags (env : Env) (tempf : Nat) (s : State) : State :=
  let s8 := push env (fun _ => tempf) (wait env 2 0 s)
  { s8 with flags := andNot16 s8.flags (I_FLAG ||| T_FLAG) }

/-- Source `intr_routine(intr, skip_first)`. -/
def intr_routine (env : Env) (fuel : Nat) (intr : Nat) (skip_first : Bool) (s : State) :
    Option State :=
  let vector := (intr % 65536 * 4) % 65536
  let tempf := s.flags &&& (if s.is_nec then 0x8fd7 else 0x0fd7)
  let s1 := if !skip_first then wait env 1 0 s else s
  let v := read_vector env (vector &&& 0xffff) (wait env 2 0 s1)
  (pfq_do_suspend env fuel v.2).map (fun s6 =>
    farcall2 env v.1.2 v.1.1 (wait env 1 0 (push_flags env tempf s6)))

/-- The part of `sw_int` after `cpu_state.flags &= ~(I_FLAG | T_FLAG)`: the inlined
FARCALL2 and NEARCALL. -/
def sw_int_call (env : Env) (new_cs new_ip : Nat) (s : State) : State :=
  let s11 := push env (fun t => t.seg_cs.seg) (wait env 4 0 s)
  let s13 := wait env 1 0 (load_cs new_cs s11)
  let old_ip := s13.pc &&& 0xffff
  let s15 := pfq_clear (set_ip new_ip (wait env 2 0 s13))
  push env (fun _ => old_ip) (wait env 3 0 s15)

/-- Source `sw_int(intr)`. -/
def sw_int (env : Env) (fuel : Nat) (intr : Nat) (s : State) : Option State :=
  let vector := (intr % 65536 * 4) % 65536
  let tempf := s.flags &&& (if s.is_nec then 0x8fd7 else 0x0fd7)
  let v := read_vector env (vector &&& 0xffff) (wait env 3 0 s)
  (pfq_do_suspend env fuel v.2).map (fun s6 =>
    sw_int_call env v.1.2 v.1.1 (push_flags env tempf s6))

/-- Source `custom_nmi()`: the two words read from the vector are discarded;
`custom_nmi_vector` is a variable of `808x.c` that no tick changes, so it is read once
after the block. -/
def custom_nmi (env : Env) (fuel : Nat) (s : State) : Option State :=
  let tempf := s.flags &&& (if s.is_nec then 0x8fd7 else 0x0fd7)
  let v := read_vector env 0x0002 (wait env 2 0 (wait env 1 0 s))
  let new_ip := v.2.custom_nmi_vector &&& 0xffff
  let new_cs := (v.2.custom_nmi_vector >>> 16) % 65536
  (pfq_do_suspend env fuel v.2).map (fun s6 =>
    farcall2 env new_cs new_ip (wait env 1 0 (push_flags env tempf s6)))

/-- Source `irq_pending()`. -/
def irq_pending (s : State) : Bool :=
  decide (s.nmi ≠ 0 ∧ s.nmi_enable ≠ 0 ∧ s.nmi_mask ≠ 0) ||
  decide ((s.flags &&& T_FLAG) ≠ 0 ∧ s.noint = 0) ||
  decide ((s.flags &&& I_FLAG) ≠ 0 ∧ s.pic_int_pending ≠ 0 ∧ s.noint = 0)

/-- Source `check_interrupts()`; the vector passed to `intr_routine` is the `int` returned
by the second `bus_pic_ack`, converted to `uint16_t`. -/
def check_interrupts (env : Env) (fuel : Nat) (s : State) : Option State :=
  if irq_pending s then
    if (s.flags &&& T_FLAG) ≠ 0 ∧ s.noint = 0 then
      intr_routine env fuel 1 false (wait env 2 0 s)
    else if s.nmi ≠ 0 ∧ s.nmi_enable ≠ 0 ∧ s.nmi_mask ≠ 0 then
      let s1 : State := { s with nmi_enable := 0 }
      let s2 := wait env 2 0 s1
      (if s2.use_custom_nmi_vector ≠ 0 then custom_nmi env fuel s2
       else intr_routine env fuel 2 false s2).map (fun t => { t with nmi := 0 })
    else if (s.flags &&& I_FLAG) ≠ 0 ∧ s.pic_int_pending ≠ 0 ∧ s.noint = 0 then
      let s1 : State := { s with repeating := 0, completed := 1, ovr_seg := none }
      let s2 := wait env 4 0 s1
      let a1 := bus_pic_ack env s2
      let s3 := wait env 1 0 a1.2
      let a2 := bus_pic_ack env s3
      let s4 := wait env 1 0 a2.2
      let s5 : State := { s4 with in_lock := 0, clear_lock := 0 }
      let s6 := if BUS_CYCLE s5 ≠ BUS_T3 then wait env 1 0 s5 else s5
      let s7 := wait env 5 0 s6
      let s8 : State := { s7 with opcode := 0 }
      intr_routine env fuel (a2.1 % 65536).toNat false s8
    else some s
  else some s

/-- Case 0xCD (`INT n`) of the opcode switch of `execx86`. -/
def exec_int (env : Env) (fuel : Nat) (s : State) : Option State :=
  (pfq_fetchb env fuel (wait env 1 0 s)).bind (fun r =>
    sw_int env fuel (r.1 % 256) (wait env 1 0 r.2))

/-! ## Prefixes and the instruction boundary (808x.c 2108-2124, 2714-2721, 3955-3961, 4167-4181) -/

/-- Cases 0x26, 0x2E, 0x36, 0x3E (segment override prefixes); `ovr_seg` holds the index
of the `opseg` entry it points at. -/
def exec_seg_override (env : Env) (s : State) : State :=
  let s1 := wait env 1 0 s
  { s1 with ovr_seg := some ((s1.opcode >>> 3) &&& 0x03), completed := 0 }

/-- Cases 0xF2, 0xF3 (`REPNE`, `REPE`). -/
def exec_rep_prefix (env : Env) (s : State) : State :=
  let s1 := wait env 1 0 s
  { s1 with in_rep := if s1.opcode = 0xf2 then 1 else 2, completed := 0, rep_c_flag := 0 }

/-- The head of the loop body of `execx86`: opcode fetch unless an instruction is being
repeated, then `completed = 1`. -/
def instr_begin (env : Env) (fuel : Nat) (s : State) : Option State :=
  let s0 := clock_start s
  let s1 : Option State :=
    if s0.repeating = 0 then
      (pfq_fetchb_common env fuel { s0 with oldpc := s0.pc }).map (fun r =>
        let s2 : State := { r.2 with opcode := r.1 % 256, oldc := r.2.flags &&& C_FLAG }
        let s3 : State :=
          if s2.clear_lock ≠ 0 then { s2 with in_lock := 0, clear_lock := 0 } else s2
        wait env 1 0 s3)
    else some s0
  s1.map (fun t => { t with completed := 1 })

/-- The block `if (completed) { ... }` that closes the loop body of `execx86`. -/
def instr_end (env : Env) (fuel : Nat) (s : State) : Option State :=
  if s.completed ≠ 0 then
    let s1 : State := { s with repeating := 0, ovr_seg := none, in_rep := 0, rep_c_flag := 0 }
    let s2 : State := if s1.in_lock ≠ 0 then { s1 with clear_lock := 1 } else s1
    let s3 := clock_end env s2
    (check_interrupts env fuel s3).map (fun s4 =>
      let s5 : State := if s4.noint ≠ 0 then { s4 with noint := 0 } else s4
      { s5 with cpu_alu_op := 0 })
  else some s

/-! ## String instructions and REP (808x.c 565-603, 992-1006, 1418-1459, 1877-1936, 2219-2275, 3349-3500) -/

/-- Source `get_accum(bits)`. -/
def get_accum (bits : Nat) (s : State) : Nat :=
  if bits = 16 then s.ax % 65536 else AL s

/-- Source `set_accum(bits, val)`. -/
def set_accum (bits : Nat) (val : Nat) (s : State) : State :=
  if bits = 16 then { s with ax := val % 65536 } else set_AL val s

/-- Source `cpu_io(bits, out, port)`. -/
def cpu_io (env : Env) (bits : Nat) (out : Bool) (port : Nat) (s : State) : State :=
  let dir : Nat := if out then BUS_OUT else 0
  let s1 : State :=
    if bits = 16 then
      if s.is8086 && decide (((port % 65536) &&& 1) = 0) then
        wait env 4 1 { s with bus_request_type := BUS_IO ||| dir ||| BUS_WIDE }
      else
        let s2 := wait env 4 1 { s with bus_request_type := BUS_IO ||| dir }
        let s3 := pfq_schedule 0 s2
        wait env 4 1 { s3 with bus_request_type := BUS_IO ||| dir ||| BUS_HIGH }
    else wait env 4 1 { s with bus_request_type := BUS_IO ||| dir }
  { s1 with bus_request_type := 0 }

/-- Source `rep_end()`. -/
def rep_end (s : State) : State :=
  { s with repeating := 0, in_rep := 0, completed := 1 }

/-- Source `rep_start()`: the value returned and the new state. -/
def rep_start (env : Env) (s : State) : Bool × State :=
  if s.repeating = 0 then
    let s1 := wait env 2 0 s
    if s1.in_rep ≠ 0 then
      if s1.cx = 0 then (false, rep_end (wait env 4 0 s1))
      else (true, { wait env 7 0 s1 with completed := 1 })
    else (true, { s1 with completed := 1 })
  else (true, { s with completed := 1 })

/-- Source `rep_interrupt()`. -/
def rep_interrupt (env : Env) (fuel : Nat) (s : State) : Option State :=
  (pfq_do_suspend env fuel s).map (fun s1 =>
    let s2 := pfq_clear (wait env 4 0 s1)
    let s3 :=
      if s2.is_nec && s2.ovr_seg.isSome then set_ip ((s2.pc + 65536 - 3) &&& 0xffff) s2
      else set_ip ((s2.pc + 65536 - 2) &&& 0xffff) s2
    rep_end s3)

/-- Source `string_increment(bits)`: `eaaddr` moves by `bits / 8` in the direction of DF;
the new `eaaddr` is the value returned. -/
def string_increment (bits : Nat) (s : State) : State :=
  let d := bits >>> 3
  let ea : Nat :=
    if (s.flags &&& D_FLAG) ≠ 0 then (s.eaaddr + 4294967296 - d) % 4294967296
    else (s.eaaddr + d) % 4294967296
  { s with eaaddr := ea &&& 0xffff }

/-- Source `lods(bits)`. -/
def lods (env : Env) (bits : Nat) (s : State) : State :=
  let s1 : State := { s with eaaddr := s.si }
  let r := if bits = 16 then readmemw env (seg_or_override s1.seg_ds.base s1) s1.eaaddr s1
           else readmemb env (seg_or_override s1.seg_ds.base s1) s1.eaaddr s1
  let s2 : State := { r.2 with cpu_data := r.1 }
  let s3 := string_increment bits s2
  { s3 with si := s3.eaaddr }

/-- Source `lods_di(bits)`. -/
def lods_di (env : Env) (bits : Nat) (s : State) : State :=
  let s1 : State := { s with eaaddr := s.di }
  let r := if bits = 16 then readmemw env s1.seg_es.base s1.eaaddr s1
           else readmemb env s1.seg_es.base s1.eaaddr s1
  let s2 : State := { r.2 with cpu_data := r.1 }
  let s3 := string_increment bits s2
  { s3 with di := s3.eaaddr }

/-- Source `stos(bits)`. -/
def stos (env : Env) (bits : Nat) (s : State) : State :=
  let s1 : State := { s with eaaddr := s.di }
  let s2 := if bits = 16 then writememw env s1.seg_es.base s1.eaaddr s1.cpu_data s1
            else writememb env s1.seg_es.base s1.eaaddr (s1.cpu_data &&& 0xff) s1
  let s3 := string_increment bits s2
  { s3 with di := s3.eaaddr }

/-- Source `ins(bits)`. -/
def ins (env : Env) (bits : Nat) (s : State) : State :=
  let s1 : State := { s with eaaddr := s.dx }
  stos env bits (cpu_io env bits false s1.eaaddr s1)

/-- Source `outs(bits)`. -/
def outs (env : Env) (bits : Nat) (s : State) : State :=
  let s1 := lods env bits s
  let s2 : State := { s1 with eaaddr := s1.dx }
  cpu_io env bits true s2.eaaddr s2

/-- The tail shared by the repeated forms of MOVS, LODS and INS: `CX--`, then either the
interrupt exit or two ticks and the end test. -/
def rep_tail_dec (env : Env) (fuel : Nat) (s : State) : Option State :=
  let s1 : State := { s with cx := (s.cx + 65535) % 65536 }
  if irq_pending s1 then rep_interrupt env fuel (wait env 2 0 s1)
  else
    let s2 := wait env 2 0 s1
    some (if s2.cx = 0 then rep_end s2 else wait env 1 0 s2)

/-- The tail shared by the repeated forms of STOS and OUTS: one tick, the interrupt test,
one tick, `CX--` and the end test. -/
def rep_tail_irq (env : Env) (fuel : Nat) (s : State) : Option State :=
  let s1 := wait env 1 0 s
  let s2 : Option State :=
    if irq_pending s1 then rep_interrupt env fuel (wait env 1 0 s1) else some s1
  s2.map (fun t =>
    let s3 := wait env 1 0 t
    let s4 : State := { s3 with cx := (s3.cx + 65535) % 65536 }
    if s4.cx = 0 then rep_end s4 else wait env 1 0 s4)

/-- Cases 0xA4, 0xA5 (`MOVS`) of the opcode switch of `execx86`: one iteration. -/
def exec_movs (env : Env) (fuel : Nat) (s : State) : Option State :=
  let bits := 8 <<< (s.opcode &&& 1)
  let r := rep_start env s
  if r.1 then
    let s1 := lods env bits r.2
    let s2 := wait env 1 0 s1
    let s3 := stos env bits s2
    let s4 := wait env 1 0 s3
    if s4.in_rep ≠ 0 then
      rep_tail_dec env fuel { s4 with completed := 0, repeating := 1 }
    else some (wait env 1 0 s4)
  else some r.2

/-- The compare of `CMPS` and `SCAS`: from `if ((opcode & 8) == 0)` to `sub(bits)`. -/
def cmps_scas_compare (env : Env) (bits : Nat) (s : State) : State :=
  let p : Nat × State :=
    if (s.opcode &&& 8) = 0 then
      let l := lods env bits (wait env 1 0 s)
      (l.cpu_data % 65536, l)
    else (s.ax % 65536, s)
  let s3 := lods_di env bits (wait env 2 0 p.2)
  let s4 : State := { s3 with cpu_src := s3.cpu_data, cpu_dest := p.1 }
  sub bits (wait env 3 0 s4)

/-- The block `if (in_rep) { ... }` of `CMPS` and `SCAS`. -/
def cmps_scas_rep (env : Env) (fuel : Nat) (s6 : State) : Option State :=
  if s6.in_rep ≠ 0 then
    let s8 := wait env 1 0 { s6 with completed := 0, repeating := 1 }
    let s9 : State := { s8 with cx := (s8.cx + 65535) % 65536 }
    if decide ((s9.flags &&& (if s9.rep_c_flag ≠ 0 then C_FLAG else Z_FLAG)) ≠ 0)
        = decide (s9.in_rep = 1) then
      some (wait env 1 0 (wait env 1 0 { s9 with completed := 1 }))
    else
      let s10 := wait env 1 0 s9
      let s11 : Option State :=
        if irq_pending s10 then rep_interrupt env fuel (wait env 1 0 s10) else some s10
      s11.map (fun t =>
        let s12 := wait env 1 0 t
        if s12.cx = 0 then rep_end s12 else wait env 1 0 s12)
  else some s6

/-- Cases 0xA6, 0xA7 (`CMPS`) and 0xAE, 0xAF (`SCAS`): one iteration. -/
def exec_cmps_scas (env : Env) (fuel : Nat) (s : State) : Option State :=
  let bits := 8 <<< (s.opcode &&& 1)
  let r := rep_start env s
  if r.1 then cmps_scas_rep env fuel (cmps_scas_compare env bits r.2)
  else some r.2

/-- Cases 0xAA, 0xAB (`STOS`): one iteration. -/
def exec_stos (env : Env) (fuel : Nat) (s : State) : Option State :=
  let bits := 8 <<< (s.opcode &&& 1)
  let r := rep_start env s
  if r.1 then
    let s1 : State := { r.2 with cpu_data := r.2.ax % 65536 }
    let s3 := stos env bits (wait env 1 0 s1)
    if s3.in_rep ≠ 0 then rep_tail_irq env fuel { s3 with completed := 0, repeating := 1 }
    else some (wait env 1 0 s3)
  else some r.2

/-- Cases 0xAC, 0xAD (`LODS`): one iteration. -/
def exec_lods (env : Env) (fuel : Nat) (s : State) : Option State :=
  let bits := 8 <<< (s.opcode &&& 1)
  let r := rep_start env s
  if r.1 then
    let s1 := lods env bits r.2
    let s3 := wait env 3 0 (set_accum bits s1.cpu_data s1)
    if s3.in_rep ≠ 0 then
      rep_tail_dec env fuel (wait env 1 0 { s3 with completed := 0, repeating := 1 })
    else some s3
  else some r.2

/-- Cases 0x6C, 0x6D (`INS`) of the 80186 opcode switch: one iteration. -/
def exec_ins (env : Env) (fuel : Nat) (s : State) : Option State :=
  let bits := 8 <<< (s.opcode &&& 1)
  let r := rep_start env s
  if r.1 then
    let s3 := wait env 3 0 (ins env bits r.2)
    if s3.in_rep ≠ 0 then
      rep_tail_dec env fuel (wait env 1 0 { s3 with completed := 0, repeating := 1 })
    else some s3
  else some r.2

/-- Cases 0x6E, 0x6F (`OUTS`) of the 80186 opcode switch: one iteration. -/
def exec_outs (env : Env) (fuel : Nat) (s : State) : Option State :=
  let bits := 8 <<< (s.opcode &&& 1)
  let r := rep_start env s
  if r.1 then
    let s3 := outs env bits (wait env 1 0 r.2)
    if s3.in_rep ≠ 0 then rep_tail_irq env fuel { s3 with completed := 0, repeating := 1 }
    else some (wait env 1 0 s3)
  else some r.2

/-! ## Multiply and divide (808x.c 1653-1733, 1763-1875, 4018-4049) -/

/-- C expression `~x` stored to a `uint16_t`. -/
def not16 (x : Nat) : Nat := 65535 - x % 65536

/-- C expression `~x + 1` stored to a `uint16_t`. -/
def neg16 (x : Nat) : Nat := (65536 - x % 65536) % 65536

/-- The block `if ((rmdat & 0x38) == 0x38) { ... }` of `x86_div` (IDIV): magnitudes of the
dividend `(l, h)` and of `cpu_src`.  The result is `((l, h, negative, dividend_negative),
state)`. -/
def div_sign (env : Env) (bit_count : Nat) (l h : Nat) (s : State) :
    (Nat × Nat × Bool × Bool) × State :=
  let size_mask := (1 <<< bit_count) - 1
  let a : (Nat × Nat × Bool) × State :=
    if top_bit h bit_count ≠ 0 then
      let h1 := not16 h
      let l1 := neg16 l &&& size_mask
      let h2 := if l1 = 0 then (h1 + 1) % 65536 else h1
      ((l1, h2 &&& size_mask, true), wait env 4 0 s)
    else ((l, h, false), s)
  let b : Bool × State :=
    if top_bit a.2.cpu_src bit_count ≠ 0 then
      (!a.1.2.2,
       { a.2 with cpu_src := ((4294967295 - a.2.cpu_src % 4294967296) + 1) % 4294967296 })
    else (a.1.2.2, wait env 1 0 a.2)
  ((a.1.1, a.1.2.1, b.1, a.1.2.2), wait env 9 0 b.2)

/-- One pass `b` of the loop of `x86_div` on `((l, h, carry), state)`. -/
def div_step (env : Env) (bit_count b : Nat) (x : (Nat × Nat × Bool) × State) :
    (Nat × Nat × Bool) × State :=
  let l1 := ((x.1.1 <<< 1) + (if x.1.2.2 then 1 else 0)) % 65536
  let c1 := decide (top_bit x.1.1 bit_count ≠ 0)
  let h1 := ((x.1.2.1 <<< 1) + (if c1 then 1 else 0)) % 65536
  let c2 := decide (top_bit x.1.2.1 bit_count ≠ 0)
  let s1 := wait env 8 0 x.2
  if c2 then
    ((l1, (h1 + 4294967296 - s1.cpu_src % 4294967296) % 4294967296 % 65536, false),
     if b = bit_count - 1 then wait env 2 0 s1 else s1)
  else if s1.cpu_src > h1 then ((l1, h1, true), s1)
  else
    ((l1, (h1 + 4294967296 - s1.cpu_src % 4294967296) % 4294967296 % 65536, false),
     if b = bit_count - 1 then wait env 2 0 (wait env 1 0 s1) else wait env 1 0 s1)

/-- Passes `b, b + 1, ..., b + n - 1` of the loop of `x86_div`. -/
def div_loop (env : Env) (bit_count : Nat) :
    Nat → Nat → (Nat × Nat × Bool) × State → (Nat × Nat × Bool) × State
  | 0, _, x => x
  | n + 1, b, x => div_loop env bit_count n (b + 1) (div_step env bit_count b x)

/-- The end of `x86_div`: the registers receive quotient `l` and remainder `h`. -/
def div_store (l h : Nat) (s : State) : State :=
  if s.opcode = 0xd4 then set_AH (l &&& 0xff) (set_AL (h &&& 0xff) s)
  else
    let s1 := set_AL (l &&& 0xff) (set_AH (h &&& 0xff) s)
    if (s1.opcode &&& 1) ≠ 0 then { s1 with dx := h % 65536, ax := l % 65536 } else s1

/-- The statements of `x86_div` before the test `h >= cpu_src`: operand selection, the sign
block of IDIV, and the masking of `cpu_src`.  The result is
`((l, h, negative, dividend_negative), state)`. -/
def div_prologue (env : Env) (l0 h0 : Nat) (s : State) : (Nat × Nat × Bool × Bool) × State :=
  let wide := (s.opcode &&& 1) ≠ 0
  let l := if wide then s.ax % 65536 else l0 % 65536
  let h := if wide then s.dx % 65536 else h0 % 65536
  let bit_count := if wide then 16 else 8
  let size_mask := (1 <<< bit_count) - 1
  let p : (Nat × Nat × Bool × Bool) × State :=
    if s.opcode ≠ 0xd4 then
      if (s.rmdat &&& 0x38) = 0x38 then
        let q := div_sign env bit_count l h s
        (q.1, wait env 3 0 q.2)
      else ((l, h, false, false), wait env 3 0 s)
    else ((l, h, false, false), s)
  let s1 := wait env 8 0 p.2
  (p.1, { s1 with cpu_src := s1.cpu_src &&& size_mask })

/-- The statements of `x86_div` after the loop, on its result `x = ((l, h, carry), state)`:
the last shift and complement of `l`, the sign fix-up and overflow test of IDIV, and the
store of quotient and remainder. -/
def div_epilogue (env : Env) (fuel : Nat) (bit_count : Nat) (negative dividend_negative : Bool)
    (x : (Nat × Nat × Bool) × State) : Option (Bool × State) :=
  let l1 := not16 ((x.1.1 <<< 1) + (if x.1.2.2 then 1 else 0))
  if x.2.opcode ≠ 0xd4 ∧ (x.2.rmdat &&& 0x38) = 0x38 then
    let s4 := wait env 4 0 x.2
    if top_bit l1 bit_count ≠ 0 then
      (intr_routine env fuel 0 false (if s4.cpu_mod = 3 then wait env 1 0 s4 else s4)).map
        (fun t => (false, t))
    else
      let s5 := wait env 7 0 s4
      let l2 := if negative then neg16 l1 else l1
      let h2 := if dividend_negative then neg16 x.1.2.1 else x.1.2.1
      some (true, div_store l2 h2 s5)
  else some (true, div_store l1 x.1.2.1 x.2)

/-- Source `x86_div(l, h)`: the value returned (`false` for 0) and the state. -/
def x86_div (env : Env) (fuel : Nat) (l0 h0 : Nat) (s : State) : Option (Bool × State) :=
  let bit_count := if (s.opcode &&& 1) ≠ 0 then 16 else 8
  let p := div_prologue env l0 h0 s
  if p.1.2.1 ≥ p.2.cpu_src then
    (intr_routine env fuel 0 false (if p.2.opcode ≠ 0xd4 then wait env 1 0 p.2 else p.2)).map
      (fun t => (false, t))
  else
    let s3 := wait env 2 0 (if p.2.opcode ≠ 0xd4 then wait env 1 0 p.2 else p.2)
    div_epilogue env fuel bit_count p.1.2.2.1 p.1.2.2.2
      (div_loop env bit_count bit_count 0 ((p.1.1, p.1.2.1, true), s3))

/-- Cases 0x30 (`DIV`) and 0x38 (`IDIV`) of the group 0xF6/0xF7, after `do_mod_rm` and
`cpu_data = get_ea()`. -/
def exec_div (env : Env) (fuel : Nat) (s : State) : Option State :=
  let s1 : State := { s with cpu_src := s.cpu_data }
  (x86_div env fuel (AL s1) (AH s1) s1).map (fun r => if r.1 then wait env 1 0 r.2 else r.2)

/-- The block `if ((rmdat & 0x38) == 0x28) { ... }` of `mul` (IMUL): magnitudes of `a` and
`b`.  The result is `((a, b, negate), state)`. -/
def mul_sign (env : Env) (bit_count : Nat) (a b : Nat) (s : State) : (Nat × Nat × Bool) × State :=
  let size_mask := (1 <<< bit_count) - 1
  let r : (Nat × Nat × Bool) × State :=
    if top_bit a bit_count = 0 then
      if top_bit b bit_count ≠ 0 then
        let s1 := wait env 1 0 s
        let s2 :=
          if (b &&& size_mask) ≠ (if (s1.opcode &&& 1) ≠ 0 then 0x8000 else 0x80)
          then wait env 1 0 s1 else s1
        ((a, neg16 b, true), s2)
      else ((a, b, false), s)
    else
      let s1 := wait env 1 0 s
      if top_bit b bit_count ≠ 0 then ((neg16 a, neg16 b, false), s1)
      else ((neg16 a, b, true), wait env 4 0 s1)
  (r.1, wait env 10 0 r.2)

/-- One pass of the loop of `mul` on `((a, c, carry), state)`; `b` is the multiplicand. -/
def mul_step (env : Env) (bit_count b : Nat) (x : (Nat × Nat × Bool) × State) :
    (Nat × Nat × Bool) × State :=
  let size_mask := (1 <<< bit_count) - 1
  let high_bit := 1 <<< (bit_count - 1)
  let s1 := wait env 7 0 x.2
  let y : (Nat × Bool) × State :=
    if x.1.2.2 then
      let s2 := add bit_count { s1 with cpu_src := x.1.2.1, cpu_dest := b }
      let s3 := wait env 1 0 s2
      ((s2.cpu_data &&& size_mask, decide ((s3.flags &&& C_FLAG) ≠ 0)), s3)
    else ((x.1.2.1, false), s1)
  let c1 := ((y.1.1 >>> 1) + (if y.1.2 then high_bit else 0)) % 65536
  let carry1 := decide ((y.1.1 &&& 1) ≠ 0)
  let a1 := ((x.1.1 >>> 1) + (if carry1 then high_bit else 0)) % 65536
  ((a1, c1, decide ((x.1.1 &&& 1) ≠ 0)), y.2)

/-- The loop of `mul`, `n` passes. -/
def mul_loop (env : Env) (bit_count b : Nat) :
    Nat → (Nat × Nat × Bool) × State → (Nat × Nat × Bool) × State
  | 0, x => x
  | n + 1, x => mul_loop env bit_count b n (mul_step env bit_count b x)

/-- The statements of `mul` before `c = 0`: the extra ticks of the byte form, the sign
block of IMUL and three ticks; nothing for AAD (0xD5).  The result is
`((a, b, negate), state)`. -/
def mul_prologue (env : Env) (a0 b0 : Nat) (s : State) : (Nat × Nat × Bool) × State :=
  let wide := s.opcode ≠ 0xd5 ∧ (s.opcode &&& 1) ≠ 0
  let bit_count := if wide then 16 else 8
  if s.opcode ≠ 0xd5 then
    let s1 := if (s.opcode &&& 1) ≠ 0 then s else wait env 8 0 s
    let q : (Nat × Nat × Bool) × State :=
      if (s1.rmdat &&& 0x38) = 0x28 then mul_sign env bit_count (a0 % 65536) (b0 % 65536) s1
      else ((a0 % 65536, b0 % 65536, false), s1)
    (q.1, wait env 3 0 q.2)
  else ((a0 % 65536, b0 % 65536, false), s)

/-- The statements of `mul` after the loop, on its result `x = ((a, c, carry), state)`: the
negation of the product for IMUL, the stores to `cpu_data` and `cpu_dest`, and the
flags. -/
def mul_epilogue (env : Env) (bit_count : Nat) (negate : Bool)
    (x : (Nat × Nat × Bool) × State) : State :=
  let size_mask := (1 <<< bit_count) - 1
  let y : (Nat × Nat) × State :=
    if negate then
      let c1 := not16 x.1.2.1
      let a1 := neg16 x.1.1 &&& size_mask
      ((a1, if a1 = 0 then (c1 + 1) % 65536 else c1), wait env 9 0 x.2)
    else ((x.1.1, x.1.2.1), x.2)
  let s2 : State := { y.2 with cpu_data := y.1.1, cpu_dest := y.1.2 }
  set_af false (set_pf (set_sf bit_count s2))

/-- Source `mul(a, b)`: the low half of the product is left in `cpu_data`, the high half
in `cpu_dest`. -/
def mul (env : Env) (a0 b0 : Nat) (s : State) : State :=
  let wide := s.opcode ≠ 0xd5 ∧ (s.opcode &&& 1) ≠ 0
  let bit_count := if wide then 16 else 8
  let size_mask := (1 <<< bit_count) - 1
  let p := mul_prologue env a0 b0 s
  let a := p.1.1 &&& size_mask
  mul_epilogue env bit_count p.1.2.2
    (mul_loop env bit_count p.1.2.1 bit_count ((a >>> 1, 0, decide ((a &&& 1) ≠ 0)), p.2))

/-- Source `set_co_mul(bits, carry)`. -/
def set_co_mul (env : Env) (carry : Bool) (s : State) : State :=
  let s1 := set_zf_ex (!carry) (set_of (if carry then 1 else 0) (set_cf carry s))
  if !carry then wait env 1 0 s1 else s1

/-- The statements of the MUL/IMUL cases after the call of `mul`, on the state `s2` that
`mul` returns: the stores to the accumulator (and DX), the carry and overflow flags, and
the sign, parity and (NEC) zero flags; `old_flags` is FLAGS before the instruction. -/
def mul_store (env : Env) (bits old_flags : Nat) (s2 : State) : State :=
  let s3 : State :=
    if (s2.opcode &&& 1) ≠ 0 then
      let s4 : State := { s2 with ax := s2.cpu_data % 65536 }
      let s5 : State := { s4 with dx := s4.cpu_dest % 65536 }
      let s6 := set_co_mul env
        (decide (s5.dx ≠ (if (s5.ax &&& 0x8000) = 0 ∨ (s5.rmdat &&& 0x38) = 0x20 then 0
                          else 0xffff))) s5
      { s6 with cpu_data := s6.dx }
    else
      let s4 := set_AL (s2.cpu_data % 256) s2
      let s5 := set_AH (s4.cpu_dest % 256) s4
      let s6 := set_co_mul env
        (decide (AH s5 ≠ (if (AL s5 &&& 0x80) = 0 ∨ (s5.rmdat &&& 0x38) = 0x20 then 0
                          else 0xff))) s5
      if !s6.is_nec then { s6 with cpu_data := AH s6 } else s6
  let s7 := set_pf (set_sf bits s3)
  if s7.is_nec then { s7 with flags := andNot16 s7.flags Z_FLAG ||| (old_flags &&& Z_FLAG) }
  else s7

/-- Cases 0x20 (`MUL`) and 0x28 (`IMUL`) of the group 0xF6/0xF7, after `do_mod_rm` and
`cpu_data = get_ea()`. -/
def exec_mul (env : Env) (s : State) : State :=
  let bits := 8 <<< (s.opcode &&& 1)
  let old_flags := s.flags
  let s1 := wait env 1 0 s
  mul_store env bits old_flags (mul env (get_accum bits s1) s1.cpu_data s1)

/-! ## Passes of the main loop while an instruction repeats (808x.c 2108-2124, 4167-4181) -/

/-- Passes of the loop body of `execx86` for a string instruction whose handler is `h`,
starting at the handler: while the handler leaves `completed = 0` the closing block and the
head of the loop run (no opcode fetch while `repeating` is set) and the handler runs again;
at most `n` passes. -/
def rep_passes (env : Env) (fuel : Nat) (h : Env → Nat → State → Option State) :
    Nat → State → Option State
  | 0, _ => none
  | n + 1, s =>
    (h env fuel s).bind (fun t =>
      if t.completed = 0 then
        (instr_end env fuel t).bind (fun u =>
          (instr_begin env fuel u).bind (rep_passes env fuel h n))
      else some t)

/-! ## Far returns, POP segment, AAA and the 80186 cases BOUND and IMUL imm8 (808x.c 1066-1074, 1121-1136, 1938-1995, 2030-2061, 2154-2168, 2207-2217, 2409-2712, 2955-2983, 3561-3579, 3622-3633) -/

/-- Source `farret(far)`: the outer `none` is an exhausted loop of `pfq_do_suspend`, the
inner `none` is the call `fatal("Far call distance mismatch ...")`. -/
def farret (env : Env) (fuel : Nat) (far : Nat) (s : State) : Option (Option State) :=
  let far2 : Nat := if (s.opcode &&& 0x08) ≠ 0 then 1 else 0
  let r1 := pop env (wait env 1 0 s)
  (pfq_do_suspend env fuel r1.2).map (fun s1 =>
    let s2 := wait env 2 0 s1
    if (if far ≠ 0 then 1 else 0) ≠ far2 then none
    else
      let r3 : Nat × State :=
        if far ≠ 0 then
          let r := pop env (wait env 1 0 s2)
          (r.1, wait env 2 0 (pfq_clear r.2))
        else (0, wait env 2 0 (pfq_clear s2))
      let s4 := wait env 2 0 r3.2
      let s5 := if far ≠ 0 then load_cs r3.1 s4 else s4
      some (set_ip r1.1 s5))

/-- Cases 0xC8, 0xCA (`RETF imm16`) of the opcode switch of `execx86`. -/
def exec_retf_imm (env : Env) (fuel : Nat) (s : State) : Option (Option State) :=
  (pfq_fetchw env fuel (wait env 1 0 s)).bind (fun r =>
    let s1 : State := { r.2 with cpu_src := r.1 }
    (farret env fuel 1 s1).map (fun o =>
      o.map (fun t => wait env 1 0 { t with sp := (t.sp + t.cpu_src) % 65536 })))

/-- Cases 0xC9, 0xCB (`RETF`) of the opcode switch of `execx86`. -/
def exec_retf (env : Env) (fuel : Nat) (s : State) : Option (Option State) :=
  farret env fuel 1 (wait env 1 0 (wait env 1 0 s))

/-- Case 0xCF (`IRET`) of the opcode switch of `execx86`. -/
def exec_iret (env : Env) (fuel : Nat) (s : State) : Option (Option State) :=
  (farret env fuel 1 (wait env 1 0 (wait env 1 0 s))).map (fun o =>
    o.map (fun t =>
      let r := pop env t
      let s1 : State :=
        if r.2.is_nec then { r.2 with flags := (r.1 ||| 0x8002) % 65536 }
        else { r.2 with flags := (r.1 ||| 0x0002) % 65536 }
      let s2 := wait env 1 0 s1
      { s2 with noint := 1, nmi_enable := 1 }))

/-- Cases 0x07, 0x0F, 0x17, 0x1F (`POP seg`) of the opcode switch of `execx86`: the branch
taken unless `is_nec && opcode == 0x0F`, which selects the NEC extension opcodes. -/
def exec_pop_seg (env : Env) (s : State) : State :=
  let s1 := wait env 1 0 s
  let s2 : State :=
    if s1.opcode = 0x0F then
      let r := pop env s1
      { load_cs r.1 r.2 with pfq_pos := 0 }
    else
      let r := pop env s1
      load_seg r.1 ((r.2.opcode >>> 3) &&& 0x03) r.2
  { s2 with noint := 1 }

/-- Source `set_ca()`. -/
def set_ca (s : State) : State := set_af true (set_cf true s)

/-- Source `clear_ca()`. -/
def clear_ca (s : State) : State := set_af false (set_cf false s)

/-- Source `aa()`. -/
def aa (env : Env) (s : State) : State :=
  wait env 6 0 (set_AL (s.cpu_data &&& 0x0f) s)

/-- The branches of `if ((cpu_state.flags & A_FLAG) || ((AL & 0xf) > 9))` in case 0x37:
the `uint8_t new_al` and the state. -/
def aaa_adjust (env : Env) (s1 : State) : Nat × State :=
  if (s1.flags &&& A_FLAG) ≠ 0 ∨ (AL s1 &&& 0xf) > 9 then
    let s2 : State := { s1 with cpu_src := 6 }
    ((AL s2 + 6) % 256, set_ca (set_AH (AH s2 + 1) s2))
  else
    let s2 : State := { s1 with cpu_src := 0 }
    (AL s2, wait env 1 0 (clear_ca s2))

/-- The statements of case 0x37 from `set_pzs(8)` to the last `if`, under the comment
"undefined flag behavior". -/
def aaa_flags (old_al new_al : Nat) (s4 : State) : State :=
  let s5 := set_zf 0 (set_of 0 (set_pzs 8 s4))
  let s6 : State := { s5 with flags := andNot16 s5.flags 0x80 }
  let s7 := if new_al = 0 then set_zf 1 s6 else s6
  let s8 := if old_al ≥ 0x7a ∧ old_al ≤ 0x7f then set_of 1 s7 else s7
  if old_al ≤ 0x7a ∧ old_al ≤ 0xf9 then { s8 with flags := s8.flags ||| 0x80 } else s8

/-- Case 0x37 (`AAA`) of the opcode switch of `execx86`; `old_al` and `new_al` are
`uint8_t`. -/
def exec_aaa (env : Env) (s : State) : State :=
  let s1 := wait env 1 0 s
  let old_al := AL s1
  let adj := aaa_adjust env s1
  let s3 : State := { adj.2 with cpu_dest := AL adj.2 }
  let s4 : State := { s3 with cpu_data := (s3.cpu_dest + s3.cpu_src) % 4294967296 }
  aa env (aaa_flags old_al adj.1 s4)

/-- The macro `getr8(r)`: `regs[r & 3].b.h` when bit 2 of `r` is set, else
`regs[r & 3].b.l`. -/
def getr8 (r : Nat) (s : State) : Nat :=
  if (r &&& 4) ≠ 0 then get_reg16 (r &&& 3) s / 256 % 256 else get_reg16 (r &&& 3) s % 256

/-- The macro `setr8(r, v)`. -/
def setr8 (r : Nat) (v : Nat) (s : State) : State :=
  if (r &&& 4) ≠ 0 then
    set_reg16 (r &&& 3) ((v % 256) * 256 + get_reg16 (r &&& 3) s % 256) s
  else set_reg16 (r &&& 3) (get_reg16 (r &&& 3) s / 256 % 256 * 256 + v % 256) s

/-- Source `get_reg(reg)`: the width is chosen by bit 0 of the opcode. -/
def get_reg (reg : Nat) (s : State) : Nat :=
  if (s.opcode &&& 1) ≠ 0 then get_reg16 reg s % 65536 else getr8 reg s

/-- Source `set_reg(reg, val)`. -/
def set_reg (reg : Nat) (val : Nat) (s : State) : State :=
  if (s.opcode &&& 1) ≠ 0 then set_reg16 reg (val % 65536) s else setr8 reg (val &&& 0xff) s

/-- Source `read_ea(memory_only, bits)`. -/
def read_ea (env : Env) (memory_only : Bool) (bits : Nat) (s : State) : State :=
  if s.cpu_mod ≠ 3 then
    if bits = 16 then
      let r := readmemw env s.easeg s.eaaddr s
      { r.2 with cpu_data := r.1 }
    else
      let r := readmemb env s.easeg s.eaaddr s
      { r.2 with cpu_data := r.1 }
  else if !memory_only then
    if bits = 8 then { s with cpu_data := getr8 s.cpu_rm s }
    else { s with cpu_data := get_reg16 s.cpu_rm s % 65536 }
  else s

/-- Case 0x62 (`BOUND`) of the 80186 opcode switch of `execx86`; `lowbound`, `highbound`
and `regval` are `uint16_t`. -/
def exec_bound (env : Env) (fuel : Nat) (s : State) : Option State :=
  (do_mod_rm env fuel s).bind (fun s1 =>
    let lo := readmemw env s1.easeg s1.eaaddr s1
    let hi := readmemw env lo.2.easeg (lo.2.eaaddr + 2) lo.2
    let regval := get_reg hi.2.cpu_reg hi.2
    if lo.1 % 65536 > regval ∨ hi.1 % 65536 < regval then
      intr_routine env fuel 5 false { hi.2 with pc := hi.2.oldpc }
    else some hi.2)

/-- Case 0x6B (`IMUL reg16, r/m16, imm8`) of the 80186 opcode switch of `execx86`;
`immediate` is a `uint16_t` that receives the `uint8_t` returned by `pfq_fetchb`. -/
def exec_imul_imm8 (env : Env) (fuel : Nat) (s : State) : Option State :=
  (do_mod_rm env fuel s).bind (fun s1 =>
    let s2 := read_ea env false 16 s1
    (pfq_fetchb env fuel s2).map (fun r =>
      let immediate := r.1 % 256
      let s3 := mul env (r.2.cpu_data &&& 0xFFFF) immediate r.2
      let s4 := set_reg s3.cpu_reg s3.cpu_data s3
      set_co_mul env (decide (s4.cpu_dest ≠ 0)) s4))

/-- Case 0x6A (`PUSH imm8`) of the 80186 opcode switch of `execx86`. -/
def exec_push_imm8 (env : Env) (fuel : Nat) (s : State) : Option State :=
  (pfq_fetchb env fuel s).map (fun r => push env (fun _ => sign_extend r.1) r.2)

/-! ## Reference notions used in the statements -/

/-- Two's-complement value of the `bits`-bit pattern `x`. -/
def signed_val (bits x : Nat) : Int :=
  if x < 2 ^ (bits - 1) then (x : Int) else (x : Int) - 2 ^ bits

/-- The low 8 bits of `x` hold an even number of ones. -/
def even_parity8 (x : Nat) : Prop :=
  ((List.range 8).filter (fun i => x.testBit i)).length % 2 = 0

/-- Static initialisers of `808x.c` (queue empty, phase T1, prefetch scheduled)
with the 4-byte queue of an 8088, zeroed registers and zeroed memory. -/
def init_state : State :=
  { is8086 := false, is186 := false, is_nec := false, is286 := false,
    ax := 0, cx := 0, dx := 0, bx := 0, sp := 0, bp := 0, si := 0, di := 0,
    seg_es := ⟨0, 0⟩, seg_cs := ⟨0, 0⟩, seg_ss := ⟨0, 0⟩, seg_ds := ⟨0, 0⟩,
    pc := 0, oldpc := 0, flags := 2, eaaddr := 0,
    opcode := 0, rmdat := 0, cpu_mod := 0, cpu_reg := 0, cpu_rm := 0, easeg := 0,
    pfq := [0, 0, 0, 0, 0, 0], biu_cycles := 0, pfq_pos := 0, pfq_ip := 0, pfq_size := 4,
    noint := 0, in_lock := 0, cpu_alu_op := 0, cpu_src := 0, cpu_dest := 0, cpu_data := 0,
    last_addr := 0, ovr_seg := none, prefetching := 1, completed := 1, in_rep := 0,
    repeating := 0, rep_c_flag := 0, oldc := 0, clear_lock := 0, use_custom_nmi_vector := 0,
    custom_nmi_vector := 0, refresh := 0, cycdiff := 0,
    access_code := 0, hlda := 0, not_ready := 0, bus_request_type := 0, pic_data := -1,
    last_was_code := 0, mem_data := 0, mem_seg := 0, mem_addr := 0, schedule_fetch := 1,
    pasv := 0, cycles := 0, tsc := 0, mem := fun _ => 0, dev := 0, nmi := 0, nmi_enable := 0,
    nmi_mask := 0, pic_int_pending := 0, bus_log := [] }

/-- Collaborators that do nothing: floating bus on input, no timer due. -/
def idle_env : Env :=
  { inb := fun _ e => (0xFF, e), inw := fun _ e => (0xFFFF, e),
    outb := fun _ _ e => e, outw := fun _ _ e => e,
    pic_irq_ack := fun e => (0xFF, e), timer_process := fun e => e,
    timer_due := fun _ => false, xt_cpu_multi_hi := 1 }

/-- An 8088 about to decode `MOV CS, AX` (8E C8) at 0000:0100 with AX = 0x1000: the
opcode byte has been fetched, the queue holds the next three code bytes C8 90 90, and
memory holds 0x90 below 0x10000 and 0xF4 from 0x10000 on. -/
def mov_cs_state : State :=
  { init_state with
    ax := 0x1000, pc := 0x101, opcode := 0x8E,
    pfq := [0xC8, 0x90, 0x90, 0, 0, 0], pfq_pos := 3, pfq_ip := 0x104,
    mem := fun a => if a = 0x100 then 0x8E else if a = 0x101 then 0xC8
                    else if a < 0x10000 then 0x90 else 0xF4 }

/-- The bound `0 <= pfq_pos <= pfq_size` on the queue position. -/
def pfq_inv (s : State) : Prop :=
  0 ≤ s.pfq_pos ∧ s.pfq_pos ≤ s.pfq_size

/-- The variables that only the BIU and the execution unit write: what no
collaborator, timer or DMA step can change. -/
structure Core where
  pfq : List Nat
  pfq_pos : Int
  pfq_ip : Nat
  pfq_size : Int
  prefetching : Nat
  schedule_fetch : Nat
  biu_cycles : Nat
  pc : Nat
  bus_request_type : Nat
  is8086 : Bool
  is286 : Bool
  seg_cs : X86Seg
  in_lock : Nat
  cpu_data : Nat
  flags : Nat
  cx : Nat
  dx : Nat
  bx : Nat
  sp : Nat
  bp : Nat
  si : Nat
  di : Nat
  seg_es : X86Seg
  seg_ss : X86Seg
  seg_ds : X86Seg
  eaaddr : Nat
  opcode : Nat
  rmdat : Nat
  cpu_mod : Nat
  cpu_reg : Nat
  cpu_rm : Nat
  easeg : Nat
  ovr_seg : Option Nat
  in_rep : Nat
  repeating : Nat
  completed : Nat
  noint : Nat
  clear_lock : Nat
  rep_c_flag : Nat
  oldc : Nat
  cpu_src : Nat
  cpu_dest : Nat
  cpu_alu_op : Nat
  mem_seg : Nat
  mem_addr : Nat
  is186 : Bool
  is_nec : Bool
  last_addr : Nat
  oldpc : Nat
  use_custom_nmi_vector : Nat
  custom_nmi_vector : Nat

def State.core (s : State) : Core :=
  { pfq := s.pfq, pfq_pos := s.pfq_pos, pfq_ip := s.pfq_ip, pfq_size := s.pfq_size,
    prefetching := s.prefetching, schedule_fetch := s.schedule_fetch,
    biu_cycles := s.biu_cycles, pc := s.pc, bus_request_type := s.bus_request_type,
    is8086 := s.is8086, is286 := s.is286, seg_cs := s.seg_cs, in_lock := s.in_lock,
    cpu_data := s.cpu_data, flags := s.flags,
    cx := s.cx, dx := s.dx, bx := s.bx, sp := s.sp,
    bp := s.bp, si := s.si, di := s.di, seg_es := s.seg_es,
    seg_ss := s.seg_ss, seg_ds := s.seg_ds, eaaddr := s.eaaddr, opcode := s.opcode,
    rmdat := s.rmdat, cpu_mod := s.cpu_mod, cpu_reg := s.cpu_reg, cpu_rm := s.cpu_rm,
    easeg := s.easeg, ovr_seg := s.ovr_seg, in_rep := s.in_rep, repeating := s.repeating,
    completed := s.completed, noint := s.noint, clear_lock := s.clear_lock, rep_c_flag := s.rep_c_flag,
    oldc := s.oldc, cpu_src := s.cpu_src, cpu_dest := s.cpu_dest, cpu_alu_op := s.cpu_alu_op,
    mem_seg := s.mem_seg, mem_addr := s.mem_addr, is186 := s.is186, is_nec := s.is_nec,
    last_addr := s.last_addr, oldpc := s.oldpc, use_custom_nmi_vector := s.use_custom_nmi_vector, custom_nmi_vector := s.custom_nmi_vector }

/-- The part of the core that no bus tick changes at all. -/
structure Ctl where
  pc : Nat
  pfq_size : Int
  prefetching : Nat
  bus_request_type : Nat
  is8086 : Bool
  is286 : Bool
  seg_cs : X86Seg
  in_lock : Nat
  cpu_data : Nat
  flags : Nat
  cx : Nat
  dx : Nat
  bx : Nat
  sp : Nat
  bp : Nat
  si : Nat
  di : Nat
  seg_es : X86Seg
  seg_ss : X86Seg
  seg_ds : X86Seg
  eaaddr : Nat
  opcode : Nat
  rmdat : Nat
  cpu_mod : Nat
  cpu_reg : Nat
  cpu_rm : Nat
  easeg : Nat
  ovr_seg : Option Nat
  in_rep : Nat
  repeating : Nat
  completed : Nat
  noint : Nat
  clear_lock : Nat
  rep_c_flag : Nat
  oldc : Nat
  cpu_src : Nat
  cpu_dest : Nat
  cpu_alu_op : Nat
  mem_seg : Nat
  mem_addr : Nat
  is186 : Bool
  is_nec : Bool
  last_addr : Nat
  oldpc : Nat
  use_custom_nmi_vector : Nat
  custom_nmi_vector : Nat

/-- The `Ctl` part of a `Core`. -/
def Core.toCtl (c : Core) : Ctl :=
  { pc := c.pc, pfq_size := c.pfq_size, prefetching := c.prefetching,
    bus_request_type := c.bus_request_type, is8086 := c.is8086, is286 := c.is286,
    seg_cs := c.seg_cs, in_lock := c.in_lock, cpu_data := c.cpu_data, flags := c.flags,
    cx := c.cx, dx := c.dx, bx := c.bx, sp := c.sp,
    bp := c.bp, si := c.si, di := c.di, seg_es := c.seg_es,
    seg_ss := c.seg_ss, seg_ds := c.seg_ds, eaaddr := c.eaaddr, opcode := c.opcode,
    rmdat := c.rmdat, cpu_mod := c.cpu_mod, cpu_reg := c.cpu_reg, cpu_rm := c.cpu_rm,
    easeg := c.easeg, ovr_seg := c.ovr_seg, in_rep := c.in_rep, repeating := c.repeating,
    completed := c.completed, noint := c.noint, clear_lock := c.clear_lock, rep_c_flag := c.rep_c_flag,
    oldc := c.oldc, cpu_src := c.cpu_src, cpu_dest := c.cpu_dest, cpu_alu_op := c.cpu_alu_op,
    mem_seg := c.mem_seg, mem_addr := c.mem_addr, is186 := c.is186, is_nec := c.is_nec,
    last_addr := c.last_addr, oldpc := c.oldpc, use_custom_nmi_vector := c.use_custom_nmi_vector, custom_nmi_vector := c.custom_nmi_vector }

def State.ctl (s : State) : Ctl :=
  { pc := s.pc, pfq_size := s.pfq_size, prefetching := s.prefetching,
    bus_request_type := s.bus_request_type, is8086 := s.is8086, is286 := s.is286,
    seg_cs := s.seg_cs, in_lock := s.in_lock, cpu_data := s.cpu_data, flags := s.flags,
    cx := s.cx, dx := s.dx, bx := s.bx, sp := s.sp,
    bp := s.bp, si := s.si, di := s.di, seg_es := s.seg_es,
    seg_ss := s.seg_ss, seg_ds := s.seg_ds, eaaddr := s.eaaddr, opcode := s.opcode,
    rmdat := s.rmdat, cpu_mod := s.cpu_mod, cpu_reg := s.cpu_reg, cpu_rm := s.cpu_rm,
    easeg := s.easeg, ovr_seg := s.ovr_seg, in_rep := s.in_rep, repeating := s.repeating,
    completed := s.completed, noint := s.noint, clear_lock := s.clear_lock, rep_c_flag := s.rep_c_flag,
    oldc := s.oldc, cpu_src := s.cpu_src, cpu_dest := s.cpu_dest, cpu_alu_op := s.cpu_alu_op,
    mem_seg := s.mem_seg, mem_addr := s.mem_addr, is186 := s.is186, is_nec := s.is_nec,
    last_addr := s.last_addr, oldpc := s.oldpc, use_custom_nmi_vector := s.use_custom_nmi_vector, custom_nmi_vector := s.custom_nmi_vector }

/-- The queue is empty and prefetching is enabled, with the queue size of an
8088 or an 8086: the state in which `pfq_fetchb_common` waits for a byte. -/
def refill_pending (s : State) : Prop :=
  s.prefetching ≠ 0 ∧ s.pfq_pos = 0 ∧ (s.pfq_size = 4 ∨ s.pfq_size = 6)

/-- Architectural condition of the conditional jumps 0x70..0x7F (JO, JNO, JB,
JNB, JE, JNE, JBE, JNBE, JS, JNS, JP, JNP, JL, JNL, JLE, JNLE) on a FLAGS value. -/
def cond_holds (opcode : Nat) (flags : Nat) : Bool :=
  let cf := flags.testBit 0
  let pf := flags.testBit 2
  let zf := flags.testBit 6
  let sf := flags.testBit 7
  let vf := flags.testBit 11
  match opcode with
  | 0x70 => vf
  | 0x71 => !vf
  | 0x72 => cf
  | 0x73 => !cf
  | 0x74 => zf
  | 0x75 => !zf
  | 0x76 => cf || zf
  | 0x77 => !(cf || zf)
  | 0x78 => sf
  | 0x79 => !sf
  | 0x7A => pf
  | 0x7B => !pf
  | 0x7C => sf != vf
  | 0x7D => sf == vf
  | 0x7E => zf || (sf != vf)
  | 0x7F => !(zf || (sf != vf))
  | _ => false

/-- The queue contents are the next code bytes: `pfq_ip` is `pc + pfq_pos` modulo 2^16
and `pfq[i]` is the byte at `CS.base + ((pc + i) mod 2^16)` for every `i < pfq_pos`. -/
def queue_valid (s : State) : Prop :=
  s.pfq_ip % 65536 = (s.pc + s.pfq_pos.toNat) % 65536 ∧
  ∀ i : Nat, (i : Int) < s.pfq_pos →
    s.pfq.getD i 0 = read_mem_b s (s.seg_cs.base + (s.pc + i) % 65536)

/-- The timer service leaves guest memory alone (no device or DMA write reaches memory
from `timer_process`). -/
def env_keeps_mem (env : Env) : Prop :=
  ∀ e, (env.timer_process e).mem = e.mem

/-- The timer service does not steal host cycles. -/
def env_keeps_cycles (env : Env) : Prop :=
  ∀ e, (env.timer_process e).cycles = e.cycles

/-- Idle ticks of a prefetch abort by phase: none at T1 and T2, 3 at T3, 2 at T4. -/
def abort_idle_ticks (s : State) : Nat :=
  match BUS_CYCLE s with
  | 2 => 3
  | 3 => 2
  | _ => 0

/-- What a memory bus cycle can change besides the BIU bookkeeping: memory, the data
latch, AX (IO only) and the log of physical accesses. -/
structure Data where
  mem : Nat → Nat
  mem_data : Nat
  ax : Nat
  bus_log : List Nat

def State.data (s : State) : Data :=
  { mem := s.mem, mem_data := s.mem_data, ax := s.ax, bus_log := s.bus_log }

/-- The architectural registers and the configuration: what no bus access and no tick
changes, the bus request latches (bus_request_type, mem_seg, mem_addr, last_addr) left out. -/
structure Arch where
  pc : Nat
  pfq_size : Int
  prefetching : Nat
  is8086 : Bool
  is286 : Bool
  is186 : Bool
  is_nec : Bool
  seg_cs : X86Seg
  seg_es : X86Seg
  seg_ss : X86Seg
  seg_ds : X86Seg
  in_lock : Nat
  cpu_data : Nat
  flags : Nat
  cx : Nat
  dx : Nat
  bx : Nat
  sp : Nat
  bp : Nat
  si : Nat
  di : Nat
  eaaddr : Nat
  opcode : Nat
  rmdat : Nat
  cpu_mod : Nat
  cpu_reg : Nat
  cpu_rm : Nat
  easeg : Nat
  ovr_seg : Option Nat
  in_rep : Nat
  repeating : Nat
  completed : Nat
  noint : Nat
  clear_lock : Nat
  rep_c_flag : Nat
  oldc : Nat
  cpu_src : Nat
  cpu_dest : Nat
  cpu_alu_op : Nat
  oldpc : Nat
  use_custom_nmi_vector : Nat
  custom_nmi_vector : Nat

/-- The `Arch` part of a `Ctl`. -/
def Ctl.toArch (c : Ctl) : Arch :=
  { pc := c.pc,
    pfq_size := c.pfq_size,
    prefetching := c.prefetching,
    is8086 := c.is8086,
    is286 := c.is286,
    is186 := c.is186,
    is_nec := c.is_nec,
    seg_cs := c.seg_cs,
    seg_es := c.seg_es,
    seg_ss := c.seg_ss,
    seg_ds := c.seg_ds,
    in_lock := c.in_lock,
    cpu_data := c.cpu_data,
    flags := c.flags,
    cx := c.cx,
    dx := c.dx,
    bx := c.bx,
    sp := c.sp,
    bp := c.bp,
    si := c.si,
    di := c.di,
    eaaddr := c.eaaddr,
    opcode := c.opcode,
    rmdat := c.rmdat,
    cpu_mod := c.cpu_mod,
    cpu_reg := c.cpu_reg,
    cpu_rm := c.cpu_rm,
    easeg := c.easeg,
    ovr_seg := c.ovr_seg,
    in_rep := c.in_rep,
    repeating := c.repeating,
    completed := c.completed,
    noint := c.noint,
    clear_lock := c.clear_lock,
    rep_c_flag := c.rep_c_flag,
    oldc := c.oldc,
    cpu_src := c.cpu_src,
    cpu_dest := c.cpu_dest,
    cpu_alu_op := c.cpu_alu_op,
    oldpc := c.oldpc,
    use_custom_nmi_vector := c.use_custom_nmi_vector,
    custom_nmi_vector := c.custom_nmi_vector }

def State.arch (s : State) : Arch :=
  { pc := s.pc,
    pfq_size := s.pfq_size,
    prefetching := s.prefetching,
    is8086 := s.is8086,
    is286 := s.is286,
    is186 := s.is186,
    is_nec := s.is_nec,
    seg_cs := s.seg_cs,
    seg_es := s.seg_es,
    seg_ss := s.seg_ss,
    seg_ds := s.seg_ds,
    in_lock := s.in_lock,
    cpu_data := s.cpu_data,
    flags := s.flags,
    cx := s.cx,
    dx := s.dx,
    bx := s.bx,
    sp := s.sp,
    bp := s.bp,
    si := s.si,
    di := s.di,
    eaaddr := s.eaaddr,
    opcode := s.opcode,
    rmdat := s.rmdat,
    cpu_mod := s.cpu_mod,
    cpu_reg := s.cpu_reg,
    cpu_rm := s.cpu_rm,
    easeg := s.easeg,
    ovr_seg := s.ovr_seg,
    in_rep := s.in_rep,
    repeating := s.repeating,
    completed := s.completed,
    noint := s.noint,
    clear_lock := s.clear_lock,
    rep_c_flag := s.rep_c_flag,
    oldc := s.oldc,
    cpu_src := s.cpu_src,
    cpu_dest := s.cpu_dest,
    cpu_alu_op := s.cpu_alu_op,
    oldpc := s.oldpc,
    use_custom_nmi_vector := s.use_custom_nmi_vector,
    custom_nmi_vector := s.custom_nmi_vector }

/-- What no collaborator (timer, DMA, device) can change and only bus accesses do: the
data latch, AX and the log of physical accesses. -/
structure Priv where
  mem_data : Nat
  ax : Nat
  bus_log : List Nat

def State.priv (s : State) : Priv :=
  { mem_data := s.mem_data, ax := s.ax, bus_log := s.bus_log }

/-- Physical address of the low byte of the word at `seg:a`. -/
def word_lo (seg a : Nat) : Nat :=
  (seg % 4294967296 + a % 65536) % 4294967296 % 1048576

/-- Physical address of the high byte of the word at `seg:a`: next to the low byte on a
word access and on the 80186, at offset `(a + 1) & 0xffff` of the segment otherwise. -/
def word_hi (s : State) (seg a : Nat) : Nat :=
  if (s.is8086 && decide (a % 2 = 0)) = true ∨ (s.is186 && !s.is_nec) = true then
    ((seg % 4294967296 + a % 65536) % 4294967296 + 1) % 1048576
  else (seg % 4294967296 + (a % 65536 + 1) % 65536) % 4294967296 % 1048576

/-- The state `s'` at the start of the next instruction continues `t`: registers, flags,
SS, the CPU variant and memory are those of `t` (instruction fetch and decode touch none
of them). -/
def same_machine (t s' : State) : Prop :=
  s'.ax = t.ax ∧ s'.cx = t.cx ∧ s'.dx = t.dx ∧ s'.bx = t.bx ∧ s'.sp = t.sp ∧ s'.bp = t.bp ∧
  s'.si = t.si ∧ s'.di = t.di ∧ s'.seg_ss = t.seg_ss ∧ s'.is8086 = t.is8086 ∧
  s'.is186 = t.is186 ∧ s'.is_nec = t.is_nec ∧ s'.flags = t.flags ∧ s'.mem = t.mem

/-- An 8088 whose queue holds three bytes 0x90 fetched before a reset, with the byte
0xEA at the reset vector FFFF:0000 (physical 0xFFFF0). -/
def soft_reset_state : State :=
  { init_state with
    pc := 0x101, pfq := [0x90, 0x90, 0x90, 0, 0, 0], pfq_pos := 3, pfq_ip := 0x104,
    mem := fun a => if a = 0xFFFF0 then 0xEA else 0x90 }

/-- The timer service leaves the wait-state lines alone: READY, HLDA and the pending
refresh count. -/
def env_keeps_ready (env : Env) : Prop :=
  ∀ e, (env.timer_process e).not_ready = e.not_ready ∧ (env.timer_process e).hlda = e.hlda ∧
       (env.timer_process e).refresh = e.refresh

/-- No wait state is pending or about to be inserted. -/
def no_wait_states (s : State) : Prop :=
  s.not_ready = 0 ∧ s.hlda = 0 ∧ s.refresh = 0

/-- The word that `pop` would read at SS:SP+k: low byte at the physical address of
SS:(SP+k), high byte next to it (see `word_hi`). -/
def stack_word (t : State) (k : Nat) : Nat :=
  t.mem (word_lo t.seg_ss.base ((t.sp + k) % 65536)) % 256 +
    256 * (t.mem (word_hi t t.seg_ss.base ((t.sp + k) % 65536)) % 256)

/-- The little-endian word at the physical addresses `a`, `a + 1`. -/
def mem_word (m : Nat → Nat) (a : Nat) : Nat :=
  m a % 256 + 256 * (m (a + 1) % 256)

/-- The case in which `push` takes its 80186 branch: a non-NEC 80186-class CPU with
SP = 1. -/
def push_wraps_186 (s : State) (sp : Nat) : Prop :=
  (s.is186 && !s.is_nec) = true ∧ sp = 1

/-- An 80186 about to execute `INT 21h` with SP = 1, the carry flag set and the immediate
byte 0x21 in the queue; memory is all zero. -/
def int_186_state : State :=
  { init_state with is186 := true, sp := 1, flags := 3, opcode := 0xCD, pc := 0x101,
                    pfq := [0x21, 0, 0, 0, 0, 0], pfq_pos := 1, pfq_ip := 0x102 }

/-- An 8088 about to execute `INT 21h` at 0123:0100 with SP = 0x100, flags 0x0303 and the
vector 0x21 pointing at 2000:0100. -/
def int_21_state : State :=
  { init_state with opcode := 0xCD, sp := 0x100, flags := 0x303, pc := 0x101,
                    seg_cs := ⟨0x1230, 0x123⟩, pfq := [0x21, 0, 0, 0, 0, 0], pfq_pos := 1,
                    pfq_ip := 0x102,
                    mem := fun a => if a = 0x85 then 1 else if a = 0x87 then 0x20 else 0 }

/-- The interrupt request lines, owned by the NMI logic and the interrupt controller. -/
structure Irq where
  nmi : Nat
  nmi_enable : Nat
  nmi_mask : Nat
  pic_int_pending : Nat

def State.irq (s : State) : Irq :=
  { nmi := s.nmi, nmi_enable := s.nmi_enable, nmi_mask := s.nmi_mask,
    pic_int_pending := s.pic_int_pending }

/-- The timer service raises no interrupt request. -/
def env_keeps_irq (env : Env) : Prop :=
  ∀ e, (env.timer_process e).nmi = e.nmi ∧ (env.timer_process e).nmi_enable = e.nmi_enable ∧
       (env.timer_process e).nmi_mask = e.nmi_mask ∧
       (env.timer_process e).pic_int_pending = e.pic_int_pending

/-- No interrupt source is pending and none can become pending while the request lines
and the flags T and I stay as they are: no NMI latched, T clear, no request at the
interrupt controller. -/
def no_irq (s : State) : Prop :=
  s.nmi = 0 ∧ (s.flags &&& T_FLAG) = 0 ∧ s.pic_int_pending = 0

/-- The fetch flag is only raised while prefetching is enabled and the queue has
room. -/
def fetch_inv (s : State) : Prop :=
  s.schedule_fetch ≠ 0 → s.prefetching ≠ 0 ∧ s.pfq_pos < s.pfq_size

/-- AL = 1, AH = 0, all flags clear. -/
def aaa_one_state : State := { init_state with ax := 1, flags := 0 }

/-- The state in which `check_interrupts` runs in the closing block of the loop body of
`execx86` entered with state `v`: after the resets, the `clear_lock` mark and
`clock_end`. -/
def boundary_state (env : Env) (v : State) : State :=
  clock_end env
    (if ({ v with repeating := 0, ovr_seg := none, in_rep := 0, rep_c_flag := 0 } : State).in_lock ≠ 0
     then { ({ v with repeating := 0, ovr_seg := none, in_rep := 0, rep_c_flag := 0 } : State) with clear_lock := 1 }
     else { v with repeating := 0, ovr_seg := none, in_rep := 0, rep_c_flag := 0 })

/-- The statements of the closing block after `check_interrupts`. -/
def boundary_finish (s4 : State) : State :=
  { (if s4.noint ≠ 0 then { s4 with noint := 0 } else s4) with cpu_alu_op := 0 }

/-- A state at an instruction boundary in the interrupt shadow: T and I set, a request
pending at the interrupt controller, `noint = 1`. -/
def shadow_state : State :=
  { init_state with completed := 1, noint := 1, flags := 0x0302, pic_int_pending := 1 }

/-- Collaborators whose ports return 0x77 (byte) and 0x7777 (word) on input and record the
value of the last output in `dev`. -/
def port_env : Env :=
  { idle_env with
    inb := fun _ e => (0x77, e), inw := fun _ e => (0x7777, e),
    outb := fun _ v e => { e with dev := v }, outw := fun _ v e => { e with dev := v } }

/-- An 80186 about to run OUTSB (0x6E) without REP: AL = 0xAA, DS:SI = 0000:0010 holds
0x55, DX = 0x300. -/
def outs_state : State :=
  { init_state with is186 := true, opcode := 0x6E, ax := 0x00AA, si := 0x10, dx := 0x300,
                    mem := fun a => if a = 0x10 then 0x55 else 0 }

/-- An 80186 about to run INSB (0x6C) without REP: AX = 0, ES:DI = 0000:0020 holds 0,
DX = 0x300, and `cpu_data` still holds 0x11 from an earlier instruction. -/
def ins_state : State :=
  { init_state with is186 := true, opcode := 0x6C, ax := 0, di := 0x20, dx := 0x300,
                    cpu_data := 0x11 }

/-- An 80186 decoding `BOUND AX, [BX]` (62 07) at 0000:0100 with AX = 0 and BX = 0x40: the
opcode has been fetched and the queue holds the ModR/M byte; the word at DS:0040 (lower
bound) is 0xFFFF, the word at DS:0042 (upper bound) is 0x0005, and the vector of interrupt
5 at 0000:0014 is 1234:5678. -/
def bound_state : State :=
  { init_state with
    is186 := true, opcode := 0x62, ax := 0, bx := 0x40, pc := 0x101, oldpc := 0x100,
    pfq := [0x07, 0x90, 0x90, 0], pfq_pos := 3, pfq_ip := 0x104,
    mem := fun a => if a = 0x40 then 0xFF else if a = 0x41 then 0xFF
                    else if a = 0x42 then 0x05
                    else if a = 0x14 then 0x78 else if a = 0x15 then 0x56
                    else if a = 0x16 then 0x34 else if a = 0x17 then 0x12 else 0 }

/-- The same instruction with AX = 0x0105 and the bounds 0x0100 and 0x0200. -/
def bound_wide_state : State :=
  { bound_state with
    ax := 0x0105,
    mem := fun a => if a = 0x41 then 0x01 else if a = 0x43 then 0x02
                    else if a = 0x14 then 0x78 else if a = 0x15 then 0x56
                    else if a = 0x16 then 0x34 else if a = 0x17 then 0x12 else 0 }

/-- An 80186 decoding `IMUL AX, CX, 0xFF` (6B C1 FF) at 0000:0100 with CX = 1: the opcode
has been fetched and the queue holds the ModR/M byte and the immediate. -/
def imul_state : State :=
  { init_state with
    is186 := true, opcode := 0x6B, ax := 0, cx := 1, pc := 0x101, oldpc := 0x100,
    pfq := [0xC1, 0xFF, 0x90, 0], pfq_pos := 3, pfq_ip := 0x104 }

/-- State of the shift-subtract loop of `x86_div` after `k` passes, for the `n`-bit
division of `h0 * 2^n + l0` by `d`: `x = (l, h, carry)`.  `h` is the partial remainder,
the quotient bits found so far are `Q`, and `l` holds the rest of the dividend followed by
the complemented quotient bits (`I`), the bit in `carry` still to be shifted in. -/
def div_inv (n l0 h0 d k : Nat) (x : Nat × Nat × Bool) : Prop :=
  ∃ Q I, x.2.1 < d ∧ h0 * 2 ^ k + l0 / 2 ^ (n - k) = Q * d + x.2.1 ∧ I < 2 ^ k ∧
    x.1 = (l0 * 2 ^ k + I) % 65536 ∧
    2 * I + (if x.2.2 then 1 else 0) + Q + 1 = 2 ^ (k + 1) ∧ Q < 2 ^ k

/-- An 8088 in the DIV case of group 0xF6 for `DIV BL` (F6 F3) with AX = 0x00FF and the
operand BL = 0x10 already read into `cpu_data`. -/
def div_state : State :=
  { init_state with opcode := 0xF6, rmdat := 0xF3, cpu_mod := 3, ax := 0x00FF, bx := 0x10,
                    cpu_data := 0x10 }

/-- The condition of C17 on the operands that `x86_div` reads: the divisor (`cpu_src`, `n`
bits) is 0, or the quotient of the dividend (AX in the byte form, DX:AX in the word form) by
the divisor does not fit `n` bits: as unsigned numbers for DIV, as two's-complement numbers
with the quotient truncated toward zero for IDIV. -/
def div_overflow (s : State) : Prop :=
  let n := if (s.opcode &&& 1) ≠ 0 then 16 else 8
  let N := if (s.opcode &&& 1) ≠ 0 then s.dx % 65536 * 65536 + s.ax % 65536 else s.ax % 65536
  let d := s.cpu_src % 2 ^ n
  if (s.rmdat &&& 0x38) = 0x38 then
    signed_val n d = 0 ∨
    ¬ (-(2 : Int) ^ (n - 1) ≤ (signed_val (2 * n) N).tdiv (signed_val n d) ∧
       (signed_val (2 * n) N).tdiv (signed_val n d) ≤ 2 ^ (n - 1) - 1)
  else d = 0 ∨ 2 ^ n ≤ N / d

/-- `IDIV BL` (F6 FB) with AX = 0x8000 (-32768) and BL = 0xFF (-1): the quotient 32768 does
not fit a byte. -/
def idiv_state : State :=
  { init_state with opcode := 0xF6, rmdat := 0xFB, cpu_mod := 3, ax := 0x8000, bx := 0xFF,
                    cpu_src := 0xFF, cpu_data := 0xFF }

/-- State of the shift-add loop of `mul` after `k` passes, for the `n`-bit product of the
multiplier `A` and the multiplicand `B`: `x = (a, c, carry)`.  `c` followed by the top `k`
bits of `a` is the product of `B` and the low `k` bits of `A`; the rest of `a` holds the
multiplier bits above bit `k`, and `carry` is bit `k`. -/
def mul_inv (n A B k : Nat) (x : Nat × Nat × Bool) : Prop :=
  x.2.1 * 2 ^ k + x.1 / 2 ^ (n - k) = (A % 2 ^ k) * B ∧
  x.1 % 2 ^ (n - k) = A / 2 ^ (k + 1) ∧ x.2.2 = A.testBit k ∧
  x.2.1 < 2 ^ n ∧ x.1 < 2 ^ n

/-- The fields of the state that `mul` and the MUL/IMUL handler read or leave alone, apart
from the flags and the ALU operands. -/
structure MulCtl where
  opcode : Nat
  rmdat : Nat
  cpu_alu_op : Nat
  is_nec : Bool
  ax : Nat
  dx : Nat

def State.mulctl (s : State) : MulCtl :=
  { opcode := s.opcode, rmdat := s.rmdat, cpu_alu_op := s.cpu_alu_op, is_nec := s.is_nec,
    ax := s.ax, dx := s.dx }

/-- An 8088 in the MUL case of group 0xF6 for `MUL BL` (F6 E3) with AL = 0x0C and the
operand BL = 0x0B already read into `cpu_data`. -/
def mul_state : State :=
  { init_state with opcode := 0xF6, rmdat := 0xE3, cpu_mod := 3, ax := 0x000C, bx := 0x0B,
                    cpu_data := 0x0B }

/-- The fields that steer a repeated string instruction, with the trap flag. -/
structure RepCtl where
  in_rep : Nat
  rep_c_flag : Nat
  cx : Nat
  repeating : Nat
  completed : Nat
  opcode : Nat
  noint : Nat
  trap : Bool

def State.repctl (s : State) : RepCtl :=
  { in_rep := s.in_rep, rep_c_flag := s.rep_c_flag, cx := s.cx, repeating := s.repeating,
    completed := s.completed, opcode := s.opcode, noint := s.noint,
    trap := s.flags.testBit 8 }

/-- An 8088 about to run `CMPSB` (0xA6) under `REPE` with CX = 2: the prefix has set
`in_rep = 2`; memory is all zero, so every compare leaves Z set. -/
def repe_state : State :=
  { init_state with opcode := 0xA6, in_rep := 2, cx := 2 }

/-- What a pass of MOVS reads and writes among the registers: flags, opcode, segments, the
override, the repeat control, CX, SI, DI and `cpu_data`. -/
structure MovView where
  flags : Nat
  opcode : Nat
  seg_es : X86Seg
  seg_cs : X86Seg
  seg_ss : X86Seg
  seg_ds : X86Seg
  ovr_seg : Option Nat
  in_rep : Nat
  cx : Nat
  si : Nat
  di : Nat
  cpu_data : Nat
  completed : Nat
  repeating : Nat

def Arch.movview (a : Arch) : MovView :=
  { flags := a.flags, opcode := a.opcode, seg_es := a.seg_es, seg_cs := a.seg_cs,
    seg_ss := a.seg_ss, seg_ds := a.seg_ds, ovr_seg := a.ovr_seg, in_rep := a.in_rep,
    cx := a.cx, si := a.si, di := a.di, cpu_data := a.cpu_data, completed := a.completed,
    repeating := a.repeating }

def State.movview (s : State) : MovView := s.arch.movview

/-- Memory after `k` byte moves done one after the other: the byte at `src:si` goes to
`dst:di`, then both offsets move up by one modulo 0x10000. -/
def movs_mem (src dst : Nat) : Nat → Nat → Nat → (Nat → Nat) → (Nat → Nat)
  | 0, _, _, m => m
  | k + 1, si, di, m =>
    movs_mem src dst k ((si + 1) % 65536) ((di + 1) % 65536)
      (fun x => if x = word_lo dst di then m (word_lo src si) % 256 else m x)

/-- The bus requests of `k` byte moves: a memory read, then a memory write, `k` times. -/
def movs_log (k : Nat) : List Nat :=
  (List.replicate k [BUS_MEM, BUS_MEM ||| BUS_OUT]).flatten

/-- An 8088 about to run `MOVSB` (0xA4) under `REP` with CX = 2, SI = 0x10, DI = 0x20 and
DS = ES based at 0: the prefix has set `in_rep = 2`; memory holds the low byte of each
address. -/
def movs_state : State :=
  { init_state with opcode := 0xA4, in_rep := 2, cx := 2, si := 0x10, di := 0x20, mem := fun a => a % 256 }

/-- An 8088 about to run `MOVSB` (0xA4) under `REP` with CX = 1, SI = 0xFFFF, DI = 0 and
DS = ES based at 0: the source range ends at the top of the segment. -/
def movs_top_state : State :=
  { init_state with opcode := 0xA4, in_rep := 2, cx := 1, si := 0xFFFF, di := 0 }

/-- The DMA hold lines as the bus interface sees them: the hold counter `hlda` and the
count `refresh` of pending refresh requests. -/
structure Hold where
  hlda : Int
  refresh : Int

def State.hold (s : State) : Hold := { hlda := s.hlda, refresh := s.refresh }

/-- The collaborators called during an acknowledge cycle, the timer service and the
interrupt controller, leave the hold lines alone. -/
def env_keeps_hold (env : Env) : Prop :=
  (∀ e, (env.timer_process e).hlda = e.hlda ∧ (env.timer_process e).refresh = e.refresh) ∧
  (∀ e, (env.pic_irq_ack e).2.hlda = e.hlda ∧ (env.pic_irq_ack e).2.refresh = e.refresh)

/-- From `s` to `t` no refresh request was consumed and no hold was granted. -/
def hold_kept (s t : State) : Prop :=
  t.refresh = s.refresh ∧ (s.hlda = 0 → t.hlda = 0)

/-- An 8088 with one refresh request pending, LOCK released, no hold granted and the bus
at T1 with a code fetch scheduled. -/
def ack_state : State := { init_state with refresh := 1 }

/-! # Theorems -/

/-! ## Flag bits -/

theorem flag_and_ne (f k : Nat) : (f &&& 2 ^ k ≠ 0) ↔ f.testBit k = true := by
  rw [Nat.and_two_pow]
  cases h : f.testBit k <;> simp

theorem flag_tb (f m k : Nat) (hm : m = 2 ^ k) : (f &&& m ≠ 0) ↔ f.testBit k = true := by
  subst hm; exact flag_and_ne f k

theorem mask_eq_mod (x bits : Nat) : x &&& ((1 <<< bits) - 1) = x % 2 ^ bits := by
  rw [Nat.one_shiftLeft, Nat.and_pow_two_sub_one_eq_mod]

theorem setbit_testBit (f k : Nat) (c : Bool) (i : Nat) (hk : k < 16) :
    (andNot16 f (2 ^ k) ||| (if c then 2 ^ k else 0)).testBit i
      = if i = k then c else (f.testBit i && decide (i < 16)) := by
  unfold andNot16
  have h16 : (0xFFFF : Nat) = 2 ^ 16 - 1 := by norm_num
  rw [h16, Nat.testBit_or, Nat.testBit_and, Nat.testBit_xor, Nat.testBit_two_pow_sub_one]
  by_cases hik : i = k
  · subst hik
    cases c <;> simp [Nat.testBit_two_pow, hk]
  · have hki : ¬ k = i := fun h => hik h.symm
    cases c <;> simp [Nat.testBit_two_pow, hik, hki]

theorem set_cf_testBit (c : Bool) (s : State) (i : Nat) :
    (set_cf c s).flags.testBit i = if i = 0 then c else (s.flags.testBit i && decide (i < 16)) := by
  have := setbit_testBit s.flags 0 c i (by norm_num)
  simpa [set_cf, C_FLAG] using this

theorem set_of_testBit (v : Nat) (s : State) (i : Nat) :
    (set_of v s).flags.testBit i
      = if i = 11 then decide (v ≠ 0) else (s.flags.testBit i && decide (i < 16)) := by
  have := setbit_testBit s.flags 11 (decide (v ≠ 0)) i (by norm_num)
  simpa [set_of] using this

theorem set_af_testBit (c : Bool) (s : State) (i : Nat) :
    (set_af c s).flags.testBit i = if i = 4 then c else (s.flags.testBit i && decide (i < 16)) := by
  have := setbit_testBit s.flags 4 c i (by norm_num)
  simpa [set_af] using this

theorem set_zf_ex_testBit (c : Bool) (s : State) (i : Nat) :
    (set_zf_ex c s).flags.testBit i = if i = 6 then c else (s.flags.testBit i && decide (i < 16)) := by
  have := setbit_testBit s.flags 6 c i (by norm_num)
  simpa [set_zf_ex] using this

theorem set_sf_testBit (bits : Nat) (s : State) (i : Nat) :
    (set_sf bits s).flags.testBit i
      = if i = 7 then decide (top_bit s.cpu_data bits ≠ 0)
        else (s.flags.testBit i && decide (i < 16)) := by
  have := setbit_testBit s.flags 7 (decide (top_bit s.cpu_data bits ≠ 0)) i (by norm_num)
  simpa [set_sf] using this

theorem set_pf_testBit (s : State) (i : Nat) :
    (set_pf s).flags.testBit i
      = if i = 2 then decide (builtin_parity (s.cpu_data &&& 0xFF) = 0)
        else (s.flags.testBit i && decide (i < 16)) := by
  have := setbit_testBit s.flags 2 (decide (builtin_parity (s.cpu_data &&& 0xFF) = 0)) i (by norm_num)
  unfold set_pf
  by_cases h : builtin_parity (s.cpu_data &&& 0xFF) = 0
  · simpa [h] using this
  · simpa [h] using this

theorem top_bit_ne (w bits : Nat) (hb : bits = 8 ∨ bits = 16) :
    (top_bit w bits ≠ 0) ↔ w.testBit (bits - 1) = true := by
  unfold top_bit
  rw [Nat.one_shiftLeft, flag_and_ne]
  have : (65536 : Nat) = 2 ^ 16 := by norm_num
  rw [this, Nat.testBit_mod_two_pow]
  rcases hb with rfl | rfl <;> simp

theorem builtin_parity_low8 (x : Nat) :
    builtin_parity (x &&& 0xFF) = 0 ↔ even_parity8 x := by
  unfold builtin_parity even_parity8
  have h255 : (0xFF : Nat) = 2 ^ 8 - 1 := by norm_num
  have key : ∀ i, (x &&& 0xFF).testBit i = (decide (i < 8) && x.testBit i) := by
    intro i
    rw [h255, Nat.and_pow_two_sub_one_eq_mod, Nat.testBit_mod_two_pow]
  simp only [key]
  have h32 : List.range 32 = List.range 8 ++ List.range' 8 24 := by decide
  have h1 : (List.range' 8 24).filter (fun i => decide (i < 8) && x.testBit i) = [] := by
    rw [List.filter_eq_nil_iff]
    intro a ha
    rw [List.mem_range'_1] at ha
    have : ¬ a < 8 := by omega
    simp [this]
  have h2 : (List.range 8).filter (fun i => decide (i < 8) && x.testBit i)
      = (List.range 8).filter (fun i => x.testBit i) := by
    apply List.filter_congr
    intro a ha
    rw [List.mem_range] at ha
    simp [ha]
  rw [h32, List.filter_append, h1, h2, List.append_nil]

theorem set_cf_frame (c : Bool) (s : State) :
    (set_cf c s).cpu_data = s.cpu_data ∧ (set_cf c s).cpu_src = s.cpu_src ∧
    (set_cf c s).cpu_dest = s.cpu_dest ∧ (set_cf c s).cpu_alu_op = s.cpu_alu_op :=
  ⟨rfl, rfl, rfl, rfl⟩

theorem set_of_frame (v : Nat) (s : State) :
    (set_of v s).cpu_data = s.cpu_data ∧ (set_of v s).cpu_src = s.cpu_src ∧
    (set_of v s).cpu_dest = s.cpu_dest ∧ (set_of v s).cpu_alu_op = s.cpu_alu_op :=
  ⟨rfl, rfl, rfl, rfl⟩

theorem set_af_frame (c : Bool) (s : State) :
    (set_af c s).cpu_data = s.cpu_data ∧ (set_af c s).cpu_src = s.cpu_src ∧
    (set_af c s).cpu_dest = s.cpu_dest ∧ (set_af c s).cpu_alu_op = s.cpu_alu_op :=
  ⟨rfl, rfl, rfl, rfl⟩

theorem set_zf_ex_frame (c : Bool) (s : State) :
    (set_zf_ex c s).cpu_data = s.cpu_data ∧ (set_zf_ex c s).cpu_src = s.cpu_src ∧
    (set_zf_ex c s).cpu_dest = s.cpu_dest ∧ (set_zf_ex c s).cpu_alu_op = s.cpu_alu_op :=
  ⟨rfl, rfl, rfl, rfl⟩

theorem set_sf_frame (b : Nat) (s : State) :
    (set_sf b s).cpu_data = s.cpu_data ∧ (set_sf b s).cpu_src = s.cpu_src ∧
    (set_sf b s).cpu_dest = s.cpu_dest ∧ (set_sf b s).cpu_alu_op = s.cpu_alu_op :=
  ⟨rfl, rfl, rfl, rfl⟩

theorem set_pf_frame (s : State) :
    (set_pf s).cpu_data = s.cpu_data ∧ (set_pf s).cpu_src = s.cpu_src ∧
    (set_pf s).cpu_dest = s.cpu_dest ∧ (set_pf s).cpu_alu_op = s.cpu_alu_op :=
  ⟨rfl, rfl, rfl, rfl⟩

theorem add_flags_tb (bits : Nat) (s : State) :
    (add bits s).cpu_data = (s.cpu_dest + s.cpu_src) % 4294967296 ∧
    (add bits s).cpu_src = s.cpu_src ∧ (add bits s).cpu_dest = s.cpu_dest ∧
    ((add bits s).flags.testBit 0 =
      if s.cpu_alu_op = 2 ∧ (s.cpu_src &&& ((1 <<< bits) - 1)) = 0 ∧ s.flags.testBit 0 = true
      then true
      else decide ((s.cpu_src &&& ((1 <<< bits) - 1)) >
        ((s.cpu_dest + s.cpu_src) % 4294967296 &&& ((1 <<< bits) - 1)))) ∧
    ((add bits s).flags.testBit 11 = decide (top_bit
      ((((s.cpu_dest + s.cpu_src) % 4294967296) ^^^ s.cpu_src) &&&
       (((s.cpu_dest + s.cpu_src) % 4294967296) ^^^ s.cpu_dest)) bits ≠ 0)) ∧
    ((add bits s).flags.testBit 4 = decide
      (((((s.cpu_dest + s.cpu_src) % 4294967296) ^^^ s.cpu_src ^^^ s.cpu_dest) &&& 0x10) ≠ 0)) ∧
    ((add bits s).flags.testBit 6 =
      decide ((((s.cpu_dest + s.cpu_src) % 4294967296) &&& ((1 <<< bits) - 1)) = 0)) ∧
    ((add bits s).flags.testBit 7 = decide (top_bit ((s.cpu_dest + s.cpu_src) % 4294967296) bits ≠ 0)) ∧
    ((add bits s).flags.testBit 2 =
      decide (builtin_parity (((s.cpu_dest + s.cpu_src) % 4294967296) &&& 0xFF) = 0)) := by
  simp only [add, set_apzs, set_pzs, set_zf, do_af, set_of_add]
  simp only [flag_tb _ C_FLAG 0 rfl]
  split
  · rename_i h
    simp [-Nat.testBit_zero, set_cf_testBit, set_of_testBit, set_af_testBit, set_zf_ex_testBit,
      set_sf_testBit, set_pf_testBit, set_cf_frame, set_of_frame, set_af_frame, set_zf_ex_frame,
      set_sf_frame, set_pf_frame, Nat.testBit_or, C_FLAG] at h ⊢
    simp [-Nat.testBit_zero, h, (by decide : Nat.testBit 1 11 = false),
      (by decide : Nat.testBit 1 4 = false), (by decide : Nat.testBit 1 6 = false),
      (by decide : Nat.testBit 1 7 = false), (by decide : Nat.testBit 1 2 = false)]
  · rename_i h
    simp [-Nat.testBit_zero, set_cf_testBit, set_of_testBit, set_af_testBit, set_zf_ex_testBit,
      set_sf_testBit, set_pf_testBit, set_cf_frame, set_of_frame, set_af_frame, set_zf_ex_frame,
      set_sf_frame, set_pf_frame] at h ⊢
    intro h1 h2 h3
    exact absurd h3 (by simpa using h h1 h2)

theorem sub_flags_tb (bits : Nat) (s : State) :
    (sub bits s).cpu_data = (s.cpu_dest + 4294967296 - s.cpu_src % 4294967296) % 4294967296 ∧
    (sub bits s).cpu_src = s.cpu_src ∧ (sub bits s).cpu_dest = s.cpu_dest ∧
    ((sub bits s).flags.testBit 0 =
      if s.cpu_alu_op = 3 ∧ (s.cpu_src &&& ((1 <<< bits) - 1)) = 0 ∧ s.flags.testBit 0 = true
      then true
      else decide ((s.cpu_src &&& ((1 <<< bits) - 1)) > (s.cpu_dest &&& ((1 <<< bits) - 1)))) := by
  simp only [sub, set_apzs, set_pzs, set_zf, do_af, set_of_sub]
  simp only [flag_tb _ C_FLAG 0 rfl]
  split
  · rename_i h
    simp [-Nat.testBit_zero, set_cf_testBit, set_of_testBit, set_af_testBit, set_zf_ex_testBit,
      set_sf_testBit, set_pf_testBit, set_cf_frame, set_of_frame, set_af_frame, set_zf_ex_frame,
      set_sf_frame, set_pf_frame, Nat.testBit_or, C_FLAG] at h ⊢
    simp [-Nat.testBit_zero, h]
  · rename_i h
    simp [-Nat.testBit_zero, set_cf_testBit, set_of_testBit, set_af_testBit, set_zf_ex_testBit,
      set_sf_testBit, set_pf_testBit, set_cf_frame, set_of_frame, set_af_frame, set_zf_ex_frame,
      set_sf_frame, set_pf_frame] at h ⊢
    intro h1 h2 h3
    exact absurd h3 (by simpa using h h1 h2)

/-- C1: for ADD (cpu_alu_op = 0) on 8- or 16-bit operands, `add` leaves the sum in
cpu_data and sets C, V, A, Z, S and P by their two's-complement definitions. -/
theorem add_flags_correct (bits : Nat) (s : State) (hb : bits = 8 ∨ bits = 16)
    (hd : s.cpu_dest < 2 ^ bits) (hs : s.cpu_src < 2 ^ bits) (hop : s.cpu_alu_op = 0) :
    (add bits s).cpu_data % 2 ^ bits = (s.cpu_dest + s.cpu_src) % 2 ^ bits ∧
    ((add bits s).flags &&& C_FLAG ≠ 0 ↔ 2 ^ bits ≤ s.cpu_dest + s.cpu_src) ∧
    ((add bits s).flags &&& V_FLAG ≠ 0 ↔
      ¬ (-(2 ^ (bits - 1) : Int) ≤ signed_val bits s.cpu_dest + signed_val bits s.cpu_src ∧
         signed_val bits s.cpu_dest + signed_val bits s.cpu_src < 2 ^ (bits - 1))) ∧
    ((add bits s).flags &&& A_FLAG ≠ 0 ↔ 15 < s.cpu_dest % 16 + s.cpu_src % 16) ∧
    ((add bits s).flags &&& Z_FLAG ≠ 0 ↔ (add bits s).cpu_data % 2 ^ bits = 0) ∧
    ((add bits s).flags &&& N_FLAG ≠ 0 ↔ (add bits s).cpu_data / 2 ^ (bits - 1) % 2 = 1) ∧
    ((add bits s).flags &&& P_FLAG ≠ 0 ↔ even_parity8 (add bits s).cpu_data) := by
  have hop2 : ¬ (s.cpu_alu_op = 2) := by omega
  obtain ⟨hdat, -, -, hc, hv, ha, hz, hn, hp⟩ := add_flags_tb bits s
  simp only [hop2, false_and, if_false] at hc
  rw [flag_tb _ C_FLAG 0 rfl, flag_tb _ V_FLAG 11 rfl, flag_tb _ A_FLAG 4 rfl,
    flag_tb _ Z_FLAG 6 rfl, flag_tb _ N_FLAG 7 rfl, flag_tb _ P_FLAG 2 rfl,
    hc, hv, ha, hz, hn, hp, hdat]
  simp only [decide_eq_true_eq, mask_eq_mod, top_bit_ne _ _ hb, builtin_parity_low8,
    flag_tb _ 16 4 rfl, Nat.testBit_and, Nat.testBit_xor]
  simp only [Nat.testBit_to_div_mod, Bool.and_eq_true, ne_eq,
    decide_eq_decide, decide_eq_true_eq, bne_iff_ne]
  unfold signed_val
  rcases hb with rfl | rfl
  · norm_num at hd hs ⊢
    refine ⟨by omega, by omega, ?_⟩
    by_cases h1 : (s.cpu_dest + s.cpu_src) % 4294967296 / 16 % 2 = 1 <;>
    by_cases h2 : s.cpu_src / 16 % 2 = 1 <;>
    by_cases h3 : s.cpu_dest / 16 % 2 = 1 <;>
    simp only [h1, h2, h3, decide_True, decide_False, Bool.xor_true, Bool.xor_false,
      Bool.not_true, Bool.not_false, not_true_eq_false, not_false_eq_true, true_iff, false_iff,
      Bool.true_eq_false, Bool.false_eq_true] <;>
    omega
  · norm_num at hd hs ⊢
    refine ⟨by omega, by omega, ?_⟩
    by_cases h1 : (s.cpu_dest + s.cpu_src) % 4294967296 / 16 % 2 = 1 <;>
    by_cases h2 : s.cpu_src / 16 % 2 = 1 <;>
    by_cases h3 : s.cpu_dest / 16 % 2 = 1 <;>
    simp only [h1, h2, h3, decide_True, decide_False, Bool.xor_true, Bool.xor_false,
      Bool.not_true, Bool.not_false, not_true_eq_false, not_false_eq_true, true_iff, false_iff,
      Bool.true_eq_false, Bool.false_eq_true] <;>
    omega

/-- Witness of C1: ADD 0x7F + 0x01 on bytes. -/
theorem add_flags_correct_witness :
    (add 8 { init_state with cpu_dest := 0x7F, cpu_src := 0x01 }).cpu_data % 2 ^ 8 = 0x80 ∧
    ((add 8 { init_state with cpu_dest := 0x7F, cpu_src := 0x01 }).flags &&& V_FLAG ≠ 0) := by
  have h := add_flags_correct 8 { init_state with cpu_dest := 0x7F, cpu_src := 0x01 }
    (Or.inl rfl) (by decide) (by decide) rfl
  refine ⟨h.1, h.2.2.1.mpr ?_⟩
  decide

/-- C2: ADD of a and b followed by SUB of b from the masked sum gives back a in the
low `bits` bits, for any flags before either step. -/
theorem add_sub_roundtrip (bits a b f : Nat) (s : State) (hb : bits = 8 ∨ bits = 16)
    (ha : a < 2 ^ bits) (hb2 : b < 2 ^ bits) :
    (sub bits { add bits { s with cpu_dest := a, cpu_src := b, cpu_alu_op := 0 } with
        cpu_dest := (add bits { s with cpu_dest := a, cpu_src := b, cpu_alu_op := 0 }).cpu_data
                      % 2 ^ bits,
        cpu_src := b, cpu_alu_op := 5, flags := f }).cpu_data % 2 ^ bits = a := by
  rw [(sub_flags_tb bits _).1]
  simp only [(add_flags_tb bits _).1]
  rcases hb with rfl | rfl <;> norm_num at ha hb2 ⊢ <;> omega

/-- Witness of C2: 0xFF + 0x02 wraps to 0x01 and 0x01 - 0x02 gives back 0xFF. -/
theorem add_sub_roundtrip_witness :
    (sub 8 { add 8 { init_state with cpu_dest := 0xFF, cpu_src := 2, cpu_alu_op := 0 } with
        cpu_dest := (add 8 { init_state with cpu_dest := 0xFF, cpu_src := 2, cpu_alu_op := 0 }).cpu_data
                      % 2 ^ 8,
        cpu_src := 2, cpu_alu_op := 5, flags := 0 }).cpu_data % 2 ^ 8 = 0xFF :=
  add_sub_roundtrip 8 0xFF 2 0 init_state (Or.inl rfl) (by decide) (by decide)

theorem alu_op_sbb (bits : Nat) (s : State) (hop : s.cpu_alu_op = 3) :
    alu_op bits s = sub bits (if (s.flags &&& C_FLAG) ≠ 0 then inc_src s else s) := by
  unfold alu_op
  rw [hop]

theorem alu_op_adc (bits : Nat) (s : State) (hop : s.cpu_alu_op = 2) :
    alu_op bits s = add bits (if (s.flags &&& C_FLAG) ≠ 0 then inc_src s else s) := by
  unfold alu_op
  rw [hop]

/-- C3: SBB (cpu_alu_op = 3) leaves dest - src - carry modulo 2^bits and sets C iff
dest < src + carry; with src = 2^bits - 1 and carry set the value is dest and C stays set. -/
theorem sbb_result_and_borrow (bits : Nat) (s : State) (hb : bits = 8 ∨ bits = 16)
    (hd : s.cpu_dest < 2 ^ bits) (hs : s.cpu_src < 2 ^ bits) (hop : s.cpu_alu_op = 3) :
    (((alu_op bits s).cpu_data : Int) % 2 ^ bits
        = ((s.cpu_dest : Int) - s.cpu_src - (if s.flags &&& C_FLAG ≠ 0 then 1 else 0)) % 2 ^ bits) ∧
    ((alu_op bits s).flags &&& C_FLAG ≠ 0 ↔
        s.cpu_dest < s.cpu_src + (if s.flags &&& C_FLAG ≠ 0 then 1 else 0)) ∧
    (s.cpu_src = 2 ^ bits - 1 → s.flags &&& C_FLAG ≠ 0 →
        (alu_op bits s).cpu_data % 2 ^ bits = s.cpu_dest ∧ (alu_op bits s).flags &&& C_FLAG ≠ 0) := by
  rw [alu_op_sbb bits s hop]
  by_cases hcin : s.flags &&& C_FLAG ≠ 0
  · have hbit : s.flags.testBit 0 = true := (flag_tb _ C_FLAG 0 rfl).mp hcin
    rw [if_pos hcin]
    obtain ⟨hdat, -, -, hc⟩ := sub_flags_tb bits (inc_src s)
    have hfl := flag_tb (sub bits (inc_src s)).flags C_FLAG 0 rfl
    simp only [hfl, hc, hdat]
    have e1 : (inc_src s).cpu_src = (s.cpu_src + 1) % 4294967296 := rfl
    have e2 : (inc_src s).cpu_dest = s.cpu_dest := rfl
    have e3 : (inc_src s).cpu_alu_op = s.cpu_alu_op := rfl
    have e4 : (inc_src s).flags = s.flags := rfl
    simp only [e1, e2, e3, e4, hcin, if_true, hop, hbit, mask_eq_mod, true_and, and_true,
      not_false_eq_true, forall_true_left, if_pos hcin]
    clear hdat hc hfl e1 e2 e3 e4
    rcases hb with rfl | rfl
    · norm_num at hd hs ⊢
      refine ⟨by omega, by omega, ?_⟩
      intro hsrc _
      omega
    · norm_num at hd hs ⊢
      refine ⟨by omega, by omega, ?_⟩
      intro hsrc _
      omega
  · have hbit : ¬ (s.flags.testBit 0 = true) := fun h => hcin ((flag_tb _ C_FLAG 0 rfl).mpr h)
    rw [if_neg hcin]
    obtain ⟨hdat, -, -, hc⟩ := sub_flags_tb bits s
    have hfl := flag_tb (sub bits s).flags C_FLAG 0 rfl
    simp only [hfl, hc, hdat]
    simp only [if_neg hcin, if_false, hop, hbit, mask_eq_mod, and_false, true_and,
      decide_eq_true_eq, and_true]
    clear hdat hc hfl
    rcases hb with rfl | rfl
    · norm_num at hd hs ⊢
      omega
    · norm_num at hd hs ⊢
      omega

/-- Witness of C3: 0x10 - 0xFF - 1 on bytes with the carry set. -/
theorem sbb_result_and_borrow_witness :
    (alu_op 8 { init_state with cpu_alu_op := 3, cpu_dest := 0x10, cpu_src := 0xFF,
                                flags := 3 }).cpu_data % 2 ^ 8 = 0x10 ∧
    (alu_op 8 { init_state with cpu_alu_op := 3, cpu_dest := 0x10, cpu_src := 0xFF,
                                flags := 3 }).flags &&& C_FLAG ≠ 0 :=
  (sbb_result_and_borrow 8
    { init_state with cpu_alu_op := 3, cpu_dest := 0x10, cpu_src := 0xFF, flags := 3 }
    (Or.inl rfl) (by decide) (by decide) rfl).2.2 (by decide) (by decide)

/-- C4 at the failing input: ADC of 0x00 and 0x7F with the carry set gives 0x80, a
signed sum of 128 that does not fit a byte, yet `alu_op` leaves V clear. -/
theorem adc_overflow_missed :
    (alu_op 8 { init_state with cpu_alu_op := 2, cpu_dest := 0, cpu_src := 0x7F,
                                flags := 3 }).cpu_data % 2 ^ 8 = 0x80 ∧
    (alu_op 8 { init_state with cpu_alu_op := 2, cpu_dest := 0, cpu_src := 0x7F,
                                flags := 3 }).flags &&& V_FLAG = 0 ∧
    ¬ (signed_val 8 0 + signed_val 8 0x7F + 1 < 2 ^ (8 - 1)) := by
  decide

/-- C4, second failing input: ADC of 0x80 and 0x7F with the carry set gives 0x00, a
signed sum of 0 that fits, yet `alu_op` sets V. -/
theorem adc_overflow_spurious :
    (alu_op 8 { init_state with cpu_alu_op := 2, cpu_dest := 0x80, cpu_src := 0x7F,
                                flags := 3 }).flags &&& V_FLAG ≠ 0 ∧
    (-(2 ^ (8 - 1) : Int) ≤ signed_val 8 0x80 + signed_val 8 0x7F + 1 ∧
      signed_val 8 0x80 + signed_val 8 0x7F + 1 < 2 ^ (8 - 1)) := by
  decide

/-- C5: `load_cs` and `load_seg` store selector `seg` and base `seg << 4` (below 2^20)
in the register they write, and keep `base == selector << 4` on all four registers. -/
theorem load_seg_base_invariant (seg i : Nat) (s : State) (hseg : seg < 65536) (hi : i < 4) :
    (load_cs seg s).seg_cs.seg = seg ∧ (load_cs seg s).seg_cs.base = seg <<< 4 ∧
    (load_cs seg s).seg_cs.base < 2 ^ 20 ∧
    (get_opseg i (load_seg seg i s)).seg = seg ∧
    (get_opseg i (load_seg seg i s)).base = seg <<< 4 ∧
    (get_opseg i (load_seg seg i s)).base < 2 ^ 20 ∧
    (segs_ok s → segs_ok (load_cs seg s)) ∧
    (segs_ok s → segs_ok (load_seg seg i s)) := by
  have h1 : seg % 65536 = seg := Nat.mod_eq_of_lt hseg
  have h2 : seg &&& 0xffff = seg := by
    have := Nat.and_pow_two_sub_one_eq_mod seg 16
    norm_num at this
    rw [this]; exact h1
  have h3 : seg <<< 4 < 2 ^ 20 := by
    rw [Nat.shiftLeft_eq]; omega
  have h4 : (seg <<< 4) % 4294967296 = seg <<< 4 := Nat.mod_eq_of_lt (by omega)
  have hcs : (load_cs seg s).seg_cs = ⟨seg <<< 4, seg⟩ := by
    simp [load_cs, h1, h2, h4]
  have hls : load_seg seg i s = set_opseg i ⟨seg <<< 4, seg⟩ s := by
    simp [load_seg, h1, h2, h4]
  have hget : get_opseg i (set_opseg i ⟨seg <<< 4, seg⟩ s) = ⟨seg <<< 4, seg⟩ := by
    interval_cases i <;> rfl
  refine ⟨by rw [hcs], by rw [hcs], by rw [hcs]; exact h3, by rw [hls, hget], by rw [hls, hget],
    by rw [hls, hget]; exact h3, ?_, ?_⟩
  · intro hok j hj
    have hj0 := hok j hj
    interval_cases j
    · exact hj0
    · show (load_cs seg s).seg_cs.base = (load_cs seg s).seg_cs.seg <<< 4
      rw [hcs]
    · exact hj0
    · exact hj0
  · intro hok j hj
    have hj0 := hok j hj
    rw [hls]
    interval_cases i <;> interval_cases j <;> first | exact hj0 | rfl

/-- Witness of C5: loading selector 0xFFFF into SS of the initial state. -/
theorem load_seg_base_invariant_witness :
    (get_opseg 2 (load_seg 0xFFFF 2 init_state)).base = 0xFFFF0 ∧
    segs_ok (load_seg 0xFFFF 2 init_state) := by
  have h := load_seg_base_invariant 0xFFFF 2 init_state (by decide) (by decide)
  refine ⟨h.2.2.2.2.1, h.2.2.2.2.2.2.2 ?_⟩
  intro j hj
  interval_cases j <;> rfl

theorem pfq_schedule_frame (v : Nat) (s : State) :
    (pfq_schedule v s).pfq_pos = s.pfq_pos ∧ (pfq_schedule v s).pfq_size = s.pfq_size ∧
    (pfq_schedule v s).pfq_ip = s.pfq_ip ∧ (pfq_schedule v s).pfq = s.pfq :=
  ⟨rfl, rfl, rfl, rfl⟩

theorem pfq_write_size (s : State) : (pfq_write s).pfq_size = s.pfq_size := by
  unfold pfq_write
  simp only [readmemwf, readmembf]
  split_ifs <;> simp [pfq_schedule]

theorem pfq_write_inv (s : State) (hinv : pfq_inv s) : pfq_inv (pfq_write s) := by
  unfold pfq_inv at hinv ⊢
  unfold pfq_write
  simp only [readmemwf, readmembf]
  split_ifs <;> simp [pfq_schedule] at * <;> omega

theorem pfq_read_inv (s : State) (hinv : pfq_inv s) :
    pfq_inv (pfq_read s).2 ∧ (pfq_read s).2.pfq_size = s.pfq_size := by
  unfold pfq_inv at hinv ⊢
  unfold pfq_read
  simp only
  split_ifs <;> refine ⟨⟨?_, ?_⟩, trivial⟩ <;> omega

/-- C6: with pfq_size 4 or 6, `0 <= pfq_pos <= pfq_size` is kept by pfq_write, pfq_add,
pfq_read and pfq_clear (which leave pfq_size alone), and every buffer index those
operations touch lies in `[0, pfq_size)`. -/
theorem pfq_ops_keep_bounds (s : State) (hsz : s.pfq_size = 4 ∨ s.pfq_size = 6)
    (hinv : pfq_inv s) :
    (pfq_inv (pfq_write s) ∧ (pfq_write s).pfq_size = s.pfq_size) ∧
    (pfq_inv (pfq_add s) ∧ (pfq_add s).pfq_size = s.pfq_size) ∧
    (pfq_inv (pfq_read s).2 ∧ (pfq_read s).2.pfq_size = s.pfq_size) ∧
    (pfq_inv (pfq_clear s) ∧ (pfq_clear s).pfq_size = s.pfq_size) ∧
    (∀ i ∈ pfq_write_indices s, 0 ≤ i ∧ i < s.pfq_size) ∧
    (∀ i ∈ pfq_read_indices s, 0 ≤ i ∧ i < s.pfq_size) := by
  refine ⟨⟨pfq_write_inv s hinv, pfq_write_size s⟩, ?_, pfq_read_inv s hinv, ?_, ?_, ?_⟩
  · unfold pfq_add
    split_ifs
    · exact ⟨pfq_write_inv s hinv, pfq_write_size s⟩
    · exact ⟨hinv, rfl⟩
  · unfold pfq_inv at hinv ⊢
    refine ⟨⟨?_, ?_⟩, rfl⟩
    · show (0 : Int) ≤ 0
      omega
    · show (0 : Int) ≤ s.pfq_size
      omega
  · intro i hi
    unfold pfq_inv at hinv
    unfold pfq_write_indices at hi
    simp only at hi
    split_ifs at hi with h1 h2
    · simp at hi
      omega
    · simp at hi
      omega
    · simp at hi
  · intro i hi
    unfold pfq_read_indices at hi
    rcases hsz with h | h
    · rw [h] at hi ⊢
      have : ((4 : Int) - 1).toNat = 3 := by decide
      rw [this] at hi
      simp [List.range, List.range.loop] at hi
      omega
    · rw [h] at hi ⊢
      have : ((6 : Int) - 1).toNat = 5 := by decide
      rw [this] at hi
      simp [List.range, List.range.loop] at hi
      omega

/-- Witness of C6: the initial state (empty 4-byte queue). -/
theorem pfq_ops_keep_bounds_witness :
    pfq_inv (pfq_write init_state) ∧ (pfq_write init_state).pfq_size = init_state.pfq_size :=
  (pfq_ops_keep_bounds init_state (Or.inl rfl) ⟨by decide, by decide⟩).1

/-! ## Frame lemmas: timers, DMA and bus accesses leave the core alone -/

theorem clock_end_core (env : Env) (s : State) : (clock_end env s).core = s.core := by
  unfold clock_end
  simp only
  split_ifs <;> rfl

theorem process_timers_core (env : Env) (s : State) : (process_timers env s).core = s.core := by
  unfold process_timers clock_start
  exact clock_end_core env s

theorem cycles_forward_core (env : Env) (c : Int) (s : State) :
    (cycles_forward env c s).core = s.core := by
  unfold cycles_forward
  simp only
  split_ifs
  · rw [process_timers_core]; rfl
  · rfl

theorem resub_loop_core (n : Nat) (s : State) : (resub_loop n s).core = s.core := by
  induction n generalizing s with
  | zero => rfl
  | succ n ih =>
    unfold resub_loop
    rw [ih]
    split_ifs <;> rfl

theorem resub_cycles_core (env : Env) (c : Int) (s : State) :
    (resub_cycles env c s).core = s.core := by
  unfold resub_cycles
  simp only
  rw [process_timers_core]
  split_ifs
  · exact resub_loop_core _ s
  · rfl

theorem bus_outb_core (env : Env) (p v : Nat) (s : State) : (bus_outb env p v s).core = s.core := by
  unfold bus_outb
  simp only
  rw [resub_cycles_core]; rfl

theorem bus_outw_core (env : Env) (p v : Nat) (s : State) : (bus_outw env p v s).core = s.core := by
  unfold bus_outw
  simp only
  rw [resub_cycles_core]; rfl

theorem bus_inb_core (env : Env) (p : Nat) (s : State) : (bus_inb env p s).2.core = s.core := by
  unfold bus_inb
  simp only
  rw [resub_cycles_core]; rfl

theorem bus_inw_core (env : Env) (p : Nat) (s : State) : (bus_inw env p s).2.core = s.core := by
  unfold bus_inw
  simp only
  rw [resub_cycles_core]; rfl

theorem bus_do_io_core (env : Env) (io : Nat) (s : State) : (bus_do_io env io s).core = s.core := by
  unfold bus_do_io
  simp only
  rw [process_timers_core]
  split_ifs
  · rw [bus_outw_core]; rfl
  · rw [bus_outb_core]; rfl
  · rw [bus_outb_core]; rfl
  · exact (bus_inw_core env _ _).trans rfl
  · exact (bus_inb_core env _ _).trans rfl
  · exact (bus_inb_core env _ _).trans rfl

theorem bus_do_mem_core (io : Nat) (s : State) : (bus_do_mem io s).core = s.core := by
  unfold bus_do_mem
  simp only
  split_ifs <;> rfl

theorem run_dma_cycle_core (idle : Nat) (s : State) : (run_dma_cycle idle s).core = s.core := by
  unfold run_dma_cycle
  simp only
  split_ifs <;> rfl

theorem cycles_idle_loop_core (env : Env) (n : Nat) (s : State) :
    (cycles_idle_loop env n s).core = s.core := by
  induction n generalizing s with
  | zero => rfl
  | succ n ih =>
    unfold cycles_idle_loop
    rw [ih, run_dma_cycle_core, cycles_forward_core]

theorem cycles_idle_core (env : Env) (c : Int) (s : State) :
    (cycles_idle env c s).core = s.core :=
  cycles_idle_loop_core env _ s

theorem bus_cycle_eq_mod (s : State) : BUS_CYCLE s = s.biu_cycles % 4 := by
  unfold BUS_CYCLE
  have := Nat.and_pow_two_sub_one_eq_mod s.biu_cycles 2
  norm_num at this
  exact this

theorem bus_cycle_of_core {s t : State} (h : t.core = s.core) : BUS_CYCLE t = BUS_CYCLE s := by
  unfold BUS_CYCLE
  rw [show t.biu_cycles = s.biu_cycles from congrArg Core.biu_cycles h]

theorem ready_wait_core (env : Env) (s : State) : (bus_ready env s).core = s.core := by
  unfold bus_ready
  split_ifs
  · exact cycles_forward_core env _ s
  · rfl

/-- A bus cycle that is not a code fetch leaves the core alone. -/
theorem run_bus_cycle_noncode (env : Env) (io : Nat) (s : State)
    (h : (io &&& BUS_ACCESS_TYPE) ≠ BUS_CODE) : (run_bus_cycle env io s).core = s.core := by
  unfold run_bus_cycle
  have h1 := ready_wait_core env s
  generalize bus_ready env s = s1 at h1
  split_ifs <;> (try simp only) <;> (try split) <;>
    first
    | exact h1
    | rfl
    | (rw [bus_do_io_core]; exact h1)
    | (rw [bus_do_mem_core]; exact h1)

theorem ctl_of_core {s t : State} (h : t.core = s.core) : t.ctl = s.ctl :=
  congrArg Core.toCtl h

theorem pfq_write_ctl (s : State) :
    (pfq_write s).ctl = s.ctl ∧ (pfq_write s).biu_cycles = s.biu_cycles := by
  unfold pfq_write
  simp only [readmemwf, readmembf]
  split_ifs <;> exact ⟨rfl, rfl⟩

theorem pfq_add_ctl (s : State) :
    (pfq_add s).ctl = s.ctl ∧ (pfq_add s).biu_cycles = s.biu_cycles := by
  unfold pfq_add
  split_ifs
  · exact pfq_write_ctl s
  · exact ⟨rfl, rfl⟩

/-- A code fetch into an empty queue deposits at least one byte. -/
theorem pfq_add_fills (s : State) (hpre : s.prefetching ≠ 0) (hpos : s.pfq_pos = 0)
    (hsz : s.pfq_size = 4 ∨ s.pfq_size = 6) : 1 ≤ (pfq_add s).pfq_pos := by
  unfold pfq_add
  have hlt : s.pfq_pos < s.pfq_size := by omega
  rw [if_pos ⟨hpre, hlt⟩]
  unfold pfq_write
  simp only [readmemwf, readmembf]
  generalize (s.is8086 && decide (s.pfq_ip &&& 1 = 0)) = fw
  cases fw
  · simp only [Bool.false_eq_true, false_and, if_false, true_and, if_pos hlt]
    split_ifs <;> simp [pfq_schedule] <;> omega
  · have e1 : s.pfq_pos < s.pfq_size - 1 := by omega
    simp only [true_and, if_pos e1]
    split_ifs <;> simp [pfq_schedule] <;> omega

theorem run_bus_cycle_ctl (env : Env) (io : Nat) (s : State) :
    (run_bus_cycle env io s).ctl = s.ctl ∧ (run_bus_cycle env io s).biu_cycles = s.biu_cycles := by
  unfold run_bus_cycle
  have h1 := ready_wait_core env s
  generalize bus_ready env s = s1 at h1
  have h2 : s1.ctl = s.ctl ∧ s1.biu_cycles = s.biu_cycles :=
    ⟨ctl_of_core h1, congrArg Core.biu_cycles h1⟩
  have hio : ∀ x, (bus_do_io env x s1).ctl = s.ctl ∧ (bus_do_io env x s1).biu_cycles = s.biu_cycles :=
    fun x => ⟨(ctl_of_core (bus_do_io_core env x s1)).trans h2.1,
      (congrArg Core.biu_cycles (bus_do_io_core env x s1)).trans h2.2⟩
  have hmem : ∀ x, (bus_do_mem x s1).ctl = s.ctl ∧ (bus_do_mem x s1).biu_cycles = s.biu_cycles :=
    fun x => ⟨(ctl_of_core (bus_do_mem_core x s1)).trans h2.1,
      (congrArg Core.biu_cycles (bus_do_mem_core x s1)).trans h2.2⟩
  have hadd : (pfq_add s1).ctl = s.ctl ∧ (pfq_add s1).biu_cycles = s.biu_cycles :=
    ⟨(pfq_add_ctl s1).1.trans h2.1, (pfq_add_ctl s1).2.trans h2.2⟩
  split_ifs <;> (try simp only) <;> (try split) <;>
    first
    | exact h2
    | exact ⟨rfl, rfl⟩
    | exact hio _
    | exact hmem _
    | exact hadd
    | exact ⟨trivial, trivial⟩

theorem biu_abort_effect (env : Env) (s : State) :
    (biu_abort env s).ctl = s.ctl ∧ (biu_abort env s).biu_cycles = 0 ∧
    (biu_abort env s).schedule_fetch = 0 ∧ (biu_abort env s).pfq = s.pfq ∧
    (biu_abort env s).pfq_pos = s.pfq_pos ∧ (biu_abort env s).pfq_ip = s.pfq_ip := by
  unfold biu_abort
  simp only
  split_ifs
  · refine ⟨rfl, rfl, ?_, rfl, rfl, rfl⟩
    simp [pfq_schedule]
  · have h := cycles_idle_core env (5 - (BUS_CYCLE s : Int)) s
    have hc := ctl_of_core h
    have h1 := congrArg Core.pfq h
    have h2 := congrArg Core.pfq_pos h
    have h3 := congrArg Core.pfq_ip h
    refine ⟨?_, rfl, ?_, ?_, ?_, ?_⟩
    · exact hc
    · simp [pfq_schedule]
    · exact h1
    · exact h2
    · exact h3

theorem biu_access_ctl (env : Env) (bus init : Nat) (s : State) :
    (biu_access env bus init s).ctl = s.ctl ∧
    (biu_access env bus init s).biu_cycles =
      (if bus ≠ 0 ∧ init ≠ 0 ∧ s.schedule_fetch ≠ 0 then 0 else s.biu_cycles) := by
  unfold biu_access
  simp only
  have h2 := biu_abort_effect env s
  have h1 := run_bus_cycle_ctl env (biu_abort env s).bus_request_type (biu_abort env s)
  split_ifs <;> first
    | exact run_bus_cycle_ctl env _ s
    | exact ⟨h1.1.trans h2.1, h1.2.trans h2.2.1⟩
    | exact ⟨rfl, rfl⟩
    | (exfalso; tauto)

theorem cycles_biu_ctl (env : Env) (bus init : Nat) (s : State) :
    (cycles_biu env bus init s).ctl = s.ctl ∧
    (cycles_biu env bus init s).biu_cycles =
      ((if bus ≠ 0 ∧ init ≠ 0 ∧ s.schedule_fetch ≠ 0 then 0 else s.biu_cycles) + 1) &&& 3 := by
  unfold cycles_biu
  simp only
  generalize hs0 : ({ s with pasv :=
    if bus ≠ 0 ∨ (BUS_CYCLE s = BUS_T1 ∧ s.schedule_fetch ≠ 0) then 0 else 1 } : State) = s0
  have e0 : s0.ctl = s.ctl ∧ s0.biu_cycles = s.biu_cycles ∧ s0.schedule_fetch = s.schedule_fetch := by
    subst hs0; exact ⟨rfl, rfl, rfl⟩
  have h1 := biu_access_ctl env bus init s0
  generalize biu_access env bus init s0 = s1 at h1
  have h2 : (if BUS_CYCLE s1 = BUS_T2 then pfq_schedule 1 s1 else s1).ctl = s1.ctl ∧
      (if BUS_CYCLE s1 = BUS_T2 then pfq_schedule 1 s1 else s1).biu_cycles = s1.biu_cycles := by
    split_ifs <;> exact ⟨rfl, rfl⟩
  generalize (if BUS_CYCLE s1 = BUS_T2 then pfq_schedule 1 s1 else s1) = s2 at h2
  have h3 := run_dma_cycle_core s2.pasv s2
  refine ⟨?_, ?_⟩
  · exact (ctl_of_core h3).trans (h2.1.trans (h1.1.trans e0.1))
  · have e3 : (run_dma_cycle s2.pasv s2).biu_cycles = s2.biu_cycles :=
      congrArg Core.biu_cycles h3
    show ((run_dma_cycle s2.pasv s2).biu_cycles + 1) &&& 3 = _
    rw [e3, h2.2, h1.2, e0.2.1, e0.2.2]

theorem cycles_pasv_ctl (s : State) :
    (cycles_pasv s).ctl = s.ctl ∧ (cycles_pasv s).biu_cycles = s.biu_cycles := by
  unfold cycles_pasv
  have h := run_dma_cycle_core 1 (pfq_schedule 1 s)
  exact ⟨(ctl_of_core h).trans rfl, (congrArg Core.biu_cycles h).trans rfl⟩

theorem wait_tick_ctl (env : Env) (bus d : Nat) (s : State) :
    (wait_tick env bus d s).ctl = s.ctl := by
  unfold wait_tick
  simp only
  have h := cycles_forward_core env 1
    (if bus = 0 ∧ s.schedule_fetch = 0 ∧ BUS_CYCLE s = BUS_T1 then cycles_pasv s
      else cycles_biu env bus (if d = 0 then 1 else 0) s)
  rw [ctl_of_core h]
  split_ifs <;> first
    | exact (cycles_pasv_ctl s).1
    | exact (cycles_biu_ctl env bus _ s).1

theorem wait_from_ctl (env : Env) (bus n d : Nat) (s : State) :
    (wait_from env bus n d s).ctl = s.ctl := by
  induction n generalizing d s with
  | zero => rfl
  | succ n ih =>
    unfold wait_from
    rw [ih, wait_tick_ctl]

theorem wait_ctl (env : Env) (c : Int) (bus : Nat) (s : State) :
    (wait env c bus s).ctl = s.ctl :=
  wait_from_ctl env bus _ 0 s

/-- The phase after one tick of `wait`. -/
theorem wait_tick_phase (env : Env) (bus d : Nat) (s : State) :
    BUS_CYCLE (wait_tick env bus d s) =
      if bus = 0 ∧ s.schedule_fetch = 0 ∧ BUS_CYCLE s = BUS_T1 then BUS_CYCLE s
      else if bus ≠ 0 ∧ d = 0 ∧ s.schedule_fetch ≠ 0 then BUS_T2
      else (BUS_CYCLE s + 1) % 4 := by
  have h := cycles_forward_core env 1
    (if bus = 0 ∧ s.schedule_fetch = 0 ∧ BUS_CYCLE s = BUS_T1 then cycles_pasv s
      else cycles_biu env bus (if d = 0 then 1 else 0) s)
  have hb : BUS_CYCLE (wait_tick env bus d s) = BUS_CYCLE
    (if bus = 0 ∧ s.schedule_fetch = 0 ∧ BUS_CYCLE s = BUS_T1 then cycles_pasv s
      else cycles_biu env bus (if d = 0 then 1 else 0) s) := bus_cycle_of_core h
  rw [hb]
  by_cases hp : bus = 0 ∧ s.schedule_fetch = 0 ∧ BUS_CYCLE s = BUS_T1
  · rw [if_pos hp, if_pos hp]
    simp only [BUS_CYCLE, (cycles_pasv_ctl s).2]
  · rw [if_neg hp, if_neg hp]
    simp only [bus_cycle_eq_mod, (cycles_biu_ctl env bus _ s).2]
    have h3 : ∀ x : Nat, x &&& 3 = x % 4 := by
      intro x
      have := Nat.and_pow_two_sub_one_eq_mod x 2
      norm_num at this
      exact this
    rw [h3]
    by_cases hd : d = 0
    · simp only [hd, if_true, ne_eq, one_ne_zero, not_false_eq_true, true_and]
      split_ifs <;> simp [BUS_T2]
    · simp only [hd, if_false, ne_eq, not_true_eq_false, false_and, and_false]
      simp

theorem run_bus_cycle_code_other (env : Env) (s : State) (h : BUS_CYCLE s ≠ 2) :
    (run_bus_cycle env BUS_CODE s).core = s.core := by
  unfold run_bus_cycle
  have h1 := ready_wait_core env s
  have hb := bus_cycle_of_core h1
  generalize bus_ready env s = s1 at h1 hb
  have c1 : (BUS_CODE &&& BUS_ACCESS_TYPE) = BUS_CODE := by decide
  have c2 : ¬ (BUS_CODE = BUS_IO) := by decide
  have c3 : ¬ (BUS_CODE = BUS_MEM) := by decide
  have c4 : ¬ (BUS_CODE &&& BUS_CODE = 0) := by decide
  by_cases hsf : s.schedule_fetch ≠ 0
  · rw [if_pos ⟨by decide, Or.inr hsf⟩]
    simp only [c1, c2, c3, if_false, if_true]
    split
    · exact h1
    · exact h1
    · rename_i heq
      exact absurd (hb.symm.trans heq) h
    · exact h1
  · rw [if_neg (fun hh => hh.2.elim c4 hsf)]

theorem run_bus_cycle_code_T3 (env : Env) (s : State) (hsf : s.schedule_fetch ≠ 0)
    (h : BUS_CYCLE s = 2) :
    run_bus_cycle env BUS_CODE s = { pfq_add (bus_ready env s) with last_was_code := 1 } := by
  unfold run_bus_cycle
  have h1 := ready_wait_core env s
  have hb := bus_cycle_of_core h1
  have c0 : BUS_CODE ≠ 0 := by decide
  have c1 : (BUS_CODE &&& BUS_ACCESS_TYPE) = BUS_CODE := by decide
  rw [if_pos ⟨c0, Or.inr hsf⟩]
  simp only [c1, if_true]
  rw [hb, h]

theorem biu_access_idle_core (env : Env) (init : Nat) (s : State)
    (h : ¬ (s.schedule_fetch ≠ 0 ∧ BUS_CYCLE s = 2)) :
    (biu_access env 0 init s).core = s.core := by
  unfold biu_access
  have h0 : ¬ ((0 : Nat) ≠ 0) := by decide
  rw [if_neg h0]
  split_ifs with hsf
  · exact run_bus_cycle_code_other env s (fun hh => h ⟨hsf, hh⟩)
  · rfl

theorem cycles_biu_idle_other (env : Env) (init : Nat) (s : State)
    (h : ¬ (s.schedule_fetch ≠ 0 ∧ BUS_CYCLE s = 2)) :
    (cycles_biu env 0 init s).pfq = s.pfq ∧ (cycles_biu env 0 init s).pfq_pos = s.pfq_pos ∧
    (cycles_biu env 0 init s).pfq_ip = s.pfq_ip ∧
    (cycles_biu env 0 init s).schedule_fetch =
      (if BUS_CYCLE s = 1 then (if s.prefetching ≠ 0 ∧ s.pfq_pos < s.pfq_size then 1 else 0)
       else s.schedule_fetch) := by
  unfold cycles_biu
  simp only
  generalize hs0 : ({ s with pasv :=
    if (0 : Nat) ≠ 0 ∨ (BUS_CYCLE s = BUS_T1 ∧ s.schedule_fetch ≠ 0) then 0 else 1 } : State) = s0
  have e0 : s0.core = s.core := by subst hs0; rfl
  have hb0 : BUS_CYCLE s0 = BUS_CYCLE s := bus_cycle_of_core e0
  have hsf0 : s0.schedule_fetch = s.schedule_fetch := congrArg Core.schedule_fetch e0
  have h1 := biu_access_idle_core env init s0 (by rw [hsf0, hb0]; exact h)
  have h1s : (biu_access env 0 init s0).core = s.core := h1.trans e0
  generalize biu_access env 0 init s0 = s1 at h1s
  have hb1 : BUS_CYCLE s1 = BUS_CYCLE s := bus_cycle_of_core h1s
  have q1 := congrArg Core.pfq h1s
  have q2 := congrArg Core.pfq_pos h1s
  have q3 := congrArg Core.pfq_ip h1s
  have q4 := congrArg Core.schedule_fetch h1s
  have q5 := congrArg Core.prefetching h1s
  have q6 := congrArg Core.pfq_size h1s
  simp only [State.core] at q1 q2 q3 q4 q5 q6
  rw [hb1]
  by_cases hT2 : BUS_CYCLE s = 1
  · have hT2b : BUS_CYCLE s = BUS_T2 := hT2
    rw [if_pos hT2b, if_pos hT2]
    have h3 := run_dma_cycle_core (pfq_schedule 1 s1).pasv (pfq_schedule 1 s1)
    have r1 := congrArg Core.pfq h3
    have r2 := congrArg Core.pfq_pos h3
    have r3 := congrArg Core.pfq_ip h3
    have r4 := congrArg Core.schedule_fetch h3
    simp only [State.core] at r1 r2 r3 r4
    refine ⟨r1.trans q1, r2.trans q2, r3.trans q3, r4.trans ?_⟩
    simp [pfq_schedule, q2, q5, q6]
  · have hT2b : ¬ (BUS_CYCLE s = BUS_T2) := hT2
    rw [if_neg hT2b, if_neg hT2]
    have h3 := run_dma_cycle_core s1.pasv s1
    have r1 := congrArg Core.pfq h3
    have r2 := congrArg Core.pfq_pos h3
    have r3 := congrArg Core.pfq_ip h3
    have r4 := congrArg Core.schedule_fetch h3
    simp only [State.core] at r1 r2 r3 r4
    exact ⟨r1.trans q1, r2.trans q2, r3.trans q3, r4.trans q4⟩

theorem cycles_biu_idle_T3 (env : Env) (init : Nat) (s : State) (hsf : s.schedule_fetch ≠ 0)
    (h : BUS_CYCLE s = 2) (hpre : s.prefetching ≠ 0) (hpos : s.pfq_pos = 0)
    (hsz : s.pfq_size = 4 ∨ s.pfq_size = 6) :
    1 ≤ (cycles_biu env 0 init s).pfq_pos := by
  unfold cycles_biu
  simp only
  generalize hs0 : ({ s with pasv :=
    if (0 : Nat) ≠ 0 ∨ (BUS_CYCLE s = BUS_T1 ∧ s.schedule_fetch ≠ 0) then 0 else 1 } : State) = s0
  have e0 : s0.core = s.core := by subst hs0; rfl
  have hb0 : BUS_CYCLE s0 = 2 := (bus_cycle_of_core e0).trans h
  have hsf0 : s0.schedule_fetch ≠ 0 := by
    rw [show s0.schedule_fetch = s.schedule_fetch from congrArg Core.schedule_fetch e0]
    exact hsf
  have hacc : biu_access env 0 init s0 = { pfq_add (bus_ready env s0) with last_was_code := 1 } := by
    unfold biu_access
    have h0 : ¬ ((0 : Nat) ≠ 0) := by decide
    rw [if_neg h0, if_pos hsf0]
    exact run_bus_cycle_code_T3 env s0 hsf0 hb0
  have er : (bus_ready env s0).core = s.core := (ready_wait_core env s0).trans e0
  have p1 : (bus_ready env s0).prefetching ≠ 0 := by
    rw [show (bus_ready env s0).prefetching = s.prefetching from congrArg Core.prefetching er]
    exact hpre
  have p2 : (bus_ready env s0).pfq_pos = 0 := by
    rw [show (bus_ready env s0).pfq_pos = s.pfq_pos from congrArg Core.pfq_pos er]
    exact hpos
  have p3 : (bus_ready env s0).pfq_size = 4 ∨ (bus_ready env s0).pfq_size = 6 := by
    rw [show (bus_ready env s0).pfq_size = s.pfq_size from congrArg Core.pfq_size er]
    exact hsz
  have hfill := pfq_add_fills (bus_ready env s0) p1 p2 p3
  have h1 : 1 ≤ (biu_access env 0 init s0).pfq_pos := by
    rw [hacc]; exact hfill
  generalize biu_access env 0 init s0 = s1 at h1
  have h2 : 1 ≤ (if BUS_CYCLE s1 = BUS_T2 then pfq_schedule 1 s1 else s1).pfq_pos := by
    split_ifs
    · exact h1
    · exact h1
  generalize (if BUS_CYCLE s1 = BUS_T2 then pfq_schedule 1 s1 else s1) = s2 at h2
  have h3 := congrArg Core.pfq_pos (run_dma_cycle_core s2.pasv s2)
  simp only [State.core] at h3
  show 1 ≤ (run_dma_cycle s2.pasv s2).pfq_pos
  rw [h3]; exact h2

theorem wait_one (env : Env) (bus : Nat) (s : State) : wait env 1 bus s = wait_tick env bus 0 s := rfl

theorem refill_pending_of_ctl {s t : State} (h : t.ctl = s.ctl) (hp : t.pfq_pos = s.pfq_pos)
    (hs : refill_pending s) : refill_pending t := by
  have h1 : t.prefetching = s.prefetching := congrArg Ctl.prefetching h
  have h2 : t.pfq_size = s.pfq_size := congrArg Ctl.pfq_size h
  unfold refill_pending at hs ⊢
  rw [h1, h2, hp]; exact hs

theorem wait_tick_idle_eq (env : Env) (d : Nat) (s : State) :
    wait_tick env 0 d s = cycles_forward env 1
      (if s.schedule_fetch = 0 ∧ BUS_CYCLE s = 0 then cycles_pasv s
       else cycles_biu env 0 (if d = 0 then 1 else 0) s) := by
  unfold wait_tick
  simp [BUS_T1]

/-- An idle tick that is not the T3 of a scheduled code fetch keeps the queue. -/
theorem idle_tick_other (env : Env) (d : Nat) (s : State)
    (h : ¬ (s.schedule_fetch ≠ 0 ∧ BUS_CYCLE s = 2)) :
    (wait_tick env 0 d s).pfq = s.pfq ∧ (wait_tick env 0 d s).pfq_pos = s.pfq_pos ∧
    (wait_tick env 0 d s).pfq_ip = s.pfq_ip ∧
    (wait_tick env 0 d s).schedule_fetch =
      (if (s.schedule_fetch = 0 ∧ BUS_CYCLE s = 0) ∨ BUS_CYCLE s = 1
       then (if s.prefetching ≠ 0 ∧ s.pfq_pos < s.pfq_size then 1 else 0)
       else s.schedule_fetch) := by
  rw [wait_tick_idle_eq]
  generalize hin : (if s.schedule_fetch = 0 ∧ BUS_CYCLE s = 0 then cycles_pasv s
      else cycles_biu env 0 (if d = 0 then 1 else 0) s) = t
  have hc := cycles_forward_core env 1 t
  have r1 := congrArg Core.pfq hc
  have r2 := congrArg Core.pfq_pos hc
  have r3 := congrArg Core.pfq_ip hc
  have r4 := congrArg Core.schedule_fetch hc
  simp only [State.core] at r1 r2 r3 r4
  rw [r1, r2, r3, r4]
  subst hin
  by_cases hp : s.schedule_fetch = 0 ∧ BUS_CYCLE s = 0
  · rw [if_pos hp, if_pos (Or.inl hp)]
    unfold cycles_pasv
    have h3 := run_dma_cycle_core 1 (pfq_schedule 1 s)
    have q1 := congrArg Core.pfq h3
    have q2 := congrArg Core.pfq_pos h3
    have q3 := congrArg Core.pfq_ip h3
    have q4 := congrArg Core.schedule_fetch h3
    simp only [State.core] at q1 q2 q3 q4
    refine ⟨q1, q2, q3, q4.trans ?_⟩
    simp [pfq_schedule]
  · rw [if_neg hp]
    obtain ⟨q1, q2, q3, q4⟩ := cycles_biu_idle_other env (if d = 0 then 1 else 0) s h
    refine ⟨q1, q2, q3, q4.trans ?_⟩
    by_cases hT2 : BUS_CYCLE s = 1
    · rw [if_pos hT2, if_pos (Or.inr hT2)]
    · rw [if_neg hT2, if_neg (fun hh => hh.elim hp hT2)]

/-- The T3 tick of a scheduled code fetch puts at least one byte in an empty queue. -/
theorem idle_tick_T3 (env : Env) (d : Nat) (s : State) (hsf : s.schedule_fetch ≠ 0)
    (h : BUS_CYCLE s = 2) (hP : refill_pending s) :
    1 ≤ (wait_tick env 0 d s).pfq_pos := by
  rw [wait_tick_idle_eq]
  have hp2 : ¬ (s.schedule_fetch = 0 ∧ BUS_CYCLE s = 0) := fun hh => hsf hh.1
  rw [if_neg hp2]
  have hc := congrArg Core.pfq_pos
    (cycles_forward_core env 1 (cycles_biu env 0 (if d = 0 then 1 else 0) s))
  simp only [State.core] at hc
  rw [hc]
  exact cycles_biu_idle_T3 env _ s hsf h hP.1 hP.2.1 hP.2.2

theorem idle_tick_phase (env : Env) (d : Nat) (s : State) :
    BUS_CYCLE (wait_tick env 0 d s) =
      if s.schedule_fetch = 0 ∧ BUS_CYCLE s = 0 then 0 else (BUS_CYCLE s + 1) % 4 := by
  rw [wait_tick_phase]
  by_cases hp : s.schedule_fetch = 0 ∧ BUS_CYCLE s = 0
  · rw [if_pos ⟨rfl, hp.1, hp.2⟩, if_pos hp]; exact hp.2
  · rw [if_neg (fun hh => hp ⟨hh.2.1, hh.2.2⟩), if_neg hp, if_neg (fun hh => hh.1 rfl)]

theorem pfq_fill_done (env : Env) (f : Nat) (s : State) (h : s.pfq_pos ≠ 0) :
    pfq_fill env f s = some s := by
  cases f <;> simp [pfq_fill, h]

theorem pfq_fill_step (env : Env) (f : Nat) (s : State) (h : s.pfq_pos = 0) :
    pfq_fill env (f + 1) s = pfq_fill env f (wait_tick env 0 0 s) := by
  simp [pfq_fill, h, wait_one]

theorem fill_base (env : Env) (s : State) (h : 1 ≤ s.pfq_pos) :
    ∀ f, 0 ≤ f → ∃ t, pfq_fill env f s = some t ∧ 1 ≤ t.pfq_pos ∧ t.ctl = s.ctl := by
  intro f _
  exact ⟨s, pfq_fill_done env f s (by omega), h, rfl⟩

theorem fill_step (env : Env) (s : State) (k : Nat) (hs : s.pfq_pos = 0)
    (hnext : ∀ f, k ≤ f → ∃ t, pfq_fill env f (wait_tick env 0 0 s) = some t ∧ 1 ≤ t.pfq_pos ∧
      t.ctl = (wait_tick env 0 0 s).ctl) :
    ∀ f, k + 1 ≤ f → ∃ t, pfq_fill env f s = some t ∧ 1 ≤ t.pfq_pos ∧ t.ctl = s.ctl := by
  intro f hf
  obtain ⟨g, rfl⟩ : ∃ g, f = g + 1 := ⟨f - 1, by omega⟩
  obtain ⟨t, h1, h2, h3⟩ := hnext g (by omega)
  exact ⟨t, by rw [pfq_fill_step env g s hs]; exact h1, h2, h3.trans (wait_tick_ctl env 0 0 s)⟩

theorem fill_T3_sched (env : Env) (s : State) (hP : refill_pending s) (hph : BUS_CYCLE s = 2)
    (hsf : s.schedule_fetch ≠ 0) :
    ∀ f, 1 ≤ f → ∃ t, pfq_fill env f s = some t ∧ 1 ≤ t.pfq_pos ∧ t.ctl = s.ctl :=
  fill_step env s 0 hP.2.1 (fill_base env _ (idle_tick_T3 env 0 s hsf hph hP))

theorem sched_of_pending (s : State) (hP : refill_pending s) :
    (if s.prefetching ≠ 0 ∧ s.pfq_pos < s.pfq_size then 1 else 0) = 1 := by
  have : s.pfq_pos < s.pfq_size := by
    rcases hP.2.2 with h | h <;> rw [hP.2.1, h] <;> decide
  rw [if_pos ⟨hP.1, this⟩]

theorem fill_T2 (env : Env) (s : State) (hP : refill_pending s) (hph : BUS_CYCLE s = 1) :
    ∀ f, 2 ≤ f → ∃ t, pfq_fill env f s = some t ∧ 1 ≤ t.pfq_pos ∧ t.ctl = s.ctl := by
  have hno : ¬ (s.schedule_fetch ≠ 0 ∧ BUS_CYCLE s = 2) := fun hh => by rw [hph] at hh; exact absurd hh.2 (by decide)
  obtain ⟨-, q2, -, q4⟩ := idle_tick_other env 0 s hno
  rw [if_pos (Or.inr hph), sched_of_pending s hP] at q4
  have hP2 := refill_pending_of_ctl (wait_tick_ctl env 0 0 s) q2 hP
  have hph2 : BUS_CYCLE (wait_tick env 0 0 s) = 2 := by
    rw [idle_tick_phase, hph, if_neg (fun hh => absurd hh.2 (by decide))]
  exact fill_step env s 1 hP.2.1 (fill_T3_sched env _ hP2 hph2 (by rw [q4]; decide))

theorem fill_T1_sched (env : Env) (s : State) (hP : refill_pending s) (hph : BUS_CYCLE s = 0)
    (hsf : s.schedule_fetch ≠ 0) :
    ∀ f, 3 ≤ f → ∃ t, pfq_fill env f s = some t ∧ 1 ≤ t.pfq_pos ∧ t.ctl = s.ctl := by
  have hno : ¬ (s.schedule_fetch ≠ 0 ∧ BUS_CYCLE s = 2) := fun hh => by rw [hph] at hh; exact absurd hh.2 (by decide)
  obtain ⟨-, q2, -, -⟩ := idle_tick_other env 0 s hno
  have hP2 := refill_pending_of_ctl (wait_tick_ctl env 0 0 s) q2 hP
  have hph2 : BUS_CYCLE (wait_tick env 0 0 s) = 1 := by
    rw [idle_tick_phase, hph, if_neg (fun hh => hsf hh.1)]
  exact fill_step env s 2 hP.2.1 (fill_T2 env _ hP2 hph2)

theorem fill_T1_idle (env : Env) (s : State) (hP : refill_pending s) (hph : BUS_CYCLE s = 0)
    (hsf : s.schedule_fetch = 0) :
    ∀ f, 4 ≤ f → ∃ t, pfq_fill env f s = some t ∧ 1 ≤ t.pfq_pos ∧ t.ctl = s.ctl := by
  have hno : ¬ (s.schedule_fetch ≠ 0 ∧ BUS_CYCLE s = 2) := fun hh => hh.1 hsf
  obtain ⟨-, q2, -, q4⟩ := idle_tick_other env 0 s hno
  rw [if_pos (Or.inl ⟨hsf, hph⟩), sched_of_pending s hP] at q4
  have hP2 := refill_pending_of_ctl (wait_tick_ctl env 0 0 s) q2 hP
  have hph2 : BUS_CYCLE (wait_tick env 0 0 s) = 0 := by
    rw [idle_tick_phase, if_pos ⟨hsf, hph⟩]
  exact fill_step env s 3 hP.2.1 (fill_T1_sched env _ hP2 hph2 (by rw [q4]; decide))

theorem fill_T4 (env : Env) (s : State) (hP : refill_pending s) (hph : BUS_CYCLE s = 3) :
    ∀ f, 5 ≤ f → ∃ t, pfq_fill env f s = some t ∧ 1 ≤ t.pfq_pos ∧ t.ctl = s.ctl := by
  have hno : ¬ (s.schedule_fetch ≠ 0 ∧ BUS_CYCLE s = 2) := fun hh => by rw [hph] at hh; exact absurd hh.2 (by decide)
  obtain ⟨-, q2, -, -⟩ := idle_tick_other env 0 s hno
  have hP2 := refill_pending_of_ctl (wait_tick_ctl env 0 0 s) q2 hP
  have hph2 : BUS_CYCLE (wait_tick env 0 0 s) = 0 := by
    rw [idle_tick_phase, hph, if_neg (fun hh => absurd hh.2 (by decide))]
  apply fill_step env s 4 hP.2.1
  intro f hf
  by_cases hsf2 : (wait_tick env 0 0 s).schedule_fetch = 0
  · exact fill_T1_idle env _ hP2 hph2 hsf2 f hf
  · exact fill_T1_sched env _ hP2 hph2 hsf2 f (by omega)

theorem fill_T3_idle (env : Env) (s : State) (hP : refill_pending s) (hph : BUS_CYCLE s = 2)
    (hsf : s.schedule_fetch = 0) :
    ∀ f, 6 ≤ f → ∃ t, pfq_fill env f s = some t ∧ 1 ≤ t.pfq_pos ∧ t.ctl = s.ctl := by
  have hno : ¬ (s.schedule_fetch ≠ 0 ∧ BUS_CYCLE s = 2) := fun hh => hh.1 hsf
  obtain ⟨-, q2, -, -⟩ := idle_tick_other env 0 s hno
  have hP2 := refill_pending_of_ctl (wait_tick_ctl env 0 0 s) q2 hP
  have hph2 : BUS_CYCLE (wait_tick env 0 0 s) = 3 := by
    rw [idle_tick_phase, hph, if_neg (fun hh => absurd hh.2 (by decide))]
  exact fill_step env s 5 hP.2.1 (fill_T4 env _ hP2 hph2)

/-- The refill loop of `pfq_fetchb_common` ends within 6 ticks with a byte queued. -/
theorem pfq_fill_terminates (env : Env) (s : State) (hP : refill_pending s) :
    ∀ f, 6 ≤ f → ∃ t, pfq_fill env f s = some t ∧ 1 ≤ t.pfq_pos ∧ t.ctl = s.ctl := by
  intro f hf
  have hlt : BUS_CYCLE s < 4 := by
    rw [bus_cycle_eq_mod]; exact Nat.mod_lt _ (by decide)
  by_cases hsf : s.schedule_fetch = 0
  · interval_cases hph : BUS_CYCLE s
    · exact fill_T1_idle env s hP hph hsf f (by omega)
    · exact fill_T2 env s hP hph f (by omega)
    · exact fill_T3_idle env s hP hph hsf f hf
    · exact fill_T4 env s hP hph f (by omega)
  · interval_cases hph : BUS_CYCLE s
    · exact fill_T1_sched env s hP hph hsf f (by omega)
    · exact fill_T2 env s hP hph f (by omega)
    · exact fill_T3_sched env s hP hph hsf f (by omega)
    · exact fill_T4 env s hP hph f (by omega)

theorem suspend_loop_done (env : Env) (f : Nat) (s : State) (h : BUS_CYCLE s = 0) :
    suspend_loop env f s = some s := by
  cases f <;> simp [suspend_loop, h, BUS_T1]

theorem suspend_loop_step (env : Env) (f : Nat) (s : State) (h : BUS_CYCLE s ≠ 0) :
    suspend_loop env (f + 1) s = suspend_loop env f (wait_tick env 0 0 s) := by
  simp [suspend_loop, h, BUS_T1, wait_one]

theorem suspend_step (env : Env) (s : State) (k : Nat) (hs : BUS_CYCLE s ≠ 0)
    (hnext : ∀ f, k ≤ f → ∃ t, suspend_loop env f (wait_tick env 0 0 s) = some t ∧
      BUS_CYCLE t = 0 ∧ t.ctl = (wait_tick env 0 0 s).ctl) :
    ∀ f, k + 1 ≤ f → ∃ t, suspend_loop env f s = some t ∧ BUS_CYCLE t = 0 ∧ t.ctl = s.ctl := by
  intro f hf
  obtain ⟨g, rfl⟩ : ∃ g, f = g + 1 := ⟨f - 1, by omega⟩
  obtain ⟨t, h1, h2, h3⟩ := hnext g (by omega)
  exact ⟨t, by rw [suspend_loop_step env g s hs]; exact h1, h2, h3.trans (wait_tick_ctl env 0 0 s)⟩

theorem suspend_T1 (env : Env) (s : State) (hph : BUS_CYCLE s = 0) :
    ∀ f, 0 ≤ f → ∃ t, suspend_loop env f s = some t ∧ BUS_CYCLE t = 0 ∧ t.ctl = s.ctl :=
  fun f _ => ⟨s, suspend_loop_done env f s hph, hph, rfl⟩

theorem suspend_T4 (env : Env) (s : State) (hph : BUS_CYCLE s = 3) :
    ∀ f, 1 ≤ f → ∃ t, suspend_loop env f s = some t ∧ BUS_CYCLE t = 0 ∧ t.ctl = s.ctl := by
  have hph2 : BUS_CYCLE (wait_tick env 0 0 s) = 0 := by
    rw [idle_tick_phase, hph, if_neg (fun hh => absurd hh.2 (by decide))]
  exact suspend_step env s 0 (by rw [hph]; decide) (suspend_T1 env _ hph2)

theorem suspend_T3 (env : Env) (s : State) (hph : BUS_CYCLE s = 2) :
    ∀ f, 2 ≤ f → ∃ t, suspend_loop env f s = some t ∧ BUS_CYCLE t = 0 ∧ t.ctl = s.ctl := by
  have hph2 : BUS_CYCLE (wait_tick env 0 0 s) = 3 := by
    rw [idle_tick_phase, hph, if_neg (fun hh => absurd hh.2 (by decide))]
  exact suspend_step env s 1 (by rw [hph]; decide) (suspend_T4 env _ hph2)

theorem suspend_T2 (env : Env) (s : State) (hph : BUS_CYCLE s = 1) :
    ∀ f, 3 ≤ f → ∃ t, suspend_loop env f s = some t ∧ BUS_CYCLE t = 0 ∧ t.ctl = s.ctl := by
  have hph2 : BUS_CYCLE (wait_tick env 0 0 s) = 2 := by
    rw [idle_tick_phase, hph, if_neg (fun hh => absurd hh.2 (by decide))]
  exact suspend_step env s 2 (by rw [hph]; decide) (suspend_T3 env _ hph2)

/-- The loop of `pfq_do_suspend` reaches T1 within 3 ticks. -/
theorem suspend_loop_terminates (env : Env) (s : State) :
    ∀ f, 3 ≤ f → ∃ t, suspend_loop env f s = some t ∧ BUS_CYCLE t = 0 ∧ t.ctl = s.ctl := by
  intro f hf
  have hlt : BUS_CYCLE s < 4 := by
    rw [bus_cycle_eq_mod]; exact Nat.mod_lt _ (by decide)
  interval_cases hph : BUS_CYCLE s
  · exact suspend_T1 env s hph f (by omega)
  · exact suspend_T2 env s hph f hf
  · exact suspend_T3 env s hph f (by omega)
  · exact suspend_T4 env s hph f (by omega)

theorem pfq_suspend_ok (env : Env) (s : State) (f : Nat) (hf : 3 ≤ f) :
    ∃ t, pfq_suspend env f s = some t ∧ t.pc = s.pc ∧ t.pfq_pos = 0 := by
  obtain ⟨u, h1, -, h3⟩ := suspend_loop_terminates env s f hf
  refine ⟨pfq_clear { pfq_schedule 0 (wait env 1 0 u) with prefetching := 0 }, ?_, ?_, rfl⟩
  · simp [pfq_suspend, pfq_do_suspend, h1]
  · show (wait env 1 0 u).pc = s.pc
    rw [show (wait env 1 0 u).pc = u.pc from congrArg Ctl.pc (wait_ctl env 1 0 u)]
    exact congrArg Ctl.pc h3

theorem jump_ok (env : Env) (s : State) (delta f : Nat) (hf : 3 ≤ f) :
    ∃ r, jump env f delta s = some r ∧
      r.2.pc = ((s.pc + delta % 65536) &&& 0xffff) % 65536 ∧ r.2.pfq_pos = 0 ∧
      r.2.pfq_ip = r.2.pc := by
  obtain ⟨t, h1, h2, h3⟩ := pfq_suspend_ok env (wait env 1 0 s) f hf
  have hpc : t.pc = s.pc := h2.trans (congrArg Ctl.pc (wait_ctl env 1 0 s))
  have hc := cycles_idle_core env 1 t
  have c1 : (cycles_idle env 1 t).pc = t.pc := congrArg Core.pc hc
  have c2 : (cycles_idle env 1 t).pfq_pos = t.pfq_pos := congrArg Core.pfq_pos hc
  refine ⟨((cycles_idle env 1 t).pc % 65536,
    set_ip (((cycles_idle env 1 t).pc + delta % 65536) &&& 0xffff) (cycles_idle env 1 t)), ?_, ?_, ?_, ?_⟩
  · simp [jump, h1]
  · show (((cycles_idle env 1 t).pc + delta % 65536) &&& 0xffff) % 65536 = _
    rw [c1, hpc]
  · show (cycles_idle env 1 t).pfq_pos = 0
    rw [c2, h3]
  · rfl

theorem pfq_fetchb_common_ok (env : Env) (s : State) (f : Nat) (hpre : s.prefetching ≠ 0)
    (hsz : s.pfq_size = 4 ∨ s.pfq_size = 6) (hf : 6 ≤ f) :
    ∃ r, pfq_fetchb_common env f s = some r ∧ r.2.pc = (s.pc + 1) &&& 0xffff ∧
      r.2.cpu_data = s.cpu_data := by
  unfold pfq_fetchb_common
  by_cases hpos : s.pfq_pos = 0
  · rw [if_pos hpos]
    have hP : refill_pending { s with pfq_ip := s.pc % 65536 } := ⟨hpre, hpos, hsz⟩
    obtain ⟨t, h1, -, h3⟩ := pfq_fill_terminates env _ hP f hf
    refine ⟨pfq_read t, by rw [h1]; rfl, ?_, ?_⟩
    · show (t.pc + 1) &&& 0xffff = _
      rw [show t.pc = s.pc from congrArg Ctl.pc h3]
    · show t.cpu_data = _
      exact congrArg Ctl.cpu_data h3
  · rw [if_neg hpos]
    exact ⟨pfq_read s, rfl, rfl, rfl⟩

theorem pfq_fetchb_ok (env : Env) (s : State) (f : Nat) (hpre : s.prefetching ≠ 0)
    (hsz : s.pfq_size = 4 ∨ s.pfq_size = 6) (hf : 6 ≤ f) :
    ∃ r, pfq_fetchb env f s = some r ∧ r.2.pc = (s.pc + 1) &&& 0xffff := by
  obtain ⟨r, h1, h2, -⟩ := pfq_fetchb_common_ok env s f hpre hsz hf
  refine ⟨(r.1, wait env 1 0 r.2), by simp [pfq_fetchb, h1], ?_⟩
  show (wait env 1 0 r.2).pc = _
  rw [show (wait env 1 0 r.2).pc = r.2.pc from congrArg Ctl.pc (wait_ctl env 1 0 r.2)]
  exact h2

theorem and_mask_eq_zero (f a b : Nat) :
    f &&& (2 ^ a ||| 2 ^ b) = 0 ↔ (f.testBit a = false ∧ f.testBit b = false) := by
  constructor
  · intro h
    have ha : (f &&& (2 ^ a ||| 2 ^ b)).testBit a = false := by rw [h]; simp
    have hb : (f &&& (2 ^ a ||| 2 ^ b)).testBit b = false := by rw [h]; simp
    rw [Nat.testBit_and, Nat.testBit_or, Nat.testBit_two_pow, Nat.testBit_two_pow] at ha hb
    simp at ha hb
    exact ⟨ha, hb⟩
  · intro h
    apply Nat.eq_of_testBit_eq
    intro i
    rw [Nat.testBit_and, Nat.testBit_or, Nat.testBit_two_pow, Nat.testBit_two_pow]
    by_cases hia : a = i
    · subst hia; simp [h.1]
    · by_cases hib : b = i
      · subst hib; simp [h.2]
      · simp [hia, hib]

theorem and_bit_eq_zero (f m k : Nat) (hm : m = 2 ^ k) : f &&& m = 0 ↔ f.testBit k = false := by
  have h := flag_tb f m k hm
  constructor
  · intro h0
    by_contra hc
    have : f.testBit k = true := by simpa using hc
    exact (h.mpr this) h0
  · intro h0
    by_contra hc
    have := h.mp hc
    rw [h0] at this; exact absurd this (by decide)

/-- The test `(!cond) == !!(opcode & 1)` of `jcc`, with the `cond` that `execx86`
passes, is the architectural condition of the opcode. -/
theorem jcc_test_iff (opcode flags : Nat) (h1 : 0x70 ≤ opcode) (h2 : opcode ≤ 0x7F) :
    (decide (jcc_cond opcode flags = 0) = decide ((opcode &&& 0x01) ≠ 0)) ↔
      cond_holds opcode flags = true := by
  have eV := and_bit_eq_zero flags V_FLAG 11 rfl
  have eC := and_bit_eq_zero flags C_FLAG 0 rfl
  have eZ := and_bit_eq_zero flags Z_FLAG 6 rfl
  have eN := and_bit_eq_zero flags N_FLAG 7 rfl
  have eP := and_bit_eq_zero flags P_FLAG 2 rfl
  have eCZ : flags &&& (C_FLAG ||| Z_FLAG) = 0 ↔ _ := and_mask_eq_zero flags 0 6
  interval_cases opcode <;>
    simp only [jcc_cond, cond_holds, eV, eC, eZ, eN, eP, eCZ, ne_eq] <;>
    cases flags.testBit 0 <;> cases flags.testBit 2 <;> cases flags.testBit 6 <;>
    cases flags.testBit 7 <;> cases flags.testBit 11 <;> decide

theorem biu_access_bus_queue (env : Env) (bus init : Nat) (s : State) (hbus : bus ≠ 0)
    (hreq : (s.bus_request_type &&& BUS_ACCESS_TYPE) ≠ BUS_CODE) :
    (biu_access env bus init s).pfq = s.pfq ∧ (biu_access env bus init s).pfq_pos = s.pfq_pos ∧
    (biu_access env bus init s).pfq_ip = s.pfq_ip := by
  unfold biu_access
  rw [if_pos hbus]
  simp only
  have key : ∀ sa : State, sa.bus_request_type = s.bus_request_type →
      sa.pfq = s.pfq → sa.pfq_pos = s.pfq_pos → sa.pfq_ip = s.pfq_ip →
      (run_bus_cycle env sa.bus_request_type sa).pfq = s.pfq ∧
      (run_bus_cycle env sa.bus_request_type sa).pfq_pos = s.pfq_pos ∧
      (run_bus_cycle env sa.bus_request_type sa).pfq_ip = s.pfq_ip := by
    intro sa e0 e1 e2 e3
    have hc := run_bus_cycle_noncode env sa.bus_request_type sa (by rw [e0]; exact hreq)
    have q1 := congrArg Core.pfq hc
    have q2 := congrArg Core.pfq_pos hc
    have q3 := congrArg Core.pfq_ip hc
    simp only [State.core] at q1 q2 q3
    exact ⟨q1.trans e1, q2.trans e2, q3.trans e3⟩
  split_ifs
  · obtain ⟨a1, -, -, a4, a5, a6⟩ := biu_abort_effect env s
    exact key _ (congrArg Ctl.bus_request_type a1) a4 a5 a6
  · exact key s rfl rfl rfl rfl

theorem cycles_biu_bus_queue (env : Env) (bus init : Nat) (s : State) (hbus : bus ≠ 0)
    (hreq : (s.bus_request_type &&& BUS_ACCESS_TYPE) ≠ BUS_CODE) :
    (cycles_biu env bus init s).pfq = s.pfq ∧ (cycles_biu env bus init s).pfq_pos = s.pfq_pos ∧
    (cycles_biu env bus init s).pfq_ip = s.pfq_ip := by
  unfold cycles_biu
  simp only
  generalize hs0 : ({ s with pasv :=
    if bus ≠ 0 ∨ (BUS_CYCLE s = BUS_T1 ∧ s.schedule_fetch ≠ 0) then 0 else 1 } : State) = s0
  have e0 : s0.core = s.core := by subst hs0; rfl
  have hreq0 : (s0.bus_request_type &&& BUS_ACCESS_TYPE) ≠ BUS_CODE := by
    rw [show s0.bus_request_type = s.bus_request_type from congrArg Core.bus_request_type e0]
    exact hreq
  obtain ⟨a1, a2, a3⟩ := biu_access_bus_queue env bus init s0 hbus hreq0
  have b1 : s0.pfq = s.pfq := congrArg Core.pfq e0
  have b2 : s0.pfq_pos = s.pfq_pos := congrArg Core.pfq_pos e0
  have b3 : s0.pfq_ip = s.pfq_ip := congrArg Core.pfq_ip e0
  rw [b1] at a1
  rw [b2] at a2
  rw [b3] at a3
  generalize biu_access env bus init s0 = s1 at a1 a2 a3
  have h2 : (if BUS_CYCLE s1 = BUS_T2 then pfq_schedule 1 s1 else s1).pfq = s.pfq ∧
      (if BUS_CYCLE s1 = BUS_T2 then pfq_schedule 1 s1 else s1).pfq_pos = s.pfq_pos ∧
      (if BUS_CYCLE s1 = BUS_T2 then pfq_schedule 1 s1 else s1).pfq_ip = s.pfq_ip := by
    split_ifs <;> exact ⟨a1, a2, a3⟩
  generalize (if BUS_CYCLE s1 = BUS_T2 then pfq_schedule 1 s1 else s1) = s2 at h2
  have hc := run_dma_cycle_core s2.pasv s2
  have q1 := congrArg Core.pfq hc
  have q2 := congrArg Core.pfq_pos hc
  have q3 := congrArg Core.pfq_ip hc
  simp only [State.core] at q1 q2 q3
  exact ⟨q1.trans h2.1, q2.trans h2.2.1, q3.trans h2.2.2⟩

theorem wait_tick_bus_queue (env : Env) (bus d : Nat) (s : State) (hbus : bus ≠ 0)
    (hreq : (s.bus_request_type &&& BUS_ACCESS_TYPE) ≠ BUS_CODE) :
    (wait_tick env bus d s).pfq = s.pfq ∧ (wait_tick env bus d s).pfq_pos = s.pfq_pos ∧
    (wait_tick env bus d s).pfq_ip = s.pfq_ip := by
  unfold wait_tick
  simp only
  rw [if_neg (fun hh => hbus hh.1)]
  have hc := cycles_forward_core env 1 (cycles_biu env bus (if d = 0 then 1 else 0) s)
  have q1 := congrArg Core.pfq hc
  have q2 := congrArg Core.pfq_pos hc
  have q3 := congrArg Core.pfq_ip hc
  simp only [State.core] at q1 q2 q3
  obtain ⟨a1, a2, a3⟩ := cycles_biu_bus_queue env bus (if d = 0 then 1 else 0) s hbus hreq
  exact ⟨q1.trans a1, q2.trans a2, q3.trans a3⟩

theorem wait_from_bus_queue (env : Env) (bus n d : Nat) (s : State) (hbus : bus ≠ 0)
    (hreq : (s.bus_request_type &&& BUS_ACCESS_TYPE) ≠ BUS_CODE) :
    (wait_from env bus n d s).pfq = s.pfq ∧ (wait_from env bus n d s).pfq_pos = s.pfq_pos ∧
    (wait_from env bus n d s).pfq_ip = s.pfq_ip := by
  induction n generalizing d s with
  | zero => exact ⟨rfl, rfl, rfl⟩
  | succ n ih =>
    unfold wait_from
    obtain ⟨a1, a2, a3⟩ := wait_tick_bus_queue env bus d s hbus hreq
    have hr : ((wait_tick env bus d s).bus_request_type &&& BUS_ACCESS_TYPE) ≠ BUS_CODE := by
      rw [show (wait_tick env bus d s).bus_request_type = s.bus_request_type from
        congrArg Ctl.bus_request_type (wait_tick_ctl env bus d s)]
      exact hreq
    obtain ⟨b1, b2, b3⟩ := ih (d + 1) (wait_tick env bus d s) hr
    exact ⟨b1.trans a1, b2.trans a2, b3.trans a3⟩

/-- C10: an operand bus cycle `wait(4, 1)` with a memory or IO request leaves pfq_pos,
pfq_ip and the queue bytes as they were, from every phase and for either value of
schedule_fetch: an aborted code fetch deposits nothing. -/
theorem operand_cycle_keeps_queue (env : Env) (s : State)
    (hreq : (s.bus_request_type &&& BUS_ACCESS_TYPE) = BUS_MEM ∨
            (s.bus_request_type &&& BUS_ACCESS_TYPE) = BUS_IO) :
    (wait env 4 1 s).pfq = s.pfq ∧ (wait env 4 1 s).pfq_pos = s.pfq_pos ∧
    (wait env 4 1 s).pfq_ip = s.pfq_ip := by
  have hne : (s.bus_request_type &&& BUS_ACCESS_TYPE) ≠ BUS_CODE := by
    rcases hreq with h | h <;> rw [h] <;> decide
  exact wait_from_bus_queue env 1 _ 0 s (by decide) hne

/-- Witness of C10: a memory read begun at T3 with a code fetch scheduled. -/
theorem operand_cycle_keeps_queue_witness :
    (wait idle_env 4 1 { init_state with biu_cycles := 2, schedule_fetch := 1,
                                         bus_request_type := BUS_MEM }).pfq_pos = 0 :=
  (operand_cycle_keeps_queue idle_env
    { init_state with biu_cycles := 2, schedule_fetch := 1, bus_request_type := BUS_MEM }
    (Or.inl (by decide))).2.1

/-- C8 as amended: a passive tick keeps the phase, the first tick of an operand access
that aborts a scheduled prefetch ends in T2, every other tick of `wait` advances the phase
by one modulo 4. -/
theorem wait_tick_phase_rule (env : Env) (bus d : Nat) (s : State) :
    BUS_CYCLE (wait_tick env bus d s) =
      if bus = 0 ∧ s.schedule_fetch = 0 ∧ BUS_CYCLE s = BUS_T1 then BUS_CYCLE s
      else if bus ≠ 0 ∧ d = 0 ∧ s.schedule_fetch ≠ 0 then BUS_T2
      else (BUS_CYCLE s + 1) % 4 :=
  wait_tick_phase env bus d s

/-- C8 fails as stated: with no fetch scheduled at T1 a tick of `wait(1, 0)` is a
passive cycle and the phase stays T1 instead of moving to T2. -/
theorem passive_tick_keeps_phase :
    ¬ (BUS_CYCLE (wait_tick idle_env 0 0 { init_state with schedule_fetch := 0 })
        = (BUS_CYCLE { init_state with schedule_fetch := 0 } + 1) % 4) := by
  rw [wait_tick_phase]
  decide

/-- C8 fails as stated, second case: an operand access begun at T3 with a code fetch
scheduled restarts the bus cycle, so the tick ends in T2 and not in T4. -/
theorem abort_tick_restarts_phase :
    ¬ (BUS_CYCLE (wait_tick idle_env 1 0 { init_state with biu_cycles := 2,
                                                             bus_request_type := BUS_MEM })
        = (BUS_CYCLE { init_state with biu_cycles := 2, bus_request_type := BUS_MEM } + 1) % 4) := by
  rw [wait_tick_phase]
  decide

/-- C7 at the failing input: before `MOV CS, AX` the queue holds the code bytes at CS:pc;
after it CS.base is 0x10000, two stale bytes stay queued, and the next
`pfq_fetchb_common` returns 0x90 from the queue while the byte at CS:pc is 0xF4. -/
theorem mov_cs_stale_queue :
    (mov_cs_state.pfq_ip = (mov_cs_state.pc + 3) % 65536 ∧
      ∀ i, i < 3 → mov_cs_state.pfq.getD i 0
        = read_mem_b mov_cs_state (mov_cs_state.seg_cs.base + (mov_cs_state.pc + i) % 65536)) ∧
    (exec_mov_sreg idle_env 8 mov_cs_state).bind (fun t =>
      (pfq_fetchb_common idle_env 8 t).map (fun r =>
        (t.seg_cs.base, t.pc, t.pfq_pos, r.1, read_mem_b t (t.seg_cs.base + t.pc), r.2.pc)))
    = some (0x10000, 0x102, 2, 0x90, 0xF4, 0x103) := by
  decide

theorem sign_extend_mod (d : Nat) : sign_extend (d % 256) = sign_extend d := by
  unfold sign_extend
  rw [Nat.mod_mod]

theorem sign_extend_lt (d : Nat) : sign_extend d < 65536 := by
  unfold sign_extend
  exact Nat.mod_lt _ (by decide)

theorem and_ffff (x : Nat) : x &&& 0xffff = x % 65536 := by
  have := Nat.and_pow_two_sub_one_eq_mod x 16
  norm_num at this
  exact this

/-- C9: for a conditional jump 0x70..0x7F, with `d` the displacement byte that `jcc`
fetches and `s1.pc` the address after it: when the condition holds `jcc` returns with
pc = (address after the displacement + sign_extend(d)) mod 2^16, pfq_pos = 0 and
pfq_ip = pc; when it does not hold pc is the address after the displacement. -/
theorem jcc_branch (env : Env) (s : State) (f : Nat)
    (hop1 : 0x70 ≤ s.opcode) (hop2 : s.opcode ≤ 0x7F)
    (hpre : s.prefetching ≠ 0) (hsz : s.pfq_size = 4 ∨ s.pfq_size = 6) (hf : 6 ≤ f) :
    ∃ d s1 t, pfq_fetchb env f (wait env 1 0 s) = some (d, s1) ∧
      s1.pc = (s.pc + 1) % 65536 ∧ exec_jcc env f s = some t ∧
      (cond_holds s.opcode s.flags = true →
        t.pc = (s1.pc + sign_extend d) % 65536 ∧ t.pfq_pos = 0 ∧ t.pfq_ip = t.pc) ∧
      (cond_holds s.opcode s.flags = false → t.pc = s1.pc) := by
  have hctl := wait_ctl env 1 0 s
  have hpre1 : (wait env 1 0 s).prefetching ≠ 0 := by
    rw [show (wait env 1 0 s).prefetching = s.prefetching from congrArg Ctl.prefetching hctl]
    exact hpre
  have hsz1 : (wait env 1 0 s).pfq_size = 4 ∨ (wait env 1 0 s).pfq_size = 6 := by
    rw [show (wait env 1 0 s).pfq_size = s.pfq_size from congrArg Ctl.pfq_size hctl]
    exact hsz
  obtain ⟨r, h1, h2⟩ := pfq_fetchb_ok env (wait env 1 0 s) f hpre1 hsz1 hf
  rw [show (wait env 1 0 s).pc = s.pc from congrArg Ctl.pc hctl, and_ffff] at h2
  have hopm : s.opcode % 256 = s.opcode := Nat.mod_eq_of_lt (by omega)
  have hw := wait_ctl env 1 0 { r.2 with cpu_data := r.1 }
  have hwpc : (wait env 1 0 { r.2 with cpu_data := r.1 }).pc = r.2.pc := congrArg Ctl.pc hw
  have hwcd : (wait env 1 0 { r.2 with cpu_data := r.1 }).cpu_data = r.1 :=
    congrArg Ctl.cpu_data hw
  have htest := jcc_test_iff s.opcode s.flags hop1 hop2
  by_cases hc : cond_holds s.opcode s.flags = true
  · obtain ⟨j, j1, j2, j3, j4⟩ := jump_ok env (wait env 1 0 { r.2 with cpu_data := r.1 })
      (sign_extend ((wait env 1 0 { r.2 with cpu_data := r.1 }).cpu_data % 256)) f (by omega)
    refine ⟨r.1, r.2, j.2, h1, h2, ?_, ?_, ?_⟩
    · unfold exec_jcc jcc
      rw [h1, hopm]
      simp only [Option.bind]
      rw [if_pos (htest.mpr hc)]
      unfold jump_short
      rw [j1]
      rfl
    · intro _
      refine ⟨?_, j3, j4⟩
      rw [j2, hwpc, hwcd, sign_extend_mod, and_ffff, Nat.mod_mod,
        Nat.mod_eq_of_lt (sign_extend_lt r.1)]
    · intro hcf
      rw [hc] at hcf
      exact absurd hcf (by decide)
  · refine ⟨r.1, r.2, wait env 1 0 { r.2 with cpu_data := r.1 }, h1, h2, ?_, ?_, ?_⟩
    · unfold exec_jcc jcc
      rw [h1, hopm]
      simp only [Option.bind]
      rw [if_neg (fun hh => hc (htest.mp hh))]
    · intro hct
      exact absurd hct hc
    · intro _
      exact hwpc

/-- Witness of C9: JE (0x74) in the initial state with the zero flag set. -/
theorem jcc_branch_witness :
    ∃ d s1 t, pfq_fetchb idle_env 6 (wait idle_env 1 0 { init_state with opcode := 0x74, flags := 0x42 })
        = some (d, s1) ∧
      s1.pc = 1 ∧ exec_jcc idle_env 6 { init_state with opcode := 0x74, flags := 0x42 } = some t ∧
      t.pc = (s1.pc + sign_extend d) % 65536 ∧ t.pfq_pos = 0 ∧ t.pfq_ip = t.pc := by
  obtain ⟨d, s1, t, h1, h2, h3, h4, -⟩ :=
    jcc_branch idle_env { init_state with opcode := 0x74, flags := 0x42 } 6
      (by decide) (by decide) (by decide) (Or.inl rfl) (by decide)
  exact ⟨d, s1, t, h1, h2, h3, h4 (by decide)⟩

/-- With a valid, non-empty queue `pfq_fetchb_common` returns the byte at CS:pc and
advances pc by one; the state before `MOV CS, AX` is of this kind, the state after is not. -/
theorem fetch_from_valid_queue (env : Env) (fuel : Nat) (s : State) (hv : queue_valid s)
    (hpos : 0 < s.pfq_pos) :
    ∃ r, pfq_fetchb_common env fuel s = some r ∧
      r.1 = read_mem_b s (s.seg_cs.base + s.pc % 65536) ∧ r.2.pc = (s.pc + 1) % 65536 := by
  unfold pfq_fetchb_common
  rw [if_neg (by omega)]
  refine ⟨pfq_read s, rfl, ?_, ?_⟩
  · have h := hv.2 0 (by simpa using hpos)
    simpa [pfq_read] using h
  · show (s.pc + 1) &&& 0xffff = _
    exact and_ffff _

/-! ## Prefetch abort -/

theorem run_bus_cycle_T1_core (env : Env) (io : Nat) (s : State) (h : BUS_CYCLE s = 0) :
    (run_bus_cycle env io s).core = s.core := by
  unfold run_bus_cycle
  have h1 := ready_wait_core env s
  have h2 : BUS_CYCLE (bus_ready env s) = 0 := (bus_cycle_of_core h1).trans h
  generalize bus_ready env s = s1 at h1 h2
  by_cases hc : io ≠ 0 ∧ ((io &&& BUS_CODE) = 0 ∨ s.schedule_fetch ≠ 0)
  · rw [if_pos hc]
    simp only [h2]
    exact h1
  · rw [if_neg hc]

theorem cycles_forward_cycles (env : Env) (hk : env_keeps_cycles env) (c : Int) (s : State)
    (h286 : s.is286 = false) : (cycles_forward env c s).cycles = s.cycles - c := by
  unfold cycles_forward process_timers clock_start clock_end
  simp only [h286, Bool.not_false, if_true]
  split_ifs
  · simp only [State.setExt, State.ext]
    rw [hk]
  · rfl

theorem run_dma_cycle_cycles (idle : Nat) (s : State) : (run_dma_cycle idle s).cycles = s.cycles := by
  unfold run_dma_cycle
  simp only
  split_ifs <;> rfl

theorem cycles_idle_loop_cycles (env : Env) (hk : env_keeps_cycles env) (n : Nat) (s : State)
    (h286 : s.is286 = false) : (cycles_idle_loop env n s).cycles = s.cycles - n := by
  induction n generalizing s with
  | zero => simp [cycles_idle_loop]
  | succ n ih =>
    unfold cycles_idle_loop
    have hc : (run_dma_cycle 1 (cycles_forward env 1 s)).core = s.core :=
      (run_dma_cycle_core 1 _).trans (cycles_forward_core env 1 s)
    have h2 : (run_dma_cycle 1 (cycles_forward env 1 s)).is286 = false :=
      (congrArg Core.is286 hc).trans h286
    rw [ih _ h2, run_dma_cycle_cycles, cycles_forward_cycles env hk 1 s h286]
    push_cast
    ring

theorem biu_abort_eq (env : Env) (s : State) :
    biu_abort env s =
      { pfq_schedule 0 { cycles_idle_loop env (abort_idle_ticks s) s with biu_cycles := 0 }
          with access_code := 0 } := by
  have hlt : BUS_CYCLE s < 4 := by rw [bus_cycle_eq_mod]; omega
  unfold biu_abort abort_idle_ticks cycles_idle
  simp only [BUS_T1, BUS_T2]
  generalize BUS_CYCLE s = p at hlt
  interval_cases p <;> simp [cycles_idle_loop]

theorem cycles_biu_abort_sched (env : Env) (s : State) (hsf : s.schedule_fetch ≠ 0) :
    (cycles_biu env 1 1 s).schedule_fetch = 0 := by
  unfold cycles_biu
  simp only
  generalize hs0 : ({ s with pasv :=
    if (1 : Nat) ≠ 0 ∨ (BUS_CYCLE s = BUS_T1 ∧ s.schedule_fetch ≠ 0) then 0 else 1 } : State) = s0
  have e0 : s0.schedule_fetch ≠ 0 := by subst hs0; exact hsf
  have ha := biu_abort_effect env s0
  have h1 : (biu_access env 1 1 s0).core = (biu_abort env s0).core := by
    unfold biu_access
    rw [if_pos (by decide)]
    simp only
    rw [if_pos ⟨by decide, e0⟩]
    exact run_bus_cycle_T1_core env _ _ (by unfold BUS_CYCLE; rw [ha.2.1]; rfl)
  have hsf1 : (biu_access env 1 1 s0).schedule_fetch = 0 :=
    (congrArg Core.schedule_fetch h1).trans ha.2.2.1
  have hb1 : BUS_CYCLE (biu_access env 1 1 s0) = 0 := by
    rw [bus_cycle_of_core h1]; unfold BUS_CYCLE; rw [ha.2.1]; rfl
  generalize biu_access env 1 1 s0 = s1 at hsf1 hb1
  rw [if_neg (by rw [hb1]; decide)]
  exact (congrArg Core.schedule_fetch (run_dma_cycle_core s1.pasv s1)).trans hsf1

/-- C11: when `cycles_biu(1, 1)` starts an operand access while a code fetch is scheduled,
the abort block spends no idle tick at T1 and T2 and `5 - phase` idle ticks of
`cycles_idle` at T3 and T4 (3 and 2, each costing one host cycle when the timer service
steals none); the phase is T1 and schedule_fetch is 0 when `run_bus_cycle` runs the
operand access, and schedule_fetch is still 0 when `cycles_biu` returns in T2. -/
theorem prefetch_abort_cost (env : Env) (s : State) (hsf : s.schedule_fetch ≠ 0) :
    biu_access env 1 1 s =
      run_bus_cycle env (biu_abort env s).bus_request_type (biu_abort env s) ∧
    biu_abort env s =
      { pfq_schedule 0 { cycles_idle_loop env (abort_idle_ticks s) s with biu_cycles := 0 }
          with access_code := 0 } ∧
    (BUS_CYCLE s = BUS_T1 ∨ BUS_CYCLE s = BUS_T2 → abort_idle_ticks s = 0) ∧
    (BUS_CYCLE s = BUS_T3 → abort_idle_ticks s = 3) ∧
    (BUS_CYCLE s = BUS_T4 → abort_idle_ticks s = 2) ∧
    (env_keeps_cycles env → s.is286 = false →
      (biu_abort env s).cycles = s.cycles - abort_idle_ticks s) ∧
    BUS_CYCLE (biu_abort env s) = BUS_T1 ∧ (biu_abort env s).schedule_fetch = 0 ∧
    (cycles_biu env 1 1 s).schedule_fetch = 0 ∧ BUS_CYCLE (cycles_biu env 1 1 s) = BUS_T2 := by
  have ha := biu_abort_effect env s
  refine ⟨?_, biu_abort_eq env s, ?_, ?_, ?_, ?_, ?_, ha.2.2.1, cycles_biu_abort_sched env s hsf, ?_⟩
  · unfold biu_access
    rw [if_pos (by decide)]
    simp only
    rw [if_pos ⟨by decide, hsf⟩]
  · intro h
    unfold abort_idle_ticks
    rcases h with h | h <;> rw [h] <;> rfl
  · intro h
    unfold abort_idle_ticks
    rw [h]; rfl
  · intro h
    unfold abort_idle_ticks
    rw [h]; rfl
  · intro hk h286
    rw [biu_abort_eq]
    exact cycles_idle_loop_cycles env hk _ s h286
  · unfold BUS_CYCLE; rw [ha.2.1]; rfl
  · unfold BUS_CYCLE
    rw [(cycles_biu_ctl env 1 1 s).2, if_pos ⟨by decide, by decide, hsf⟩]
    rfl

/-- Witness of C11: an operand access begun at T3 with a code fetch scheduled. -/
theorem prefetch_abort_cost_witness :
    abort_idle_ticks { init_state with biu_cycles := 2, schedule_fetch := 1 } = 3 ∧
    (cycles_biu idle_env 1 1
      { init_state with biu_cycles := 2, schedule_fetch := 1 }).schedule_fetch = 0 :=
  ⟨(prefetch_abort_cost idle_env { init_state with biu_cycles := 2, schedule_fetch := 1 }
      (by decide)).2.2.2.1 (by decide),
   (prefetch_abort_cost idle_env { init_state with biu_cycles := 2, schedule_fetch := 1 }
      (by decide)).2.2.2.2.2.2.2.2.1⟩

/-! ## Memory bus cycles: what `wait(4, 1)` does to memory -/

theorem clock_end_data (env : Env) (hk : env_keeps_mem env) (s : State) :
    (clock_end env s).data = s.data := by
  unfold clock_end
  simp only
  split_ifs
  · simp only [State.data, State.setExt, State.ext]
    rw [hk]
  · rfl

theorem cycles_forward_data (env : Env) (hk : env_keeps_mem env) (c : Int) (s : State) :
    (cycles_forward env c s).data = s.data := by
  unfold cycles_forward process_timers clock_start
  simp only
  split_ifs
  · exact clock_end_data env hk _
  · rfl

theorem bus_ready_data (env : Env) (hk : env_keeps_mem env) (s : State) :
    (bus_ready env s).data = s.data := by
  unfold bus_ready
  split_ifs
  · exact cycles_forward_data env hk _ s
  · rfl

theorem run_dma_cycle_data (idle : Nat) (s : State) : (run_dma_cycle idle s).data = s.data := by
  unfold run_dma_cycle
  simp only
  split_ifs <;> rfl

theorem cycles_idle_loop_data (env : Env) (hk : env_keeps_mem env) (n : Nat) (s : State) :
    (cycles_idle_loop env n s).data = s.data := by
  induction n generalizing s with
  | zero => rfl
  | succ n ih =>
    unfold cycles_idle_loop
    rw [ih, run_dma_cycle_data, cycles_forward_data env hk]

theorem biu_abort_data (env : Env) (hk : env_keeps_mem env) (s : State) :
    (biu_abort env s).data = s.data := by
  rw [biu_abort_eq]
  exact cycles_idle_loop_data env hk _ s

theorem bus_do_mem_data_congr (io : Nat) {s t : State} (hd : t.data = s.data)
    (hc : t.ctl = s.ctl) : (bus_do_mem io t).data = (bus_do_mem io s).data := by
  have h1 : t.mem = s.mem := congrArg Data.mem hd
  have h2 : t.mem_data = s.mem_data := congrArg Data.mem_data hd
  have h3 : t.ax = s.ax := congrArg Data.ax hd
  have h4 : t.bus_log = s.bus_log := congrArg Data.bus_log hd
  have h5 : t.mem_seg = s.mem_seg := congrArg Ctl.mem_seg hc
  have h6 : t.mem_addr = s.mem_addr := congrArg Ctl.mem_addr hc
  have h7 : t.is186 = s.is186 := congrArg Ctl.is186 hc
  have h8 : t.is_nec = s.is_nec := congrArg Ctl.is_nec hc
  unfold bus_do_mem
  simp only [h1, h2, h3, h4, h5, h6, h7, h8, bus_writew, bus_writeb, bus_readw, bus_readb,
    write_mem_w, write_mem_b, read_mem_w, read_mem_b]
  split_ifs <;> simp only [State.data, h1, h2, h3, h4]

theorem acc_mem_code (io : Nat) (h : (io &&& BUS_ACCESS_TYPE) = BUS_MEM) :
    io ≠ 0 ∧ (io &&& BUS_CODE) = 0 := by
  constructor
  · rintro rfl
    revert h; decide
  · have e : io &&& BUS_CODE = (io &&& BUS_ACCESS_TYPE) &&& BUS_CODE := by
      rw [Nat.land_assoc]; rfl
    rw [e, h]; rfl

theorem run_bus_cycle_mem_data (env : Env) (hk : env_keeps_mem env) (io : Nat) (s : State)
    (hio : (io &&& BUS_ACCESS_TYPE) = BUS_MEM) :
    (run_bus_cycle env io s).data =
      if (BUS_CYCLE s = 1 ∧ (io &&& BUS_OUT) ≠ 0) ∨ (BUS_CYCLE s = 2 ∧ (io &&& BUS_OUT) = 0)
      then (bus_do_mem io s).data else s.data := by
  obtain ⟨hn, hcode⟩ := acc_mem_code io hio
  unfold run_bus_cycle
  rw [if_pos ⟨hn, Or.inl hcode⟩]
  have h1 := bus_ready_data env hk s
  have h2 := ctl_of_core (ready_wait_core env s)
  have h3 : BUS_CYCLE (bus_ready env s) = BUS_CYCLE s := bus_cycle_of_core (ready_wait_core env s)
  have hlt : BUS_CYCLE s < 4 := by rw [bus_cycle_eq_mod]; omega
  generalize bus_ready env s = s1 at h1 h2 h3
  have hcg := bus_do_mem_data_congr io h1 h2
  have hne1 : ¬ (BUS_MEM = BUS_IO) := by decide
  have hne2 : ¬ (BUS_MEM = BUS_CODE) := by decide
  simp only [h3, hio, hne1, hne2, if_false, if_true]
  generalize BUS_CYCLE s = p at hlt
  interval_cases p
  · have hc : ¬ (((0 : Nat) = 1 ∧ (io &&& BUS_OUT) ≠ 0) ∨ ((0 : Nat) = 2 ∧ (io &&& BUS_OUT) = 0)) := by
      simp
    rw [if_neg hc]; exact h1
  · by_cases ho : (io &&& BUS_OUT) = 0
    · have hc : ¬ (((1 : Nat) = 1 ∧ (io &&& BUS_OUT) ≠ 0) ∨ ((1 : Nat) = 2 ∧ (io &&& BUS_OUT) = 0)) := by
        simp [ho]
      rw [if_neg hc]; simp only [ho, ne_eq, not_true_eq_false, if_false]; exact h1
    · have hc : (((1 : Nat) = 1 ∧ (io &&& BUS_OUT) ≠ 0) ∨ ((1 : Nat) = 2 ∧ (io &&& BUS_OUT) = 0)) := by
        simp [ho]
      rw [if_pos hc]; simp only [ho, ne_eq, not_false_eq_true, if_true]; exact hcg
  · by_cases ho : (io &&& BUS_OUT) = 0
    · have hc : (((2 : Nat) = 1 ∧ (io &&& BUS_OUT) ≠ 0) ∨ ((2 : Nat) = 2 ∧ (io &&& BUS_OUT) = 0)) := by
        simp [ho]
      rw [if_pos hc]; simp only [ho, if_true]; exact hcg
    · have hc : ¬ (((2 : Nat) = 1 ∧ (io &&& BUS_OUT) ≠ 0) ∨ ((2 : Nat) = 2 ∧ (io &&& BUS_OUT) = 0)) := by
        simp [ho]
      rw [if_neg hc]; simp only [ho, if_false]; exact h1
  · have hc : ¬ (((3 : Nat) = 1 ∧ (io &&& BUS_OUT) ≠ 0) ∨ ((3 : Nat) = 2 ∧ (io &&& BUS_OUT) = 0)) := by
      simp
    rw [if_neg hc]; exact h1

theorem biu_access_mem_data (env : Env) (hk : env_keeps_mem env) (init : Nat) (s : State)
    (hreq : (s.bus_request_type &&& BUS_ACCESS_TYPE) = BUS_MEM) :
    (biu_access env 1 init s).data =
      if init ≠ 0 ∧ s.schedule_fetch ≠ 0 then s.data
      else if (BUS_CYCLE s = 1 ∧ (s.bus_request_type &&& BUS_OUT) ≠ 0) ∨
              (BUS_CYCLE s = 2 ∧ (s.bus_request_type &&& BUS_OUT) = 0)
        then (bus_do_mem s.bus_request_type s).data else s.data := by
  unfold biu_access
  rw [if_pos (by decide)]
  simp only
  by_cases hab : init ≠ 0 ∧ s.schedule_fetch ≠ 0
  · rw [if_pos hab, if_pos hab]
    have ha := biu_abort_effect env s
    have hr : (biu_abort env s).bus_request_type = s.bus_request_type :=
      congrArg Ctl.bus_request_type ha.1
    have hb : BUS_CYCLE (biu_abort env s) = 0 := by unfold BUS_CYCLE; rw [ha.2.1]; rfl
    rw [run_bus_cycle_mem_data env hk _ _ (by rw [hr]; exact hreq), hb]
    have hc : ¬ (((0 : Nat) = 1 ∧ ((biu_abort env s).bus_request_type &&& BUS_OUT) ≠ 0) ∨
        ((0 : Nat) = 2 ∧ ((biu_abort env s).bus_request_type &&& BUS_OUT) = 0)) := by simp
    rw [if_neg hc]
    exact biu_abort_data env hk s
  · rw [if_neg hab, if_neg hab]
    exact run_bus_cycle_mem_data env hk _ s hreq

theorem cycles_biu_mem_data (env : Env) (hk : env_keeps_mem env) (init : Nat) (s : State)
    (hreq : (s.bus_request_type &&& BUS_ACCESS_TYPE) = BUS_MEM) :
    (cycles_biu env 1 init s).data =
      if init ≠ 0 ∧ s.schedule_fetch ≠ 0 then s.data
      else if (BUS_CYCLE s = 1 ∧ (s.bus_request_type &&& BUS_OUT) ≠ 0) ∨
              (BUS_CYCLE s = 2 ∧ (s.bus_request_type &&& BUS_OUT) = 0)
        then (bus_do_mem s.bus_request_type s).data else s.data := by
  unfold cycles_biu
  simp only
  have h1 := biu_access_mem_data env hk init
    ({ s with pasv := if (1 : Nat) ≠ 0 ∨ (BUS_CYCLE s = BUS_T1 ∧ s.schedule_fetch ≠ 0) then 0 else 1 } : State)
    hreq
  have hcg : ∀ v : Nat, (bus_do_mem s.bus_request_type ({ s with pasv := v } : State)).data =
      (bus_do_mem s.bus_request_type s).data := fun v => bus_do_mem_data_congr _ rfl rfl
  generalize biu_access env 1 init
    ({ s with pasv := if (1 : Nat) ≠ 0 ∨ (BUS_CYCLE s = BUS_T1 ∧ s.schedule_fetch ≠ 0) then 0 else 1 } : State)
    = s1 at h1
  have h2 : (if BUS_CYCLE s1 = BUS_T2 then pfq_schedule 1 s1 else s1).data = s1.data := by
    split_ifs <;> rfl
  generalize (if BUS_CYCLE s1 = BUS_T2 then pfq_schedule 1 s1 else s1) = s2 at h2
  have h3 := run_dma_cycle_data s2.pasv s2
  generalize run_dma_cycle s2.pasv s2 = s3 at h3
  show s3.data = _
  rw [h3, h2, h1]
  simp only [hcg]
  rfl

theorem wait_tick_mem_data (env : Env) (hk : env_keeps_mem env) (d : Nat) (s : State)
    (hreq : (s.bus_request_type &&& BUS_ACCESS_TYPE) = BUS_MEM) :
    (wait_tick env 1 d s).data =
      if d = 0 ∧ s.schedule_fetch ≠ 0 then s.data
      else if (BUS_CYCLE s = 1 ∧ (s.bus_request_type &&& BUS_OUT) ≠ 0) ∨
              (BUS_CYCLE s = 2 ∧ (s.bus_request_type &&& BUS_OUT) = 0)
        then (bus_do_mem s.bus_request_type s).data else s.data := by
  unfold wait_tick
  simp only
  rw [if_neg (fun hh => absurd hh.1 (by decide)), cycles_forward_data env hk,
    cycles_biu_mem_data env hk _ s hreq]
  by_cases hd : d = 0
  · simp [hd]
  · simp [hd]

theorem mem_active_iff (p io : Nat) :
    ((p = 1 ∧ (io &&& BUS_OUT) ≠ 0) ∨ (p = 2 ∧ (io &&& BUS_OUT) = 0)) ↔
      p = (if (io &&& BUS_OUT) ≠ 0 then 1 else 2) := by
  by_cases ho : (io &&& BUS_OUT) = 0 <;> simp [ho]

theorem wait_from_mem_data (env : Env) (hk : env_keeps_mem env) (n d : Nat) (s : State)
    (hd : d ≠ 0) (hn : n ≤ 3)
    (hreq : (s.bus_request_type &&& BUS_ACCESS_TYPE) = BUS_MEM) :
    (wait_from env 1 n d s).data =
      if ((if (s.bus_request_type &&& BUS_OUT) ≠ 0 then 1 else 2) + 4 - BUS_CYCLE s) % 4 < n
      then (bus_do_mem s.bus_request_type s).data else s.data := by
  induction n generalizing d s with
  | zero => simp [wait_from]
  | succ n ih =>
    unfold wait_from
    have hdt := wait_tick_mem_data env hk d s hreq
    rw [if_neg (fun hh => hd hh.1)] at hdt
    have hph := wait_tick_phase env 1 d s
    rw [if_neg (fun hh => absurd hh.1 (by decide)), if_neg (fun hh => hd hh.2.1)] at hph
    have hctl := wait_tick_ctl env 1 d s
    have hr : (wait_tick env 1 d s).bus_request_type = s.bus_request_type :=
      congrArg Ctl.bus_request_type hctl
    have hih := ih (d + 1) (wait_tick env 1 d s) (by omega) (by omega) (by rw [hr]; exact hreq)
    have hcg : (wait_tick env 1 d s).data = s.data →
        (bus_do_mem s.bus_request_type (wait_tick env 1 d s)).data =
          (bus_do_mem s.bus_request_type s).data := fun h => bus_do_mem_data_congr _ h hctl
    rw [hr, hph] at hih
    rw [hih]
    simp only [mem_active_iff] at hdt
    have hlt : BUS_CYCLE s < 4 := by rw [bus_cycle_eq_mod]; omega
    have hk2 : (if (s.bus_request_type &&& BUS_OUT) ≠ 0 then 1 else 2) = 1 ∨
        (if (s.bus_request_type &&& BUS_OUT) ≠ 0 then 1 else 2) = 2 := by
      split_ifs <;> simp
    generalize (if (s.bus_request_type &&& BUS_OUT) ≠ 0 then 1 else 2) = k at hdt hk2 ⊢
    generalize BUS_CYCLE s = p at hdt hlt ⊢
    by_cases hact : p = k
    · rw [if_pos hact] at hdt
      rw [if_neg (by omega), if_pos (by omega), hdt]
    · rw [if_neg hact] at hdt
      by_cases hj : (k + 4 - (p + 1) % 4) % 4 < n
      · rw [if_pos hj, if_pos (by omega), hcg hdt]
      · rw [if_neg hj, if_neg (by omega), hdt]

theorem wait_mem_data (env : Env) (hk : env_keeps_mem env) (s : State)
    (hreq : (s.bus_request_type &&& BUS_ACCESS_TYPE) = BUS_MEM) :
    (wait env 4 1 s).data = (bus_do_mem s.bus_request_type s).data := by
  show (wait_from env 1 3 1 (wait_tick env 1 0 s)).data = _
  have hdt := wait_tick_mem_data env hk 0 s hreq
  have hph := wait_tick_phase env 1 0 s
  rw [if_neg (fun hh => absurd hh.1 (by decide))] at hph
  have hctl := wait_tick_ctl env 1 0 s
  have hr : (wait_tick env 1 0 s).bus_request_type = s.bus_request_type :=
    congrArg Ctl.bus_request_type hctl
  have hcg : (wait_tick env 1 0 s).data = s.data →
      (bus_do_mem s.bus_request_type (wait_tick env 1 0 s)).data =
        (bus_do_mem s.bus_request_type s).data := fun h => bus_do_mem_data_congr _ h hctl
  rw [wait_from_mem_data env hk 3 1 _ (by decide) (by decide) (by rw [hr]; exact hreq), hr]
  simp only [mem_active_iff] at hdt
  have hlt : BUS_CYCLE s < 4 := by rw [bus_cycle_eq_mod]; omega
  have hk2 : (if (s.bus_request_type &&& BUS_OUT) ≠ 0 then 1 else 2) = 1 ∨
      (if (s.bus_request_type &&& BUS_OUT) ≠ 0 then 1 else 2) = 2 := by
    split_ifs <;> simp
  generalize (if (s.bus_request_type &&& BUS_OUT) ≠ 0 then 1 else 2) = k at hdt hk2 ⊢
  by_cases hab : s.schedule_fetch ≠ 0
  · rw [if_pos ⟨by decide, rfl, hab⟩] at hph
    rw [if_pos ⟨trivial, hab⟩] at hdt
    rw [hph, if_pos (by simp only [BUS_T2]; omega), hcg hdt]
  · rw [if_neg (fun hh => hab hh.2.2)] at hph
    rw [if_neg (fun hh => hab hh.2)] at hdt
    generalize BUS_CYCLE s = p at hdt hlt hph ⊢
    rw [hph]
    by_cases hact : p = k
    · rw [if_pos hact] at hdt
      rw [if_neg (by omega), hdt]
    · rw [if_neg hact] at hdt
      rw [if_pos (by omega), hcg hdt]

/-! ## Ticks without an operand access leave the data side alone -/

theorem clock_end_priv (env : Env) (s : State) : (clock_end env s).priv = s.priv := by
  unfold clock_end
  simp only
  split_ifs <;> rfl

theorem cycles_forward_priv (env : Env) (c : Int) (s : State) :
    (cycles_forward env c s).priv = s.priv := by
  unfold cycles_forward process_timers clock_start
  simp only
  split_ifs
  · exact clock_end_priv env _
  · rfl

theorem bus_ready_priv (env : Env) (s : State) : (bus_ready env s).priv = s.priv := by
  unfold bus_ready
  split_ifs
  · exact cycles_forward_priv env _ s
  · rfl

theorem run_dma_cycle_priv (idle : Nat) (s : State) : (run_dma_cycle idle s).priv = s.priv := by
  unfold run_dma_cycle
  simp only
  split_ifs <;> rfl

theorem pfq_add_data (s : State) : (pfq_add s).data = s.data ∧ (pfq_add s).priv = s.priv := by
  unfold pfq_add pfq_write
  simp only
  split_ifs <;> exact ⟨rfl, rfl⟩

theorem run_bus_cycle_code_priv (env : Env) (s : State) :
    (run_bus_cycle env BUS_CODE s).priv = s.priv ∧
    (env_keeps_mem env → (run_bus_cycle env BUS_CODE s).data = s.data) := by
  unfold run_bus_cycle
  by_cases hc : BUS_CODE ≠ 0 ∧ ((BUS_CODE &&& BUS_CODE) = 0 ∨ s.schedule_fetch ≠ 0)
  · rw [if_pos hc]
    have h1 := bus_ready_priv env s
    have h2 := fun hk => bus_ready_data env hk s
    generalize bus_ready env s = s1 at h1 h2
    have e1 : (BUS_CODE &&& BUS_ACCESS_TYPE) = BUS_CODE := by decide
    simp only [e1, if_true]
    split
    · exact ⟨h1, h2⟩
    · exact ⟨h1, h2⟩
    · exact ⟨(pfq_add_data s1).2.trans h1, fun hk => (pfq_add_data s1).1.trans (h2 hk)⟩
    · exact ⟨h1, h2⟩
  · rw [if_neg hc]
    exact ⟨rfl, fun _ => rfl⟩

theorem cycles_biu_idle_priv (env : Env) (init : Nat) (s : State) :
    (cycles_biu env 0 init s).priv = s.priv ∧
    (env_keeps_mem env → (cycles_biu env 0 init s).data = s.data) := by
  unfold cycles_biu
  simp only
  generalize hs0 : ({ s with pasv :=
    if (0 : Nat) ≠ 0 ∨ (BUS_CYCLE s = BUS_T1 ∧ s.schedule_fetch ≠ 0) then 0 else 1 } : State) = s0
  have e0 : s0.priv = s.priv ∧ s0.data = s.data := by subst hs0; exact ⟨rfl, rfl⟩
  have h1 : (biu_access env 0 init s0).priv = s.priv ∧
      (env_keeps_mem env → (biu_access env 0 init s0).data = s.data) := by
    unfold biu_access
    rw [if_neg (show ¬ ((0 : Nat) ≠ 0) by decide)]
    by_cases hsf : s0.schedule_fetch ≠ 0
    · rw [if_pos hsf]
      exact ⟨(run_bus_cycle_code_priv env s0).1.trans e0.1,
        fun hk => ((run_bus_cycle_code_priv env s0).2 hk).trans e0.2⟩
    · rw [if_neg hsf]
      exact ⟨e0.1, fun _ => e0.2⟩
  generalize biu_access env 0 init s0 = s1 at h1
  have h2 : (if BUS_CYCLE s1 = BUS_T2 then pfq_schedule 1 s1 else s1).priv = s1.priv ∧
      (if BUS_CYCLE s1 = BUS_T2 then pfq_schedule 1 s1 else s1).data = s1.data := by
    split_ifs <;> exact ⟨rfl, rfl⟩
  generalize (if BUS_CYCLE s1 = BUS_T2 then pfq_schedule 1 s1 else s1) = s2 at h2
  have h3 := run_dma_cycle_priv s2.pasv s2
  have h4 := run_dma_cycle_data s2.pasv s2
  generalize run_dma_cycle s2.pasv s2 = s3 at h3 h4
  exact ⟨h3.trans (h2.1.trans h1.1), fun hk => h4.trans (h2.2.trans (h1.2 hk))⟩

theorem wait_tick_idle_priv (env : Env) (d : Nat) (s : State) :
    (wait_tick env 0 d s).priv = s.priv ∧
    (env_keeps_mem env → (wait_tick env 0 d s).data = s.data) := by
  unfold wait_tick
  simp only
  have key : ∀ t : State, (t.priv = s.priv ∧ (env_keeps_mem env → t.data = s.data)) →
      ((cycles_forward env 1 t).priv = s.priv ∧
        (env_keeps_mem env → (cycles_forward env 1 t).data = s.data)) := fun t ht =>
    ⟨(cycles_forward_priv env 1 t).trans ht.1,
      fun hk => (cycles_forward_data env hk 1 t).trans (ht.2 hk)⟩
  apply key
  by_cases hc : True ∧ s.schedule_fetch = 0 ∧ BUS_CYCLE s = BUS_T1
  · rw [if_pos hc]
    unfold cycles_pasv
    exact ⟨run_dma_cycle_priv _ _, fun _ => run_dma_cycle_data _ _⟩
  · rw [if_neg hc]
    exact cycles_biu_idle_priv env _ s

theorem wait_from_idle_priv (env : Env) (n d : Nat) (s : State) :
    (wait_from env 0 n d s).priv = s.priv ∧
    (env_keeps_mem env → (wait_from env 0 n d s).data = s.data) := by
  induction n generalizing d s with
  | zero => exact ⟨rfl, fun _ => rfl⟩
  | succ n ih =>
    unfold wait_from
    have h1 := wait_tick_idle_priv env d s
    have h2 := ih (d + 1) (wait_tick env 0 d s)
    exact ⟨h2.1.trans h1.1, fun hk => (h2.2 hk).trans (h1.2 hk)⟩

theorem wait_idle_priv (env : Env) (c : Int) (s : State) :
    (wait env c 0 s).priv = s.priv ∧ (env_keeps_mem env → (wait env c 0 s).data = s.data) :=
  wait_from_idle_priv env _ 0 s

theorem arch_of_ctl {s t : State} (h : t.ctl = s.ctl) : t.arch = s.arch :=
  congrArg Ctl.toArch h

theorem wait_arch (env : Env) (c : Int) (bus : Nat) (s : State) :
    (wait env c bus s).arch = s.arch :=
  arch_of_ctl (wait_ctl env c bus s)

/-! ## Word writes and word reads -/

theorem and_ff (x : Nat) : x &&& 0xff = x % 256 := by
  have h := mask_eq_mod x 8
  simpa using h

theorem shr8 (x : Nat) : x >>> 8 = x / 256 := by
  rw [Nat.shiftRight_eq_div_pow]

theorem and_one_parity (x : Nat) : (x &&& 1 = 0) ↔ x % 2 = 0 := by
  rw [Nat.and_one_is_mod]

theorem bus_do_mem_data_fields (io : Nat) {s t : State} (hd : t.data = s.data)
    (h5 : t.mem_seg = s.mem_seg) (h6 : t.mem_addr = s.mem_addr) (h7 : t.is186 = s.is186)
    (h8 : t.is_nec = s.is_nec) : (bus_do_mem io t).data = (bus_do_mem io s).data := by
  have h1 : t.mem = s.mem := congrArg Data.mem hd
  have h2 : t.mem_data = s.mem_data := congrArg Data.mem_data hd
  have h3 : t.ax = s.ax := congrArg Data.ax hd
  have h4 : t.bus_log = s.bus_log := congrArg Data.bus_log hd
  unfold bus_do_mem
  simp only [h1, h2, h3, h4, h5, h6, h7, h8, bus_writew, bus_writeb, bus_readw, bus_readb,
    write_mem_w, write_mem_b, read_mem_w, read_mem_b]
  split_ifs <;> simp only [State.data, h1, h2, h3, h4]

/-- One operand cycle with request `io` set up in `bus_request_type`. -/
theorem mem_cycle (env : Env) (hk : env_keeps_mem env) (io : Nat) (s : State)
    (hio : (io &&& BUS_ACCESS_TYPE) = BUS_MEM) :
    (wait env 4 1 { s with bus_request_type := io }).data = (bus_do_mem io s).data ∧
    (wait env 4 1 { s with bus_request_type := io }).arch = s.arch ∧
    (wait env 4 1 { s with bus_request_type := io }).mem_seg = s.mem_seg ∧
    (wait env 4 1 { s with bus_request_type := io }).mem_addr = s.mem_addr := by
  have h := wait_mem_data env hk { s with bus_request_type := io } hio
  have hc := wait_ctl env 4 1 { s with bus_request_type := io }
  have ha := arch_of_ctl hc
  have h5 := congrArg Ctl.mem_seg hc
  have h6 := congrArg Ctl.mem_addr hc
  exact ⟨h.trans (bus_do_mem_data_fields io rfl rfl rfl rfl rfl), ha, h5, h6⟩

theorem bus_do_mem_out_wide (s : State) :
    (bus_do_mem (BUS_MEM ||| BUS_OUT ||| BUS_WIDE) s).data =
      { mem := fun x =>
          if x = ((s.mem_seg + s.mem_addr) % 4294967296 + 1) % 1048576 then
            s.mem_data % 65536 / 256 % 256 % 256
          else if x = (s.mem_seg + s.mem_addr) % 4294967296 % 1048576 then
            s.mem_data % 65536 % 256 % 256
          else s.mem x,
        mem_data := s.mem_data, ax := s.ax,
        bus_log := s.bus_log ++ [BUS_MEM ||| BUS_OUT ||| BUS_WIDE] } := rfl

theorem bus_do_mem_out_high (s : State) :
    (bus_do_mem (BUS_MEM ||| BUS_OUT ||| BUS_HIGH) s).data =
      { mem := fun x =>
          if x = ((s.mem_seg + (if (s.is186 && !s.is_nec) = true then s.mem_addr + 1
                    else (s.mem_addr + 1) &&& 0xffff)) % 4294967296) % 1048576 then
            (s.mem_data >>> 8) % 256 % 256
          else s.mem x,
        mem_data := s.mem_data, ax := s.ax,
        bus_log := s.bus_log ++ [BUS_MEM ||| BUS_OUT ||| BUS_HIGH] } := by
  unfold bus_do_mem
  rw [if_pos (by decide), if_neg (by decide), if_pos (by decide)]
  simp only [bus_writeb, write_mem_b, State.data]
  split_ifs <;> rfl

theorem bus_do_mem_out_low (s : State) :
    (bus_do_mem (BUS_MEM ||| BUS_OUT) s).data =
      { mem := fun x =>
          if x = ((s.mem_seg + s.mem_addr) % 4294967296) % 1048576 then
            (s.mem_data &&& 0xff) % 256 % 256
          else s.mem x,
        mem_data := s.mem_data, ax := s.ax,
        bus_log := s.bus_log ++ [BUS_MEM ||| BUS_OUT] } := rfl

theorem write_done_frame (addr : Nat) (s : State) :
    (write_done addr s).data = s.data ∧ (write_done addr s).arch = s.arch := by
  unfold write_done
  simp only
  split_ifs <;> exact ⟨rfl, rfl⟩

theorem write_cycles_effect (env : Env) (hk : env_keeps_mem env) (addr : Nat) (c : Bool)
    (s1 : State) :
    (write_done addr
      (if c = true then
        wait env 4 1 { s1 with bus_request_type := BUS_MEM ||| BUS_OUT ||| BUS_WIDE }
      else
        wait env 4 1 { pfq_schedule 0
          (wait env 4 1 { s1 with bus_request_type := BUS_MEM ||| BUS_OUT ||| BUS_HIGH })
            with bus_request_type := BUS_MEM ||| BUS_OUT })).arch = s1.arch ∧
    (write_done addr
      (if c = true then
        wait env 4 1 { s1 with bus_request_type := BUS_MEM ||| BUS_OUT ||| BUS_WIDE }
      else
        wait env 4 1 { pfq_schedule 0
          (wait env 4 1 { s1 with bus_request_type := BUS_MEM ||| BUS_OUT ||| BUS_HIGH })
            with bus_request_type := BUS_MEM ||| BUS_OUT })).ax = s1.ax ∧
    (write_done addr
      (if c = true then
        wait env 4 1 { s1 with bus_request_type := BUS_MEM ||| BUS_OUT ||| BUS_WIDE }
      else
        wait env 4 1 { pfq_schedule 0
          (wait env 4 1 { s1 with bus_request_type := BUS_MEM ||| BUS_OUT ||| BUS_HIGH })
            with bus_request_type := BUS_MEM ||| BUS_OUT })).mem =
      (if c = true then
        fun x =>
          if x = ((s1.mem_seg + s1.mem_addr) % 4294967296 + 1) % 1048576 then
            s1.mem_data % 65536 / 256 % 256 % 256
          else if x = (s1.mem_seg + s1.mem_addr) % 4294967296 % 1048576 then
            s1.mem_data % 65536 % 256 % 256
          else s1.mem x
      else
        fun x =>
          if x = ((s1.mem_seg + s1.mem_addr) % 4294967296) % 1048576 then
            (s1.mem_data &&& 0xff) % 256 % 256
          else if x = ((s1.mem_seg + (if (s1.is186 && !s1.is_nec) = true then s1.mem_addr + 1
                    else (s1.mem_addr + 1) &&& 0xffff)) % 4294967296) % 1048576 then
            (s1.mem_data >>> 8) % 256 % 256
          else s1.mem x) := by
  by_cases hw : c = true
  · simp only [if_pos hw]
    obtain ⟨hd, ha, -, -⟩ := mem_cycle env hk (BUS_MEM ||| BUS_OUT ||| BUS_WIDE) s1 (by decide)
    generalize wait env 4 1 { s1 with bus_request_type := BUS_MEM ||| BUS_OUT ||| BUS_WIDE } = t2
      at hd ha
    obtain ⟨wd, wa⟩ := write_done_frame addr t2
    rw [bus_do_mem_out_wide] at hd
    exact ⟨wa.trans ha, (congrArg Data.ax wd).trans (congrArg Data.ax hd),
      (congrArg Data.mem wd).trans (congrArg Data.mem hd)⟩
  · simp only [if_neg hw]
    obtain ⟨hd, ha, hseg, haddr⟩ :=
      mem_cycle env hk (BUS_MEM ||| BUS_OUT ||| BUS_HIGH) s1 (by decide)
    generalize wait env 4 1 { s1 with bus_request_type := BUS_MEM ||| BUS_OUT ||| BUS_HIGH } = t3
      at hd ha hseg haddr
    rw [bus_do_mem_out_high] at hd
    obtain ⟨hd2, ha2, -, -⟩ :=
      mem_cycle env hk (BUS_MEM ||| BUS_OUT) (pfq_schedule 0 t3) (by decide)
    generalize wait env 4 1 { pfq_schedule 0 t3 with bus_request_type := BUS_MEM ||| BUS_OUT } = t2
      at hd2 ha2
    rw [bus_do_mem_out_low] at hd2
    obtain ⟨wd, wa⟩ := write_done_frame addr t2
    have e186 : (pfq_schedule 0 t3).arch = s1.arch := ha
    have hm3 : t3.mem = _ := congrArg Data.mem hd
    have hdat3 : t3.mem_data = _ := congrArg Data.mem_data hd
    have hx3 : t3.ax = _ := congrArg Data.ax hd
    have hm : (write_done addr t2).mem = _ := (congrArg Data.mem wd).trans (congrArg Data.mem hd2)
    have hx : (write_done addr t2).ax = _ := (congrArg Data.ax wd).trans (congrArg Data.ax hd2)
    have hp : (pfq_schedule 0 t3).mem = t3.mem ∧ (pfq_schedule 0 t3).mem_seg = t3.mem_seg ∧
        (pfq_schedule 0 t3).mem_addr = t3.mem_addr ∧ (pfq_schedule 0 t3).mem_data = t3.mem_data ∧
        (pfq_schedule 0 t3).ax = t3.ax := ⟨rfl, rfl, rfl, rfl, rfl⟩
    refine ⟨wa.trans (ha2.trans e186), ?_, ?_⟩
    · rw [hx, hp.2.2.2.2, hx3]
    · rw [hm, hp.1, hp.2.1, hp.2.2.1, hp.2.2.2.1, hseg, haddr, hdat3, hm3]

theorem writememw_mem (env : Env) (hk : env_keeps_mem env) (seg a v : Nat) (s : State) :
    (writememw env seg a v s).arch = s.arch ∧ (writememw env seg a v s).ax = s.ax ∧
    (writememw env seg a v s).mem =
      (if (s.is8086 && decide (((a % 4294967296) &&& 1) = 0)) = true then
        fun x =>
          if x = ((seg % 4294967296 + a % 65536) % 4294967296 + 1) % 1048576 then
            v % 65536 % 65536 / 256 % 256 % 256
          else if x = (seg % 4294967296 + a % 65536) % 4294967296 % 1048576 then
            v % 65536 % 65536 % 256 % 256
          else s.mem x
      else
        fun x =>
          if x = ((seg % 4294967296 + a % 65536) % 4294967296) % 1048576 then
            ((v % 65536) &&& 0xff) % 256 % 256
          else if x = ((seg % 4294967296 + (if (s.is186 && !s.is_nec) = true then a % 65536 + 1
                    else (a % 65536 + 1) &&& 0xffff)) % 4294967296) % 1048576 then
            ((v % 65536) >>> 8) % 256 % 256
          else s.mem x) :=
  write_cycles_effect env hk ((seg + a) % 4294967296)
    (s.is8086 && decide (((a % 4294967296) &&& 1) = 0))
    { s with mem_seg := seg % 4294967296, mem_addr := a % 65536, mem_data := v % 65536 }

theorem word_hi_wide (s : State) (seg a : Nat)
    (hw : (s.is8086 && decide (((a % 4294967296) &&& 1) = 0)) = true) :
    word_hi s seg a = ((seg % 4294967296 + a % 65536) % 4294967296 + 1) % 1048576 := by
  have hpar : ((a % 4294967296) &&& 1 = 0) ↔ a % 2 = 0 := by
    rw [and_one_parity]; omega
  unfold word_hi
  rw [if_pos]
  left
  simp only [Bool.and_eq_true, decide_eq_true_eq] at hw ⊢
  exact ⟨hw.1, hpar.1 hw.2⟩

theorem word_hi_bytes (s : State) (seg a : Nat)
    (hw : ¬ (s.is8086 && decide (((a % 4294967296) &&& 1) = 0)) = true) :
    word_hi s seg a =
      ((seg % 4294967296 + (if (s.is186 && !s.is_nec) = true then a % 65536 + 1
        else (a % 65536 + 1) &&& 0xffff)) % 4294967296) % 1048576 := by
  have hpar : ((a % 4294967296) &&& 1 = 0) ↔ a % 2 = 0 := by
    rw [and_one_parity]; omega
  have hnw : ¬ (s.is8086 = true ∧ a % 2 = 0) := by
    simp only [Bool.and_eq_true, decide_eq_true_eq] at hw
    exact fun hh => hw ⟨hh.1, hpar.2 hh.2⟩
  unfold word_hi
  by_cases h186 : (s.is186 && !s.is_nec) = true
  · rw [if_pos (Or.inr h186), if_pos h186]; omega
  · rw [if_neg h186, if_neg, and_ffff]
    simp only [Bool.and_eq_true, decide_eq_true_eq]
    rintro (hh | hh)
    · exact hnw hh
    · exact h186 (by simpa using hh)

theorem word_hi_ne_lo (s : State) (seg a : Nat) : word_hi s seg a ≠ word_lo seg a := by
  unfold word_hi word_lo
  split_ifs <;> omega

theorem writememw_effect (env : Env) (hk : env_keeps_mem env) (seg a v : Nat) (s : State) :
    (writememw env seg a v s).arch = s.arch ∧ (writememw env seg a v s).ax = s.ax ∧
    (writememw env seg a v s).mem (word_lo seg a) = v % 256 ∧
    (writememw env seg a v s).mem (word_hi s seg a) = v / 256 % 256 ∧
    ∀ x, x ≠ word_lo seg a → x ≠ word_hi s seg a → (writememw env seg a v s).mem x = s.mem x := by
  obtain ⟨ha, hx, hm⟩ := writememw_mem env hk seg a v s
  have hne := word_hi_ne_lo s seg a
  refine ⟨ha, hx, ?_, ?_, ?_⟩
  · rw [hm]
    by_cases hw : (s.is8086 && decide (((a % 4294967296) &&& 1) = 0)) = true
    · rw [if_pos hw]
      have e := word_hi_wide s seg a hw
      show (if word_lo seg a = _ then _ else if word_lo seg a = _ then _ else _) = _
      rw [← e, if_neg hne.symm]
      unfold word_lo
      rw [if_pos rfl]; omega
    · rw [if_neg hw]
      show (if word_lo seg a = _ then _ else _) = _
      unfold word_lo
      rw [if_pos rfl, and_ff]; omega
  · rw [hm]
    by_cases hw : (s.is8086 && decide (((a % 4294967296) &&& 1) = 0)) = true
    · rw [if_pos hw]
      have e := word_hi_wide s seg a hw
      show (if word_hi s seg a = _ then _ else _) = _
      rw [← e, if_pos rfl]; omega
    · rw [if_neg hw]
      have e := word_hi_bytes s seg a hw
      show (if word_hi s seg a = _ then _ else if word_hi s seg a = _ then _ else _) = _
      rw [← e, if_pos rfl, shr8]
      have hne2 : ¬ (word_hi s seg a = (seg % 4294967296 + a % 65536) % 4294967296 % 1048576) := hne
      rw [if_neg hne2]; omega
  · intro x h1 h2
    rw [hm]
    have h1b : ¬ (x = (seg % 4294967296 + a % 65536) % 4294967296 % 1048576) := h1
    by_cases hw : (s.is8086 && decide (((a % 4294967296) &&& 1) = 0)) = true
    · rw [if_pos hw]
      have e := word_hi_wide s seg a hw
      show (if x = _ then _ else if x = _ then _ else _) = _
      rw [← e, if_neg h2, if_neg h1b]
    · rw [if_neg hw]
      have e := word_hi_bytes s seg a hw
      show (if x = _ then _ else if x = _ then _ else _) = _
      rw [← e, if_neg h2, if_neg h1b]

theorem or_shl8 (l h : Nat) (hl : l < 256) : l ||| (h <<< 8) = l + 256 * h := by
  have h1 := Nat.mul_add_lt_is_or (show l < 2 ^ 8 by simpa using hl) h
  rw [Nat.shiftLeft_eq, Nat.or_comm, Nat.mul_comm, ← h1]
  omega

theorem byte_merge (m h l : Nat) (hh : h < 256) (hl : l < 256) :
    (((m &&& 0x00ff) ||| (h <<< 8)) &&& 0xff00) ||| l = l + 256 * h := by
  rw [← or_shl8 l h hl]
  apply Nat.eq_of_testBit_eq
  intro i
  have e1 : (0xff00 : Nat) = (2 ^ 8 - 1) <<< 8 := by decide
  have e2 : (0x00ff : Nat) = 2 ^ 8 - 1 := by decide
  rw [e1, e2]
  simp only [Nat.testBit_or, Nat.testBit_and, Nat.testBit_shiftLeft, Nat.testBit_two_pow_sub_one]
  by_cases h8 : 8 ≤ i
  · have hl0 : l.testBit i = false :=
      Nat.testBit_eq_false_of_lt (lt_of_lt_of_le hl (by
        calc 256 = 2 ^ 8 := by norm_num
          _ ≤ 2 ^ i := Nat.pow_le_pow_right (by norm_num) h8))
    by_cases h16 : i - 8 < 8
    · have : ¬ i < 8 := by omega
      simp [h8, h16, this, hl0]
    · have hh0 : h.testBit (i - 8) = false :=
        Nat.testBit_eq_false_of_lt (lt_of_lt_of_le hh (by
          calc 256 = 2 ^ 8 := by norm_num
            _ ≤ 2 ^ (i - 8) := Nat.pow_le_pow_right (by norm_num) (by omega)))
      simp [h8, h16, hl0, hh0]
  · simp [h8]

theorem bus_do_mem_in_wide (s : State) :
    (bus_do_mem (BUS_MEM ||| BUS_WIDE) s).data =
      { mem := s.mem,
        mem_data := s.mem (((s.mem_seg + s.mem_addr) % 4294967296) % 1048576) % 256 |||
          ((s.mem ((((s.mem_seg + s.mem_addr) % 4294967296) + 1) % 1048576) % 256) <<< 8),
        ax := s.ax, bus_log := s.bus_log ++ [BUS_MEM ||| BUS_WIDE] } := rfl

theorem bus_do_mem_in_high (s : State) :
    (bus_do_mem (BUS_MEM ||| BUS_HIGH) s).data =
      { mem := s.mem,
        mem_data := (s.mem_data &&& 0x00ff) |||
          ((s.mem (((s.mem_seg + (if (s.is186 && !s.is_nec) = true then s.mem_addr + 1
                    else (s.mem_addr + 1) &&& 0xffff)) % 4294967296) % 1048576) % 256) <<< 8),
        ax := s.ax, bus_log := s.bus_log ++ [BUS_MEM ||| BUS_HIGH] } := by
  unfold bus_do_mem
  rw [if_neg (by decide), if_neg (by decide), if_pos (by decide)]
  simp only [bus_readb, read_mem_b, State.data]
  split_ifs <;> rfl

theorem bus_do_mem_in_low (s : State) :
    (bus_do_mem BUS_MEM s).data =
      { mem := s.mem,
        mem_data := (s.mem_data &&& 0xff00) |||
          s.mem (((s.mem_seg + s.mem_addr) % 4294967296) % 1048576) % 256,
        ax := s.ax, bus_log := s.bus_log ++ [BUS_MEM] } := rfl

theorem read_cycles_effect (env : Env) (hk : env_keeps_mem env) (c : Bool) (s1 : State) :
    (if c = true then
        wait env 4 1 { s1 with bus_request_type := BUS_MEM ||| BUS_WIDE }
      else
        wait env 4 1 { pfq_schedule 0
          (wait env 4 1 { s1 with bus_request_type := BUS_MEM ||| BUS_HIGH })
            with bus_request_type := BUS_MEM }).arch = s1.arch ∧
    (if c = true then
        wait env 4 1 { s1 with bus_request_type := BUS_MEM ||| BUS_WIDE }
      else
        wait env 4 1 { pfq_schedule 0
          (wait env 4 1 { s1 with bus_request_type := BUS_MEM ||| BUS_HIGH })
            with bus_request_type := BUS_MEM }).ax = s1.ax ∧
    (if c = true then
        wait env 4 1 { s1 with bus_request_type := BUS_MEM ||| BUS_WIDE }
      else
        wait env 4 1 { pfq_schedule 0
          (wait env 4 1 { s1 with bus_request_type := BUS_MEM ||| BUS_HIGH })
            with bus_request_type := BUS_MEM }).mem = s1.mem ∧
    (if c = true then
        wait env 4 1 { s1 with bus_request_type := BUS_MEM ||| BUS_WIDE }
      else
        wait env 4 1 { pfq_schedule 0
          (wait env 4 1 { s1 with bus_request_type := BUS_MEM ||| BUS_HIGH })
            with bus_request_type := BUS_MEM }).mem_data =
      (if c = true then
        s1.mem (((s1.mem_seg + s1.mem_addr) % 4294967296) % 1048576) % 256 |||
          ((s1.mem ((((s1.mem_seg + s1.mem_addr) % 4294967296) + 1) % 1048576) % 256) <<< 8)
      else
        (((s1.mem_data &&& 0x00ff) |||
          ((s1.mem (((s1.mem_seg + (if (s1.is186 && !s1.is_nec) = true then s1.mem_addr + 1
                    else (s1.mem_addr + 1) &&& 0xffff)) % 4294967296) % 1048576) % 256) <<< 8))
          &&& 0xff00) |||
          s1.mem (((s1.mem_seg + s1.mem_addr) % 4294967296) % 1048576) % 256) := by
  by_cases hw : c = true
  · simp only [if_pos hw]
    obtain ⟨hd, ha, -, -⟩ := mem_cycle env hk (BUS_MEM ||| BUS_WIDE) s1 (by decide)
    generalize wait env 4 1 { s1 with bus_request_type := BUS_MEM ||| BUS_WIDE } = t2 at hd ha
    rw [bus_do_mem_in_wide] at hd
    exact ⟨ha, congrArg Data.ax hd, congrArg Data.mem hd, congrArg Data.mem_data hd⟩
  · simp only [if_neg hw]
    obtain ⟨hd, ha, hseg, haddr⟩ := mem_cycle env hk (BUS_MEM ||| BUS_HIGH) s1 (by decide)
    generalize wait env 4 1 { s1 with bus_request_type := BUS_MEM ||| BUS_HIGH } = t3
      at hd ha hseg haddr
    rw [bus_do_mem_in_high] at hd
    obtain ⟨hd2, ha2, -, -⟩ := mem_cycle env hk BUS_MEM (pfq_schedule 0 t3) (by decide)
    generalize wait env 4 1 { pfq_schedule 0 t3 with bus_request_type := BUS_MEM } = t2
      at hd2 ha2
    rw [bus_do_mem_in_low] at hd2
    have e186 : (pfq_schedule 0 t3).arch = s1.arch := ha
    have hm3 : t3.mem = _ := congrArg Data.mem hd
    have hdat3 : t3.mem_data = _ := congrArg Data.mem_data hd
    have hx3 : t3.ax = _ := congrArg Data.ax hd
    have hm : t2.mem = _ := congrArg Data.mem hd2
    have hx : t2.ax = _ := congrArg Data.ax hd2
    have hdat : t2.mem_data = _ := congrArg Data.mem_data hd2
    have hp : (pfq_schedule 0 t3).mem = t3.mem ∧ (pfq_schedule 0 t3).mem_seg = t3.mem_seg ∧
        (pfq_schedule 0 t3).mem_addr = t3.mem_addr ∧ (pfq_schedule 0 t3).mem_data = t3.mem_data ∧
        (pfq_schedule 0 t3).ax = t3.ax := ⟨rfl, rfl, rfl, rfl, rfl⟩
    refine ⟨ha2.trans e186, ?_, ?_, ?_⟩
    · rw [hx, hp.2.2.2.2, hx3]
    · rw [hm, hp.1, hm3]
    · rw [hdat, hp.1, hp.2.1, hp.2.2.1, hp.2.2.2.1, hseg, haddr, hdat3, hm3]

theorem word_hi_even (s : State) (seg a : Nat) (hw : s.is8086 = true ∧ a % 2 = 0) :
    word_hi s seg a = ((seg % 4294967296 + a % 65536) % 4294967296 + 1) % 1048576 := by
  unfold word_hi
  rw [if_pos]
  left
  simp only [Bool.and_eq_true, decide_eq_true_eq]
  exact hw

theorem word_hi_odd (s : State) (seg a : Nat) (hw : ¬ (s.is8086 = true ∧ a % 2 = 0)) :
    word_hi s seg a =
      ((seg % 4294967296 + (if (s.is186 && !s.is_nec) = true then a % 65536 + 1
        else (a % 65536 + 1) &&& 0xffff)) % 4294967296) % 1048576 := by
  unfold word_hi
  by_cases h186 : (s.is186 && !s.is_nec) = true
  · rw [if_pos (Or.inr h186), if_pos h186]; omega
  · rw [if_neg h186, if_neg, and_ffff]
    simp only [Bool.and_eq_true, decide_eq_true_eq]
    rintro (hh | hh)
    · exact hw hh
    · exact h186 (by simpa using hh)

theorem readmemw_effect (env : Env) (hk : env_keeps_mem env) (seg a : Nat) (s : State) :
    (readmemw env seg a s).1 =
      s.mem (word_lo seg a) % 256 + 256 * (s.mem (word_hi s seg a) % 256) ∧
    (readmemw env seg a s).2.arch = s.arch ∧ (readmemw env seg a s).2.ax = s.ax ∧
    (readmemw env seg a s).2.mem = s.mem := by
  obtain ⟨ha, hx, hm, hv⟩ := read_cycles_effect env hk
    (s.is8086 && decide (((a % 65536) &&& 1) = 0))
    { s with mem_seg := seg % 4294967296, mem_addr := a % 65536 }
  refine ⟨?_, ha, hx, hm⟩
  have hv2 : (readmemw env seg a s).1 = _ := hv
  rw [hv2]
  have hpar : ((a % 65536) &&& 1 = 0) ↔ a % 2 = 0 := by
    rw [and_one_parity]; omega
  by_cases hw : (s.is8086 && decide (((a % 65536) &&& 1) = 0)) = true
  · rw [if_pos hw]
    have hw2 : s.is8086 = true ∧ a % 2 = 0 := by
      simp only [Bool.and_eq_true, decide_eq_true_eq] at hw
      exact ⟨hw.1, hpar.1 hw.2⟩
    rw [word_hi_even s seg a hw2]
    exact or_shl8 _ _ (Nat.mod_lt _ (by norm_num))
  · rw [if_neg hw]
    have hw2 : ¬ (s.is8086 = true ∧ a % 2 = 0) := by
      simp only [Bool.and_eq_true, decide_eq_true_eq] at hw
      exact fun hh => hw ⟨hh.1, hpar.2 hh.2⟩
    rw [word_hi_odd s seg a hw2]
    exact byte_merge _ _ _ (Nat.mod_lt _ (by norm_num)) (Nat.mod_lt _ (by norm_num))

/-! ## The stack -/

theorem idle_env_keeps_mem : env_keeps_mem idle_env := fun _ => rfl

theorem upd_sp_ea (t : State) (a b : Nat) :
    ({ t with sp := a, eaaddr := b } : State).mem = t.mem ∧
    ({ t with sp := a, eaaddr := b } : State).sp = a := ⟨rfl, rfl⟩

theorem push_special_eq (env : Env) (rd : State → Nat) (s : State)
    (h186 : s.is186 = true) (hnec : s.is_nec = false) (hsp : s.sp = 1) :
    push env rd s =
      { writememw env ((s.seg_ss.base + 4294967295) % 4294967296) 0 (rd s) s with
        sp := 0xFFFF, eaaddr := 0xFFFF } := by
  unfold push
  rw [if_pos ⟨by rw [h186, hnec]; rfl, hsp⟩]

theorem push_special (env : Env) (hk : env_keeps_mem env) (rd : State → Nat) (s : State)
    (h186 : s.is186 = true) (hnec : s.is_nec = false) (hsp : s.sp = 1) :
    (push env rd s).mem ((s.seg_ss.base + 4294967295) % 4294967296 % 1048576) = rd s % 256 ∧
    (push env rd s).mem (s.seg_ss.base % 1048576) = rd s / 256 % 256 ∧
    (push env rd s).sp = 0xFFFF := by
  rw [push_special_eq env rd s h186 hnec hsp]
  obtain ⟨-, -, hlo, hhi, -⟩ := writememw_effect env hk
    ((s.seg_ss.base + 4294967295) % 4294967296) 0 (rd s) s
  have e1 : word_lo ((s.seg_ss.base + 4294967295) % 4294967296) 0 =
      (s.seg_ss.base + 4294967295) % 4294967296 % 1048576 := by
    unfold word_lo; omega
  have e2 : word_hi s ((s.seg_ss.base + 4294967295) % 4294967296) 0 =
      s.seg_ss.base % 1048576 := by
    unfold word_hi
    rw [if_pos (Or.inr (by rw [h186, hnec]; rfl))]
    omega
  rw [e1] at hlo
  rw [e2] at hhi
  refine ⟨?_, ?_, ?_⟩
  · rw [(upd_sp_ea _ _ _).1]; exact hlo
  · rw [(upd_sp_ea _ _ _).1]; exact hhi
  · exact (upd_sp_ea _ _ _).2

/-- C15: on an 80186-class non-NEC CPU with SP = 1, `push` of a value `v` writes the low
byte of `v` at the physical address SS.base - 1 and the high byte at SS.base, whether the
bus is 8 or 16 bits wide (is8086 is free), and leaves SP = 0xFFFF. -/
theorem push_at_sp_one_186 (env : Env) (hk : env_keeps_mem env) (rd : State → Nat) (s : State)
    (h186 : s.is186 = true) (hnec : s.is_nec = false) (hsp : s.sp = 1) :
    (push env rd s).mem ((s.seg_ss.base + 4294967295) % 4294967296 % 1048576) = rd s % 256 ∧
    (push env rd s).mem (s.seg_ss.base % 1048576) = rd s / 256 % 256 ∧
    (push env rd s).sp = 0xFFFF :=
  push_special env hk rd s h186 hnec hsp

/-- Witness of C15: an 80186 with a 16-bit bus, SS.base = 0x20000, SP = 1, pushing 0x1234. -/
theorem push_at_sp_one_186_witness :
    (push idle_env (fun _ => 0x1234)
      { init_state with is186 := true, is8086 := true, sp := 1,
                        seg_ss := ⟨0x20000, 0x2000⟩ }).mem 0x1FFFF = 0x34 ∧
    (push idle_env (fun _ => 0x1234)
      { init_state with is186 := true, is8086 := true, sp := 1,
                        seg_ss := ⟨0x20000, 0x2000⟩ }).mem 0x20000 = 0x12 ∧
    (push idle_env (fun _ => 0x1234)
      { init_state with is186 := true, is8086 := true, sp := 1,
                        seg_ss := ⟨0x20000, 0x2000⟩ }).sp = 0xFFFF :=
  push_at_sp_one_186 idle_env idle_env_keeps_mem (fun _ => 0x1234)
    { init_state with is186 := true, is8086 := true, sp := 1, seg_ss := ⟨0x20000, 0x2000⟩ }
    rfl rfl rfl

theorem word_lo_mod (seg a : Nat) : word_lo seg (a % 65536) = word_lo seg a := by
  unfold word_lo; omega

theorem word_hi_mod (s : State) (seg a : Nat) : word_hi s seg (a % 65536) = word_hi s seg a := by
  unfold word_hi
  have e : a % 65536 % 2 = a % 2 := by omega
  rw [e]
  split_ifs <;> omega

theorem push_normal_eq (env : Env) (rd : State → Nat) (s : State)
    (hn : ¬ ((s.is186 && !s.is_nec) = true ∧ s.sp = 1)) :
    push env rd s =
      writememw env s.seg_ss.base (((s.sp + 65534) % 65536) &&& 0xffff)
        (rd ({ s with sp := (s.sp + 65534) % 65536,
                      eaaddr := ((s.sp + 65534) % 65536) &&& 0xffff } : State))
        ({ s with sp := (s.sp + 65534) % 65536,
                  eaaddr := ((s.sp + 65534) % 65536) &&& 0xffff } : State) := by
  unfold push
  rw [if_neg hn]

theorem word_hi_upd (s : State) (a b seg x : Nat) :
    word_hi ({ s with sp := a, eaaddr := b } : State) seg x = word_hi s seg x := rfl

theorem word_lo_and (seg a : Nat) : word_lo seg (a &&& 0xffff) = word_lo seg a := by
  rw [and_ffff]; exact word_lo_mod seg a

theorem word_hi_and (s : State) (seg a : Nat) :
    word_hi s seg (a &&& 0xffff) = word_hi s seg a := by
  rw [and_ffff]; exact word_hi_mod s seg a

theorem push_effect (env : Env) (hk : env_keeps_mem env) (rd : State → Nat) (s : State)
    (hn : ¬ ((s.is186 && !s.is_nec) = true ∧ s.sp = 1)) :
    (push env rd s).arch =
      ({ s with sp := (s.sp + 65534) % 65536,
                eaaddr := ((s.sp + 65534) % 65536) &&& 0xffff } : State).arch ∧
    (push env rd s).ax = s.ax ∧
    (push env rd s).mem (word_lo s.seg_ss.base ((s.sp + 65534) % 65536)) =
      rd ({ s with sp := (s.sp + 65534) % 65536,
                   eaaddr := ((s.sp + 65534) % 65536) &&& 0xffff } : State) % 256 ∧
    (push env rd s).mem (word_hi s s.seg_ss.base ((s.sp + 65534) % 65536)) =
      rd ({ s with sp := (s.sp + 65534) % 65536,
                   eaaddr := ((s.sp + 65534) % 65536) &&& 0xffff } : State) / 256 % 256 := by
  rw [push_normal_eq env rd s hn]
  obtain ⟨ha, hx, hlo, hhi, -⟩ := writememw_effect env hk s.seg_ss.base
    (((s.sp + 65534) % 65536) &&& 0xffff)
    (rd ({ s with sp := (s.sp + 65534) % 65536,
                  eaaddr := ((s.sp + 65534) % 65536) &&& 0xffff } : State))
    ({ s with sp := (s.sp + 65534) % 65536,
              eaaddr := ((s.sp + 65534) % 65536) &&& 0xffff } : State)
  rw [word_lo_and] at hlo
  rw [word_hi_upd, word_hi_and] at hhi
  exact ⟨ha, hx, hlo, hhi⟩

theorem pop_eq (env : Env) (s : State) :
    pop env s = readmemw env s.seg_ss.base (s.sp &&& 0xffff)
      ({ s with eaaddr := s.sp &&& 0xffff, sp := (s.sp + 2) % 65536 } : State) := rfl

theorem pop_effect (env : Env) (hk : env_keeps_mem env) (s : State) :
    (pop env s).1 = s.mem (word_lo s.seg_ss.base s.sp) % 256 +
      256 * (s.mem (word_hi s s.seg_ss.base s.sp) % 256) ∧
    (pop env s).2.arch =
      ({ s with eaaddr := s.sp &&& 0xffff, sp := (s.sp + 2) % 65536 } : State).arch ∧
    (pop env s).2.ax = s.ax ∧ (pop env s).2.mem = s.mem := by
  rw [pop_eq]
  obtain ⟨hv, ha, hx, hm⟩ := readmemw_effect env hk s.seg_ss.base (s.sp &&& 0xffff)
    ({ s with eaaddr := s.sp &&& 0xffff, sp := (s.sp + 2) % 65536 } : State)
  rw [word_hi_upd, word_hi_and, word_lo_and] at hv
  exact ⟨hv, ha, hx, hm⟩

/-! ## PUSH followed by POP -/

theorem get_reg16_congr {s t : State} (ha : t.arch = s.arch) (hx : t.ax = s.ax) (r : Nat) :
    get_reg16 r t = get_reg16 r s := by
  unfold get_reg16
  split
  · exact hx
  · exact congrArg Arch.cx ha
  · exact congrArg Arch.dx ha
  · exact congrArg Arch.bx ha
  · exact congrArg Arch.sp ha
  · exact congrArg Arch.bp ha
  · exact congrArg Arch.si ha
  · exact congrArg Arch.di ha

theorem word_hi_congr {s t : State} (h1 : t.is8086 = s.is8086) (h2 : t.is186 = s.is186)
    (h3 : t.is_nec = s.is_nec) (seg a : Nat) : word_hi t seg a = word_hi s seg a := by
  unfold word_hi
  rw [h1, h2, h3]

theorem get_set_reg16 (r v : Nat) (s : State) : get_reg16 r (set_reg16 r v s) = v := by
  rcases r with _|_|_|_|_|_|_|_|r <;> rfl

theorem set_reg16_sp (r v : Nat) (s : State) (hr : r ≠ 4) : (set_reg16 r v s).sp = s.sp := by
  rcases r with _|_|_|_|_|_|_|_|r <;> first | rfl | exact absurd rfl hr

theorem set_reg16_sp4 (v : Nat) (s : State) : (set_reg16 4 v s).sp = v := rfl

theorem get_reg16_upd (r a b : Nat) (s : State) (hr : r ≠ 4) :
    get_reg16 r ({ s with sp := a, eaaddr := b } : State) = get_reg16 r s := by
  rcases r with _|_|_|_|_|_|_|_|r <;> first | rfl | exact absurd rfl hr

theorem get_reg16_sp4 (a b : Nat) (s : State) :
    get_reg16 4 ({ s with sp := a, eaaddr := b } : State) = a := rfl

theorem arch_upd (s : State) (a b : Nat) :
    (({ s with sp := a, eaaddr := b } : State).arch.sp = a) ∧
    (({ s with sp := a, eaaddr := b } : State).arch.seg_ss = s.arch.seg_ss) ∧
    (({ s with sp := a, eaaddr := b } : State).arch.is8086 = s.arch.is8086) ∧
    (({ s with sp := a, eaaddr := b } : State).arch.is186 = s.arch.is186) ∧
    (({ s with sp := a, eaaddr := b } : State).arch.is_nec = s.arch.is_nec) ∧
    (({ s with sp := a, eaaddr := b } : State).arch.opcode = s.arch.opcode) ∧
    (({ s with sp := a, eaaddr := b } : State).arch.flags = s.arch.flags) :=
  ⟨rfl, rfl, rfl, rfl, rfl, rfl, rfl⟩

theorem low_high_bytes (v : Nat) : v % 256 % 256 + 256 * (v / 256 % 256 % 256) = v % 65536 := by
  omega

theorem push_pop_roundtrip (env : Env) (hk : env_keeps_mem env) (rd : State → Nat)
    (w s' : State) (hn : ¬ ((w.is186 && !w.is_nec) = true ∧ w.sp = 1))
    (hlink : same_machine (push env rd w) s') :
    (pop env (wait env 1 0 s')).1 =
      rd ({ w with sp := (w.sp + 65534) % 65536,
                   eaaddr := ((w.sp + 65534) % 65536) &&& 0xffff } : State) % 65536 ∧
    (pop env (wait env 1 0 s')).2.sp = ((w.sp + 65534) % 65536 + 2) % 65536 ∧
    (∀ r, r ≠ 4 → get_reg16 r (pop env (wait env 1 0 s')).2 = get_reg16 r s') ∧
    (pop env (wait env 1 0 s')).2.opcode = s'.opcode ∧
    (pop env (wait env 1 0 s')).2.is_nec = s'.is_nec ∧ s'.is_nec = w.is_nec := by
  obtain ⟨pa, -, plo, phi⟩ := push_effect env hk rd w hn
  obtain ⟨l1, l2, l3, l4, l5, l6, l7, l8, l9, l10, l11, l12, l13, l14⟩ := hlink
  generalize push env rd w = t at pa plo phi l1 l2 l3 l4 l5 l6 l7 l8 l9 l10 l11 l12 l13 l14
  have u := arch_upd w ((w.sp + 65534) % 65536) (((w.sp + 65534) % 65536) &&& 0xffff)
  generalize ({ w with sp := (w.sp + 65534) % 65536, eaaddr := ((w.sp + 65534) % 65536) &&& 0xffff } : State) = w2 at pa plo phi u ⊢
  generalize rd w2 = V at plo phi ⊢
  have tsp : t.sp = (w.sp + 65534) % 65536 := (congrArg Arch.sp pa).trans u.1
  have tss : t.seg_ss = w.seg_ss := (congrArg Arch.seg_ss pa).trans u.2.1
  have t86 : t.is8086 = w.is8086 := (congrArg Arch.is8086 pa).trans u.2.2.1
  have t186 : t.is186 = w.is186 := (congrArg Arch.is186 pa).trans u.2.2.2.1
  have tnec : t.is_nec = w.is_nec := (congrArg Arch.is_nec pa).trans u.2.2.2.2.1
  have wa := wait_arch env 1 0 s'
  have wd := (wait_idle_priv env 1 s').2 hk
  have wp := (wait_idle_priv env 1 s').1
  generalize wait env 1 0 s' = w' at wa wd wp ⊢
  have wmem : w'.mem = s'.mem := congrArg Data.mem wd
  have wax : w'.ax = s'.ax := congrArg Priv.ax wp
  have wsp : w'.sp = s'.sp := congrArg Arch.sp wa
  have wss : w'.seg_ss = s'.seg_ss := congrArg Arch.seg_ss wa
  have w86 : w'.is8086 = s'.is8086 := congrArg Arch.is8086 wa
  have w186 : w'.is186 = s'.is186 := congrArg Arch.is186 wa
  have wnec : w'.is_nec = s'.is_nec := congrArg Arch.is_nec wa
  have wop : w'.opcode = s'.opcode := congrArg Arch.opcode wa
  obtain ⟨qv, qa, qx, -⟩ := pop_effect env hk w'
  have u2 := arch_upd w' ((w'.sp + 2) % 65536) (w'.sp &&& 0xffff)
  have hhi : word_hi w' w.seg_ss.base ((w.sp + 65534) % 65536) =
      word_hi w w.seg_ss.base ((w.sp + 65534) % 65536) :=
    word_hi_congr (w86.trans (l10.trans t86)) (w186.trans (l11.trans t186))
      (wnec.trans (l12.trans tnec)) _ _
  refine ⟨?_, ?_, ?_, ?_, ?_, l12.trans tnec⟩
  · rw [qv, wss, wsp, wmem, l9, l5, l14, tss, tsp, hhi, plo, phi]
    exact low_high_bytes V
  · have psp : (pop env w').2.sp = (w'.sp + 2) % 65536 := (congrArg Arch.sp qa).trans u2.1
    rw [psp, wsp, l5, tsp]
  · intro r hr
    have e1 : get_reg16 r (pop env w').2 =
        get_reg16 r ({ w' with eaaddr := w'.sp &&& 0xffff, sp := (w'.sp + 2) % 65536 } : State) :=
      get_reg16_congr qa qx r
    rw [e1, get_reg16_upd r _ _ w' hr]
    exact get_reg16_congr wa wax r
  · exact ((congrArg Arch.opcode qa).trans u2.2.2.2.2.2.1).trans wop
  · exact ((congrArg Arch.is_nec qa).trans u2.2.2.2.2.1).trans wnec

theorem opcode_low3 (b r : Nat) (hb : b = 0x50 ∨ b = 0x58) (hr : r < 8) : (b + r) &&& 0x07 = r := by
  rcases hb with rfl | rfl <;> interval_cases r <;> rfl

theorem get_reg16_four (s : State) : get_reg16 4 s = s.sp := rfl

theorem same_machine_opcode (t : State) (o : Nat) : same_machine t { t with opcode := o } :=
  ⟨rfl, rfl, rfl, rfl, rfl, rfl, rfl, rfl, rfl, rfl, rfl, rfl, rfl, rfl⟩

theorem upd_opcode (t : State) (o : Nat) : ({ t with opcode := o } : State).opcode = o := rfl

theorem exec_pop_r16_eq (env : Env) (s : State) :
    exec_pop_r16 env s =
      set_reg16 ((pop env (wait env 1 0 s)).2.opcode &&& 0x07) (pop env (wait env 1 0 s)).1
        (pop env (wait env 1 0 s)).2 := rfl

theorem exec_push_r16_eq (env : Env) (s : State) :
    exec_push_r16 env s = push env (get_reg16 (s.opcode &&& 0x07)) (wait env 3 0 s) := rfl

/-- PUSH r16 then POP r16 for any register index, SP included. -/
theorem push_pop_r16 (env : Env) (hk : env_keeps_mem env) (r : Nat) (s s' : State)
    (hr : r < 8) (hop : s.opcode = 0x50 + r) (hop' : s'.opcode = 0x58 + r)
    (hn : ¬ ((s.is186 && !s.is_nec) = true ∧ s.sp = 1))
    (hlink : same_machine (exec_push_r16 env s) s') :
    get_reg16 r (exec_pop_r16 env s') =
      (if r = 4 then (s.sp + 65534) % 65536 else get_reg16 r s) % 65536 ∧
    (r ≠ 4 → (exec_pop_r16 env s').sp = ((s.sp + 65534) % 65536 + 2) % 65536) := by
  rw [exec_push_r16_eq, hop, opcode_low3 0x50 r (Or.inl rfl) hr] at hlink
  have wa := wait_arch env 3 0 s
  have wp := (wait_idle_priv env 3 s).1
  generalize wait env 3 0 s = w at hlink wa wp
  have wax : w.ax = s.ax := congrArg Priv.ax wp
  have wsp : w.sp = s.sp := congrArg Arch.sp wa
  have w186 : w.is186 = s.is186 := congrArg Arch.is186 wa
  have wnec : w.is_nec = s.is_nec := congrArg Arch.is_nec wa
  have hn' : ¬ ((w.is186 && !w.is_nec) = true ∧ w.sp = 1) := by
    rw [w186, wnec, wsp]; exact hn
  obtain ⟨pv, psp, pr, pop_, -, -⟩ := push_pop_roundtrip env hk (get_reg16 r) w s' hn' hlink
  rw [exec_pop_r16_eq, pop_, hop', opcode_low3 0x58 r (Or.inr rfl) hr]
  refine ⟨?_, ?_⟩
  · rw [get_set_reg16, pv]
    by_cases h4 : r = 4
    · subst h4
      rw [if_pos rfl, get_reg16_sp4, wsp]
    · rw [if_neg h4, get_reg16_upd r _ _ w h4, get_reg16_congr wa wax r]
  · intro h4
    rw [set_reg16_sp _ _ _ h4, psp, wsp]

/-- C12 as amended: for a general register other than SP, outside the 80186 push at
SP = 1, with memory left alone by the timer service and 16-bit register contents,
PUSH r followed by POP r leaves r and SP at their original values. -/
theorem push_pop_restores (env : Env) (hk : env_keeps_mem env) (r : Nat) (s s' : State)
    (hr : r < 8) (hr4 : r ≠ 4) (hop : s.opcode = 0x50 + r) (hop' : s'.opcode = 0x58 + r)
    (hn : ¬ ((s.is186 && !s.is_nec) = true ∧ s.sp = 1))
    (hsp : s.sp < 65536) (hv : get_reg16 r s < 65536)
    (hlink : same_machine (exec_push_r16 env s) s') :
    get_reg16 r (exec_pop_r16 env s') = get_reg16 r s ∧ (exec_pop_r16 env s').sp = s.sp := by
  obtain ⟨h1, h2⟩ := push_pop_r16 env hk r s s' hr hop hop' hn hlink
  refine ⟨?_, ?_⟩
  · rw [h1, if_neg hr4]
    exact Nat.mod_eq_of_lt hv
  · rw [h2 hr4]
    omega

/-- Witness of C12: PUSH BX / POP BX on an 8088 with BX = 0x1234, SP = 0x100. -/
theorem push_pop_restores_witness :
    get_reg16 3 (exec_pop_r16 idle_env
      { exec_push_r16 idle_env { init_state with opcode := 0x53, bx := 0x1234, sp := 0x100 }
        with opcode := 0x5B }) = 0x1234 ∧
    (exec_pop_r16 idle_env
      { exec_push_r16 idle_env { init_state with opcode := 0x53, bx := 0x1234, sp := 0x100 }
        with opcode := 0x5B }).sp = 0x100 :=
  push_pop_restores idle_env idle_env_keeps_mem 3
    { init_state with opcode := 0x53, bx := 0x1234, sp := 0x100 }
    { exec_push_r16 idle_env { init_state with opcode := 0x53, bx := 0x1234, sp := 0x100 }
      with opcode := 0x5B }
    (by decide) (by decide) rfl (upd_opcode _ _) (by decide) (by decide) (by decide)
    (same_machine_opcode _ _)

/-- Counterexample to C12 as stated: PUSH SP stores the decremented SP, so PUSH SP /
POP SP from SP = 0x100 ends with SP = 0xFE. -/
theorem push_pop_sp_not_restored :
    (exec_pop_r16 idle_env
      { exec_push_r16 idle_env { init_state with opcode := 0x54, sp := 0x100 }
        with opcode := 0x5C }).sp = 0xFE := by
  have h := (push_pop_r16 idle_env idle_env_keeps_mem 4
    { init_state with opcode := 0x54, sp := 0x100 }
    { exec_push_r16 idle_env { init_state with opcode := 0x54, sp := 0x100 }
      with opcode := 0x5C }
    (by decide) rfl (upd_opcode _ _) (by decide) (same_machine_opcode _ _)).1
  rw [get_reg16_four] at h
  exact h.trans (by decide)

/-! ## PUSHF followed by POPF -/

theorem and_or_distrib (x y z : Nat) : (x ||| y) &&& z = (x &&& z) ||| (y &&& z) := by
  apply Nat.eq_of_testBit_eq
  intro i
  simp only [Nat.testBit_and, Nat.testBit_or]
  cases x.testBit i <;> cases y.testBit i <;> cases z.testBit i <;> rfl

theorem popf_mask (f : Nat) :
    ((f &&& 0x0fd7 ||| 0xf000) ||| 0x0002) &&& 0x0FD7 = (f &&& 0x0FD7) ||| 0x0002 := by
  rw [and_or_distrib, and_or_distrib, Nat.and_assoc]
  have e1 : (0x0fd7 : Nat) &&& 0x0fd7 = 0x0fd7 := by decide
  have e2 : (0xf000 : Nat) &&& 0x0fd7 = 0 := by decide
  have e3 : (2 : Nat) &&& 0x0fd7 = 2 := by decide
  rw [e1, e2, e3, Nat.or_zero]

theorem popf_mask_nec (f : Nat) :
    ((f &&& 0x8fd7 ||| 0x7000) ||| 0x8002) &&& 0x8FD7 = (f &&& 0x8FD7) ||| 0x8002 := by
  rw [and_or_distrib, and_or_distrib, Nat.and_assoc]
  have e1 : (0x8fd7 : Nat) &&& 0x8fd7 = 0x8fd7 := by decide
  have e2 : (0x7000 : Nat) &&& 0x8fd7 = 0 := by decide
  have e3 : (0x8002 : Nat) &&& 0x8fd7 = 0x8002 := by decide
  rw [e1, e2, e3, Nat.or_zero]

theorem pushed_flags_lt (f m c : Nat) (hm : m < 65536) (hc : c < 65536) :
    (f &&& m) ||| c < 65536 := by
  have h : (f &&& m) ||| c < 2 ^ 16 :=
    Nat.or_lt_two_pow (lt_of_le_of_lt Nat.and_le_right (by simpa using hm)) (by simpa using hc)
  simpa using h

theorem exec_pushf_eq (env : Env) (s : State) :
    exec_pushf env s =
      push env (fun _ =>
        if (wait env 4 0 s).is_nec then ((wait env 4 0 s).flags &&& 0x8fd7) ||| 0x7000
        else ((wait env 4 0 s).flags &&& 0x0fd7) ||| 0xf000) (wait env 4 0 s) := rfl

theorem exec_popf_eq (env : Env) (s : State) :
    exec_popf env s =
      if (pop env (wait env 1 0 s)).2.is_nec then
        { (pop env (wait env 1 0 s)).2 with flags := (pop env (wait env 1 0 s)).1 ||| 0x8002 }
      else
        { (pop env (wait env 1 0 s)).2 with flags := (pop env (wait env 1 0 s)).1 ||| 0x0002 } :=
  rfl

theorem upd_flags (t : State) (f : Nat) :
    ({ t with flags := f } : State).flags = f ∧ ({ t with flags := f } : State).sp = t.sp :=
  ⟨rfl, rfl⟩

/-- PUSHF then POPF: SP and the flags on both CPU families. -/
theorem pushf_popf_general (env : Env) (hk : env_keeps_mem env) (s s' : State)
    (hn : ¬ ((s.is186 && !s.is_nec) = true ∧ s.sp = 1))
    (hlink : same_machine (exec_pushf env s) s') :
    (exec_popf env s').sp = ((s.sp + 65534) % 65536 + 2) % 65536 ∧
    (s.is_nec = false →
      (exec_popf env s').flags = ((s.flags &&& 0x0fd7) ||| 0xf000) ||| 0x0002) ∧
    (s.is_nec = true →
      (exec_popf env s').flags = ((s.flags &&& 0x8fd7) ||| 0x7000) ||| 0x8002) := by
  rw [exec_pushf_eq] at hlink
  have wa := wait_arch env 4 0 s
  generalize wait env 4 0 s = w at hlink wa
  have wsp : w.sp = s.sp := congrArg Arch.sp wa
  have w186 : w.is186 = s.is186 := congrArg Arch.is186 wa
  have wnec : w.is_nec = s.is_nec := congrArg Arch.is_nec wa
  have wfl : w.flags = s.flags := congrArg Arch.flags wa
  have hn' : ¬ ((w.is186 && !w.is_nec) = true ∧ w.sp = 1) := by
    rw [w186, wnec, wsp]; exact hn
  obtain ⟨pv, psp, -, -, pnec, snec⟩ := push_pop_roundtrip env hk _ w s' hn' hlink
  rw [exec_popf_eq]
  generalize pop env (wait env 1 0 s') = P at pv psp pnec
  rw [wnec, wfl] at pv
  rw [pnec, snec, wnec]
  refine ⟨?_, ?_, ?_⟩
  · split_ifs
    · rw [(upd_flags _ _).2, psp, wsp]
    · rw [(upd_flags _ _).2, psp, wsp]
  · intro h
    rw [h] at pv ⊢
    simp only [Bool.false_eq_true, if_false] at pv ⊢
    rw [pv, Nat.mod_eq_of_lt (pushed_flags_lt _ _ _ (by decide) (by decide))]
  · intro h
    rw [h] at pv ⊢
    simp only [if_true] at pv ⊢
    rw [pv, Nat.mod_eq_of_lt (pushed_flags_lt _ _ _ (by decide) (by decide))]

/-- C13 as amended: outside the 80186 push at SP = 1 and with memory left alone by the
timer service, PUSHF followed by POPF restores SP; on a non-NEC CPU the flags under the
mask 0x0FD7 are preserved with bit 1 forced to 1; on a NEC CPU the flags under 0x8FD7 are
preserved with bit 1 and the MD bit (bit 15) forced to 1. -/
theorem pushf_popf_flags (env : Env) (hk : env_keeps_mem env) (s s' : State)
    (hn : ¬ ((s.is186 && !s.is_nec) = true ∧ s.sp = 1)) (hsp : s.sp < 65536)
    (hlink : same_machine (exec_pushf env s) s') :
    (exec_popf env s').sp = s.sp ∧
    (s.is_nec = false →
      (exec_popf env s').flags &&& 0x0FD7 = (s.flags &&& 0x0FD7) ||| 0x0002) ∧
    (s.is_nec = true →
      (exec_popf env s').flags &&& 0x8FD7 = (s.flags &&& 0x8FD7) ||| 0x8002) := by
  obtain ⟨h1, h2, h3⟩ := pushf_popf_general env hk s s' hn hlink
  refine ⟨?_, ?_, ?_⟩
  · rw [h1]; omega
  · intro h; rw [h2 h]; exact popf_mask _
  · intro h; rw [h3 h]; exact popf_mask_nec _

/-- Witness of C13: PUSHF / POPF on an 8088 with flags 0x0246 and SP = 0x100. -/
theorem pushf_popf_flags_witness :
    (exec_popf idle_env
      { exec_pushf idle_env { init_state with opcode := 0x9C, flags := 0x0246, sp := 0x100 }
        with opcode := 0x9D }).sp = 0x100 :=
  (pushf_popf_flags idle_env idle_env_keeps_mem
    { init_state with opcode := 0x9C, flags := 0x0246, sp := 0x100 }
    { exec_pushf idle_env { init_state with opcode := 0x9C, flags := 0x0246, sp := 0x100 }
      with opcode := 0x9D }
    (by decide) (by decide) (same_machine_opcode _ _)).1

/-- Counterexample to C13 as stated: on a NEC CPU with the MD bit clear (flags 0x0002),
PUSHF / POPF leaves flags 0xF002, whose bits under 0x8FD7 are 0x8002 and not 0x0002. -/
theorem pushf_popf_nec_sets_md :
    (exec_popf idle_env
      { exec_pushf idle_env { init_state with is_nec := true, opcode := 0x9C, sp := 0x100 }
        with opcode := 0x9D }).flags &&& 0x8FD7 = 0x8002 := by
  have h := (pushf_popf_general idle_env idle_env_keeps_mem
    { init_state with is_nec := true, opcode := 0x9C, sp := 0x100 }
    { exec_pushf idle_env { init_state with is_nec := true, opcode := 0x9C, sp := 0x100 }
      with opcode := 0x9D }
    (by decide) (same_machine_opcode _ _)).2.2 rfl
  rw [h]
  decide

/-! ## Reset -/

theorem md_bit_set (f : Nat) : ((f ||| MD_FLAG) % 65536) &&& MD_FLAG ≠ 0 := by
  have h : ((f ||| MD_FLAG) % 65536).testBit 15 = true := by
    have e : (65536 : Nat) = 2 ^ 16 := by norm_num
    rw [e, Nat.testBit_mod_two_pow, Nat.testBit_or]
    have : MD_FLAG.testBit 15 = true := by decide
    simp [this]
  exact (flag_tb _ MD_FLAG 15 (by decide)).2 h

theorem reset_808x_fields (hard : Bool) (s : State) :
    (reset_808x hard s).seg_cs = { base := 0xFFFF0, seg := 0xFFFF } ∧
    (reset_808x hard s).pc = 0 ∧
    (reset_808x hard s).flags =
      (if s.is_nec then (s.flags ||| MD_FLAG) % 65536 else s.flags) ∧
    (reset_808x hard s).biu_cycles = 0 ∧ (reset_808x hard s).prefetching = 1 ∧
    (reset_808x hard s).pfq_pos = (if hard then 0 else s.pfq_pos) ∧
    (reset_808x hard s).pfq = s.pfq := by
  cases hard <;> cases hn : s.is_nec <;>
    simp [reset_808x, pfq_clear, pfq_schedule, load_cs, hn]

/-- C25: after `reset_808x(hard)`, for either value of `hard` and from every state, the
CS selector is 0xFFFF with base 0xFFFF0, pc is 0, and on a NEC variant the MD bit of FLAGS
is set. -/
theorem reset_cs_pc_md (hard : Bool) (s : State) :
    (reset_808x hard s).seg_cs.seg = 0xFFFF ∧ (reset_808x hard s).seg_cs.base = 0xFFFF0 ∧
    (reset_808x hard s).pc = 0 ∧
    (s.is_nec = true → (reset_808x hard s).flags &&& MD_FLAG ≠ 0) := by
  obtain ⟨h1, h2, h3, -⟩ := reset_808x_fields hard s
  refine ⟨by rw [h1], by rw [h1], h2, ?_⟩
  intro hn
  rw [h3, hn, if_pos rfl]
  exact md_bit_set _

/-- Witness of C25: a soft reset of a NEC CPU whose flags are 0x0002. -/
theorem reset_cs_pc_md_witness :
    (reset_808x false { init_state with is_nec := true }).flags &&& MD_FLAG ≠ 0 :=
  (reset_cs_pc_md false { init_state with is_nec := true }).2.2.2 rfl

/-- C26 at the failing input: `reset_808x(0)` leaves pfq_pos and the queue bytes as they
were (only the hard path calls `pfq_clear`), so after a soft reset of `soft_reset_state`
CS:pc is FFFF:0000, three bytes fetched before the reset are still queued, and the first
`pfq_fetchb_common` returns 0x90 from the queue while the byte at FFFF:0000 is 0xEA. -/
theorem soft_reset_keeps_queue :
    (∀ s : State, (reset_808x false s).pfq_pos = s.pfq_pos ∧ (reset_808x false s).pfq = s.pfq) ∧
    (pfq_fetchb_common idle_env 8 (reset_808x false soft_reset_state)).map (fun r =>
      ((reset_808x false soft_reset_state).seg_cs.base, (reset_808x false soft_reset_state).pc,
       (reset_808x false soft_reset_state).pfq_pos, r.1,
       read_mem_b (reset_808x false soft_reset_state)
         ((reset_808x false soft_reset_state).seg_cs.base + (reset_808x false soft_reset_state).pc)))
    = some (0xFFFF0, 0, 3, 0x90, 0xEA) := by
  refine ⟨fun s => ?_, by decide⟩
  obtain ⟨-, -, -, -, -, h6, h7⟩ := reset_808x_fields false s
  exact ⟨h6, h7⟩

/-- A hard reset flushes the queue, and both kinds of reset leave the bus phase at T1
with prefetching enabled. -/
theorem hard_reset_flushes (hard : Bool) (s : State) :
    (reset_808x true s).pfq_pos = 0 ∧ BUS_CYCLE (reset_808x hard s) = BUS_T1 ∧
    (reset_808x hard s).prefetching = 1 := by
  obtain ⟨-, -, -, h4, h5, -, -⟩ := reset_808x_fields hard s
  obtain ⟨-, -, -, -, -, h6, -⟩ := reset_808x_fields true s
  refine ⟨h6, ?_, h5⟩
  unfold BUS_CYCLE
  rw [h4]
  rfl

/-! ## One free slot in the queue -/

/-- C30 as amended: on the 8086 (pfq_size 6) `pfq_write` with pfq_pos = 5 does nothing
when pfq_ip is even (a word fetch needs two free slots) but fetches one byte when pfq_ip
is odd, giving pfq_pos = 6 and pfq_ip advanced by 1; on the 8088 (pfq_size 4) `pfq_write`
with pfq_pos = 3 fetches one byte, giving pfq_pos = 4 and pfq_ip advanced by 1. -/
theorem pfq_write_one_free_slot (s : State) :
    (s.is8086 = true → s.pfq_size = 6 → s.pfq_pos = 5 → s.pfq_ip % 2 = 0 → pfq_write s = s) ∧
    (s.is8086 = true → s.pfq_size = 6 → s.pfq_pos = 5 → s.pfq_ip % 2 = 1 →
      (pfq_write s).pfq_pos = 6 ∧ (pfq_write s).pfq_ip = (s.pfq_ip + 1) &&& 0xffff) ∧
    (s.is8086 = false → s.pfq_size = 4 → s.pfq_pos = 3 →
      (pfq_write s).pfq_pos = 4 ∧ (pfq_write s).pfq_ip = (s.pfq_ip + 1) &&& 0xffff) := by
  refine ⟨?_, ?_, ?_⟩
  · intro h1 h2 h3 h4
    have e : (s.pfq_ip &&& 1) = 0 := (and_one_parity _).2 h4
    unfold pfq_write
    simp [h1, h2, h3, e]
  · intro h1 h2 h3 h4
    have e : ¬ (s.pfq_ip &&& 1) = 0 := fun h => by
      have := (and_one_parity _).1 h; omega
    unfold pfq_write
    simp [h1, h2, h3, h4, Nat.and_one_is_mod, readmembf, pfq_schedule]
  · intro h1 h2 h3
    unfold pfq_write
    simp [h1, h2, h3, readmembf, pfq_schedule]

/-- Witness of C30: an 8088 queue with three bytes takes a fourth. -/
theorem pfq_write_one_free_slot_witness :
    (pfq_write { init_state with pfq_pos := 3, pfq_ip := 0x103 }).pfq_pos = 4 :=
  ((pfq_write_one_free_slot { init_state with pfq_pos := 3, pfq_ip := 0x103 }).2.2
    rfl rfl rfl).1

/-- Counterexample to C30 as stated: on the 8086 with pfq_pos = 5 and an odd pfq_ip,
`pfq_write` fetches a byte and fills the queue. -/
theorem pfq_write_odd_fills_last_slot :
    (pfq_write { init_state with is8086 := true, pfq_size := 6, pfq_pos := 5,
                                 pfq_ip := 0x105 }).pfq_pos = 6 ∧
    (pfq_write { init_state with is8086 := true, pfq_size := 6, pfq_pos := 5,
                                 pfq_ip := 0x105 }).pfq_ip = 0x106 := by
  decide

/-! ## LOCK and DMA -/

theorem bus_pic_ack_eq (env : Env) (s : State) :
    bus_pic_ack env s =
      ((wait env 4 1 { s with in_lock := 1, bus_request_type := BUS_PIC }).pic_data,
       { wait env 4 1 { s with in_lock := 1, bus_request_type := BUS_PIC } with
         in_lock := s.in_lock }) := rfl

theorem upd_in_lock (t : State) (v : Nat) : ({ t with in_lock := v } : State).in_lock = v := rfl

theorem hold_kept_of_eq (s t : State) (h : t.hold = s.hold) : hold_kept s t :=
  ⟨congrArg Hold.refresh h, fun h0 => (congrArg Hold.hlda h).trans h0⟩

theorem hold_kept_trans (s t u : State) (h1 : hold_kept s t) (h2 : hold_kept t u) :
    hold_kept s u :=
  ⟨h2.1.trans h1.1, fun h0 => h2.2 (h1.2 h0)⟩

theorem clock_end_hold (env : Env) (hk : env_keeps_hold env) (s : State) :
    (clock_end env s).hold = s.hold := by
  unfold clock_end
  simp only
  split_ifs
  · obtain ⟨a, b⟩ := hk.1 ({ s with tsc := (s.tsc + ((s.cycdiff - s.cycles) % 18446744073709551616).toNat * env.xt_cpu_multi_hi) % 18446744073709551616 } : State).ext
    simp only [State.hold, State.setExt, a, b]
    rfl
  · rfl

theorem process_timers_hold (env : Env) (hk : env_keeps_hold env) (s : State) :
    (process_timers env s).hold = s.hold := by
  unfold process_timers clock_start
  exact clock_end_hold env hk s

theorem cycles_forward_hold (env : Env) (hk : env_keeps_hold env) (c : Int) (s : State) :
    (cycles_forward env c s).hold = s.hold := by
  unfold cycles_forward
  simp only
  split_ifs
  · rw [process_timers_hold env hk]; rfl
  · rfl

theorem bus_ready_hold (env : Env) (hk : env_keeps_hold env) (s : State) :
    (bus_ready env s).hold = s.hold := by
  unfold bus_ready
  split_ifs
  · exact cycles_forward_hold env hk _ s
  · rfl

/-- With LOCK held `run_dma_cycle` grants no hold and consumes no refresh request. -/
theorem run_dma_cycle_locked (idle : Nat) (s : State) (hl : s.in_lock ≠ 0) :
    hold_kept s (run_dma_cycle idle s) := by
  refine ⟨?_, ?_⟩
  · unfold run_dma_cycle
    simp only
    split_ifs with a b c d
    · rfl
    · rfl
    · rfl
    · exact absurd d.2.1 hl
    · rfl
  · intro h0
    unfold run_dma_cycle
    simp only
    split_ifs with a b c d
    · exact h0
    · omega
    · omega
    · exact absurd d.2.1 hl
    · exact h0

theorem cycles_idle_loop_locked (env : Env) (hk : env_keeps_hold env) (n : Nat) :
    ∀ s : State, s.in_lock ≠ 0 → hold_kept s (cycles_idle_loop env n s) := by
  induction n with
  | zero => intro s _; exact ⟨rfl, fun h => h⟩
  | succ n ih =>
    intro s hl
    unfold cycles_idle_loop
    have c1 : (cycles_forward env 1 s).in_lock = s.in_lock :=
      congrArg Core.in_lock (cycles_forward_core env 1 s)
    have c2 : (run_dma_cycle 1 (cycles_forward env 1 s)).in_lock = s.in_lock :=
      (congrArg Core.in_lock (run_dma_cycle_core 1 _)).trans c1
    exact hold_kept_trans _ _ _
      (hold_kept_trans _ _ _ (hold_kept_of_eq _ _ (cycles_forward_hold env hk 1 s))
        (run_dma_cycle_locked 1 _ (by rw [c1]; exact hl)))
      (ih _ (by rw [c2]; exact hl))

theorem biu_abort_locked (env : Env) (hk : env_keeps_hold env) (s : State)
    (hl : s.in_lock ≠ 0) : hold_kept s (biu_abort env s) := by
  unfold biu_abort
  simp only
  split_ifs
  · exact ⟨rfl, fun h => h⟩
  · exact cycles_idle_loop_locked env hk _ s hl

theorem ack_done_hold (q : State) (e : Ext) (d : Int) :
    ({ q.setExt e with pic_data := d, last_was_code := 0 } : State).hold
      = { hlda := e.hlda, refresh := e.refresh } := rfl

/-- An interrupt acknowledge bus cycle leaves the hold lines alone. -/
theorem run_bus_cycle_ack_hold (env : Env) (hk : env_keeps_hold env) (s : State) :
    (run_bus_cycle env BUS_PIC s).hold = s.hold := by
  unfold run_bus_cycle
  have hr := bus_ready_hold env hk s
  generalize bus_ready env s = q at hr
  by_cases hc : BUS_PIC ≠ 0 ∧ (BUS_PIC &&& BUS_CODE = 0 ∨ s.schedule_fetch ≠ 0)
  · rw [if_pos hc]
    dsimp only
    generalize BUS_CYCLE q = k
    rcases k with _ | _ | _ | k
    · exact hr
    · exact hr
    · show (if (BUS_PIC &&& BUS_ACCESS_TYPE) = BUS_CODE then _ else _ : State).hold = _
      rw [if_neg (by decide), if_neg (by decide), if_neg (by decide), if_pos (by decide)]
      obtain ⟨a, b⟩ := hk.2 q.ext
      have e : (env.pic_irq_ack q.ext).2.hlda = q.hlda ∧
          (env.pic_irq_ack q.ext).2.refresh = q.refresh := ⟨a, b⟩
      generalize env.pic_irq_ack q.ext = r at e
      show ({ q.setExt r.2 with pic_data := _, last_was_code := 0 } : State).hold = _
      rw [ack_done_hold, ← hr, e.1, e.2]
      rfl
    · exact hr
  · rw [if_neg hc]

theorem biu_access_ack_locked (env : Env) (hk : env_keeps_hold env) (init : Nat) (s : State)
    (hl : s.in_lock ≠ 0) (hr : s.bus_request_type = BUS_PIC) :
    hold_kept s (biu_access env 1 init s) := by
  unfold biu_access
  rw [if_pos (by decide)]
  dsimp only
  by_cases hi : init ≠ 0 ∧ s.schedule_fetch ≠ 0
  · rw [if_pos hi]
    have e : (biu_abort env s).bus_request_type = BUS_PIC :=
      (congrArg Ctl.bus_request_type (biu_abort_effect env s).1).trans hr
    rw [e]
    exact hold_kept_trans _ _ _ (biu_abort_locked env hk s hl)
      (hold_kept_of_eq _ _ (run_bus_cycle_ack_hold env hk _))
  · rw [if_neg hi, hr]
    exact hold_kept_of_eq _ _ (run_bus_cycle_ack_hold env hk s)

theorem upd_pasv_hold (s : State) (v : Nat) :
    ({ s with pasv := v } : State).hold = s.hold ∧
    ({ s with pasv := v } : State).in_lock = s.in_lock ∧
    ({ s with pasv := v } : State).bus_request_type = s.bus_request_type := ⟨rfl, rfl, rfl⟩

theorem upd_biu_cycles_hold (s : State) (v : Nat) :
    ({ s with biu_cycles := v } : State).hold = s.hold := rfl

theorem cycles_biu_ack_locked (env : Env) (hk : env_keeps_hold env) (init : Nat) (s : State)
    (hl : s.in_lock ≠ 0) (hr : s.bus_request_type = BUS_PIC) :
    hold_kept s (cycles_biu env 1 init s) := by
  unfold cycles_biu
  dsimp only
  obtain ⟨p1, p2, p3⟩ := upd_pasv_hold s
    (if (1 : Nat) ≠ 0 ∨ (BUS_CYCLE s = BUS_T1 ∧ s.schedule_fetch ≠ 0) then 0 else 1)
  generalize ({ s with pasv :=
    if (1 : Nat) ≠ 0 ∨ (BUS_CYCLE s = BUS_T1 ∧ s.schedule_fetch ≠ 0) then 0 else 1 } : State)
    = s0 at p1 p2 p3 ⊢
  have h1 := biu_access_ack_locked env hk init s0 (by rw [p2]; exact hl) (p3.trans hr)
  have c1 : (biu_access env 1 init s0).in_lock = s0.in_lock :=
    congrArg Ctl.in_lock (biu_access_ctl env 1 init s0).1
  generalize biu_access env 1 init s0 = s1 at h1 c1 ⊢
  have h2 : (if BUS_CYCLE s1 = BUS_T2 then pfq_schedule 1 s1 else s1).hold = s1.hold ∧
      (if BUS_CYCLE s1 = BUS_T2 then pfq_schedule 1 s1 else s1).in_lock = s1.in_lock := by
    split_ifs <;> exact ⟨rfl, rfl⟩
  generalize (if BUS_CYCLE s1 = BUS_T2 then pfq_schedule 1 s1 else s1) = s2 at h2 ⊢
  have h3 := run_dma_cycle_locked s2.pasv s2 (by rw [h2.2, c1, p2]; exact hl)
  generalize run_dma_cycle s2.pasv s2 = s3 at h3 ⊢
  exact hold_kept_trans _ _ _ (hold_kept_of_eq _ _ p1)
    (hold_kept_trans _ _ _ h1
      (hold_kept_trans _ _ _ (hold_kept_of_eq _ _ h2.1)
        (hold_kept_trans _ _ _ h3 (hold_kept_of_eq _ _ (upd_biu_cycles_hold s3 _)))))

/-- One tick of an acknowledge cycle run under LOCK: LOCK and the request stay as they are,
no hold is granted and no refresh request is consumed. -/
theorem wait_tick_ack_locked (env : Env) (hk : env_keeps_hold env) (d : Nat) (s : State)
    (hl : s.in_lock ≠ 0) (hr : s.bus_request_type = BUS_PIC) :
    hold_kept s (wait_tick env 1 d s) := by
  unfold wait_tick
  dsimp only
  rw [if_neg (fun h => absurd h.1 (by decide))]
  exact hold_kept_trans _ _ _ (cycles_biu_ack_locked env hk _ s hl hr)
    (hold_kept_of_eq _ _ (cycles_forward_hold env hk 1 _))

theorem wait_tick_lock (env : Env) (d : Nat) (s : State) :
    (wait_tick env 1 d s).in_lock = s.in_lock ∧
    (wait_tick env 1 d s).bus_request_type = s.bus_request_type :=
  ⟨congrArg Ctl.in_lock (wait_tick_ctl env 1 d s),
   congrArg Ctl.bus_request_type (wait_tick_ctl env 1 d s)⟩

theorem ack_start (s : State) :
    ({ s with in_lock := 1, bus_request_type := BUS_PIC } : State).in_lock = 1 ∧
    ({ s with in_lock := 1, bus_request_type := BUS_PIC } : State).bus_request_type = BUS_PIC ∧
    ({ s with in_lock := 1, bus_request_type := BUS_PIC } : State).hold = s.hold :=
  ⟨rfl, rfl, rfl⟩

theorem ack_finish (t : State) (v : Nat) :
    ({ t with in_lock := v } : State).in_lock = v ∧
    ({ t with in_lock := v } : State).hold = t.hold := ⟨rfl, rfl⟩

/-- The four ticks of `bus_pic_ack`. -/
theorem bus_pic_ack_ticks (env : Env) (s : State) :
    bus_pic_ack env s =
      ((wait_tick env 1 3 (wait_tick env 1 2 (wait_tick env 1 1 (wait_tick env 1 0
          { s with in_lock := 1, bus_request_type := BUS_PIC })))).pic_data,
       { wait_tick env 1 3 (wait_tick env 1 2 (wait_tick env 1 1 (wait_tick env 1 0
          { s with in_lock := 1, bus_request_type := BUS_PIC }))) with
         in_lock := s.in_lock }) := rfl

theorem idle_env_keeps_hold : env_keeps_hold idle_env :=
  ⟨fun _ => ⟨rfl, rfl⟩, fun _ => ⟨rfl, rfl⟩⟩

/-- The same four ticks run without LOCK from `ack_state` grant the hold: the pending
refresh request is consumed. -/
theorem unlocked_ack_grants_hold :
    (wait idle_env 4 1 { ack_state with bus_request_type := BUS_PIC }).refresh = 0 ∧
    (wait idle_env 4 1 { ack_state with bus_request_type := BUS_PIC }).hlda ≠ 0 := by
  decide

/-- C28: with in_lock non-zero `run_dma_cycle` never raises hlda from 0 and never
decrements refresh, for either value of its argument.  For every state, whatever in_lock
was on entry, `bus_pic_ack` is the four ticks `wait_tick 1 d`, d = 0..3, run from the state
with in_lock = 1 and the request BUS_PIC; in_lock is 1 at the start of each tick and after
the last one, and the state returned has in_lock as it was on entry.  When the timer service
and the interrupt controller leave the hold lines alone, no tick of the cycle consumes a
refresh request and, if no hold was granted on entry, none is granted during the cycle. -/
theorem lock_blocks_dma (env : Env) :
    (∀ (idle : Nat) (s : State), s.in_lock ≠ 0 →
      (s.hlda = 0 → (run_dma_cycle idle s).hlda = 0) ∧
      (run_dma_cycle idle s).refresh = s.refresh) ∧
    (∀ s : State, ∃ t0 t1 t2 t3 t4 : State,
      t0 = { s with in_lock := 1, bus_request_type := BUS_PIC } ∧
      t1 = wait_tick env 1 0 t0 ∧ t2 = wait_tick env 1 1 t1 ∧
      t3 = wait_tick env 1 2 t2 ∧ t4 = wait_tick env 1 3 t3 ∧
      bus_pic_ack env s = (t4.pic_data, { t4 with in_lock := s.in_lock }) ∧
      t0.in_lock = 1 ∧ t1.in_lock = 1 ∧ t2.in_lock = 1 ∧ t3.in_lock = 1 ∧ t4.in_lock = 1 ∧
      (bus_pic_ack env s).2.in_lock = s.in_lock ∧
      (env_keeps_hold env →
        t1.refresh = s.refresh ∧ t2.refresh = s.refresh ∧ t3.refresh = s.refresh ∧
        t4.refresh = s.refresh ∧ (bus_pic_ack env s).2.refresh = s.refresh ∧
        (s.hlda = 0 → t1.hlda = 0 ∧ t2.hlda = 0 ∧ t3.hlda = 0 ∧ t4.hlda = 0 ∧
          (bus_pic_ack env s).2.hlda = 0))) := by
  refine ⟨fun idle s hl => ?_, fun s => ?_⟩
  · obtain ⟨a, b⟩ := run_dma_cycle_locked idle s hl
    exact ⟨b, a⟩
  · have he := bus_pic_ack_ticks env s
    obtain ⟨l0, r0, h0⟩ := ack_start s
    generalize ({ s with in_lock := 1, bus_request_type := BUS_PIC } : State) = t0
      at he l0 r0 h0
    obtain ⟨l1, r1⟩ := wait_tick_lock env 0 t0
    have k1 := fun hk => wait_tick_ack_locked env hk 0 t0 (by rw [l0]; decide) r0
    generalize hd1 : wait_tick env 1 0 t0 = t1 at he l1 r1 k1
    obtain ⟨l2, r2⟩ := wait_tick_lock env 1 t1
    have k2 := fun hk => wait_tick_ack_locked env hk 1 t1 (by rw [l1, l0]; decide)
      (r1.trans r0)
    generalize hd2 : wait_tick env 1 1 t1 = t2 at he l2 r2 k2
    obtain ⟨l3, r3⟩ := wait_tick_lock env 2 t2
    have k3 := fun hk => wait_tick_ack_locked env hk 2 t2 (by rw [l2, l1, l0]; decide)
      (r2.trans (r1.trans r0))
    generalize hd3 : wait_tick env 1 2 t2 = t3 at he l3 r3 k3
    obtain ⟨l4, -⟩ := wait_tick_lock env 3 t3
    have k4 := fun hk => wait_tick_ack_locked env hk 3 t3 (by rw [l3, l2, l1, l0]; decide)
      (r3.trans (r2.trans (r1.trans r0)))
    generalize hd4 : wait_tick env 1 3 t3 = t4 at he l4 k4
    obtain ⟨-, f2⟩ := ack_finish t4 s.in_lock
    have e2 : (bus_pic_ack env s).2 = { t4 with in_lock := s.in_lock } := by rw [he]
    refine ⟨t0, t1, t2, t3, t4, rfl, hd1.symm, hd2.symm, hd3.symm, hd4.symm, he, l0,
      l1.trans l0, l2.trans (l1.trans l0), l3.trans (l2.trans (l1.trans l0)),
      l4.trans (l3.trans (l2.trans (l1.trans l0))), by rw [e2], fun hk => ?_⟩
    have g0 : hold_kept s t0 := hold_kept_of_eq _ _ h0
    have g1 := hold_kept_trans _ _ _ g0 (k1 hk)
    have g2 := hold_kept_trans _ _ _ g1 (k2 hk)
    have g3 := hold_kept_trans _ _ _ g2 (k3 hk)
    have g4 := hold_kept_trans _ _ _ g3 (k4 hk)
    have g5 : hold_kept s (bus_pic_ack env s).2 := by
      rw [e2]
      exact hold_kept_trans _ _ _ g4 (hold_kept_of_eq _ _ f2)
    exact ⟨g1.1, g2.1, g3.1, g4.1, g5.1, fun z => ⟨g1.2 z, g2.2 z, g3.2 z, g4.2 z, g5.2 z⟩⟩

/-- Witness of C28: a refresh request pending while LOCK is held is not granted, and an
acknowledge cycle entered with LOCK released and a refresh request pending returns with
the request still pending, no hold granted and LOCK released again. -/
theorem lock_blocks_dma_witness :
    (run_dma_cycle 1 { init_state with in_lock := 1, refresh := 1 }).hlda = 0 ∧
    (run_dma_cycle 1 { init_state with in_lock := 1, refresh := 1 }).refresh = 1 ∧
    ack_state.in_lock = 0 ∧ ack_state.refresh = 1 ∧ ack_state.hlda = 0 ∧
    env_keeps_hold idle_env ∧
    (bus_pic_ack idle_env ack_state).2.in_lock = 0 ∧
    (bus_pic_ack idle_env ack_state).2.refresh = 1 ∧
    (bus_pic_ack idle_env ack_state).2.hlda = 0 := by
  obtain ⟨h1, h2⟩ := lock_blocks_dma idle_env
  obtain ⟨a, b⟩ := h1 1 { init_state with in_lock := 1, refresh := 1 } (by decide)
  obtain ⟨t0, t1, t2, t3, t4, -, -, -, -, -, -, -, -, -, -, -, c, d⟩ := h2 ack_state
  obtain ⟨-, -, -, -, e, f⟩ := d idle_env_keeps_hold
  exact ⟨a rfl, b, rfl, rfl, rfl, idle_env_keeps_hold, c, e, (f rfl).2.2.2.2⟩

/-! ## The log of physical accesses -/

theorem cycles_forward_log (env : Env) (c : Int) (s : State) :
    (cycles_forward env c s).bus_log = s.bus_log :=
  congrArg Priv.bus_log (cycles_forward_priv env c s)

theorem bus_ready_log (env : Env) (s : State) : (bus_ready env s).bus_log = s.bus_log :=
  congrArg Priv.bus_log (bus_ready_priv env s)

theorem run_dma_cycle_log (idle : Nat) (s : State) :
    (run_dma_cycle idle s).bus_log = s.bus_log :=
  congrArg Priv.bus_log (run_dma_cycle_priv idle s)

theorem cycles_idle_loop_log (env : Env) (n : Nat) (s : State) :
    (cycles_idle_loop env n s).bus_log = s.bus_log := by
  induction n generalizing s with
  | zero => rfl
  | succ n ih =>
    unfold cycles_idle_loop
    rw [ih, run_dma_cycle_log, cycles_forward_log]

theorem biu_abort_log (env : Env) (s : State) : (biu_abort env s).bus_log = s.bus_log := by
  rw [biu_abort_eq]
  exact cycles_idle_loop_log env _ s

theorem bus_do_mem_log (io : Nat) (s : State) :
    (bus_do_mem io s).bus_log = s.bus_log ++ [io] := by
  unfold bus_do_mem
  simp only [bus_writew, bus_writeb, write_mem_w, write_mem_b]
  split_ifs <;> rfl

theorem run_bus_cycle_mem_log (env : Env) (io : Nat) (s : State)
    (hio : (io &&& BUS_ACCESS_TYPE) = BUS_MEM) :
    (run_bus_cycle env io s).bus_log =
      if (BUS_CYCLE s = 1 ∧ (io &&& BUS_OUT) ≠ 0) ∨ (BUS_CYCLE s = 2 ∧ (io &&& BUS_OUT) = 0)
      then (s.bus_log ++ [io]) else s.bus_log := by
  obtain ⟨hn, hcode⟩ := acc_mem_code io hio
  unfold run_bus_cycle
  rw [if_pos ⟨hn, Or.inl hcode⟩]
  have h1 := bus_ready_log env s
  have h2 := ctl_of_core (ready_wait_core env s)
  have h3 : BUS_CYCLE (bus_ready env s) = BUS_CYCLE s := bus_cycle_of_core (ready_wait_core env s)
  have hlt : BUS_CYCLE s < 4 := by rw [bus_cycle_eq_mod]; omega
  generalize bus_ready env s = s1 at h1 h2 h3
  have hcg : (bus_do_mem io s1).bus_log = s.bus_log ++ [io] := by
    rw [bus_do_mem_log, h1]
  have hne1 : ¬ (BUS_MEM = BUS_IO) := by decide
  have hne2 : ¬ (BUS_MEM = BUS_CODE) := by decide
  simp only [h3, hio, hne1, hne2, if_false, if_true]
  generalize BUS_CYCLE s = p at hlt
  interval_cases p
  · have hc : ¬ (((0 : Nat) = 1 ∧ (io &&& BUS_OUT) ≠ 0) ∨ ((0 : Nat) = 2 ∧ (io &&& BUS_OUT) = 0)) := by
      simp
    rw [if_neg hc]; exact h1
  · by_cases ho : (io &&& BUS_OUT) = 0
    · have hc : ¬ (((1 : Nat) = 1 ∧ (io &&& BUS_OUT) ≠ 0) ∨ ((1 : Nat) = 2 ∧ (io &&& BUS_OUT) = 0)) := by
        simp [ho]
      rw [if_neg hc]; simp only [ho, ne_eq, not_true_eq_false, if_false]; exact h1
    · have hc : (((1 : Nat) = 1 ∧ (io &&& BUS_OUT) ≠ 0) ∨ ((1 : Nat) = 2 ∧ (io &&& BUS_OUT) = 0)) := by
        simp [ho]
      rw [if_pos hc]; simp only [ho, ne_eq, not_false_eq_true, if_true]; exact hcg
  · by_cases ho : (io &&& BUS_OUT) = 0
    · have hc : (((2 : Nat) = 1 ∧ (io &&& BUS_OUT) ≠ 0) ∨ ((2 : Nat) = 2 ∧ (io &&& BUS_OUT) = 0)) := by
        simp [ho]
      rw [if_pos hc]; simp only [ho, if_true]; exact hcg
    · have hc : ¬ (((2 : Nat) = 1 ∧ (io &&& BUS_OUT) ≠ 0) ∨ ((2 : Nat) = 2 ∧ (io &&& BUS_OUT) = 0)) := by
        simp [ho]
      rw [if_neg hc]; simp only [ho, if_false]; exact h1
  · have hc : ¬ (((3 : Nat) = 1 ∧ (io &&& BUS_OUT) ≠ 0) ∨ ((3 : Nat) = 2 ∧ (io &&& BUS_OUT) = 0)) := by
      simp
    rw [if_neg hc]; exact h1

theorem biu_access_mem_log (env : Env) (init : Nat) (s : State)
    (hreq : (s.bus_request_type &&& BUS_ACCESS_TYPE) = BUS_MEM) :
    (biu_access env 1 init s).bus_log =
      if init ≠ 0 ∧ s.schedule_fetch ≠ 0 then s.bus_log
      else if (BUS_CYCLE s = 1 ∧ (s.bus_request_type &&& BUS_OUT) ≠ 0) ∨
              (BUS_CYCLE s = 2 ∧ (s.bus_request_type &&& BUS_OUT) = 0)
        then (s.bus_log ++ [s.bus_request_type]) else s.bus_log := by
  unfold biu_access
  rw [if_pos (by decide)]
  simp only
  by_cases hab : init ≠ 0 ∧ s.schedule_fetch ≠ 0
  · rw [if_pos hab, if_pos hab]
    have ha := biu_abort_effect env s
    have hr : (biu_abort env s).bus_request_type = s.bus_request_type :=
      congrArg Ctl.bus_request_type ha.1
    have hb : BUS_CYCLE (biu_abort env s) = 0 := by unfold BUS_CYCLE; rw [ha.2.1]; rfl
    rw [run_bus_cycle_mem_log env _ _ (by rw [hr]; exact hreq), hb]
    have hc : ¬ (((0 : Nat) = 1 ∧ ((biu_abort env s).bus_request_type &&& BUS_OUT) ≠ 0) ∨
        ((0 : Nat) = 2 ∧ ((biu_abort env s).bus_request_type &&& BUS_OUT) = 0)) := by simp
    rw [if_neg hc]
    exact biu_abort_log env s
  · rw [if_neg hab, if_neg hab]
    exact run_bus_cycle_mem_log env _ s hreq

theorem cycles_biu_mem_log (env : Env) (init : Nat) (s : State)
    (hreq : (s.bus_request_type &&& BUS_ACCESS_TYPE) = BUS_MEM) :
    (cycles_biu env 1 init s).bus_log =
      if init ≠ 0 ∧ s.schedule_fetch ≠ 0 then s.bus_log
      else if (BUS_CYCLE s = 1 ∧ (s.bus_request_type &&& BUS_OUT) ≠ 0) ∨
              (BUS_CYCLE s = 2 ∧ (s.bus_request_type &&& BUS_OUT) = 0)
        then (s.bus_log ++ [s.bus_request_type]) else s.bus_log := by
  unfold cycles_biu
  simp only
  have h1 := biu_access_mem_log env init
    ({ s with pasv := if (1 : Nat) ≠ 0 ∨ (BUS_CYCLE s = BUS_T1 ∧ s.schedule_fetch ≠ 0) then 0 else 1 } : State)
    hreq
  generalize biu_access env 1 init
    ({ s with pasv := if (1 : Nat) ≠ 0 ∨ (BUS_CYCLE s = BUS_T1 ∧ s.schedule_fetch ≠ 0) then 0 else 1 } : State)
    = s1 at h1
  have h2 : (if BUS_CYCLE s1 = BUS_T2 then pfq_schedule 1 s1 else s1).bus_log = s1.bus_log := by
    split_ifs <;> rfl
  generalize (if BUS_CYCLE s1 = BUS_T2 then pfq_schedule 1 s1 else s1) = s2 at h2
  have h3 := run_dma_cycle_log s2.pasv s2
  generalize run_dma_cycle s2.pasv s2 = s3 at h3
  show s3.bus_log = _
  rw [h3, h2, h1]
  rfl

theorem wait_tick_mem_log (env : Env) (d : Nat) (s : State)
    (hreq : (s.bus_request_type &&& BUS_ACCESS_TYPE) = BUS_MEM) :
    (wait_tick env 1 d s).bus_log =
      if d = 0 ∧ s.schedule_fetch ≠ 0 then s.bus_log
      else if (BUS_CYCLE s = 1 ∧ (s.bus_request_type &&& BUS_OUT) ≠ 0) ∨
              (BUS_CYCLE s = 2 ∧ (s.bus_request_type &&& BUS_OUT) = 0)
        then (s.bus_log ++ [s.bus_request_type]) else s.bus_log := by
  unfold wait_tick
  simp only
  rw [if_neg (fun hh => absurd hh.1 (by decide)), cycles_forward_log env,
    cycles_biu_mem_log env _ s hreq]
  by_cases hd : d = 0
  · simp [hd]
  · simp [hd]

theorem wait_from_mem_log (env : Env) (n d : Nat) (s : State)
    (hd : d ≠ 0) (hn : n ≤ 3)
    (hreq : (s.bus_request_type &&& BUS_ACCESS_TYPE) = BUS_MEM) :
    (wait_from env 1 n d s).bus_log =
      if ((if (s.bus_request_type &&& BUS_OUT) ≠ 0 then 1 else 2) + 4 - BUS_CYCLE s) % 4 < n
      then (s.bus_log ++ [s.bus_request_type]) else s.bus_log := by
  induction n generalizing d s with
  | zero => simp [wait_from]
  | succ n ih =>
    unfold wait_from
    have hdt := wait_tick_mem_log env d s hreq
    rw [if_neg (fun hh => hd hh.1)] at hdt
    have hph := wait_tick_phase env 1 d s
    rw [if_neg (fun hh => absurd hh.1 (by decide)), if_neg (fun hh => hd hh.2.1)] at hph
    have hctl := wait_tick_ctl env 1 d s
    have hr : (wait_tick env 1 d s).bus_request_type = s.bus_request_type :=
      congrArg Ctl.bus_request_type hctl
    have hih := ih (d + 1) (wait_tick env 1 d s) (by omega) (by omega) (by rw [hr]; exact hreq)
    have hcg : (wait_tick env 1 d s).bus_log = s.bus_log →
        (wait_tick env 1 d s).bus_log ++ [s.bus_request_type] =
          (s.bus_log ++ [s.bus_request_type]) := fun h => by rw [h]
    rw [hr, hph] at hih
    rw [hih]
    simp only [mem_active_iff] at hdt
    have hlt : BUS_CYCLE s < 4 := by rw [bus_cycle_eq_mod]; omega
    have hk2 : (if (s.bus_request_type &&& BUS_OUT) ≠ 0 then 1 else 2) = 1 ∨
        (if (s.bus_request_type &&& BUS_OUT) ≠ 0 then 1 else 2) = 2 := by
      split_ifs <;> simp
    generalize (if (s.bus_request_type &&& BUS_OUT) ≠ 0 then 1 else 2) = k at hdt hk2 ⊢
    generalize BUS_CYCLE s = p at hdt hlt ⊢
    by_cases hact : p = k
    · rw [if_pos hact] at hdt
      rw [if_neg (by omega), if_pos (by omega), hdt]
    · rw [if_neg hact] at hdt
      by_cases hj : (k + 4 - (p + 1) % 4) % 4 < n
      · rw [if_pos hj, if_pos (by omega), hcg hdt]
      · rw [if_neg hj, if_neg (by omega), hdt]

theorem wait_mem_log (env : Env) (s : State)
    (hreq : (s.bus_request_type &&& BUS_ACCESS_TYPE) = BUS_MEM) :
    (wait env 4 1 s).bus_log = (s.bus_log ++ [s.bus_request_type]) := by
  show (wait_from env 1 3 1 (wait_tick env 1 0 s)).bus_log = _
  have hdt := wait_tick_mem_log env 0 s hreq
  have hph := wait_tick_phase env 1 0 s
  rw [if_neg (fun hh => absurd hh.1 (by decide))] at hph
  have hctl := wait_tick_ctl env 1 0 s
  have hr : (wait_tick env 1 0 s).bus_request_type = s.bus_request_type :=
    congrArg Ctl.bus_request_type hctl
  have hcg : (wait_tick env 1 0 s).bus_log = s.bus_log →
      (wait_tick env 1 0 s).bus_log ++ [s.bus_request_type] =
        (s.bus_log ++ [s.bus_request_type]) := fun h => by rw [h]
  rw [wait_from_mem_log env 3 1 _ (by decide) (by decide) (by rw [hr]; exact hreq), hr]
  simp only [mem_active_iff] at hdt
  have hlt : BUS_CYCLE s < 4 := by rw [bus_cycle_eq_mod]; omega
  have hk2 : (if (s.bus_request_type &&& BUS_OUT) ≠ 0 then 1 else 2) = 1 ∨
      (if (s.bus_request_type &&& BUS_OUT) ≠ 0 then 1 else 2) = 2 := by
    split_ifs <;> simp
  generalize (if (s.bus_request_type &&& BUS_OUT) ≠ 0 then 1 else 2) = k at hdt hk2 ⊢
  by_cases hab : s.schedule_fetch ≠ 0
  · rw [if_pos ⟨by decide, rfl, hab⟩] at hph
    rw [if_pos ⟨trivial, hab⟩] at hdt
    rw [hph, if_pos (by simp only [BUS_T2]; omega), hcg hdt]
  · rw [if_neg (fun hh => hab hh.2.2)] at hph
    rw [if_neg (fun hh => hab hh.2)] at hdt
    generalize BUS_CYCLE s = p at hdt hlt hph ⊢
    rw [hph]
    by_cases hact : p = k
    · rw [if_pos hact] at hdt
      rw [if_neg (by omega), hdt]
    · rw [if_neg hact] at hdt
      rw [if_pos (by omega), hcg hdt]

/-! ## Word reads: which cycles are issued -/

theorem mem_cycle_log (env : Env) (io : Nat) (s : State)
    (hio : (io &&& BUS_ACCESS_TYPE) = BUS_MEM) :
    (wait env 4 1 { s with bus_request_type := io }).bus_log = s.bus_log ++ [io] :=
  wait_mem_log env { s with bus_request_type := io } hio

theorem read_cycles_log (env : Env) (c : Bool) (s1 : State) :
    (if c = true then
        wait env 4 1 { s1 with bus_request_type := BUS_MEM ||| BUS_WIDE }
      else
        wait env 4 1 { pfq_schedule 0
          (wait env 4 1 { s1 with bus_request_type := BUS_MEM ||| BUS_HIGH })
            with bus_request_type := BUS_MEM }).bus_log =
      (if c = true then s1.bus_log ++ [BUS_MEM ||| BUS_WIDE]
       else s1.bus_log ++ [BUS_MEM ||| BUS_HIGH, BUS_MEM]) := by
  by_cases hw : c = true
  · simp only [if_pos hw]
    exact mem_cycle_log env _ s1 (by decide)
  · simp only [if_neg hw]
    have h1 := mem_cycle_log env (BUS_MEM ||| BUS_HIGH) s1 (by decide)
    generalize wait env 4 1 { s1 with bus_request_type := BUS_MEM ||| BUS_HIGH } = t3 at h1
    have h2 := mem_cycle_log env BUS_MEM (pfq_schedule 0 t3) (by decide)
    rw [h2]
    have e : (pfq_schedule 0 t3).bus_log = t3.bus_log := rfl
    rw [e, h1, List.append_assoc]
    rfl

theorem readmemw_bytes_eq (env : Env) (seg a : Nat) (s : State)
    (hw : ¬ (s.is8086 && decide (((a % 65536) &&& 1) = 0)) = true) :
    readmemw env seg a s =
      ((wait env 4 1 { pfq_schedule 0
          (wait env 4 1 { s with mem_seg := seg % 4294967296, mem_addr := a % 65536,
                                 bus_request_type := BUS_MEM ||| BUS_HIGH })
            with bus_request_type := BUS_MEM }).mem_data,
       { wait env 4 1 { pfq_schedule 0
          (wait env 4 1 { s with mem_seg := seg % 4294967296, mem_addr := a % 65536,
                                 bus_request_type := BUS_MEM ||| BUS_HIGH })
            with bus_request_type := BUS_MEM } with bus_request_type := 0 }) := by
  unfold readmemw
  simp only [if_neg hw]

theorem readmemw_log (env : Env) (seg a : Nat) (s : State) :
    (readmemw env seg a s).2.bus_log =
      (if (s.is8086 && decide (((a % 65536) &&& 1) = 0)) = true
       then s.bus_log ++ [BUS_MEM ||| BUS_WIDE]
       else s.bus_log ++ [BUS_MEM ||| BUS_HIGH, BUS_MEM]) :=
  read_cycles_log env (s.is8086 && decide (((a % 65536) &&& 1) = 0))
    { s with mem_seg := seg % 4294967296, mem_addr := a % 65536 }

/-- C24 as amended: `readmemw(seg, ofs)` on the 8086 with an even offset issues one bus
cycle, with BUS_WIDE; otherwise it issues two byte cycles, the one for the high byte
(offset ofs + 1, request BUS_MEM | BUS_HIGH) first and the one for the low byte second,
with `pfq_schedule(0)` run between the two `wait(4, 1)` calls; the value returned is the
little-endian word at the two byte addresses. -/
theorem readmemw_cycles (env : Env) (seg a : Nat) (s : State) :
    (readmemw env seg a s).2.bus_log =
      (if (s.is8086 && decide (((a % 65536) &&& 1) = 0)) = true
       then s.bus_log ++ [BUS_MEM ||| BUS_WIDE]
       else s.bus_log ++ [BUS_MEM ||| BUS_HIGH, BUS_MEM]) ∧
    (¬ (s.is8086 && decide (((a % 65536) &&& 1) = 0)) = true →
      readmemw env seg a s =
        ((wait env 4 1 { pfq_schedule 0
            (wait env 4 1 { s with mem_seg := seg % 4294967296, mem_addr := a % 65536,
                                   bus_request_type := BUS_MEM ||| BUS_HIGH })
              with bus_request_type := BUS_MEM }).mem_data,
         { wait env 4 1 { pfq_schedule 0
            (wait env 4 1 { s with mem_seg := seg % 4294967296, mem_addr := a % 65536,
                                   bus_request_type := BUS_MEM ||| BUS_HIGH })
              with bus_request_type := BUS_MEM } with bus_request_type := 0 })) ∧
    (env_keeps_mem env →
      (readmemw env seg a s).1 =
        s.mem (word_lo seg a) % 256 + 256 * (s.mem (word_hi s seg a) % 256)) := by
  exact ⟨readmemw_log env seg a s, readmemw_bytes_eq env seg a s,
    fun hk => (readmemw_effect env hk seg a s).1⟩

/-- Witness of C24: a word read at an odd offset on an 8086. -/
theorem readmemw_cycles_witness :
    (readmemw idle_env 0 0x11 { init_state with is8086 := true }).2.bus_log =
      [] ++ [BUS_MEM ||| BUS_HIGH, BUS_MEM] ∧
    (readmemw idle_env 0 0x11 { init_state with is8086 := true }).1 = 0 := by
  have h := readmemw_cycles idle_env 0 0x11 { init_state with is8086 := true }
  refine ⟨?_, ?_⟩
  · have h1 := h.1
    exact h1.trans (if_neg (by decide))
  · exact (h.2.2 idle_env_keeps_mem).trans (by decide)

/-- Counterexample to C24 as stated: on the 8088 the first of the two byte cycles of
`readmemw` carries BUS_HIGH (it reads the high byte), the second reads the low byte. -/
theorem readmemw_high_byte_first :
    (readmemw idle_env 0 0x10 init_state).2.bus_log = [] ++ [BUS_MEM ||| BUS_HIGH, BUS_MEM] :=
  (readmemw_log idle_env 0 0x10 init_state).trans (if_neg (by decide))

/-! ## The cost of `wait` in host cycles -/

theorem cycles_forward_tim (env : Env) (hc : env_keeps_cycles env) (hr : env_keeps_ready env)
    (c : Int) (s : State) (hq : no_wait_states s) :
    no_wait_states (cycles_forward env c s) ∧ (cycles_forward env c s).cycles = s.cycles - c := by
  unfold cycles_forward process_timers clock_start clock_end
  obtain ⟨q1, q2, q3⟩ := hq
  simp only
  split_ifs
  · simp only [State.setExt, State.ext, no_wait_states]
    obtain ⟨r1, r2, r3⟩ := hr
      { cycles := s.cycles - c, tsc := (s.tsc + ((s.cycdiff - (s.cycles - c)) %
          18446744073709551616).toNat * env.xt_cpu_multi_hi) % 18446744073709551616,
        not_ready := s.not_ready, hlda := s.hlda, refresh := s.refresh, mem := s.mem,
        dev := s.dev, nmi := s.nmi, nmi_enable := s.nmi_enable, nmi_mask := s.nmi_mask,
        pic_int_pending := s.pic_int_pending }
    rw [hc]
    exact ⟨⟨r1.trans q1, r2.trans q2, r3.trans q3⟩, rfl⟩
  · exact ⟨⟨q1, q2, q3⟩, rfl⟩
  · exact ⟨⟨q1, q2, q3⟩, rfl⟩

theorem run_dma_cycle_quiet (idle : Nat) (s : State) (hq : no_wait_states s) :
    run_dma_cycle idle s = s := by
  obtain ⟨q1, q2, q3⟩ := hq
  unfold run_dma_cycle
  simp only
  rw [if_neg (by omega), if_neg (by omega), if_neg (fun h => by omega)]

theorem bus_ready_quiet (env : Env) (s : State) (hq : no_wait_states s) : bus_ready env s = s := by
  unfold bus_ready
  rw [if_neg (by have := hq.1; omega)]

theorem pfq_add_tim (s : State) :
    (pfq_add s).not_ready = s.not_ready ∧ (pfq_add s).hlda = s.hlda ∧
    (pfq_add s).refresh = s.refresh ∧ (pfq_add s).cycles = s.cycles := by
  unfold pfq_add pfq_write
  simp only
  split_ifs <;> exact ⟨rfl, rfl, rfl, rfl⟩

theorem bus_do_mem_tim (io : Nat) (s : State) :
    (bus_do_mem io s).not_ready = s.not_ready ∧ (bus_do_mem io s).hlda = s.hlda ∧
    (bus_do_mem io s).refresh = s.refresh ∧ (bus_do_mem io s).cycles = s.cycles := by
  unfold bus_do_mem
  simp only [bus_writew, bus_writeb, write_mem_w, write_mem_b]
  split_ifs <;> exact ⟨rfl, rfl, rfl, rfl⟩

theorem run_bus_cycle_quiet (env : Env) (io : Nat) (s : State) (hq : no_wait_states s)
    (hio : (io &&& BUS_ACCESS_TYPE) = BUS_CODE ∨ (io &&& BUS_ACCESS_TYPE) = BUS_MEM) :
    no_wait_states (run_bus_cycle env io s) ∧ (run_bus_cycle env io s).cycles = s.cycles := by
  unfold run_bus_cycle
  by_cases hc : io ≠ 0 ∧ ((io &&& BUS_CODE) = 0 ∨ s.schedule_fetch ≠ 0)
  · rw [if_pos hc, bus_ready_quiet env s hq]
    dsimp only
    have hlt : BUS_CYCLE s < 4 := by rw [bus_cycle_eq_mod]; omega
    have hadd := pfq_add_tim s
    have hmem := bus_do_mem_tim io s
    obtain ⟨q1, q2, q3⟩ := hq
    have hne1 : ¬ (BUS_MEM = BUS_IO) := by decide
    have hne2 : ¬ (BUS_MEM = BUS_CODE) := by decide
    have hne3 : ¬ (BUS_CODE = BUS_IO) := by decide
    have hne4 : ¬ (BUS_CODE = BUS_MEM) := by decide
    have hne5 : ¬ (BUS_CODE = BUS_PIC) := by decide
    have hgood : no_wait_states s ∧ s.cycles = s.cycles := ⟨⟨q1, q2, q3⟩, rfl⟩
    have hgm : no_wait_states (bus_do_mem io s) ∧ (bus_do_mem io s).cycles = s.cycles :=
      ⟨⟨hmem.1.trans q1, hmem.2.1.trans q2, hmem.2.2.1.trans q3⟩, hmem.2.2.2⟩
    have hga : no_wait_states (pfq_add s) ∧ (pfq_add s).cycles = s.cycles :=
      ⟨⟨hadd.1.trans q1, hadd.2.1.trans q2, hadd.2.2.1.trans q3⟩, hadd.2.2.2⟩
    generalize BUS_CYCLE s = p at hlt ⊢
    rcases hio with h | h
    · simp only [h, hne3, hne4, hne5, if_false, if_true]
      interval_cases p
      · exact hgood
      · exact hgood
      · exact hga
      · exact hgood
    · simp only [h, hne1, hne2, if_false, if_true]
      interval_cases p
      · exact hgood
      · dsimp only
        split_ifs
        · exact hgm
        · exact hgood
      · dsimp only
        split_ifs
        · exact hgm
        · exact hgood
      · exact hgood
  · rw [if_neg hc]
    exact ⟨hq, rfl⟩

theorem cycles_biu_quiet (env : Env) (bus init : Nat) (s : State) (hq : no_wait_states s)
    (hb : bus = 0 ∨ ((s.bus_request_type &&& BUS_ACCESS_TYPE) = BUS_MEM ∧
      (init = 0 ∨ s.schedule_fetch = 0))) :
    no_wait_states (cycles_biu env bus init s) ∧ (cycles_biu env bus init s).cycles = s.cycles := by
  unfold cycles_biu
  simp only
  generalize hs0 : ({ s with pasv :=
    if bus ≠ 0 ∨ (BUS_CYCLE s = BUS_T1 ∧ s.schedule_fetch ≠ 0) then 0 else 1 } : State) = s0
  have e0 : no_wait_states s0 ∧ s0.cycles = s.cycles ∧
      s0.bus_request_type = s.bus_request_type ∧ s0.schedule_fetch = s.schedule_fetch := by
    subst hs0; exact ⟨hq, rfl, rfl, rfl⟩
  have h1 : no_wait_states (biu_access env bus init s0) ∧
      (biu_access env bus init s0).cycles = s.cycles := by
    unfold biu_access
    by_cases hbus : bus ≠ 0
    · rw [if_pos hbus]
      rcases hb with hb | ⟨hm, hi⟩
      · exact absurd hb hbus
      · simp only
        rw [if_neg (fun hh => by rcases hi with hi | hi
                                 · exact hh.1 hi
                                 · exact hh.2 (e0.2.2.2.trans hi))]
        have := run_bus_cycle_quiet env s0.bus_request_type s0 e0.1
          (Or.inr (by rw [e0.2.2.1]; exact hm))
        exact ⟨this.1, this.2.trans e0.2.1⟩
    · rw [if_neg hbus]
      by_cases hsf : s0.schedule_fetch ≠ 0
      · rw [if_pos hsf]
        have := run_bus_cycle_quiet env BUS_CODE s0 e0.1 (Or.inl (by decide))
        exact ⟨this.1, this.2.trans e0.2.1⟩
      · rw [if_neg hsf]
        exact ⟨e0.1, e0.2.1⟩
  generalize biu_access env bus init s0 = s1 at h1
  have h2 : no_wait_states (if BUS_CYCLE s1 = BUS_T2 then pfq_schedule 1 s1 else s1) ∧
      (if BUS_CYCLE s1 = BUS_T2 then pfq_schedule 1 s1 else s1).cycles = s.cycles := by
    split_ifs
    · exact h1
    · exact h1
  generalize (if BUS_CYCLE s1 = BUS_T2 then pfq_schedule 1 s1 else s1) = s2 at h2
  rw [run_dma_cycle_quiet _ s2 h2.1]
  exact h2

theorem wait_tick_cost (env : Env) (hc : env_keeps_cycles env) (hr : env_keeps_ready env)
    (bus d : Nat) (s : State) (hq : no_wait_states s)
    (hb : bus = 0 ∨ ((s.bus_request_type &&& BUS_ACCESS_TYPE) = BUS_MEM ∧
      (d ≠ 0 ∨ s.schedule_fetch = 0))) :
    no_wait_states (wait_tick env bus d s) ∧ (wait_tick env bus d s).cycles = s.cycles - 1 := by
  unfold wait_tick
  simp only
  have key : ∀ t : State, (no_wait_states t ∧ t.cycles = s.cycles) →
      no_wait_states (cycles_forward env 1 t) ∧ (cycles_forward env 1 t).cycles = s.cycles - 1 :=
    fun t ht => by
      have := cycles_forward_tim env hc hr 1 t ht.1
      exact ⟨this.1, by rw [this.2, ht.2]⟩
  apply key
  by_cases hp : bus = 0 ∧ s.schedule_fetch = 0 ∧ BUS_CYCLE s = BUS_T1
  · rw [if_pos hp]
    unfold cycles_pasv
    rw [run_dma_cycle_quiet _ _ (show no_wait_states (pfq_schedule 1 s) from hq)]
    exact ⟨hq, rfl⟩
  · rw [if_neg hp]
    apply cycles_biu_quiet env bus _ s hq
    rcases hb with hb | ⟨hm, hd⟩
    · exact Or.inl hb
    · refine Or.inr ⟨hm, ?_⟩
      rcases hd with hd | hd
      · left; rw [if_neg hd]
      · right; exact hd

theorem wait_from_cost (env : Env) (hc : env_keeps_cycles env) (hr : env_keeps_ready env)
    (bus n d : Nat) (s : State) (hq : no_wait_states s)
    (hb : bus = 0 ∨ ((s.bus_request_type &&& BUS_ACCESS_TYPE) = BUS_MEM ∧
      (d ≠ 0 ∨ s.schedule_fetch = 0))) :
    no_wait_states (wait_from env bus n d s) ∧
    (wait_from env bus n d s).cycles = s.cycles - n := by
  induction n generalizing d s with
  | zero => exact ⟨hq, by simp [wait_from]⟩
  | succ n ih =>
    unfold wait_from
    obtain ⟨t1, t2⟩ := wait_tick_cost env hc hr bus d s hq hb
    have hreq : (wait_tick env bus d s).bus_request_type = s.bus_request_type :=
      congrArg Ctl.bus_request_type (wait_tick_ctl env bus d s)
    have hb2 : bus = 0 ∨ (((wait_tick env bus d s).bus_request_type &&& BUS_ACCESS_TYPE) = BUS_MEM ∧
        (d + 1 ≠ 0 ∨ (wait_tick env bus d s).schedule_fetch = 0)) := by
      rcases hb with hb | ⟨hm, -⟩
      · exact Or.inl hb
      · exact Or.inr ⟨by rw [hreq]; exact hm, Or.inl (by omega)⟩
    obtain ⟨u1, u2⟩ := ih (d + 1) (wait_tick env bus d s) t1 hb2
    refine ⟨u1, ?_⟩
    rw [u2, t2]
    push_cast
    ring

theorem wait_nonpositive (env : Env) (c : Int) (bus : Nat) (s : State) (h : c ≤ 0) :
    wait env c bus s = s := by
  unfold wait
  rw [Int.toNat_eq_zero.2 h]
  rfl

/-- C29 as amended: `wait(n, bus)` with n <= 0 changes nothing; with n >= 0 it lowers the
cycle budget by exactly n when no wait state is pending (not_ready, hlda and refresh are
0), the timer service leaves the budget and the wait-state lines alone, and the ticks are
idle ones (bus = 0) or those of a memory access that aborts no prefetch. -/
theorem wait_cost (env : Env) (hc : env_keeps_cycles env) (hr : env_keeps_ready env)
    (c : Int) (bus : Nat) (s : State) :
    (c ≤ 0 → wait env c bus s = s) ∧
    (0 ≤ c → no_wait_states s →
      (bus = 0 ∨ ((s.bus_request_type &&& BUS_ACCESS_TYPE) = BUS_MEM ∧ s.schedule_fetch = 0)) →
      (wait env c bus s).cycles = s.cycles - c) := by
  refine ⟨wait_nonpositive env c bus s, ?_⟩
  intro h0 hq hb
  have h := (wait_from_cost env hc hr bus c.toNat 0 s hq
    (hb.imp id (fun hh => ⟨hh.1, Or.inr hh.2⟩))).2
  rw [Int.toNat_of_nonneg h0] at h
  exact h

theorem idle_env_keeps_cycles : env_keeps_cycles idle_env := fun _ => rfl

theorem idle_env_keeps_ready : env_keeps_ready idle_env := fun _ => ⟨rfl, rfl, rfl⟩

/-- Witness of C29: three idle ticks from the initial state cost three cycles. -/
theorem wait_cost_witness : (wait idle_env 3 0 init_state).cycles = init_state.cycles - 3 :=
  (wait_cost idle_env idle_env_keeps_cycles idle_env_keeps_ready 3 0 init_state).2
    (by decide) ⟨rfl, rfl, rfl⟩ (Or.inl rfl)

/-- Counterexample to C29 as stated: with three wait states pending (not_ready = 3) one
tick of a memory access costs four cycles, not one. -/
theorem wait_state_costs_more :
    (wait idle_env 1 1 { init_state with not_ready := 3, bus_request_type := BUS_MEM }).cycles
      = ({ init_state with not_ready := 3, bus_request_type := BUS_MEM } : State).cycles - 4 := by
  decide

/-! ## Frames of the queue reads and of `jump` -/

theorem wait_idle_frame (env : Env) (c : Int) (s : State) :
    (wait env c 0 s).arch = s.arch ∧ (wait env c 0 s).priv = s.priv ∧
    (env_keeps_mem env → (wait env c 0 s).mem = s.mem) :=
  ⟨wait_arch env c 0 s, (wait_idle_priv env c s).1,
    fun hk => congrArg Data.mem ((wait_idle_priv env c s).2 hk)⟩

theorem pfq_fill_frame (env : Env) (f : Nat) (s t : State) (h : pfq_fill env f s = some t) :
    t.arch = s.arch ∧ t.priv = s.priv ∧ (env_keeps_mem env → t.mem = s.mem) := by
  induction f generalizing s with
  | zero =>
    unfold pfq_fill at h
    split_ifs at h
    cases h
    exact ⟨rfl, rfl, fun _ => rfl⟩
  | succ f ih =>
    unfold pfq_fill at h
    split_ifs at h
    · obtain ⟨a, b, c⟩ := ih (wait env 1 0 s) h
      obtain ⟨a2, b2, c2⟩ := wait_idle_frame env 1 s
      exact ⟨a.trans a2, b.trans b2, fun hk => (c hk).trans (c2 hk)⟩
    · cases h
      exact ⟨rfl, rfl, fun _ => rfl⟩

theorem pfq_read_frame (s : State) :
    (pfq_read s).2.arch = { s.arch with pc := (s.pc + 1) &&& 0xffff } ∧
    (pfq_read s).2.priv = s.priv ∧ (pfq_read s).2.mem = s.mem :=
  ⟨rfl, rfl, rfl⟩

theorem pfq_fetchb_common_frame (env : Env) (f : Nat) (s : State) (r : Nat × State)
    (h : pfq_fetchb_common env f s = some r) :
    r.2.arch = { s.arch with pc := (s.pc + 1) &&& 0xffff } ∧ r.2.priv = s.priv ∧
    (env_keeps_mem env → r.2.mem = s.mem) := by
  unfold pfq_fetchb_common at h
  split_ifs at h
  · cases hf : pfq_fill env f { s with pfq_ip := s.pc % 65536 } with
    | none => rw [hf] at h; cases h
    | some t =>
      rw [hf] at h
      cases h
      obtain ⟨a, b, c⟩ := pfq_fill_frame env f _ t hf
      obtain ⟨a2, b2, c2⟩ := pfq_read_frame t
      have hpc : t.pc = s.pc := congrArg Arch.pc a
      refine ⟨?_, b2.trans b, fun hk => c2.trans (c hk)⟩
      rw [a2, a, hpc]
      rfl
  · have hr : r = pfq_read s := (Option.some.inj h).symm
    rw [hr]
    obtain ⟨a, b, c⟩ := pfq_read_frame s
    exact ⟨a, b, fun _ => c⟩

theorem pfq_fetchb_frame (env : Env) (f : Nat) (s : State) (r : Nat × State)
    (h : pfq_fetchb env f s = some r) :
    r.2.arch = { s.arch with pc := (s.pc + 1) &&& 0xffff } ∧ r.2.priv = s.priv ∧
    (env_keeps_mem env → r.2.mem = s.mem) := by
  unfold pfq_fetchb at h
  cases hc : pfq_fetchb_common env f s with
  | none => rw [hc] at h; cases h
  | some q =>
    rw [hc] at h
    cases h
    obtain ⟨a, b, c⟩ := pfq_fetchb_common_frame env f s q hc
    obtain ⟨a2, b2, c2⟩ := wait_idle_frame env 1 q.2
    exact ⟨a2.trans a, b2.trans b, fun hk => (c2 hk).trans (c hk)⟩

theorem suspend_loop_frame (env : Env) (f : Nat) (s t : State)
    (h : suspend_loop env f s = some t) :
    t.arch = s.arch ∧ t.priv = s.priv ∧ (env_keeps_mem env → t.mem = s.mem) := by
  induction f generalizing s with
  | zero =>
    unfold suspend_loop at h
    split_ifs at h
    cases h
    exact ⟨rfl, rfl, fun _ => rfl⟩
  | succ f ih =>
    unfold suspend_loop at h
    split_ifs at h
    · obtain ⟨a, b, c⟩ := ih (wait env 1 0 s) h
      obtain ⟨a2, b2, c2⟩ := wait_idle_frame env 1 s
      exact ⟨a.trans a2, b.trans b2, fun hk => (c hk).trans (c2 hk)⟩
    · cases h
      exact ⟨rfl, rfl, fun _ => rfl⟩

theorem suspend_tail_frame (t : State) :
    ({ pfq_schedule 0 t with prefetching := 0 } : State).arch = { t.arch with prefetching := 0 } ∧
    ({ pfq_schedule 0 t with prefetching := 0 } : State).priv = t.priv ∧
    ({ pfq_schedule 0 t with prefetching := 0 } : State).mem = t.mem := ⟨rfl, rfl, rfl⟩

theorem pfq_clear_frame (t : State) :
    (pfq_clear t).arch = t.arch ∧ (pfq_clear t).priv = t.priv ∧ (pfq_clear t).mem = t.mem :=
  ⟨rfl, rfl, rfl⟩

theorem set_ip_frame (x : Nat) (t : State) :
    (set_ip x t).arch = { t.arch with pc := x % 65536, prefetching := 1 } ∧
    (set_ip x t).priv = t.priv ∧ (set_ip x t).mem = t.mem := ⟨rfl, rfl, rfl⟩

theorem pfq_do_suspend_frame (env : Env) (f : Nat) (s t : State)
    (h : pfq_do_suspend env f s = some t) :
    t.arch = { s.arch with prefetching := 0 } ∧ t.priv = s.priv ∧
    (env_keeps_mem env → t.mem = s.mem) := by
  unfold pfq_do_suspend at h
  cases hc : suspend_loop env f s with
  | none => rw [hc] at h; cases h
  | some q =>
    rw [hc] at h
    have ht : t = { pfq_schedule 0 (wait env 1 0 q) with prefetching := 0 } :=
      (Option.some.inj h).symm
    obtain ⟨a, b, c⟩ := suspend_loop_frame env f s q hc
    obtain ⟨a2, b2, c2⟩ := wait_idle_frame env 1 q
    obtain ⟨a3, b3, c3⟩ := suspend_tail_frame (wait env 1 0 q)
    rw [ht]
    refine ⟨?_, b3.trans (b2.trans b), fun hk => c3.trans ((c2 hk).trans (c hk))⟩
    rw [a3, a2, a]

theorem pfq_suspend_frame (env : Env) (f : Nat) (s t : State)
    (h : pfq_suspend env f s = some t) :
    t.arch = { s.arch with prefetching := 0 } ∧ t.priv = s.priv ∧
    (env_keeps_mem env → t.mem = s.mem) := by
  unfold pfq_suspend at h
  cases hc : pfq_do_suspend env f s with
  | none => rw [hc] at h; cases h
  | some q =>
    rw [hc] at h
    have ht : t = pfq_clear q := (Option.some.inj h).symm
    obtain ⟨a, b, c⟩ := pfq_do_suspend_frame env f s q hc
    obtain ⟨a3, b3, c3⟩ := pfq_clear_frame q
    rw [ht]
    exact ⟨a3.trans a, b3.trans b, fun hk => c3.trans (c hk)⟩

theorem cycles_idle_frame (env : Env) (c : Int) (s : State) :
    (cycles_idle env c s).arch = s.arch ∧ (cycles_idle env c s).priv = s.priv ∧
    (env_keeps_mem env → (cycles_idle env c s).mem = s.mem) := by
  refine ⟨arch_of_ctl (ctl_of_core (cycles_idle_core env c s)), ?_, ?_⟩
  · unfold cycles_idle
    generalize c.toNat = n
    induction n generalizing s with
    | zero => rfl
    | succ n ih =>
      unfold cycles_idle_loop
      rw [ih, run_dma_cycle_priv, cycles_forward_priv]
  · intro hk
    exact congrArg Data.mem (cycles_idle_loop_data env hk _ s)

theorem jump_frame (env : Env) (f delta : Nat) (s : State) (r : Nat × State)
    (h : jump env f delta s = some r) :
    r.2.arch = { s.arch with pc := ((s.pc + delta % 65536) &&& 0xffff) % 65536,
                             prefetching := 1 } ∧
    r.2.priv = s.priv ∧ (env_keeps_mem env → r.2.mem = s.mem) := by
  unfold jump at h
  cases hc : pfq_suspend env f (wait env 1 0 s) with
  | none => rw [hc] at h; cases h
  | some q =>
    rw [hc] at h
    have hr : r = ((cycles_idle env 1 q).pc % 65536,
        set_ip (((cycles_idle env 1 q).pc + delta % 65536) &&& 0xffff) (cycles_idle env 1 q)) :=
      (Option.some.inj h).symm
    obtain ⟨a, b, c⟩ := pfq_suspend_frame env f _ q hc
    obtain ⟨a2, b2, c2⟩ := wait_idle_frame env 1 s
    obtain ⟨a3, b3, c3⟩ := cycles_idle_frame env 1 q
    have hpc : (cycles_idle env 1 q).pc = s.pc := by
      have e1 : (cycles_idle env 1 q).pc = q.pc := congrArg Arch.pc a3
      have e2 : q.pc = (wait env 1 0 s).pc := congrArg Arch.pc a
      have e3 : (wait env 1 0 s).pc = s.pc := congrArg Arch.pc a2
      exact e1.trans (e2.trans e3)
    obtain ⟨a4, b4, c4⟩ := set_ip_frame (((cycles_idle env 1 q).pc + delta % 65536) &&& 0xffff)
      (cycles_idle env 1 q)
    rw [hr]
    refine ⟨?_, b4.trans (b3.trans (b.trans b2)),
      fun hk => c4.trans ((c3 hk).trans ((c hk).trans (c2 hk)))⟩
    show (set_ip (((cycles_idle env 1 q).pc + delta % 65536) &&& 0xffff)
      (cycles_idle env 1 q)).arch = _
    rw [a4, a3, a, a2, hpc]

/-! ## LOOP -/

theorem exec_loop_body_e2 (env : Env) (f d : Nat) (q : State) (hop : q.opcode = 0xE2) :
    exec_loop_body env f d q =
      if (q.cx + 65535) % 65536 ≠ 0 then
        jump_short env f { q with cpu_data := d, cx := (q.cx + 65535) % 65536, oldc := 1 }
      else some { q with cpu_data := d, cx := (q.cx + 65535) % 65536, oldc := 0 } := by
  unfold exec_loop_body
  simp only [hop]
  by_cases h : (q.cx + 65535) % 65536 = 0
  · simp [h]
  · simp [h]

theorem upd_loop_fields (q : State) (d c o : Nat) :
    ({ q with cpu_data := d, cx := c, oldc := o } : State).arch =
      { q.arch with cpu_data := d, cx := c, oldc := o } ∧
    ({ q with cpu_data := d, cx := c, oldc := o } : State).pc = q.pc ∧
    ({ q with cpu_data := d, cx := c, oldc := o } : State).cpu_data = d := ⟨rfl, rfl, rfl⟩

/-- C16: LOOP (0xE2) with displacement byte `d` fetched by `pfq_fetchb` and `s1.pc` the
address after it: CX is decremented by 1 modulo 2^16, the flags are unchanged, and the
branch to (s1.pc + sign_extend(d)) mod 2^16 is taken iff the decremented CX is not zero;
otherwise pc stays at the address after the displacement. -/
theorem loop_branch (env : Env) (s : State) (f : Nat) (hop : s.opcode = 0xE2)
    (hpre : s.prefetching ≠ 0) (hsz : s.pfq_size = 4 ∨ s.pfq_size = 6) (hf : 6 ≤ f) :
    ∃ d s1 t, pfq_fetchb env f (wait env 3 0 s) = some (d, s1) ∧
      s1.pc = (s.pc + 1) % 65536 ∧ exec_loop env f s = some t ∧
      t.cx = (s.cx + 65535) % 65536 ∧ t.flags = s.flags ∧
      ((s.cx + 65535) % 65536 ≠ 0 → t.pc = (s1.pc + sign_extend d) % 65536) ∧
      ((s.cx + 65535) % 65536 = 0 → t.pc = s1.pc) := by
  have hctl := wait_ctl env 3 0 s
  have hpre1 : (wait env 3 0 s).prefetching ≠ 0 := by
    rw [show (wait env 3 0 s).prefetching = s.prefetching from congrArg Ctl.prefetching hctl]
    exact hpre
  have hsz1 : (wait env 3 0 s).pfq_size = 4 ∨ (wait env 3 0 s).pfq_size = 6 := by
    rw [show (wait env 3 0 s).pfq_size = s.pfq_size from congrArg Ctl.pfq_size hctl]
    exact hsz
  obtain ⟨r, h1, h2⟩ := pfq_fetchb_ok env (wait env 3 0 s) f hpre1 hsz1 hf
  rw [show (wait env 3 0 s).pc = s.pc from congrArg Ctl.pc hctl, and_ffff] at h2
  obtain ⟨fa, -, -⟩ := pfq_fetchb_frame env f (wait env 3 0 s) r h1
  have wa := wait_arch env 3 0 s
  have rop1 : r.2.opcode = (wait env 3 0 s).opcode := congrArg Arch.opcode fa
  have rcx1 : r.2.cx = (wait env 3 0 s).cx := congrArg Arch.cx fa
  have rfl1 : r.2.flags = (wait env 3 0 s).flags := congrArg Arch.flags fa
  have rop : r.2.opcode = 0xE2 := (rop1.trans (congrArg Arch.opcode wa)).trans hop
  have rcx : r.2.cx = s.cx := rcx1.trans (congrArg Arch.cx wa)
  have rfl_ : r.2.flags = s.flags := rfl1.trans (congrArg Arch.flags wa)
  have hex : exec_loop env f s = exec_loop_body env f r.1 r.2 := by
    unfold exec_loop
    rw [h1]
    rfl
  rw [hex, exec_loop_body_e2 env f r.1 r.2 rop, rcx]
  by_cases hc : (s.cx + 65535) % 65536 = 0
  · rw [if_neg (not_not.2 hc)]
    refine ⟨r.1, r.2, _, h1, h2, rfl, rfl, rfl_, fun h => absurd hc h, fun _ => rfl⟩
  · rw [if_pos hc]
    obtain ⟨u1, u2, u3⟩ := upd_loop_fields r.2 r.1 ((s.cx + 65535) % 65536) 1
    generalize ({ r.2 with cpu_data := r.1, cx := (s.cx + 65535) % 65536, oldc := 1 } : State) = q
      at u1 u2 u3
    obtain ⟨j, j1, j2, -, -⟩ := jump_ok env q (sign_extend (q.cpu_data % 256)) f (by omega)
    obtain ⟨ja, -, -⟩ := jump_frame env f _ q j j1
    have hjs : jump_short env f q = some j.2 := by
      unfold jump_short
      rw [j1]
      rfl
    refine ⟨r.1, r.2, j.2, h1, h2, hjs, ?_, ?_, ?_, fun h => absurd h hc⟩
    · have e1 : j.2.cx = q.cx := congrArg Arch.cx ja
      have e2 : q.cx = (s.cx + 65535) % 65536 := congrArg Arch.cx u1
      exact e1.trans e2
    · have e1 : j.2.flags = q.flags := congrArg Arch.flags ja
      have e2 : q.flags = r.2.flags := congrArg Arch.flags u1
      exact (e1.trans e2).trans rfl_
    · intro _
      rw [j2, u2, u3, sign_extend_mod, and_ffff, Nat.mod_mod,
        Nat.mod_eq_of_lt (sign_extend_lt r.1)]

/-- Witness of C16: LOOP in the initial state with CX = 1 ends with CX = 0. -/
theorem loop_branch_witness :
    ∃ t, exec_loop idle_env 6 { init_state with opcode := 0xE2, cx := 1 } = some t ∧ t.cx = 0 := by
  obtain ⟨d, s1, t, -, -, h3, h4, -, -, -⟩ :=
    loop_branch idle_env { init_state with opcode := 0xE2, cx := 1 } 6 rfl (by decide)
      (Or.inl rfl) (by decide)
  exact ⟨t, h3, h4⟩

/-! ## The interrupt check at the instruction boundary -/

theorem process_timers_pic (env : Env) (g : Ext → Nat × Ext) (s : State) :
    process_timers { env with pic_irq_ack := g } s = process_timers env s := rfl

theorem cycles_forward_pic (env : Env) (g : Ext → Nat × Ext) (c : Int) (s : State) :
    cycles_forward { env with pic_irq_ack := g } c s = cycles_forward env c s := rfl

theorem bus_ready_pic (env : Env) (g : Ext → Nat × Ext) (s : State) :
    bus_ready { env with pic_irq_ack := g } s = bus_ready env s := rfl

theorem bus_outb_pic (env : Env) (g : Ext → Nat × Ext) (p v : Nat) (s : State) :
    bus_outb { env with pic_irq_ack := g } p v s = bus_outb env p v s := rfl

theorem bus_outw_pic (env : Env) (g : Ext → Nat × Ext) (p v : Nat) (s : State) :
    bus_outw { env with pic_irq_ack := g } p v s = bus_outw env p v s := rfl

theorem bus_inb_pic (env : Env) (g : Ext → Nat × Ext) (p : Nat) (s : State) :
    bus_inb { env with pic_irq_ack := g } p s = bus_inb env p s := rfl

theorem bus_inw_pic (env : Env) (g : Ext → Nat × Ext) (p : Nat) (s : State) :
    bus_inw { env with pic_irq_ack := g } p s = bus_inw env p s := rfl

theorem bus_do_io_pic (env : Env) (g : Ext → Nat × Ext) (t : Nat) (s : State) :
    bus_do_io { env with pic_irq_ack := g } t s = bus_do_io env t s := by
  unfold bus_do_io
  simp only [bus_outb_pic, bus_outw_pic, bus_inb_pic, bus_inw_pic, process_timers_pic]

theorem cycles_idle_loop_pic (env : Env) (g : Ext → Nat × Ext) (n : Nat) (s : State) :
    cycles_idle_loop { env with pic_irq_ack := g } n s = cycles_idle_loop env n s := by
  induction n generalizing s with
  | zero => rfl
  | succ n ih =>
    show cycles_idle_loop { env with pic_irq_ack := g } n _ = cycles_idle_loop env n _
    rw [ih]
    rfl

theorem biu_abort_pic (env : Env) (g : Ext → Nat × Ext) (s : State) :
    biu_abort { env with pic_irq_ack := g } s = biu_abort env s := by
  unfold biu_abort cycles_idle
  simp only [cycles_idle_loop_pic]

theorem run_bus_cycle_pic (env : Env) (g : Ext → Nat × Ext) (t : Nat) (s : State)
    (ht : (t &&& BUS_ACCESS_TYPE) ≠ BUS_PIC) :
    run_bus_cycle { env with pic_irq_ack := g } t s = run_bus_cycle env t s := by
  unfold run_bus_cycle
  simp only [bus_ready_pic, bus_do_io_pic]
  by_cases hc : t ≠ 0 ∧ (t &&& BUS_CODE = 0 ∨ s.schedule_fetch ≠ 0)
  · rw [if_pos hc, if_pos hc]
    generalize bus_ready env s = q
    generalize BUS_CYCLE q = k
    rcases k with _ | _ | _ | k
    · rfl
    · rfl
    · show (if (t &&& BUS_ACCESS_TYPE) = BUS_CODE then _ else _) =
        (if (t &&& BUS_ACCESS_TYPE) = BUS_CODE then _ else _)
      simp only [if_neg ht]
    · rfl
  · rw [if_neg hc, if_neg hc]

theorem biu_access_pic (env : Env) (g : Ext → Nat × Ext) (bus init : Nat) (s : State)
    (ht : bus ≠ 0 → (s.bus_request_type &&& BUS_ACCESS_TYPE) ≠ BUS_PIC) :
    biu_access { env with pic_irq_ack := g } bus init s = biu_access env bus init s := by
  unfold biu_access
  by_cases hb : bus ≠ 0
  · rw [if_pos hb, if_pos hb, biu_abort_pic]
    apply run_bus_cycle_pic
    by_cases hi : init ≠ 0 ∧ s.schedule_fetch ≠ 0
    · rw [if_pos hi]
      have e : (biu_abort env s).bus_request_type = s.bus_request_type := by
        unfold biu_abort pfq_schedule
        split_ifs <;>
          first
          | rfl
          | exact congrArg Core.bus_request_type (cycles_idle_core env _ s)
      rw [e]
      exact ht hb
    · rw [if_neg hi]
      exact ht hb
  · rw [if_neg hb, if_neg hb]
    rw [run_bus_cycle_pic env g BUS_CODE s (by decide)]

theorem cycles_biu_pic (env : Env) (g : Ext → Nat × Ext) (bus init : Nat) (s : State)
    (ht : bus ≠ 0 → (s.bus_request_type &&& BUS_ACCESS_TYPE) ≠ BUS_PIC) :
    cycles_biu { env with pic_irq_ack := g } bus init s = cycles_biu env bus init s := by
  have h := biu_access_pic env g bus init
    { s with pasv := if bus ≠ 0 ∨ (BUS_CYCLE s = BUS_T1 ∧ s.schedule_fetch ≠ 0) then 0 else 1 } ht
  unfold cycles_biu
  dsimp only
  rw [h]

theorem wait_tick_pic (env : Env) (g : Ext → Nat × Ext) (bus d : Nat) (s : State)
    (ht : bus ≠ 0 → (s.bus_request_type &&& BUS_ACCESS_TYPE) ≠ BUS_PIC) :
    wait_tick { env with pic_irq_ack := g } bus d s = wait_tick env bus d s := by
  unfold wait_tick
  dsimp only
  rw [cycles_biu_pic env g bus (if d = 0 then 1 else 0) s ht, cycles_forward_pic]

theorem wait_from_pic (env : Env) (g : Ext → Nat × Ext) (bus n d : Nat) (s : State)
    (ht : bus ≠ 0 → (s.bus_request_type &&& BUS_ACCESS_TYPE) ≠ BUS_PIC) :
    wait_from { env with pic_irq_ack := g } bus n d s = wait_from env bus n d s := by
  induction n generalizing d s with
  | zero => rfl
  | succ n ih =>
    show wait_from { env with pic_irq_ack := g } bus n (d + 1)
        (wait_tick { env with pic_irq_ack := g } bus d s) = wait_from env bus n (d + 1) (wait_tick env bus d s)
    rw [wait_tick_pic env g bus d s ht]
    apply ih
    intro hb
    have e : (wait_tick env bus d s).bus_request_type = s.bus_request_type :=
      congrArg Ctl.bus_request_type (wait_tick_ctl env bus d s)
    rw [e]
    exact ht hb

/-- Ticks that request no interrupt acknowledge never call `pic_irq_ack`: `wait` does not
depend on it. -/
theorem wait_pic (env : Env) (g : Ext → Nat × Ext) (c : Int) (bus : Nat) (s : State)
    (ht : bus ≠ 0 → (s.bus_request_type &&& BUS_ACCESS_TYPE) ≠ BUS_PIC) :
    wait { env with pic_irq_ack := g } c bus s = wait env c bus s :=
  wait_from_pic env g bus _ 0 s ht

theorem wait_idle_pic (env : Env) (g : Ext → Nat × Ext) (c : Int) (s : State) :
    wait { env with pic_irq_ack := g } c 0 s = wait env c 0 s :=
  wait_pic env g c 0 s (fun h => absurd rfl h)

theorem readmemw_pic (env : Env) (g : Ext → Nat × Ext) (seg a : Nat) (s : State) :
    readmemw { env with pic_irq_ack := g } seg a s = readmemw env seg a s := by
  have h1 := wait_pic env g 4 1
    { s with mem_seg := seg % 4294967296, mem_addr := a % 65536, bus_request_type := BUS_MEM ||| BUS_WIDE }
    (fun _ => (by decide : (BUS_MEM ||| BUS_WIDE) &&& BUS_ACCESS_TYPE ≠ BUS_PIC))
  have h2 := wait_pic env g 4 1
    { s with mem_seg := seg % 4294967296, mem_addr := a % 65536, bus_request_type := BUS_MEM ||| BUS_HIGH }
    (fun _ => (by decide : (BUS_MEM ||| BUS_HIGH) &&& BUS_ACCESS_TYPE ≠ BUS_PIC))
  have h3 := wait_pic env g 4 1
    { pfq_schedule 0 (wait env 4 1 { s with mem_seg := seg % 4294967296, mem_addr := a % 65536, bus_request_type := BUS_MEM ||| BUS_HIGH }) with bus_request_type := BUS_MEM }
    (fun _ => (by decide : (BUS_MEM) &&& BUS_ACCESS_TYPE ≠ BUS_PIC))
  unfold readmemw
  dsimp only
  rw [h1, h2, h3]

theorem writememw_pic (env : Env) (g : Ext → Nat × Ext) (seg a v : Nat) (s : State) :
    writememw { env with pic_irq_ack := g } seg a v s = writememw env seg a v s := by
  have h1 := wait_pic env g 4 1
    { s with mem_seg := seg % 4294967296, mem_addr := a % 65536, mem_data := v % 65536, bus_request_type := BUS_MEM ||| BUS_OUT ||| BUS_WIDE }
    (fun _ => (by decide : (BUS_MEM ||| BUS_OUT ||| BUS_WIDE) &&& BUS_ACCESS_TYPE ≠ BUS_PIC))
  have h2 := wait_pic env g 4 1
    { s with mem_seg := seg % 4294967296, mem_addr := a % 65536, mem_data := v % 65536, bus_request_type := BUS_MEM ||| BUS_OUT ||| BUS_HIGH }
    (fun _ => (by decide : (BUS_MEM ||| BUS_OUT ||| BUS_HIGH) &&& BUS_ACCESS_TYPE ≠ BUS_PIC))
  have h3 := wait_pic env g 4 1
    { pfq_schedule 0 (wait env 4 1 { s with mem_seg := seg % 4294967296, mem_addr := a % 65536, mem_data := v % 65536, bus_request_type := BUS_MEM ||| BUS_OUT ||| BUS_HIGH }) with bus_request_type := BUS_MEM ||| BUS_OUT }
    (fun _ => (by decide : (BUS_MEM ||| BUS_OUT) &&& BUS_ACCESS_TYPE ≠ BUS_PIC))
  unfold writememw
  dsimp only
  rw [h1, h2, h3]

theorem push_pic (env : Env) (g : Ext → Nat × Ext) (rd : State → Nat) (s : State) :
    push { env with pic_irq_ack := g } rd s = push env rd s := by
  unfold push
  simp only [writememw_pic]

theorem suspend_loop_pic (env : Env) (g : Ext → Nat × Ext) (f : Nat) (s : State) :
    suspend_loop { env with pic_irq_ack := g } f s = suspend_loop env f s := by
  induction f generalizing s with
  | zero => rfl
  | succ n ih =>
    unfold suspend_loop
    rw [wait_idle_pic, ih]

theorem pfq_do_suspend_pic (env : Env) (g : Ext → Nat × Ext) (f : Nat) (s : State) :
    pfq_do_suspend { env with pic_irq_ack := g } f s = pfq_do_suspend env f s := by
  unfold pfq_do_suspend
  simp only [suspend_loop_pic, wait_idle_pic]

theorem nearcall_pic (env : Env) (g : Ext → Nat × Ext) (ip : Nat) (s : State) :
    nearcall { env with pic_irq_ack := g } ip s = nearcall env ip s := by
  unfold nearcall
  simp only [wait_idle_pic, push_pic]

theorem farcall2_pic (env : Env) (g : Ext → Nat × Ext) (cs ip : Nat) (s : State) :
    farcall2 { env with pic_irq_ack := g } cs ip s = farcall2 env cs ip s := by
  unfold farcall2
  simp only [wait_idle_pic, push_pic, nearcall_pic]

theorem read_vector_pic (env : Env) (g : Ext → Nat × Ext) (ea : Nat) (s : State) :
    read_vector { env with pic_irq_ack := g } ea s = read_vector env ea s := by
  unfold read_vector
  simp only [wait_idle_pic, readmemw_pic]

theorem push_flags_pic (env : Env) (g : Ext → Nat × Ext) (v : Nat) (s : State) :
    push_flags { env with pic_irq_ack := g } v s = push_flags env v s := by
  unfold push_flags
  simp only [wait_idle_pic, push_pic]

theorem intr_routine_pic (env : Env) (g : Ext → Nat × Ext) (f n : Nat) (b : Bool) (s : State) :
    intr_routine { env with pic_irq_ack := g } f n b s = intr_routine env f n b s := by
  unfold intr_routine
  simp only [wait_idle_pic, push_flags_pic, farcall2_pic, read_vector_pic, pfq_do_suspend_pic]

theorem custom_nmi_pic (env : Env) (g : Ext → Nat × Ext) (f : Nat) (s : State) :
    custom_nmi { env with pic_irq_ack := g } f s = custom_nmi env f s := by
  unfold custom_nmi
  simp only [wait_idle_pic, push_flags_pic, farcall2_pic, read_vector_pic, pfq_do_suspend_pic]

theorem irq_pending_iff (s : State) :
    irq_pending s = true ↔
      ((s.nmi ≠ 0 ∧ s.nmi_enable ≠ 0 ∧ s.nmi_mask ≠ 0) ∨
       ((s.flags &&& T_FLAG) ≠ 0 ∧ s.noint = 0) ∨
       ((s.flags &&& I_FLAG) ≠ 0 ∧ s.pic_int_pending ≠ 0 ∧ s.noint = 0)) := by
  unfold irq_pending
  simp only [Bool.or_eq_true, decide_eq_true_eq, or_assoc]

theorem check_interrupts_trap (env : Env) (f : Nat) (s : State)
    (ht : (s.flags &&& T_FLAG) ≠ 0 ∧ s.noint = 0) :
    check_interrupts env f s = intr_routine env f 1 false (wait env 2 0 s) := by
  unfold check_interrupts
  rw [if_pos ((irq_pending_iff s).2 (Or.inr (Or.inl ht))), if_pos ht]

theorem check_interrupts_nmi (env : Env) (f : Nat) (s : State)
    (ht : ¬((s.flags &&& T_FLAG) ≠ 0 ∧ s.noint = 0))
    (hn : s.nmi ≠ 0 ∧ s.nmi_enable ≠ 0 ∧ s.nmi_mask ≠ 0) :
    check_interrupts env f s =
      (if (wait env 2 0 { s with nmi_enable := 0 }).use_custom_nmi_vector ≠ 0
        then custom_nmi env f (wait env 2 0 { s with nmi_enable := 0 })
        else intr_routine env f 2 false (wait env 2 0 { s with nmi_enable := 0 })).map
        (fun t => { t with nmi := 0 }) := by
  unfold check_interrupts
  rw [if_pos ((irq_pending_iff s).2 (Or.inl hn)), if_neg ht, if_pos hn]

theorem check_interrupts_irq (env : Env) (f : Nat) (s : State)
    (ht : ¬((s.flags &&& T_FLAG) ≠ 0 ∧ s.noint = 0))
    (hn : ¬(s.nmi ≠ 0 ∧ s.nmi_enable ≠ 0 ∧ s.nmi_mask ≠ 0))
    (hi : (s.flags &&& I_FLAG) ≠ 0 ∧ s.pic_int_pending ≠ 0 ∧ s.noint = 0) :
    check_interrupts env f s =
      (let a1 := bus_pic_ack env
        (wait env 4 0 { s with repeating := 0, completed := 1, ovr_seg := none })
      let a2 := bus_pic_ack env (wait env 1 0 a1.2)
      let s5 : State := { wait env 1 0 a2.2 with in_lock := 0, clear_lock := 0 }
      let s6 := if BUS_CYCLE s5 ≠ BUS_T3 then wait env 1 0 s5 else s5
      intr_routine env f (a2.1 % 65536).toNat false { wait env 5 0 s6 with opcode := 0 }) := by
  unfold check_interrupts
  rw [if_pos ((irq_pending_iff s).2 (Or.inr (Or.inr hi))), if_neg ht, if_neg hn, if_pos hi]

theorem check_interrupts_none (env : Env) (f : Nat) (s : State)
    (ht : ¬((s.flags &&& T_FLAG) ≠ 0 ∧ s.noint = 0))
    (hn : ¬(s.nmi ≠ 0 ∧ s.nmi_enable ≠ 0 ∧ s.nmi_mask ≠ 0))
    (hi : ¬((s.flags &&& I_FLAG) ≠ 0 ∧ s.pic_int_pending ≠ 0 ∧ s.noint = 0)) :
    check_interrupts env f s = some s := by
  unfold check_interrupts
  by_cases hp : irq_pending s = true
  · rw [if_pos hp, if_neg ht, if_neg hn, if_neg hi]
  · rw [if_neg hp]

/-- C27: `check_interrupts` services at most one source, in the order trap, NMI, maskable
IRQ.  Trap (T set, `noint` clear): two ticks, then `intr_routine(1, 0)`, nothing else.
NMI (all three latches set, no trap): `nmi_enable` is cleared, two ticks, the custom routine
or `intr_routine(2, 0)`, and `nmi` is 0 afterwards.  In both cases `pic_irq_ack` is never
called: the outcome is the same whatever that collaborator does.  IRQ (I set, interrupt
pending, `noint` clear, neither trap nor NMI): two acknowledge cycles and `intr_routine` on
the value returned by the second.  With no source pending the state is returned as it
is. -/
theorem check_interrupts_priority (env : Env) (f : Nat) (s : State) :
    (((s.flags &&& T_FLAG) ≠ 0 ∧ s.noint = 0) →
      check_interrupts env f s = intr_routine env f 1 false (wait env 2 0 s) ∧
      ∀ g, check_interrupts { env with pic_irq_ack := g } f s = check_interrupts env f s) ∧
    (¬((s.flags &&& T_FLAG) ≠ 0 ∧ s.noint = 0) →
      (s.nmi ≠ 0 ∧ s.nmi_enable ≠ 0 ∧ s.nmi_mask ≠ 0) →
      check_interrupts env f s =
        (if (wait env 2 0 { s with nmi_enable := 0 }).use_custom_nmi_vector ≠ 0
          then custom_nmi env f (wait env 2 0 { s with nmi_enable := 0 })
          else intr_routine env f 2 false (wait env 2 0 { s with nmi_enable := 0 })).map
          (fun t => { t with nmi := 0 }) ∧
      (∀ t, check_interrupts env f s = some t → t.nmi = 0) ∧
      ∀ g, check_interrupts { env with pic_irq_ack := g } f s = check_interrupts env f s) ∧
    (¬((s.flags &&& T_FLAG) ≠ 0 ∧ s.noint = 0) →
      ¬(s.nmi ≠ 0 ∧ s.nmi_enable ≠ 0 ∧ s.nmi_mask ≠ 0) →
      ((s.flags &&& I_FLAG) ≠ 0 ∧ s.pic_int_pending ≠ 0 ∧ s.noint = 0) →
      check_interrupts env f s =
        (let a1 := bus_pic_ack env
          (wait env 4 0 { s with repeating := 0, completed := 1, ovr_seg := none })
        let a2 := bus_pic_ack env (wait env 1 0 a1.2)
        let s5 : State := { wait env 1 0 a2.2 with in_lock := 0, clear_lock := 0 }
        let s6 := if BUS_CYCLE s5 ≠ BUS_T3 then wait env 1 0 s5 else s5
        intr_routine env f (a2.1 % 65536).toNat false { wait env 5 0 s6 with opcode := 0 })) ∧
    (¬((s.flags &&& T_FLAG) ≠ 0 ∧ s.noint = 0) →
      ¬(s.nmi ≠ 0 ∧ s.nmi_enable ≠ 0 ∧ s.nmi_mask ≠ 0) →
      ¬((s.flags &&& I_FLAG) ≠ 0 ∧ s.pic_int_pending ≠ 0 ∧ s.noint = 0) →
      check_interrupts env f s = some s) := by
  refine ⟨fun ht => ⟨check_interrupts_trap env f s ht, fun g => ?_⟩,
    fun ht hn => ⟨check_interrupts_nmi env f s ht hn, fun t h => ?_, fun g => ?_⟩,
    check_interrupts_irq env f s, check_interrupts_none env f s⟩
  · rw [check_interrupts_trap _ f s ht, check_interrupts_trap env f s ht, intr_routine_pic,
      wait_idle_pic]
  · rw [check_interrupts_nmi env f s ht hn] at h
    generalize (if (wait env 2 0 { s with nmi_enable := 0 }).use_custom_nmi_vector ≠ 0
      then custom_nmi env f (wait env 2 0 { s with nmi_enable := 0 })
      else intr_routine env f 2 false (wait env 2 0 { s with nmi_enable := 0 })) = o at h
    cases o with
    | none => cases h
    | some q =>
      have e : ({ q with nmi := 0 } : State) = t := Option.some.inj h
      rw [← e]
  · rw [check_interrupts_nmi _ f s ht hn, check_interrupts_nmi env f s ht hn, wait_idle_pic,
      intr_routine_pic, custom_nmi_pic]

/-- Witness of C27: the four cases at concrete states of the initial machine. -/
theorem check_interrupts_priority_witness :
    check_interrupts idle_env 6 { init_state with flags := 0x102 } =
      intr_routine idle_env 6 1 false (wait idle_env 2 0 { init_state with flags := 0x102 }) ∧
    (∀ t, check_interrupts idle_env 6
        { init_state with nmi := 1, nmi_enable := 1, nmi_mask := 1 } = some t → t.nmi = 0) ∧
    check_interrupts idle_env 6 init_state = some init_state :=
  ⟨((check_interrupts_priority idle_env 6 { init_state with flags := 0x102 }).1
      (by decide)).1,
   ((check_interrupts_priority idle_env 6
      { init_state with nmi := 1, nmi_enable := 1, nmi_mask := 1 }).2.1
      (by decide) (by decide)).2.1,
   (check_interrupts_priority idle_env 6 init_state).2.2.2 (by decide) (by decide) (by decide)⟩

/-! ## REP with CX = 0 -/

theorem rep_start_cx_zero (env : Env) (s : State) (hr : s.in_rep ≠ 0) (hp : s.repeating = 0)
    (hc : s.cx = 0) :
    rep_start env s = (false, rep_end (wait env 4 0 (wait env 2 0 s))) := by
  have wa := wait_arch env 2 0 s
  have e1 : (wait env 2 0 s).in_rep = s.in_rep := congrArg Arch.in_rep wa
  have e2 : (wait env 2 0 s).cx = s.cx := congrArg Arch.cx wa
  unfold rep_start
  rw [if_pos hp]
  dsimp only
  rw [if_pos (by rw [e1]; exact hr), if_pos (by rw [e2]; exact hc)]

theorem rep_end_frame (s : State) :
    (rep_end s).arch = { s.arch with repeating := 0, in_rep := 0, completed := 1 } ∧
    (rep_end s).priv = s.priv ∧ (rep_end s).mem = s.mem := ⟨rfl, rfl, rfl⟩

theorem rep_skip_frame (env : Env) (s : State) :
    (rep_end (wait env 4 0 (wait env 2 0 s))).arch =
      { s.arch with repeating := 0, in_rep := 0, completed := 1 } ∧
    (rep_end (wait env 4 0 (wait env 2 0 s))).priv = s.priv ∧
    (env_keeps_mem env → (rep_end (wait env 4 0 (wait env 2 0 s))).mem = s.mem) := by
  obtain ⟨a1, p1, m1⟩ := wait_idle_frame env 2 s
  obtain ⟨a2, p2, m2⟩ := wait_idle_frame env 4 (wait env 2 0 s)
  obtain ⟨a3, p3, m3⟩ := rep_end_frame (wait env 4 0 (wait env 2 0 s))
  refine ⟨?_, p3.trans (p2.trans p1), fun hk => m3.trans ((m2 hk).trans (m1 hk))⟩
  rw [a3, a2, a1]

theorem string_ops_cx_zero (env : Env) (f : Nat) (s : State) (hr : s.in_rep ≠ 0)
    (hp : s.repeating = 0) (hc : s.cx = 0) :
    exec_movs env f s = some (rep_end (wait env 4 0 (wait env 2 0 s))) ∧
    exec_cmps_scas env f s = some (rep_end (wait env 4 0 (wait env 2 0 s))) ∧
    exec_stos env f s = some (rep_end (wait env 4 0 (wait env 2 0 s))) ∧
    exec_lods env f s = some (rep_end (wait env 4 0 (wait env 2 0 s))) ∧
    exec_ins env f s = some (rep_end (wait env 4 0 (wait env 2 0 s))) ∧
    exec_outs env f s = some (rep_end (wait env 4 0 (wait env 2 0 s))) := by
  have h := rep_start_cx_zero env s hr hp hc
  refine ⟨?_, ?_, ?_, ?_, ?_, ?_⟩ <;>
  · show (if (rep_start env s).1 = true then _ else some (rep_start env s).2) = _
    rw [h]
    exact if_neg Bool.false_ne_true

/-- C20: a string instruction (MOVS, CMPS/SCAS, STOS, LODS, INS, OUTS) entered under a REP
prefix (`in_rep` not 0, first iteration) with CX = 0: `rep_start` returns 0; the handler
ends at once, no physical memory or port access is logged, memory is untouched when the
timer service leaves it alone, SI, DI, CX, AX and the flags are unchanged, and the
instruction is completed with `in_rep = 0` and `repeating = 0`. -/
theorem rep_cx_zero_skips (env : Env) (f : Nat) (s : State) (hr : s.in_rep ≠ 0)
    (hp : s.repeating = 0) (hc : s.cx = 0) :
    (rep_start env s).1 = false ∧
    ∀ h ∈ [exec_movs, exec_cmps_scas, exec_stos, exec_lods, exec_ins, exec_outs],
      ∃ t, h env f s = some t ∧ t.bus_log = s.bus_log ∧ (env_keeps_mem env → t.mem = s.mem) ∧
        t.si = s.si ∧ t.di = s.di ∧ t.cx = s.cx ∧ t.ax = s.ax ∧ t.flags = s.flags ∧
        t.in_rep = 0 ∧ t.repeating = 0 ∧ t.completed = 1 := by
  refine ⟨by rw [rep_start_cx_zero env s hr hp hc], ?_⟩
  obtain ⟨h1, h2, h3, h4, h5, h6⟩ := string_ops_cx_zero env f s hr hp hc
  obtain ⟨fa, fp, fm⟩ := rep_skip_frame env s
  generalize rep_end (wait env 4 0 (wait env 2 0 s)) = t at h1 h2 h3 h4 h5 h6 fa fp fm
  have key : t.bus_log = s.bus_log ∧ (env_keeps_mem env → t.mem = s.mem) ∧
      t.si = s.si ∧ t.di = s.di ∧ t.cx = s.cx ∧ t.ax = s.ax ∧ t.flags = s.flags ∧
      t.in_rep = 0 ∧ t.repeating = 0 ∧ t.completed = 1 :=
    ⟨congrArg Priv.bus_log fp, fm, congrArg Arch.si fa, congrArg Arch.di fa,
      congrArg Arch.cx fa, congrArg Priv.ax fp, congrArg Arch.flags fa,
      congrArg Arch.in_rep fa, congrArg Arch.repeating fa, congrArg Arch.completed fa⟩
  intro h hm
  simp only [List.mem_cons, List.mem_singleton, List.not_mem_nil, or_false] at hm
  rcases hm with e | e | e | e | e | e <;> subst e
  · exact ⟨t, h1, key⟩
  · exact ⟨t, h2, key⟩
  · exact ⟨t, h3, key⟩
  · exact ⟨t, h4, key⟩
  · exact ⟨t, h5, key⟩
  · exact ⟨t, h6, key⟩

/-- Witness of C20: REP MOVS in the initial state (CX = 0) on a machine with idle
collaborators. -/
theorem rep_cx_zero_skips_witness :
    (rep_start idle_env { init_state with in_rep := 1 }).1 = false ∧
    ∃ t, exec_movs idle_env 6 { init_state with in_rep := 1 } = some t ∧
      t.bus_log = [] ∧ t.in_rep = 0 ∧ t.completed = 1 := by
  obtain ⟨h0, h⟩ := rep_cx_zero_skips idle_env 6 { init_state with in_rep := 1 }
    (by decide) rfl rfl
  obtain ⟨t, h1, h2, -, -, -, -, -, -, h3, -, h4⟩ := h exec_movs (List.mem_cons_self _ _)
  exact ⟨h0, t, h1, h2, h3, h4⟩

/-! ## Segment override: visible for one instruction -/

theorem upd_req_arch (t : State) (r : Nat) :
    ({ t with bus_request_type := r } : State).arch = t.arch := rfl

theorem pfq_schedule_arch (v : Nat) (t : State) : (pfq_schedule v t).arch = t.arch := by
  unfold pfq_schedule
  split_ifs <;> rfl

theorem read_cycles_arch (env : Env) (c : Bool) (s1 : State) :
    (if c = true then
        wait env 4 1 { s1 with bus_request_type := BUS_MEM ||| BUS_WIDE }
      else
        wait env 4 1 { pfq_schedule 0
          (wait env 4 1 { s1 with bus_request_type := BUS_MEM ||| BUS_HIGH })
            with bus_request_type := BUS_MEM }).arch = s1.arch := by
  cases c
  · rw [if_neg Bool.false_ne_true, wait_arch, upd_req_arch, pfq_schedule_arch, wait_arch,
      upd_req_arch]
  · rw [if_pos rfl, wait_arch, upd_req_arch]

theorem upd_mem_arch (s : State) (a b : Nat) :
    ({ s with mem_seg := a, mem_addr := b } : State).arch = s.arch := rfl

theorem upd_memd_arch (s : State) (a b c : Nat) :
    ({ s with mem_seg := a, mem_addr := b, mem_data := c } : State).arch = s.arch := rfl

theorem readmemw_arch (env : Env) (seg a : Nat) (s : State) :
    (readmemw env seg a s).2.arch = s.arch :=
  (read_cycles_arch env (s.is8086 && decide (((a % 65536) &&& 1) = 0))
    { s with mem_seg := seg % 4294967296, mem_addr := a % 65536 }).trans (upd_mem_arch s _ _)

theorem write_cycles_arch (env : Env) (addr : Nat) (c : Bool) (s1 : State) :
    (write_done addr
      (if c = true then
        wait env 4 1 { s1 with bus_request_type := BUS_MEM ||| BUS_OUT ||| BUS_WIDE }
      else
        wait env 4 1 { pfq_schedule 0
          (wait env 4 1 { s1 with bus_request_type := BUS_MEM ||| BUS_OUT ||| BUS_HIGH })
            with bus_request_type := BUS_MEM ||| BUS_OUT })).arch = s1.arch := by
  rw [(write_done_frame _ _).2]
  cases c
  · rw [if_neg Bool.false_ne_true, wait_arch, upd_req_arch, pfq_schedule_arch, wait_arch,
      upd_req_arch]
  · rw [if_pos rfl, wait_arch, upd_req_arch]

theorem writememw_arch (env : Env) (seg a v : Nat) (s : State) :
    (writememw env seg a v s).arch = s.arch :=
  (write_cycles_arch env ((seg + a) % 4294967296)
    (s.is8086 && decide (((a % 4294967296) &&& 1) = 0))
    { s with mem_seg := seg % 4294967296, mem_addr := a % 65536, mem_data := v % 65536 }).trans
    (upd_memd_arch s _ _ _)

theorem upd_sp_ea_ovr (t : State) (a b : Nat) :
    ({ t with sp := a, eaaddr := b } : State).ovr_seg = t.ovr_seg := rfl

theorem upd_ea_ovr (t : State) (a : Nat) :
    ({ t with eaaddr := a } : State).ovr_seg = t.ovr_seg := rfl

theorem upd_flags_ovr (t : State) (a : Nat) :
    ({ t with flags := a } : State).ovr_seg = t.ovr_seg := rfl

theorem pfq_clear_ovr (t : State) : (pfq_clear t).ovr_seg = t.ovr_seg := rfl

theorem set_ip_ovr (x : Nat) (t : State) : (set_ip x t).ovr_seg = t.ovr_seg := rfl

theorem load_cs_ovr (x : Nat) (t : State) : (load_cs x t).ovr_seg = t.ovr_seg := rfl

theorem upd_sp_ea_arch (t : State) (a b : Nat) :
    ({ t with sp := a, eaaddr := b } : State).arch = { t.arch with sp := a, eaaddr := b } := rfl

theorem special_push_cpu (s : State) (h : (s.is186 && !s.is_nec) = true) :
    s.is186 = true ∧ s.is_nec = false := by
  cases h1 : s.is186 <;> cases h2 : s.is_nec <;> simp_all

/-- Whatever the collaborators do, `push` changes SP and `eaaddr` only, among the fields no
tick changes. -/
theorem push_arch (env : Env) (rd : State → Nat) (s : State) :
    (push env rd s).arch = { s.arch with sp := (s.sp + 65534) % 65536,
                                         eaaddr := ((s.sp + 65534) % 65536) &&& 0xffff } := by
  by_cases hn : (s.is186 && !s.is_nec) = true ∧ s.sp = 1
  · obtain ⟨h186, hnec⟩ := special_push_cpu s hn.1
    have e1 : (s.sp + 65534) % 65536 = 0xFFFF := by rw [hn.2]
    have e2 : (0xFFFF : Nat) &&& 0xffff = 0xFFFF := by decide
    rw [e1, e2]
    exact (congrArg State.arch (push_special_eq env rd s h186 hnec hn.2)).trans
      ((upd_sp_ea_arch _ _ _).trans (by rw [writememw_arch]))
  · exact (congrArg State.arch (push_normal_eq env rd s hn)).trans
      ((writememw_arch env _ _ _ _).trans (upd_sp_ea_arch s _ _))

theorem push_ovr (env : Env) (rd : State → Nat) (s : State) :
    (push env rd s).ovr_seg = s.ovr_seg := congrArg Arch.ovr_seg (push_arch env rd s)

theorem wait_ovr (env : Env) (c : Int) (bus : Nat) (s : State) :
    (wait env c bus s).ovr_seg = s.ovr_seg := congrArg Arch.ovr_seg (wait_arch env c bus s)

theorem readmemw_ovr (env : Env) (seg a : Nat) (s : State) :
    (readmemw env seg a s).2.ovr_seg = s.ovr_seg :=
  congrArg Arch.ovr_seg (readmemw_arch env seg a s)

theorem nearcall_eq (env : Env) (ip : Nat) (s : State) :
    nearcall env ip s = push env (fun _ => s.pc &&& 0xffff)
      (wait env 3 0 (pfq_clear (set_ip ip (wait env 1 0 s)))) := rfl

theorem nearcall_ovr (env : Env) (ip : Nat) (s : State) :
    (nearcall env ip s).ovr_seg = s.ovr_seg := by
  rw [nearcall_eq, push_ovr, wait_ovr, pfq_clear_ovr, set_ip_ovr, wait_ovr]

theorem farcall2_eq (env : Env) (cs ip : Nat) (s : State) :
    farcall2 env cs ip s = nearcall env ip (wait env 2 0 (load_cs cs
      (push env (fun t => t.seg_cs.seg) (wait env 3 0 s)))) := rfl

theorem farcall2_ovr (env : Env) (cs ip : Nat) (s : State) :
    (farcall2 env cs ip s).ovr_seg = s.ovr_seg := by
  rw [farcall2_eq, nearcall_ovr, wait_ovr, load_cs_ovr, push_ovr, wait_ovr]

theorem pfq_do_suspend_ovr (env : Env) (f : Nat) (s : State) (hf : 3 ≤ f) :
    ∃ t, pfq_do_suspend env f s = some t ∧ t.ovr_seg = s.ovr_seg := by
  obtain ⟨u, h1, -, -⟩ := suspend_loop_terminates env s f hf
  have h : pfq_do_suspend env f s =
      some { pfq_schedule 0 (wait env 1 0 u) with prefetching := 0 } := by
    unfold pfq_do_suspend
    rw [h1]
    rfl
  exact ⟨_, h, congrArg Arch.ovr_seg (pfq_do_suspend_frame env f s _ h).1⟩

theorem read_vector_snd (env : Env) (ea : Nat) (s : State) :
    (read_vector env ea s).2 =
      (readmemw env 0 (((wait env 1 0 (readmemw env 0 ea { s with eaaddr := ea }).2).eaaddr + 2)
          &&& 0xffff)
        { wait env 1 0 (readmemw env 0 ea { s with eaaddr := ea }).2 with
          eaaddr := ((wait env 1 0 (readmemw env 0 ea { s with eaaddr := ea }).2).eaaddr + 2)
            &&& 0xffff }).2 := rfl

theorem read_vector_ovr (env : Env) (ea : Nat) (s : State) :
    (read_vector env ea s).2.ovr_seg = s.ovr_seg := by
  rw [read_vector_snd, readmemw_ovr, upd_ea_ovr, wait_ovr, readmemw_ovr, upd_ea_ovr]

theorem push_flags_eq (env : Env) (v : Nat) (s : State) :
    push_flags env v s =
      { push env (fun _ => v) (wait env 2 0 s) with
        flags := andNot16 (push env (fun _ => v) (wait env 2 0 s)).flags (I_FLAG ||| T_FLAG) } :=
  rfl

theorem push_flags_ovr (env : Env) (v : Nat) (s : State) :
    (push_flags env v s).ovr_seg = s.ovr_seg := by
  rw [push_flags_eq, upd_flags_ovr, push_ovr, wait_ovr]

theorem intr_routine_ovr (env : Env) (f n : Nat) (b : Bool) (s : State) (hf : 3 ≤ f) :
    ∃ t, intr_routine env f n b s = some t ∧ t.ovr_seg = s.ovr_seg := by
  obtain ⟨s6, h6, e6⟩ := pfq_do_suspend_ovr env f
    (read_vector env ((n % 65536 * 4) % 65536 &&& 0xffff)
      (wait env 2 0 (if (!b) = true then wait env 1 0 s else s))).2 hf
  refine ⟨farcall2 env
    (read_vector env ((n % 65536 * 4) % 65536 &&& 0xffff)
      (wait env 2 0 (if (!b) = true then wait env 1 0 s else s))).1.2
    (read_vector env ((n % 65536 * 4) % 65536 &&& 0xffff)
      (wait env 2 0 (if (!b) = true then wait env 1 0 s else s))).1.1
    (wait env 1 0 (push_flags env (s.flags &&& (if s.is_nec = true then 0x8fd7 else 0x0fd7)) s6)),
    ?_, ?_⟩
  · show Option.map _ (pfq_do_suspend env f (read_vector env _ _).2) = _
    rw [h6]
    rfl
  · rw [farcall2_ovr, wait_ovr, push_flags_ovr, e6, read_vector_ovr, wait_ovr]
    cases b
    · exact wait_ovr env 1 0 s
    · rfl

theorem custom_nmi_ovr (env : Env) (f : Nat) (s : State) (hf : 3 ≤ f) :
    ∃ t, custom_nmi env f s = some t ∧ t.ovr_seg = s.ovr_seg := by
  obtain ⟨s6, h6, e6⟩ := pfq_do_suspend_ovr env f
    (read_vector env 0x0002 (wait env 2 0 (wait env 1 0 s))).2 hf
  refine ⟨farcall2 env
    (((read_vector env 0x0002 (wait env 2 0 (wait env 1 0 s))).2.custom_nmi_vector >>> 16) % 65536)
    ((read_vector env 0x0002 (wait env 2 0 (wait env 1 0 s))).2.custom_nmi_vector &&& 0xffff)
    (wait env 1 0 (push_flags env (s.flags &&& (if s.is_nec = true then 0x8fd7 else 0x0fd7)) s6)),
    ?_, ?_⟩
  · show Option.map _ (pfq_do_suspend env f (read_vector env _ _).2) = _
    rw [h6]
    rfl
  · rw [farcall2_ovr, wait_ovr, push_flags_ovr, e6, read_vector_ovr, wait_ovr, wait_ovr]

theorem upd_nmi_ovr (t : State) (a : Nat) :
    ({ t with nmi := a } : State).ovr_seg = t.ovr_seg := rfl

theorem upd_nmi_enable_ovr (t : State) (a : Nat) :
    ({ t with nmi_enable := a } : State).ovr_seg = t.ovr_seg := rfl

theorem upd_opcode_ovr (t : State) (a : Nat) :
    ({ t with opcode := a } : State).ovr_seg = t.ovr_seg := rfl

theorem upd_locks_ovr (t : State) (a b : Nat) :
    ({ t with in_lock := a, clear_lock := b } : State).ovr_seg = t.ovr_seg := rfl

theorem ite_wait_ovr (env : Env) (c : Prop) [Decidable c] (t : State) :
    (if c then wait env 1 0 t else t).ovr_seg = t.ovr_seg := by
  split_ifs
  · exact wait_ovr env 1 0 t
  · rfl

theorem bus_pic_ack_ovr (env : Env) (t : State) :
    (bus_pic_ack env t).2.ovr_seg = t.ovr_seg := by
  show (wait env 4 1 { t with in_lock := 1, bus_request_type := BUS_PIC }).ovr_seg = _
  rw [wait_ovr]

theorem check_interrupts_ovr (env : Env) (f : Nat) (s : State) (hf : 3 ≤ f) :
    ∃ t, check_interrupts env f s = some t ∧ (t.ovr_seg = s.ovr_seg ∨ t.ovr_seg = none) := by
  by_cases ht : (s.flags &&& T_FLAG) ≠ 0 ∧ s.noint = 0
  · obtain ⟨t, h, e⟩ := intr_routine_ovr env f 1 false (wait env 2 0 s) hf
    exact ⟨t, (check_interrupts_trap env f s ht).trans h, Or.inl (e.trans (wait_ovr env 2 0 s))⟩
  by_cases hn : s.nmi ≠ 0 ∧ s.nmi_enable ≠ 0 ∧ s.nmi_mask ≠ 0
  · rw [check_interrupts_nmi env f s ht hn]
    have e0 : (wait env 2 0 { s with nmi_enable := 0 }).ovr_seg = s.ovr_seg :=
      (wait_ovr env 2 0 _).trans (upd_nmi_enable_ovr s 0)
    by_cases hc : (wait env 2 0 { s with nmi_enable := 0 }).use_custom_nmi_vector ≠ 0
    · rw [if_pos hc]
      obtain ⟨t, h, e⟩ := custom_nmi_ovr env f (wait env 2 0 { s with nmi_enable := 0 }) hf
      rw [h]
      exact ⟨_, rfl, Or.inl ((upd_nmi_ovr t 0).trans (e.trans e0))⟩
    · rw [if_neg hc]
      obtain ⟨t, h, e⟩ := intr_routine_ovr env f 2 false
        (wait env 2 0 { s with nmi_enable := 0 }) hf
      rw [h]
      exact ⟨_, rfl, Or.inl ((upd_nmi_ovr t 0).trans (e.trans e0))⟩
  by_cases hi : (s.flags &&& I_FLAG) ≠ 0 ∧ s.pic_int_pending ≠ 0 ∧ s.noint = 0
  · have hq : ∃ n q, check_interrupts env f s = intr_routine env f n false q ∧
        q.ovr_seg = none := by
      refine ⟨_, _, check_interrupts_irq env f s ht hn hi, ?_⟩
      rw [upd_opcode_ovr, wait_ovr, ite_wait_ovr, upd_locks_ovr, wait_ovr, bus_pic_ack_ovr,
        wait_ovr, bus_pic_ack_ovr, wait_ovr]
    obtain ⟨n, q, h1, h2⟩ := hq
    obtain ⟨t, h, e⟩ := intr_routine_ovr env f n false q hf
    exact ⟨t, h1.trans h, Or.inr (e.trans h2)⟩
  · exact ⟨s, check_interrupts_none env f s ht hn hi, Or.inl rfl⟩

theorem clock_end_ovr (env : Env) (t : State) : (clock_end env t).ovr_seg = t.ovr_seg :=
  congrArg Ctl.ovr_seg (ctl_of_core (clock_end_core env t))

theorem instr_end_eq (env : Env) (f : Nat) (v : State) (hc : v.completed ≠ 0) :
    instr_end env f v =
      (check_interrupts env f (clock_end env
        (if ({ v with repeating := 0, ovr_seg := none, in_rep := 0, rep_c_flag := 0 } : State).in_lock ≠ 0
         then { ({ v with repeating := 0, ovr_seg := none, in_rep := 0, rep_c_flag := 0 } : State) with clear_lock := 1 }
         else { v with repeating := 0, ovr_seg := none, in_rep := 0, rep_c_flag := 0 }))).map
        (fun s4 => { (if s4.noint ≠ 0 then { s4 with noint := 0 } else s4) with cpu_alu_op := 0 }) := by
  unfold instr_end
  rw [if_pos hc]

theorem instr_end_finish_ovr (s4 : State) :
    ({ (if s4.noint ≠ 0 then { s4 with noint := 0 } else s4) with cpu_alu_op := 0 } : State).ovr_seg
      = s4.ovr_seg := by
  split_ifs <;> rfl

theorem instr_end_mark_ovr (v : State) :
    (if ({ v with repeating := 0, ovr_seg := none, in_rep := 0, rep_c_flag := 0 } : State).in_lock ≠ 0
     then { ({ v with repeating := 0, ovr_seg := none, in_rep := 0, rep_c_flag := 0 } : State) with clear_lock := 1 }
     else { v with repeating := 0, ovr_seg := none, in_rep := 0, rep_c_flag := 0 }).ovr_seg = none := by
  split_ifs <;> rfl

theorem instr_end_clears (env : Env) (f : Nat) (v : State) (hf : 3 ≤ f) (hc : v.completed ≠ 0) :
    ∃ w, instr_end env f v = some w ∧ w.ovr_seg = none := by
  rw [instr_end_eq env f v hc]
  have hm := instr_end_mark_ovr v
  generalize (if ({ v with repeating := 0, ovr_seg := none, in_rep := 0, rep_c_flag := 0 } : State).in_lock ≠ 0
     then { ({ v with repeating := 0, ovr_seg := none, in_rep := 0, rep_c_flag := 0 } : State) with clear_lock := 1 }
     else { v with repeating := 0, ovr_seg := none, in_rep := 0, rep_c_flag := 0 }) = q at hm ⊢
  obtain ⟨t, h, e⟩ := check_interrupts_ovr env f (clock_end env q) hf
  rw [h]
  refine ⟨_, rfl, ?_⟩
  rw [instr_end_finish_ovr]
  have e0 : (clock_end env q).ovr_seg = none := (clock_end_ovr env q).trans hm
  rcases e with e | e
  · exact e.trans e0
  · exact e

theorem instr_begin_ovr (env : Env) (f : Nat) (t : State) (hpre : t.prefetching ≠ 0)
    (hsz : t.pfq_size = 4 ∨ t.pfq_size = 6) (hf : 6 ≤ f) :
    ∃ u, instr_begin env f t = some u ∧ u.ovr_seg = t.ovr_seg ∧ u.completed = 1 := by
  unfold instr_begin
  by_cases hr : (clock_start t).repeating = 0
  · obtain ⟨r, h1, -, -⟩ := pfq_fetchb_common_ok env
      { clock_start t with oldpc := (clock_start t).pc } f hpre hsz hf
    have ha := (pfq_fetchb_common_frame env f _ r h1).1
    have e1 : r.2.ovr_seg = t.ovr_seg := congrArg Arch.ovr_seg ha
    dsimp only
    rw [if_pos hr, h1]
    refine ⟨_, rfl, ?_, rfl⟩
    show (wait env 1 0 _).ovr_seg = _
    rw [wait_ovr]
    split_ifs
    · exact e1
    · exact e1
  · dsimp only
    rw [if_neg hr]
    exact ⟨_, rfl, rfl, rfl⟩

theorem seg_or_override_some (d i : Nat) (t : State) (h : t.ovr_seg = some i) :
    seg_or_override d t = (get_opseg i t).base := by
  unfold seg_or_override
  rw [h]

theorem seg_or_override_none (d : Nat) (t : State) (h : t.ovr_seg = none) :
    seg_or_override d t = d := by
  unfold seg_or_override
  rw [h]

theorem exec_seg_override_fields (env : Env) (s : State) :
    (exec_seg_override env s).ovr_seg = some ((s.opcode >>> 3) &&& 0x03) ∧
    (exec_seg_override env s).completed = 0 ∧
    (exec_seg_override env s).prefetching = s.prefetching ∧
    (exec_seg_override env s).pfq_size = s.pfq_size := by
  have wa := wait_arch env 1 0 s
  have e1 : (wait env 1 0 s).opcode = s.opcode := congrArg Arch.opcode wa
  have e2 : (wait env 1 0 s).prefetching = s.prefetching := congrArg Arch.prefetching wa
  have e3 : (wait env 1 0 s).pfq_size = s.pfq_size := congrArg Arch.pfq_size wa
  refine ⟨?_, rfl, e2, e3⟩
  show some (((wait env 1 0 s).opcode >>> 3) &&& 0x03) = _
  rw [e1]

/-- C14: a segment override prefix (0x26 ES, 0x2E CS, 0x36 SS, 0x3E DS) makes `ovr_seg`
select that segment and leaves `completed = 0`, so the closing block of the loop body does
nothing (neither the override is cleared nor interrupts are checked); the next pass through
the head of the loop keeps the override, so the following instruction sees it; and whenever
an instruction ends with `completed` set, the closing block returns with `ovr_seg` NULL, so
the instruction after that uses its default segments. -/
theorem seg_override_one_instruction (env : Env) (f : Nat) (s : State)
    (hop : s.opcode = 0x26 ∨ s.opcode = 0x2E ∨ s.opcode = 0x36 ∨ s.opcode = 0x3E)
    (hpre : s.prefetching ≠ 0) (hsz : s.pfq_size = 4 ∨ s.pfq_size = 6) (hf : 6 ≤ f) :
    (∀ d, seg_or_override d (exec_seg_override env s) =
      if s.opcode = 0x26 then (exec_seg_override env s).seg_es.base
      else if s.opcode = 0x2E then (exec_seg_override env s).seg_cs.base
      else if s.opcode = 0x36 then (exec_seg_override env s).seg_ss.base
      else (exec_seg_override env s).seg_ds.base) ∧
    (exec_seg_override env s).completed = 0 ∧
    instr_end env f (exec_seg_override env s) = some (exec_seg_override env s) ∧
    (∃ u, instr_begin env f (exec_seg_override env s) = some u ∧
      u.ovr_seg = (exec_seg_override env s).ovr_seg ∧ u.completed = 1) ∧
    (∀ v : State, v.completed ≠ 0 →
      ∃ w, instr_end env f v = some w ∧ w.ovr_seg = none ∧ ∀ d, seg_or_override d w = d) := by
  obtain ⟨h1, h2, h3, h4⟩ := exec_seg_override_fields env s
  generalize exec_seg_override env s = t at h1 h2 h3 h4
  refine ⟨fun d => ?_, h2, ?_, ?_, fun v hv => ?_⟩
  · rw [seg_or_override_some d _ t h1]
    rcases hop with h | h | h | h <;> rw [h] <;> rfl
  · unfold instr_end
    rw [if_neg (not_not.2 h2)]
  · exact instr_begin_ovr env f t (h3 ▸ hpre) (h4 ▸ hsz) hf
  · obtain ⟨w, hw, e⟩ := instr_end_clears env f v (by omega) hv
    exact ⟨w, hw, e, fun d => seg_or_override_none d w e⟩

/-- Witness of C14: the prefix `ES:` (0x26) in the initial state. -/
theorem seg_override_one_instruction_witness :
    (∀ d, seg_or_override d (exec_seg_override idle_env { init_state with opcode := 0x26 }) =
      (exec_seg_override idle_env { init_state with opcode := 0x26 }).seg_es.base) ∧
    ∃ w, instr_end idle_env 6 init_state = some w ∧ w.ovr_seg = none := by
  obtain ⟨h1, -, -, -, h5⟩ := seg_override_one_instruction idle_env 6
    { init_state with opcode := 0x26 } (Or.inl rfl) (by decide) (Or.inl rfl) (by decide)
  obtain ⟨w, hw, e, -⟩ := h5 init_state (by decide)
  exact ⟨fun d => (h1 d).trans (if_pos rfl), w, hw, e⟩

/-! ## INT n -/

theorem word_hi_arch {s t : State} (h : t.arch = s.arch) (seg a : Nat) :
    word_hi t seg a = word_hi s seg a :=
  word_hi_congr (congrArg Arch.is8086 h) (congrArg Arch.is186 h) (congrArg Arch.is_nec h) seg a

/-- What `push` does when it does not take the 80186 branch: SP and `eaaddr` move, the two
bytes of the value are stored, every other byte of memory is kept. -/
theorem push_full (env : Env) (hk : env_keeps_mem env) (rd : State → Nat) (s : State) (v : Nat)
    (hn : ¬ ((s.is186 && !s.is_nec) = true ∧ s.sp = 1))
    (hv : rd ({ s with sp := (s.sp + 65534) % 65536, eaaddr := ((s.sp + 65534) % 65536) &&& 0xffff } : State) = v) :
    (push env rd s).arch = { s.arch with sp := (s.sp + 65534) % 65536,
                                         eaaddr := ((s.sp + 65534) % 65536) &&& 0xffff } ∧
    ∀ x, (push env rd s).mem x =
      if x = word_lo s.seg_ss.base ((s.sp + 65534) % 65536) then v % 256
      else if x = word_hi s s.seg_ss.base ((s.sp + 65534) % 65536) then v / 256 % 256
      else s.mem x := by
  refine ⟨push_arch env rd s, ?_⟩
  rw [push_normal_eq env rd s hn, hv]
  obtain ⟨-, -, hlo, hhi, hfr⟩ := writememw_effect env hk s.seg_ss.base
    (((s.sp + 65534) % 65536) &&& 0xffff) v
    ({ s with sp := (s.sp + 65534) % 65536, eaaddr := ((s.sp + 65534) % 65536) &&& 0xffff } : State)
  rw [word_lo_and] at hlo hfr
  rw [word_hi_upd, word_hi_and] at hhi hfr
  intro x
  by_cases h1 : x = word_lo s.seg_ss.base ((s.sp + 65534) % 65536)
  · rw [if_pos h1, h1]
    exact hlo
  · rw [if_neg h1]
    by_cases h2 : x = word_hi s s.seg_ss.base ((s.sp + 65534) % 65536)
    · rw [if_pos h2, h2]
      exact hhi
    · rw [if_neg h2]
      exact hfr x h1 h2

theorem vec_addr (q : State) (a : Nat) (h : a + 1 < 65536) :
    word_lo 0 a = a ∧ word_hi q 0 a = a + 1 := by
  unfold word_lo word_hi
  refine ⟨by omega, ?_⟩
  split_ifs <;> omega

theorem upd_ea_frame (t : State) (a : Nat) :
    ({ t with eaaddr := a } : State).arch = { t.arch with eaaddr := a } ∧
    ({ t with eaaddr := a } : State).mem = t.mem := ⟨rfl, rfl⟩

theorem read_vector_fst (env : Env) (ea : Nat) (s : State) :
    (read_vector env ea s).1.1 = (readmemw env 0 ea { s with eaaddr := ea }).1 ∧
    (read_vector env ea s).1.2 =
      (readmemw env 0 (((wait env 1 0 (readmemw env 0 ea { s with eaaddr := ea }).2).eaaddr + 2)
          &&& 0xffff)
        { wait env 1 0 (readmemw env 0 ea { s with eaaddr := ea }).2 with
          eaaddr := ((wait env 1 0 (readmemw env 0 ea { s with eaaddr := ea }).2).eaaddr + 2)
            &&& 0xffff }).1 := by
  unfold read_vector
  exact ⟨rfl, rfl⟩

/-- The two words of the vector at `ea`: values read, and what is left behind. -/
theorem read_vector_effect (env : Env) (hk : env_keeps_mem env) (ea : Nat) (s : State)
    (hea : ea + 3 < 65536) :
    (read_vector env ea s).1.1 = mem_word s.mem ea ∧
    (read_vector env ea s).1.2 = mem_word s.mem (ea + 2) ∧
    (read_vector env ea s).2.arch = { s.arch with eaaddr := ea + 2 } ∧
    (read_vector env ea s).2.mem = s.mem := by
  obtain ⟨f1, f2⟩ := read_vector_fst env ea s
  rw [f1, f2, read_vector_snd]
  obtain ⟨v1, a1, -, m1⟩ := readmemw_effect env hk 0 ea { s with eaaddr := ea }
  obtain ⟨l1, h1⟩ := vec_addr ({ s with eaaddr := ea } : State) ea (by omega)
  rw [l1, h1] at v1
  obtain ⟨u1, u2⟩ := upd_ea_frame s ea
  rw [u1] at a1
  rw [u2] at v1 m1
  generalize readmemw env 0 ea { s with eaaddr := ea } = R1 at v1 a1 m1 ⊢
  obtain ⟨wa, -, wm⟩ := wait_idle_frame env 1 R1.2
  have wm' := wm hk
  rw [a1] at wa
  rw [m1] at wm'
  have e4 : (wait env 1 0 R1.2).eaaddr = ea := congrArg Arch.eaaddr wa
  have e5 : (ea + 2) &&& 0xffff = ea + 2 := by
    rw [and_ffff]
    omega
  rw [e4, e5]
  obtain ⟨v2, a2, -, m2⟩ := readmemw_effect env hk 0 (ea + 2)
    { wait env 1 0 R1.2 with eaaddr := ea + 2 }
  obtain ⟨l2, h2⟩ := vec_addr ({ wait env 1 0 R1.2 with eaaddr := ea + 2 } : State) (ea + 2)
    (by omega)
  rw [l2, h2] at v2
  obtain ⟨u3, u4⟩ := upd_ea_frame (wait env 1 0 R1.2) (ea + 2)
  rw [u3, wa] at a2
  rw [u4, wm'] at v2 m2
  exact ⟨v1, v2, a2, m2⟩

theorem upd_flags_frame (t : State) (v : Nat) :
    ({ t with flags := v } : State).arch = { t.arch with flags := v } ∧
    ({ t with flags := v } : State).mem = t.mem := ⟨rfl, rfl⟩

theorem special_of_arch {s t : State} (h : t.arch = s.arch)
    (hn : ¬ ((s.is186 && !s.is_nec) = true ∧ s.sp = 1)) :
    ¬ ((t.is186 && !t.is_nec) = true ∧ t.sp = 1) := by
  have e1 : t.is186 = s.is186 := congrArg Arch.is186 h
  have e2 : t.is_nec = s.is_nec := congrArg Arch.is_nec h
  have e3 : t.sp = s.sp := congrArg Arch.sp h
  rw [e1, e2, e3]
  exact hn

/-- The block `wait(2, 0); push(&tempf); flags &= ~(I_FLAG | T_FLAG)`. -/
theorem push_flags_effect (env : Env) (hk : env_keeps_mem env) (v : Nat) (s : State)
    (hn : ¬ ((s.is186 && !s.is_nec) = true ∧ s.sp = 1)) :
    (push_flags env v s).arch =
      { s.arch with sp := (s.sp + 65534) % 65536,
                    eaaddr := ((s.sp + 65534) % 65536) &&& 0xffff,
                    flags := andNot16 s.flags (I_FLAG ||| T_FLAG) } ∧
    ∀ x, (push_flags env v s).mem x =
      if x = word_lo s.seg_ss.base ((s.sp + 65534) % 65536) then v % 256
      else if x = word_hi s s.seg_ss.base ((s.sp + 65534) % 65536) then v / 256 % 256
      else s.mem x := by
  obtain ⟨wa, -, wm⟩ := wait_idle_frame env 2 s
  have wm' := wm hk
  obtain ⟨pa, pm⟩ := push_full env hk (fun _ => v) (wait env 2 0 s) v
    (special_of_arch wa hn) rfl
  have e1 : (wait env 2 0 s).sp = s.sp := congrArg Arch.sp wa
  have e2 : (wait env 2 0 s).seg_ss = s.seg_ss := congrArg Arch.seg_ss wa
  rw [e1, wa] at pa
  rw [e1, e2, word_hi_arch wa, wm'] at pm
  have e3 : (push env (fun _ => v) (wait env 2 0 s)).flags = s.flags := congrArg Arch.flags pa
  rw [push_flags_eq]
  obtain ⟨fa, fm⟩ := upd_flags_frame (push env (fun _ => v) (wait env 2 0 s))
    (andNot16 (push env (fun _ => v) (wait env 2 0 s)).flags (I_FLAG ||| T_FLAG))
  rw [e3, pa] at fa
  rw [e3] at fm
  rw [e3]
  refine ⟨fa, fun x => ?_⟩
  rw [fm]
  exact pm x

theorem load_cs_frame (cs : Nat) (t : State) :
    (load_cs cs t).arch =
      { t.arch with seg_cs := { base := ((cs % 65536) <<< 4) % 4294967296,
                                seg := (cs % 65536) &&& 0xffff } } ∧
    (load_cs cs t).mem = t.mem := ⟨rfl, rfl⟩

theorem sw_int_call_eq (env : Env) (cs ip : Nat) (s : State) :
    sw_int_call env cs ip s =
      push env (fun _ => (wait env 1 0 (load_cs cs
          (push env (fun t => t.seg_cs.seg) (wait env 4 0 s)))).pc &&& 0xffff)
        (wait env 3 0 (pfq_clear (set_ip ip (wait env 2 0 (wait env 1 0 (load_cs cs
          (push env (fun t => t.seg_cs.seg) (wait env 4 0 s)))))))) := rfl

/-- A `push` after idle ticks, in terms of the state before the ticks. -/
theorem wait_push_effect (env : Env) (hk : env_keeps_mem env) (c : Int) (rd : State → Nat)
    (s : State) (v : Nat) (hn : ¬ ((s.is186 && !s.is_nec) = true ∧ s.sp = 1))
    (hv : rd ({ wait env c 0 s with sp := ((wait env c 0 s).sp + 65534) % 65536, eaaddr := (((wait env c 0 s).sp + 65534) % 65536) &&& 0xffff } : State) = v) :
    (push env rd (wait env c 0 s)).arch =
      { s.arch with sp := (s.sp + 65534) % 65536,
                    eaaddr := ((s.sp + 65534) % 65536) &&& 0xffff } ∧
    ∀ x, (push env rd (wait env c 0 s)).mem x =
      if x = word_lo s.seg_ss.base ((s.sp + 65534) % 65536) then v % 256
      else if x = word_hi s s.seg_ss.base ((s.sp + 65534) % 65536) then v / 256 % 256
      else s.mem x := by
  obtain ⟨wa, -, wm⟩ := wait_idle_frame env c s
  have wm' := wm hk
  obtain ⟨pa, pm⟩ := push_full env hk rd (wait env c 0 s) v (special_of_arch wa hn) hv
  have e1 : (wait env c 0 s).sp = s.sp := congrArg Arch.sp wa
  have e2 : (wait env c 0 s).seg_ss = s.seg_ss := congrArg Arch.seg_ss wa
  rw [e1, wa] at pa
  rw [e1, e2, word_hi_arch wa, wm'] at pm
  exact ⟨pa, pm⟩

/-- The inlined FARCALL2 and NEARCALL of `sw_int`: CS then the return IP are pushed, CS:IP
is loaded. -/
theorem sw_int_call_effect (env : Env) (hk : env_keeps_mem env) (cs ip : Nat) (s : State)
    (hn1 : ¬ ((s.is186 && !s.is_nec) = true ∧ s.sp = 1))
    (hn2 : ¬ ((s.is186 && !s.is_nec) = true ∧ (s.sp + 65534) % 65536 = 1)) :
    (sw_int_call env cs ip s).arch =
      { s.arch with seg_cs := { base := ((cs % 65536) <<< 4) % 4294967296,
                                seg := (cs % 65536) &&& 0xffff },
                    pc := ip % 65536, prefetching := 1,
                    sp := ((s.sp + 65534) % 65536 + 65534) % 65536,
                    eaaddr := (((s.sp + 65534) % 65536 + 65534) % 65536) &&& 0xffff } ∧
    ∀ x, (sw_int_call env cs ip s).mem x =
      if x = word_lo s.seg_ss.base (((s.sp + 65534) % 65536 + 65534) % 65536) then
        (s.pc &&& 0xffff) % 256
      else if x = word_hi s s.seg_ss.base (((s.sp + 65534) % 65536 + 65534) % 65536) then
        (s.pc &&& 0xffff) / 256 % 256
      else if x = word_lo s.seg_ss.base ((s.sp + 65534) % 65536) then s.seg_cs.seg % 256
      else if x = word_hi s s.seg_ss.base ((s.sp + 65534) % 65536) then s.seg_cs.seg / 256 % 256
      else s.mem x := by
  -- push(&CS)
  have hcs : (wait env 4 0 s).seg_cs = s.seg_cs := congrArg Arch.seg_cs (wait_arch env 4 0 s)
  obtain ⟨p1a, p1m⟩ := wait_push_effect env hk 4 (fun t => t.seg_cs.seg) s s.seg_cs.seg hn1
    (congrArg X86Seg.seg hcs)
  -- load_cs, the ticks, set_ip, pfq_clear
  obtain ⟨la, lm⟩ := load_cs_frame cs (push env (fun t => t.seg_cs.seg) (wait env 4 0 s))
  obtain ⟨w1a, -, w1m⟩ := wait_idle_frame env 1
    (load_cs cs (push env (fun t => t.seg_cs.seg) (wait env 4 0 s)))
  obtain ⟨w2a, -, w2m⟩ := wait_idle_frame env 2
    (wait env 1 0 (load_cs cs (push env (fun t => t.seg_cs.seg) (wait env 4 0 s))))
  obtain ⟨ia, -, im⟩ := set_ip_frame ip
    (wait env 2 0 (wait env 1 0 (load_cs cs (push env (fun t => t.seg_cs.seg) (wait env 4 0 s)))))
  obtain ⟨ca, -, cm⟩ := pfq_clear_frame (set_ip ip
    (wait env 2 0 (wait env 1 0 (load_cs cs (push env (fun t => t.seg_cs.seg) (wait env 4 0 s))))))
  have hpc : (wait env 1 0 (load_cs cs (push env (fun t => t.seg_cs.seg) (wait env 4 0 s)))).pc
      = s.pc := by
    have e := congrArg Arch.pc (w1a.trans (la.trans (by rw [p1a])))
    exact e
  have q_arch := ca.trans (ia.trans (by rw [w2a, w1a, la, p1a]))
  have q_mem := cm.trans (im.trans ((w2m hk).trans ((w1m hk).trans lm)))
  rw [sw_int_call_eq, hpc]
  generalize pfq_clear (set_ip ip (wait env 2 0 (wait env 1 0 (load_cs cs
    (push env (fun t => t.seg_cs.seg) (wait env 4 0 s)))))) = q at q_arch q_mem ⊢
  have hq_sp : q.sp = (s.sp + 65534) % 65536 := congrArg Arch.sp q_arch
  have hq_ss : q.seg_ss = s.seg_ss := congrArg Arch.seg_ss q_arch
  have hq_186 : q.is186 = s.is186 := congrArg Arch.is186 q_arch
  have hq_nec : q.is_nec = s.is_nec := congrArg Arch.is_nec q_arch
  have hq_86 : q.is8086 = s.is8086 := congrArg Arch.is8086 q_arch
  have hnq : ¬ ((q.is186 && !q.is_nec) = true ∧ q.sp = 1) := by
    rw [hq_186, hq_nec, hq_sp]
    exact hn2
  obtain ⟨p2a, p2m⟩ := wait_push_effect env hk 3 (fun _ => s.pc &&& 0xffff) q (s.pc &&& 0xffff)
    hnq rfl
  rw [hq_sp, q_arch] at p2a
  rw [hq_sp, hq_ss, word_hi_congr hq_86 hq_186 hq_nec] at p2m
  refine ⟨p2a.trans rfl, fun x => ?_⟩
  rw [p2m x, q_mem, p1m x]

theorem word_hi_cases (q : State) (ss x : Nat) :
    word_hi q ss x = ((ss % 4294967296 + x % 65536) % 4294967296 + 1) % 1048576 ∨
    word_hi q ss x = (ss % 4294967296 + (x % 65536 + 1) % 65536) % 4294967296 % 1048576 := by
  unfold word_hi
  split_ifs
  · exact Or.inl rfl
  · exact Or.inr rfl

theorem stack_slots_arith (ss a b : Nat)
    (hb : b = (a + 65534) % 65536 ∨ b = ((a + 65534) % 65536 + 65534) % 65536) :
    (ss % 4294967296 + a % 65536) % 4294967296 % 1048576 ≠
      (ss % 4294967296 + b % 65536) % 4294967296 % 1048576 ∧
    (ss % 4294967296 + a % 65536) % 4294967296 % 1048576 ≠
      ((ss % 4294967296 + b % 65536) % 4294967296 + 1) % 1048576 ∧
    (ss % 4294967296 + a % 65536) % 4294967296 % 1048576 ≠
      (ss % 4294967296 + (b % 65536 + 1) % 65536) % 4294967296 % 1048576 ∧
    ((ss % 4294967296 + a % 65536) % 4294967296 + 1) % 1048576 ≠
      (ss % 4294967296 + b % 65536) % 4294967296 % 1048576 ∧
    (ss % 4294967296 + (a % 65536 + 1) % 65536) % 4294967296 % 1048576 ≠
      (ss % 4294967296 + b % 65536) % 4294967296 % 1048576 ∧
    ((ss % 4294967296 + a % 65536) % 4294967296 + 1) % 1048576 ≠
      ((ss % 4294967296 + b % 65536) % 4294967296 + 1) % 1048576 ∧
    ((ss % 4294967296 + a % 65536) % 4294967296 + 1) % 1048576 ≠
      (ss % 4294967296 + (b % 65536 + 1) % 65536) % 4294967296 % 1048576 ∧
    (ss % 4294967296 + (a % 65536 + 1) % 65536) % 4294967296 % 1048576 ≠
      ((ss % 4294967296 + b % 65536) % 4294967296 + 1) % 1048576 ∧
    (ss % 4294967296 + (a % 65536 + 1) % 65536) % 4294967296 % 1048576 ≠
      (ss % 4294967296 + (b % 65536 + 1) % 65536) % 4294967296 % 1048576 := by
  refine ⟨?_, ?_, ?_, ?_, ?_, ?_, ?_, ?_, ?_⟩ <;> omega

/-- The two bytes of a stack slot differ from the two bytes of the slot one or two pushes
further down. -/
theorem stack_slots_ne (q : State) (ss a b : Nat)
    (hb : b = (a + 65534) % 65536 ∨ b = ((a + 65534) % 65536 + 65534) % 65536) :
    word_lo ss a ≠ word_lo ss b ∧ word_lo ss a ≠ word_hi q ss b ∧
    word_hi q ss a ≠ word_lo ss b ∧ word_hi q ss a ≠ word_hi q ss b := by
  obtain ⟨h1, h2, h3, h4, h5, h6, h7, h8, h9⟩ := stack_slots_arith ss a b hb
  have la : word_lo ss a = (ss % 4294967296 + a % 65536) % 4294967296 % 1048576 := rfl
  have lb : word_lo ss b = (ss % 4294967296 + b % 65536) % 4294967296 % 1048576 := rfl
  rw [la, lb]
  rcases word_hi_cases q ss a with ea | ea <;> rcases word_hi_cases q ss b with eb | eb <;>
    rw [ea, eb]
  · exact ⟨h1, h2, h4, h6⟩
  · exact ⟨h1, h3, h4, h7⟩
  · exact ⟨h1, h2, h5, h8⟩
  · exact ⟨h1, h3, h5, h9⟩

theorem mem_word_lt (m : Nat → Nat) (a : Nat) : mem_word m a < 65536 := by
  unfold mem_word
  omega

theorem bytes_word (v : Nat) : v % 256 + 256 * (v / 256 % 256) = v % 65536 := by
  omega

theorem sw_int_eq (env : Env) (f n : Nat) (s : State) :
    sw_int env f n s =
      (pfq_do_suspend env f
        (read_vector env ((n % 65536 * 4) % 65536 &&& 0xffff) (wait env 3 0 s)).2).map
        (fun s6 => sw_int_call env
          (read_vector env ((n % 65536 * 4) % 65536 &&& 0xffff) (wait env 3 0 s)).1.2
          (read_vector env ((n % 65536 * 4) % 65536 &&& 0xffff) (wait env 3 0 s)).1.1
          (push_flags env (s.flags &&& (if s.is_nec = true then 0x8fd7 else 0x0fd7)) s6)) := rfl

theorem flags_mask_lt (fl : Nat) (b : Bool) :
    (fl &&& (if b = true then 0x8fd7 else 0x0fd7)) % 65536 =
      fl &&& (if b = true then 0x8fd7 else 0x0fd7) := by
  apply Nat.mod_eq_of_lt
  cases b
  · exact lt_of_le_of_lt Nat.and_le_right (by decide)
  · exact lt_of_le_of_lt Nat.and_le_right (by decide)

theorem andNot_it_bits (fl : Nat) :
    (andNot16 fl (I_FLAG ||| T_FLAG)) &&& I_FLAG = 0 ∧
    (andNot16 fl (I_FLAG ||| T_FLAG)) &&& T_FLAG = 0 ∧
    ∀ i, i < 16 → i ≠ 8 → i ≠ 9 →
      (andNot16 fl (I_FLAG ||| T_FLAG)).testBit i = fl.testBit i := by
  have e : andNot16 fl (I_FLAG ||| T_FLAG) = fl &&& 0xFCFF := rfl
  rw [e]
  refine ⟨?_, ?_, ?_⟩
  · rw [Nat.and_assoc]
    exact Nat.and_zero fl
  · rw [Nat.and_assoc]
    exact Nat.and_zero fl
  · intro i hi h8 h9
    rw [Nat.testBit_and]
    have : (0xFCFF : Nat).testBit i = true := by
      interval_cases i <;> first | rfl | exact absurd rfl h8 | exact absurd rfl h9
    rw [this, Bool.and_true]

/-- The effect of `sw_int(n)` when no `push` takes the 80186 branch. -/
theorem sw_int_effect (env : Env) (hk : env_keeps_mem env) (f n : Nat) (s : State)
    (hf : 3 ≤ f) (hn : n < 256) (hsp : s.sp < 65536)
    (hns : ¬ ((s.is186 && !s.is_nec) = true ∧ (s.sp = 1 ∨ s.sp = 3 ∨ s.sp = 5))) :
    ∃ t, sw_int env f n s = some t ∧
      t.seg_cs = { base := (mem_word s.mem (4 * n + 2) <<< 4) % 4294967296,
                   seg := mem_word s.mem (4 * n + 2) } ∧
      t.pc = mem_word s.mem (4 * n) ∧
      t.sp = (s.sp + 65530) % 65536 ∧
      stack_word t 0 = s.pc % 65536 ∧
      stack_word t 2 = s.seg_cs.seg % 65536 ∧
      stack_word t 4 = s.flags &&& (if s.is_nec = true then 0x8fd7 else 0x0fd7) ∧
      t.flags = andNot16 s.flags (I_FLAG ||| T_FLAG) := by
  have hvec : ((n % 65536 * 4) % 65536) &&& 0xffff = 4 * n := by
    rw [and_ffff]
    omega
  rw [sw_int_eq, hvec]
  -- the vector
  obtain ⟨wa, -, wm⟩ := wait_idle_frame env 3 s
  obtain ⟨v1, v2, va, vm⟩ := read_vector_effect env hk (4 * n) (wait env 3 0 s) (by omega)
  rw [wm hk] at v1 v2 vm
  rw [wa] at va
  generalize read_vector env (4 * n) (wait env 3 0 s) = V at v1 v2 va vm ⊢
  -- the prefetch queue is suspended
  obtain ⟨s6, h6, -⟩ := pfq_do_suspend_ovr env f V.2 hf
  obtain ⟨sa, -, sm⟩ := pfq_do_suspend_frame env f V.2 s6 h6
  rw [h6]
  refine ⟨sw_int_call env V.1.2 V.1.1
    (push_flags env (s.flags &&& (if s.is_nec = true then 0x8fd7 else 0x0fd7)) s6), rfl, ?_⟩
  rw [va] at sa
  have sm' := (sm hk).trans vm
  have h6sp : s6.sp = s.sp := congrArg Arch.sp sa
  have h6ss : s6.seg_ss = s.seg_ss := congrArg Arch.seg_ss sa
  have h6cs : s6.seg_cs = s.seg_cs := congrArg Arch.seg_cs sa
  have h6pc : s6.pc = s.pc := congrArg Arch.pc sa
  have h6fl : s6.flags = s.flags := congrArg Arch.flags sa
  have h6_86 : s6.is8086 = s.is8086 := congrArg Arch.is8086 sa
  have h6_186 : s6.is186 = s.is186 := congrArg Arch.is186 sa
  have h6_nec : s6.is_nec = s.is_nec := congrArg Arch.is_nec sa
  have hw6 : ∀ a, word_hi s6 s.seg_ss.base a = word_hi s s.seg_ss.base a :=
    fun a => word_hi_congr h6_86 h6_186 h6_nec _ a
  -- FLAGS is pushed
  have hn6 : ¬ ((s6.is186 && !s6.is_nec) = true ∧ s6.sp = 1) := by
    rw [h6_186, h6_nec, h6sp]
    exact fun h => hns ⟨h.1, Or.inl h.2⟩
  obtain ⟨pa, pm⟩ := push_flags_effect env hk
    (s.flags &&& (if s.is_nec = true then 0x8fd7 else 0x0fd7)) s6 hn6
  rw [h6sp, h6fl] at pa
  simp only [h6sp, h6ss, hw6, sm'] at pm
  generalize push_flags env (s.flags &&& (if s.is_nec = true then 0x8fd7 else 0x0fd7)) s6 = P
    at pa pm ⊢
  have hPsp : P.sp = (s.sp + 65534) % 65536 := congrArg Arch.sp pa
  have hPss : P.seg_ss = s.seg_ss := (congrArg Arch.seg_ss pa).trans h6ss
  have hPcs : P.seg_cs = s.seg_cs := (congrArg Arch.seg_cs pa).trans h6cs
  have hPpc : P.pc = s.pc := (congrArg Arch.pc pa).trans h6pc
  have hPfl : P.flags = andNot16 s.flags (I_FLAG ||| T_FLAG) := congrArg Arch.flags pa
  have hP_86 : P.is8086 = s.is8086 := (congrArg Arch.is8086 pa).trans h6_86
  have hP_186 : P.is186 = s.is186 := (congrArg Arch.is186 pa).trans h6_186
  have hP_nec : P.is_nec = s.is_nec := (congrArg Arch.is_nec pa).trans h6_nec
  have hwP : ∀ a, word_hi P s.seg_ss.base a = word_hi s s.seg_ss.base a :=
    fun a => word_hi_congr hP_86 hP_186 hP_nec _ a
  -- CS and the return IP are pushed
  have hnP1 : ¬ ((P.is186 && !P.is_nec) = true ∧ P.sp = 1) := by
    rw [hP_186, hP_nec, hPsp]
    exact fun h => hns ⟨h.1, Or.inr (Or.inl (by omega))⟩
  have hnP2 : ¬ ((P.is186 && !P.is_nec) = true ∧ (P.sp + 65534) % 65536 = 1) := by
    rw [hP_186, hP_nec, hPsp]
    exact fun h => hns ⟨h.1, Or.inr (Or.inr (by omega))⟩
  obtain ⟨ca, cm⟩ := sw_int_call_effect env hk V.1.2 V.1.1 P hnP1 hnP2
  simp only [hPsp, hPss, hPcs, hPpc, hwP] at cm
  generalize sw_int_call env V.1.2 V.1.1 P = t at ca cm ⊢
  have htcs : t.seg_cs = { base := ((V.1.2 % 65536) <<< 4) % 4294967296,
                           seg := (V.1.2 % 65536) &&& 0xffff } := congrArg Arch.seg_cs ca
  have htpc : t.pc = V.1.1 % 65536 := congrArg Arch.pc ca
  have htsp : t.sp = ((P.sp + 65534) % 65536 + 65534) % 65536 := congrArg Arch.sp ca
  have htss : t.seg_ss = s.seg_ss := (congrArg Arch.seg_ss ca).trans hPss
  have htfl : t.flags = andNot16 s.flags (I_FLAG ||| T_FLAG) :=
    (congrArg Arch.flags ca).trans hPfl
  have ht_86 : t.is8086 = s.is8086 := (congrArg Arch.is8086 ca).trans hP_86
  have ht_186 : t.is186 = s.is186 := (congrArg Arch.is186 ca).trans hP_186
  have ht_nec : t.is_nec = s.is_nec := (congrArg Arch.is_nec ca).trans hP_nec
  have hwt : ∀ a, word_hi t s.seg_ss.base a = word_hi s s.seg_ss.base a :=
    fun a => word_hi_congr ht_86 ht_186 ht_nec _ a
  rw [hPsp] at htsp
  -- the three slots
  obtain ⟨d1, d2, d3, d4⟩ := stack_slots_ne s s.seg_ss.base ((s.sp + 65534) % 65536)
    (((s.sp + 65534) % 65536 + 65534) % 65536) (Or.inl rfl)
  obtain ⟨g1, g2, g3, g4⟩ := stack_slots_ne s s.seg_ss.base
    (((s.sp + 65534) % 65536 + 65534) % 65536)
    ((((s.sp + 65534) % 65536 + 65534) % 65536 + 65534) % 65536) (Or.inl rfl)
  obtain ⟨k1, k2, k3, k4⟩ := stack_slots_ne s s.seg_ss.base ((s.sp + 65534) % 65536)
    ((((s.sp + 65534) % 65536 + 65534) % 65536 + 65534) % 65536) (Or.inr rfl)
  have n1 := word_hi_ne_lo s s.seg_ss.base ((s.sp + 65534) % 65536)
  have n2 := word_hi_ne_lo s s.seg_ss.base (((s.sp + 65534) % 65536 + 65534) % 65536)
  have n3 := word_hi_ne_lo s s.seg_ss.base
    ((((s.sp + 65534) % 65536 + 65534) % 65536 + 65534) % 65536)
  have a0 : (t.sp + 0) % 65536 = (((s.sp + 65534) % 65536 + 65534) % 65536 + 65534) % 65536 := by
    rw [htsp]; omega
  have a2 : (t.sp + 2) % 65536 = ((s.sp + 65534) % 65536 + 65534) % 65536 := by
    rw [htsp]; omega
  have a4 : (t.sp + 4) % 65536 = (s.sp + 65534) % 65536 := by
    rw [htsp]; omega
  have hcs16 : V.1.2 % 65536 = mem_word s.mem (4 * n + 2) := by
    rw [v2]; exact Nat.mod_eq_of_lt (mem_word_lt _ _)
  have hip16 : V.1.1 % 65536 = mem_word s.mem (4 * n) := by
    rw [v1]; exact Nat.mod_eq_of_lt (mem_word_lt _ _)
  refine ⟨?_, htpc.trans hip16, by rw [htsp]; omega, ?_, ?_, ?_, htfl⟩
  · rw [htcs, hcs16, and_ffff, Nat.mod_eq_of_lt (mem_word_lt _ _)]
  · unfold stack_word
    rw [a0, htss, hwt, cm, cm, if_pos rfl, if_neg n3, if_pos rfl, and_ffff]
    omega
  · unfold stack_word
    rw [a2, htss, hwt, cm, cm, if_neg g1, if_neg g2, if_pos rfl, if_neg g3, if_neg g4,
      if_neg n2, if_pos rfl]
    omega
  · unfold stack_word
    rw [a4, htss, hwt, cm, cm, if_neg k1, if_neg k2, if_neg d1, if_neg d2, pm, if_pos rfl,
      if_neg k3, if_neg k4, if_neg d3, if_neg d4, pm, if_neg n1, if_pos rfl]
    have hlt := flags_mask_lt s.flags s.is_nec
    generalize s.flags &&& (if s.is_nec = true then 0x8fd7 else 0x0fd7) = v at hlt ⊢
    omega

theorem exec_int_eq (env : Env) (f : Nat) (s : State) :
    exec_int env f s = (pfq_fetchb env f (wait env 1 0 s)).bind
      (fun r => sw_int env f (r.1 % 256) (wait env 1 0 r.2)) := rfl

/-- C23 as amended: `INT n` (0xCD n) with `n` the immediate byte fetched from the queue, on
a machine whose timer service keeps memory, when no `push` takes the 80186 branch (not a
non-NEC 80186 with SP in 1, 3, 5): the handler returns with CS:IP loaded from the words
at 4n + 2 and 4n, SP lower by 6 modulo 2^16, the stack holding from the top the address
after the instruction, the old CS and the old FLAGS masked with 0x0FD7 (0x8FD7 on NEC), I
and T clear and every other flag bit unchanged. -/
theorem int_n_enters_handler (env : Env) (hk : env_keeps_mem env) (f : Nat) (s : State)
    (hpre : s.prefetching ≠ 0) (hsz : s.pfq_size = 4 ∨ s.pfq_size = 6) (hf : 6 ≤ f)
    (hsp : s.sp < 65536)
    (hns : ¬ ((s.is186 && !s.is_nec) = true ∧ (s.sp = 1 ∨ s.sp = 3 ∨ s.sp = 5))) :
    ∃ n s1 t, pfq_fetchb env f (wait env 1 0 s) = some (n, s1) ∧ exec_int env f s = some t ∧
      t.seg_cs = { base := (mem_word s.mem (4 * (n % 256) + 2) <<< 4) % 4294967296,
                   seg := mem_word s.mem (4 * (n % 256) + 2) } ∧
      t.pc = mem_word s.mem (4 * (n % 256)) ∧
      t.sp = (s.sp + 65530) % 65536 ∧
      stack_word t 0 = (s.pc + 1) % 65536 ∧
      stack_word t 2 = s.seg_cs.seg % 65536 ∧
      stack_word t 4 = s.flags &&& (if s.is_nec = true then 0x8fd7 else 0x0fd7) ∧
      t.flags &&& I_FLAG = 0 ∧ t.flags &&& T_FLAG = 0 ∧
      ∀ i, i < 16 → i ≠ 8 → i ≠ 9 → t.flags.testBit i = s.flags.testBit i := by
  obtain ⟨wa, -, wm⟩ := wait_idle_frame env 1 s
  have hpre1 : (wait env 1 0 s).prefetching ≠ 0 := by
    rw [show (wait env 1 0 s).prefetching = s.prefetching from congrArg Arch.prefetching wa]
    exact hpre
  have hsz1 : (wait env 1 0 s).pfq_size = 4 ∨ (wait env 1 0 s).pfq_size = 6 := by
    rw [show (wait env 1 0 s).pfq_size = s.pfq_size from congrArg Arch.pfq_size wa]
    exact hsz
  obtain ⟨r, h1, -⟩ := pfq_fetchb_ok env (wait env 1 0 s) f hpre1 hsz1 hf
  obtain ⟨fa, -, fm⟩ := pfq_fetchb_frame env f (wait env 1 0 s) r h1
  obtain ⟨ua, -, um⟩ := wait_idle_frame env 1 r.2
  have hpc0 : (wait env 1 0 s).pc = s.pc := congrArg Arch.pc wa
  rw [wa, hpc0] at fa
  rw [fa] at ua
  have hmem : (wait env 1 0 r.2).mem = s.mem := (um hk).trans ((fm hk).trans (wm hk))
  rw [exec_int_eq, h1]
  show ∃ n s1 t, some r = some (n, s1) ∧
    sw_int env f (r.1 % 256) (wait env 1 0 r.2) = some t ∧ _
  generalize wait env 1 0 r.2 = S at ua hmem ⊢
  have eSsp : S.sp = s.sp := congrArg Arch.sp ua
  have eSpc : S.pc = (s.pc + 1) &&& 0xffff := congrArg Arch.pc ua
  have eScs : S.seg_cs = s.seg_cs := congrArg Arch.seg_cs ua
  have eSfl : S.flags = s.flags := congrArg Arch.flags ua
  have eS186 : S.is186 = s.is186 := congrArg Arch.is186 ua
  have eSnec : S.is_nec = s.is_nec := congrArg Arch.is_nec ua
  have hnS : ¬ ((S.is186 && !S.is_nec) = true ∧ (S.sp = 1 ∨ S.sp = 3 ∨ S.sp = 5)) := by
    rw [eS186, eSnec, eSsp]
    exact hns
  obtain ⟨t, ht, c1, c2, c3, c4, c5, c6, c7⟩ := sw_int_effect env hk f (r.1 % 256) S
    (by omega) (Nat.mod_lt _ (by decide)) (by rw [eSsp]; exact hsp) hnS
  rw [hmem] at c1 c2
  rw [eSsp] at c3
  rw [eSpc, and_ffff, Nat.mod_mod] at c4
  rw [eScs] at c5
  rw [eSfl, eSnec] at c6
  rw [eSfl] at c7
  obtain ⟨b1, b2, b3⟩ := andNot_it_bits s.flags
  rw [← c7] at b1 b2 b3
  exact ⟨r.1, r.2, t, rfl, ht, c1, c2, c3, c4, c5, c6, b1, b2, b3⟩

/-- Witness of C23: `INT 21h` on an 8088 with idle collaborators. -/
theorem int_n_enters_handler_witness :
    ∃ n s1 t, pfq_fetchb idle_env 6 (wait idle_env 1 0 int_21_state) = some (n, s1) ∧
      exec_int idle_env 6 int_21_state = some t ∧
      t.pc = mem_word int_21_state.mem (4 * (n % 256)) ∧ t.sp = 0xFA ∧
      stack_word t 0 = 0x102 ∧ stack_word t 2 = 0x123 ∧ stack_word t 4 = 0x303 := by
  obtain ⟨n, s1, t, h1, h2, -, h4, h5, h6, h7, h8, -⟩ :=
    int_n_enters_handler idle_env idle_env_keeps_mem 6 int_21_state (by decide) (Or.inl rfl)
      (by decide) (by decide) (by decide)
  exact ⟨n, s1, t, h1, h2, h4, h5, h6, h7, h8⟩

set_option maxRecDepth 100000 in
/-- C23 fails on a non-NEC 80186 with SP = 1: FLAGS (0x0003) is stored at the physical
addresses SS.base - 1 and SS.base, SP ends at 0xFFFB, and the word at SS:SP+4 is 0, not
FLAGS. -/
theorem int_n_186_flags_off_stack :
    (exec_int idle_env 6 int_186_state).map
        (fun t => (t.sp, stack_word t 4, t.mem 0xFFFFF, t.mem 0)) = some (0xFFFB, 0, 3, 0) ∧
    int_186_state.flags &&& 0x0fd7 = 3 := by
  decide

theorem pfq_schedule_fetch_inv (on_ : Nat) (s : State) : fetch_inv (pfq_schedule on_ s) := by
  intro h
  have h1 : (if on_ ≠ 0 ∧ s.prefetching ≠ 0 ∧ s.pfq_pos < s.pfq_size then 1 else 0) ≠ 0 := h
  by_cases c : on_ ≠ 0 ∧ s.prefetching ≠ 0 ∧ s.pfq_pos < s.pfq_size
  · exact c.2
  · rw [if_neg c] at h1; exact absurd rfl h1

theorem pfq_write_fetch_inv (s : State) (h : fetch_inv s) : fetch_inv (pfq_write s) := by
  unfold fetch_inv at h ⊢
  unfold pfq_write pfq_schedule readmemwf readmembf
  dsimp only
  split_ifs <;> simp_all <;> omega

theorem pfq_read_fetch_inv (s : State) (h : fetch_inv s) (hinv : pfq_inv s) :
    fetch_inv (pfq_read s).2 := by
  unfold fetch_inv at h ⊢
  unfold pfq_inv at hinv
  unfold pfq_read
  dsimp only
  intro hs
  obtain ⟨h1, h2⟩ := h hs
  refine ⟨h1, ?_⟩
  split_ifs <;> omega

theorem pfq_clear_fetch_inv (s : State) (h : fetch_inv s) (hinv : pfq_inv s) :
    fetch_inv (pfq_clear s) := by
  unfold fetch_inv at h ⊢
  unfold pfq_inv at hinv
  intro hs
  obtain ⟨h1, h2⟩ := h hs
  refine ⟨h1, ?_⟩
  show (0 : Int) < s.pfq_size
  omega

theorem pfq_do_suspend_fetch_inv (env : Env) (f : Nat) (s t : State)
    (h : pfq_do_suspend env f s = some t) : t.schedule_fetch = 0 ∧ t.prefetching = 0 := by
  unfold pfq_do_suspend at h
  cases hl : suspend_loop env f s with
  | none => rw [hl] at h; exact absurd h (by simp)
  | some u =>
    rw [hl] at h
    have e : t = { pfq_schedule 0 (wait env 1 0 u) with prefetching := 0 } :=
      (Option.some.inj h).symm
    subst e
    refine ⟨?_, rfl⟩
    show (pfq_schedule 0 (wait env 1 0 u)).schedule_fetch = 0
    unfold pfq_schedule
    dsimp only
    rw [if_neg]
    intro c
    exact c.1 rfl

theorem reset_fetch_inv (hard : Bool) (s : State) : fetch_inv (reset_808x hard s) :=
  pfq_schedule_fetch_inv 1 _

theorem reset_hard_pfq_inv (s : State) : pfq_inv (reset_808x true s) := by
  unfold pfq_inv
  cases h8 : s.is8086 <;> cases hn : s.is_nec <;>
    simp [reset_808x, pfq_clear, pfq_schedule, load_cs, h8, hn]

/-- C37: after a hard reset the fetch flag implies enabled prefetching and room in the
queue, with the queue position inside its bounds; `pfq_schedule`, `set_ip`, `reset_808x`
and `pfq_do_suspend` establish the predicate from any state, and `pfq_write`, `pfq_read`
and `pfq_clear` keep it, together with the bounds, in every state that has both. -/
theorem schedule_fetch_invariant (env : Env) (s : State) :
    (fetch_inv (reset_808x true s) ∧ pfq_inv (reset_808x true s)) ∧
    (∀ on_, fetch_inv (pfq_schedule on_ s)) ∧
    (∀ new_ip, fetch_inv (set_ip new_ip s)) ∧
    (∀ hard, fetch_inv (reset_808x hard s)) ∧
    (∀ f t, pfq_do_suspend env f s = some t → fetch_inv t) ∧
    (∀ f, 3 ≤ f → ∃ t, pfq_do_suspend env f s = some t) ∧
    (fetch_inv s → pfq_inv s →
      (fetch_inv (pfq_write s) ∧ pfq_inv (pfq_write s)) ∧
      (fetch_inv (pfq_read s).2 ∧ pfq_inv (pfq_read s).2) ∧
      (fetch_inv (pfq_clear s) ∧ pfq_inv (pfq_clear s))) := by
  refine ⟨⟨reset_fetch_inv true s, reset_hard_pfq_inv s⟩, fun on_ => pfq_schedule_fetch_inv on_ s,
    fun ip => pfq_schedule_fetch_inv 1 _, fun hard => reset_fetch_inv hard s, ?_, ?_, ?_⟩
  · intro f t h hs
    exact absurd (pfq_do_suspend_fetch_inv env f s t h).1 hs
  · intro f hf
    obtain ⟨t, h, -⟩ := pfq_do_suspend_ovr env f s hf
    exact ⟨t, h⟩
  · intro h hinv
    refine ⟨⟨pfq_write_fetch_inv s h, pfq_write_inv s hinv⟩,
      ⟨pfq_read_fetch_inv s h hinv, (pfq_read_inv s hinv).1⟩,
      ⟨pfq_clear_fetch_inv s h hinv, ?_⟩⟩
    unfold pfq_inv at hinv ⊢
    show (0:Int) ≤ 0 ∧ (0:Int) ≤ s.pfq_size
    omega

theorem init_fetch_inv : fetch_inv init_state ∧ pfq_inv init_state := by
  unfold fetch_inv pfq_inv init_state
  decide

theorem schedule_fetch_invariant_witness :
    (fetch_inv init_state ∧ pfq_inv init_state) ∧
    (fetch_inv (pfq_write init_state) ∧ pfq_inv (pfq_write init_state)) ∧
    (∃ t, pfq_do_suspend idle_env 3 init_state = some t ∧ fetch_inv t) :=
  ⟨init_fetch_inv,
   ((schedule_fetch_invariant idle_env init_state).2.2.2.2.2.2 init_fetch_inv.1 init_fetch_inv.2).1,
   (((schedule_fetch_invariant idle_env init_state).2.2.2.2.2.1 3 (le_refl 3)).elim
      (fun t h => ⟨t, h, (schedule_fetch_invariant idle_env init_state).2.2.2.2.1 3 t h⟩))⟩

/-- C39: from every state with prefetching enabled, an empty queue and a queue size of 4
or 6, the refill loop of `pfq_fetchb_common` leaves within 6 ticks with a byte queued,
and so does the fetch itself; the loop of `pfq_do_suspend` reaches T1 within 3 ticks from
every state, and `pfq_do_suspend` returns. -/
theorem blocking_loops_terminate (env : Env) (s : State) :
    (refill_pending s →
      (∃ t, pfq_fill env 6 s = some t ∧ 1 ≤ t.pfq_pos) ∧
      (∃ r, pfq_fetchb_common env 6 s = some r)) ∧
    (∃ t, suspend_loop env 3 s = some t ∧ BUS_CYCLE t = BUS_T1) ∧
    (∃ t, pfq_do_suspend env 3 s = some t) := by
  refine ⟨fun hP => ⟨?_, ?_⟩, ?_, ?_⟩
  · obtain ⟨t, h1, h2, -⟩ := pfq_fill_terminates env s hP 6 (le_refl 6)
    exact ⟨t, h1, h2⟩
  · obtain ⟨r, h, -⟩ := pfq_fetchb_common_ok env s 6 hP.1 hP.2.2 (le_refl 6)
    exact ⟨r, h⟩
  · obtain ⟨t, h1, h2, -⟩ := suspend_loop_terminates env s 3 (le_refl 3)
    exact ⟨t, h1, h2⟩
  · obtain ⟨t, h, -⟩ := pfq_do_suspend_ovr env 3 s (le_refl 3)
    exact ⟨t, h⟩

theorem init_refill_pending : refill_pending init_state := by
  unfold refill_pending init_state
  decide

theorem blocking_loops_terminate_witness :
    refill_pending init_state ∧
    (∃ t, pfq_fill idle_env 6 init_state = some t ∧ 1 ≤ t.pfq_pos) :=
  ⟨init_refill_pending, ((blocking_loops_terminate idle_env init_state).1 init_refill_pending).1⟩

/-- The far branch of `farret`, with the test that guards `fatal` decided. -/
theorem farret_far (env : Env) (fuel far : Nat) (s : State) (hfar : far ≠ 0)
    (hop : (s.opcode &&& 0x08) ≠ 0) :
    ∃ g : State → State, farret env fuel far s =
      (pfq_do_suspend env fuel (pop env (wait env 1 0 s)).2).map (fun s1 => some (g s1)) := by
  unfold farret
  dsimp only
  rw [if_pos hop, if_pos hfar]
  simp only [ne_eq, not_true_eq_false, if_false]
  exact ⟨_, rfl⟩

/-- With a mismatch between `far` and bit 3 of the opcode `farret` ends in `fatal`. -/
theorem farret_mismatch (env : Env) (fuel far : Nat) (s : State)
    (h : (far ≠ 0) ≠ ((s.opcode &&& 0x08) ≠ 0)) (hf : 3 ≤ fuel) :
    farret env fuel far s = some none := by
  obtain ⟨t, ht, -⟩ := pfq_do_suspend_ovr env fuel (pop env (wait env 1 0 s)).2 hf
  unfold farret
  dsimp only
  rw [ht]
  by_cases hfar : far ≠ 0 <;> by_cases hop : (s.opcode &&& 0x08) ≠ 0
  · exact absurd (by simp [hfar, hop]) h
  · rw [if_neg hop, if_pos hfar]; rfl
  · rw [if_pos hop, if_neg hfar]; rfl
  · exact absurd (by simp [hfar, hop]) h

theorem farret_not_fatal (env : Env) (fuel far : Nat) (s : State) (hfar : far ≠ 0)
    (hop : (s.opcode &&& 0x08) ≠ 0) :
    farret env fuel far s ≠ some none ∧
    (3 ≤ fuel → ∃ t, farret env fuel far s = some (some t)) := by
  obtain ⟨g, hg⟩ := farret_far env fuel far s hfar hop
  rw [hg]
  constructor
  · cases pfq_do_suspend env fuel (pop env (wait env 1 0 s)).2 with
    | none => intro h; cases h
    | some u => intro h; cases h
  · intro hf
    obtain ⟨t, ht, -⟩ := pfq_do_suspend_ovr env fuel (pop env (wait env 1 0 s)).2 hf
    rw [ht]
    exact ⟨g t, rfl⟩

theorem wait_opcode (env : Env) (c : Int) (bus : Nat) (s : State) :
    (wait env c bus s).opcode = s.opcode :=
  congrArg Arch.opcode (wait_arch env c bus s)

theorem pfq_fetchb_common_opcode (env : Env) (f : Nat) (s : State) (r : Nat × State)
    (h : pfq_fetchb_common env f s = some r) : r.2.opcode = s.opcode :=
  congrArg Arch.opcode (pfq_fetchb_common_frame env f s r h).1

theorem pfq_fetchw_opcode (env : Env) (f : Nat) (s : State) (r : Nat × State)
    (h : pfq_fetchw env f s = some r) : r.2.opcode = s.opcode := by
  unfold pfq_fetchw at h
  cases h1 : pfq_fetchb_common env f s with
  | none => rw [h1] at h; cases h
  | some r1 =>
    rw [h1] at h
    cases h2 : pfq_fetchb_common env f (wait env 1 0 r1.2) with
    | none =>
      have : (none : Option (Nat × State)) = some r := by
        rw [← h]; show _ = Option.map _ (pfq_fetchb_common env f (wait env 1 0 r1.2)); rw [h2]; rfl
      cases this
    | some r2 =>
      have e : some (r1.1 ||| (r2.1 <<< 8), r2.2) = some r := by
        rw [← h]; show _ = Option.map _ (pfq_fetchb_common env f (wait env 1 0 r1.2)); rw [h2]; rfl
      have e2 : r.2 = r2.2 := by rw [← Option.some.inj e]
      rw [e2, pfq_fetchb_common_opcode env f _ r2 h2, wait_opcode,
        pfq_fetchb_common_opcode env f s r1 h1]

theorem exec_retf_imm_not_fatal (env : Env) (fuel : Nat) (s : State)
    (hop : (s.opcode &&& 0x08) ≠ 0) : exec_retf_imm env fuel s ≠ some none := by
  unfold exec_retf_imm
  cases h1 : pfq_fetchw env fuel (wait env 1 0 s) with
  | none => intro h; cases h
  | some r =>
    have ho : ({ r.2 with cpu_src := r.1 } : State).opcode &&& 0x08 ≠ 0 := by
      show r.2.opcode &&& 0x08 ≠ 0
      rw [pfq_fetchw_opcode env fuel _ r h1, wait_opcode]; exact hop
    have hn := (farret_not_fatal env fuel 1 { r.2 with cpu_src := r.1 } (by decide) ho).1
    show Option.map _ (farret env fuel 1 { r.2 with cpu_src := r.1 }) ≠ some none
    cases hq : farret env fuel 1 { r.2 with cpu_src := r.1 } with
    | none => intro h; cases h
    | some o =>
      cases o with
      | none => exact absurd hq hn
      | some t => intro h; cases h

theorem exec_retf_not_fatal (env : Env) (fuel : Nat) (s : State)
    (hop : (s.opcode &&& 0x08) ≠ 0) :
    exec_retf env fuel s ≠ some none ∧ (3 ≤ fuel → ∃ t, exec_retf env fuel s = some (some t)) := by
  have ho : (wait env 1 0 (wait env 1 0 s)).opcode &&& 0x08 ≠ 0 := by
    rw [wait_opcode, wait_opcode]; exact hop
  exact farret_not_fatal env fuel 1 _ (by decide) ho

theorem exec_iret_not_fatal (env : Env) (fuel : Nat) (s : State)
    (hop : (s.opcode &&& 0x08) ≠ 0) :
    exec_iret env fuel s ≠ some none ∧ (3 ≤ fuel → ∃ t, exec_iret env fuel s = some (some t)) := by
  have ho : (wait env 1 0 (wait env 1 0 s)).opcode &&& 0x08 ≠ 0 := by
    rw [wait_opcode, wait_opcode]; exact hop
  obtain ⟨hn, hs⟩ := farret_not_fatal env fuel 1 (wait env 1 0 (wait env 1 0 s)) (by decide) ho
  unfold exec_iret
  constructor
  · cases hq : farret env fuel 1 (wait env 1 0 (wait env 1 0 s)) with
    | none => intro h; cases h
    | some o =>
      cases o with
      | none => exact absurd hq hn
      | some t => intro h; cases h
  · intro hf
    obtain ⟨t, ht⟩ := hs hf
    rw [ht]
    exact ⟨_, rfl⟩

theorem ret_opcodes_bit3 (op : Nat)
    (h : op = 0xC8 ∨ op = 0xCA ∨ op = 0xC9 ∨ op = 0xCB ∨ op = 0xCF) : (op &&& 0x08) ≠ 0 := by
  rcases h with h | h | h | h | h <;> subst h <;> decide

/-- C40: the call `fatal("Far call distance mismatch")` of `farret` is not reached from any
of its three call sites: for every state whose opcode is one of the case labels (0xC8, 0xCA
for RETF imm16; 0xC9, 0xCB for RETF; 0xCF for IRET) the handler does not end in the fatal
outcome, and RETF and IRET return a state once the loop of `pfq_do_suspend` has its 3
ticks. -/
theorem farret_fatal_unreachable (env : Env) (fuel : Nat) (s : State) :
    ((s.opcode = 0xC8 ∨ s.opcode = 0xCA) → exec_retf_imm env fuel s ≠ some none) ∧
    ((s.opcode = 0xC9 ∨ s.opcode = 0xCB) →
      exec_retf env fuel s ≠ some none ∧
      (3 ≤ fuel → ∃ t, exec_retf env fuel s = some (some t))) ∧
    (s.opcode = 0xCF →
      exec_iret env fuel s ≠ some none ∧
      (3 ≤ fuel → ∃ t, exec_iret env fuel s = some (some t))) := by
  refine ⟨fun h => ?_, fun h => ?_, fun h => ?_⟩
  · exact exec_retf_imm_not_fatal env fuel s
      (ret_opcodes_bit3 _ (h.elim Or.inl (fun h => Or.inr (Or.inl h))))
  · exact exec_retf_not_fatal env fuel s
      (ret_opcodes_bit3 _ (h.elim (fun h => Or.inr (Or.inr (Or.inl h)))
        (fun h => Or.inr (Or.inr (Or.inr (Or.inl h))))))
  · exact exec_iret_not_fatal env fuel s
      (ret_opcodes_bit3 _ (Or.inr (Or.inr (Or.inr (Or.inr h)))))

theorem farret_fatal_unreachable_witness :
    exec_retf_imm idle_env 6 { init_state with opcode := 0xCA } ≠ some none ∧
    (exec_retf idle_env 3 { init_state with opcode := 0xCB } ≠ some none ∧
      ∃ t, exec_retf idle_env 3 { init_state with opcode := 0xCB } = some (some t)) ∧
    (exec_iret idle_env 3 { init_state with opcode := 0xCF } ≠ some none ∧
      ∃ t, exec_iret idle_env 3 { init_state with opcode := 0xCF } = some (some t)) :=
  ⟨(farret_fatal_unreachable idle_env 6 { init_state with opcode := 0xCA }).1 (Or.inr rfl),
   ⟨((farret_fatal_unreachable idle_env 3 { init_state with opcode := 0xCB }).2.1
       (Or.inr rfl)).1,
    ((farret_fatal_unreachable idle_env 3 { init_state with opcode := 0xCB }).2.1
       (Or.inr rfl)).2 (le_refl 3)⟩,
   ⟨((farret_fatal_unreachable idle_env 3 { init_state with opcode := 0xCF }).2.2 rfl).1,
    ((farret_fatal_unreachable idle_env 3 { init_state with opcode := 0xCF }).2.2 rfl).2
      (le_refl 3)⟩⟩

theorem andNot16_testBit (x m i : Nat) (hi : i < 16) :
    (andNot16 x m).testBit i = (x.testBit i && !m.testBit i) := by
  unfold andNot16
  rw [Nat.testBit_and, Nat.testBit_xor]
  have h : (0xFFFF : Nat).testBit i = true := by
    have : (0xFFFF : Nat) = 2 ^ 16 - 1 := by norm_num
    rw [this, Nat.testBit_two_pow_sub_one]
    exact decide_eq_true hi
  rw [h]
  cases x.testBit i <;> cases m.testBit i <;> rfl

theorem wait_flags (env : Env) (c : Int) (bus : Nat) (s : State) :
    (wait env c bus s).flags = s.flags :=
  congrArg Arch.flags (wait_arch env c bus s)

theorem wait_idle_ax (env : Env) (c : Int) (s : State) : (wait env c 0 s).ax = s.ax :=
  congrArg Priv.ax (wait_idle_frame env c s).2.1

/-- The flags block of AAA leaves the zero flag set whenever bit 0 of `cpu_data` is clear
for `new_al = 0`: `set_zf(0)` masks `cpu_data` with 0. -/
theorem aaa_flags_zero (old_al new_al : Nat) (s4 : State)
    (h : new_al = 0 → (s4.cpu_data &&& 1) = 0) :
    (aaa_flags old_al new_al s4).flags.testBit 6 = true := by
  have h5 : (set_zf 0 (set_of 0 (set_pzs 8 s4))).flags.testBit 6 = true := by
    unfold set_zf
    rw [set_zf_ex_testBit]
    simp
  have hd5 : (set_zf 0 (set_of 0 (set_pzs 8 s4))).cpu_data = s4.cpu_data := by
    simp only [set_zf, set_zf_ex, set_of, set_pzs, set_sf, set_pf]
  have h7 : ∀ s6 : State, s6.flags.testBit 6 = true → s6.cpu_data = s4.cpu_data →
      (if new_al = 0 then set_zf 1 s6 else s6).flags.testBit 6 = true := by
    intro s6 h6 hd
    by_cases hn : new_al = 0
    · rw [if_pos hn]
      unfold set_zf
      rw [set_zf_ex_testBit]
      have : (s6.cpu_data &&& ((1 <<< 1) - 1)) = 0 := by rw [hd]; exact h hn
      rw [if_pos rfl]
      exact decide_eq_true this
    · rw [if_neg hn]; exact h6
  have h8 : ∀ s7 : State, s7.flags.testBit 6 = true →
      (if old_al ≥ 0x7a ∧ old_al ≤ 0x7f then set_of 1 s7 else s7).flags.testBit 6 = true := by
    intro s7 h7
    split_ifs
    · rw [set_of_testBit]; simp [h7]
    · exact h7
  have h9 : ∀ s8 : State, s8.flags.testBit 6 = true →
      (if old_al ≤ 0x7a ∧ old_al ≤ 0xf9 then ({ s8 with flags := s8.flags ||| 0x80 } : State)
        else s8).flags.testBit 6 = true := by
    intro s8 h8
    split_ifs
    · show (s8.flags ||| 0x80).testBit 6 = true
      rw [Nat.testBit_or, h8]; rfl
    · exact h8
  unfold aaa_flags
  dsimp only
  apply h9
  apply h8
  apply h7
  · show (andNot16 (set_zf 0 (set_of 0 (set_pzs 8 s4))).flags 0x80).testBit 6 = true
    rw [andNot16_testBit _ _ _ (by decide), h5]; rfl
  · exact hd5

theorem aaa_flags_keeps (old_al new_al : Nat) (s4 : State) (i : Nat) (hi : i = 0 ∨ i = 4) :
    (aaa_flags old_al new_al s4).flags.testBit i = s4.flags.testBit i := by
  have hlt : i < 16 := by omega
  have t128 : Nat.testBit 0x80 i = false := by
    rcases hi with hi | hi <;> subst hi <;> decide
  have h5 : (set_zf 0 (set_of 0 (set_pzs 8 s4))).flags.testBit i = s4.flags.testBit i := by
    unfold set_zf set_pzs set_zf
    rw [set_zf_ex_testBit, set_of_testBit, set_sf_testBit, set_zf_ex_testBit, set_pf_testBit]
    rcases hi with hi | hi <;> subst hi <;> simp
  have h7 : ∀ s6 : State, (if new_al = 0 then set_zf 1 s6 else s6).flags.testBit i
      = s6.flags.testBit i := by
    intro s6
    split_ifs
    · unfold set_zf
      rw [set_zf_ex_testBit]
      rcases hi with hi | hi <;> subst hi <;> simp
    · rfl
  have h8 : ∀ s7 : State,
      (if old_al ≥ 0x7a ∧ old_al ≤ 0x7f then set_of 1 s7 else s7).flags.testBit i
        = s7.flags.testBit i := by
    intro s7
    split_ifs
    · rw [set_of_testBit]
      rcases hi with hi | hi <;> subst hi <;> simp
    · rfl
  have h9 : ∀ s8 : State,
      (if old_al ≤ 0x7a ∧ old_al ≤ 0xf9 then ({ s8 with flags := s8.flags ||| 0x80 } : State)
        else s8).flags.testBit i = s8.flags.testBit i := by
    intro s8
    split_ifs
    · show (s8.flags ||| 0x80).testBit i = _
      rw [Nat.testBit_or, t128, Bool.or_false]
    · rfl
  unfold aaa_flags
  dsimp only
  rw [h9, h8, h7]
  show (andNot16 (set_zf 0 (set_of 0 (set_pzs 8 s4))).flags 0x80).testBit i = _
  rw [andNot16_testBit _ _ _ hlt, h5, t128]
  simp

theorem aaa_flags_regs (old_al new_al : Nat) (s4 : State) :
    (aaa_flags old_al new_al s4).ax = s4.ax ∧
    (aaa_flags old_al new_al s4).cpu_data = s4.cpu_data := by
  have k : ∀ (c : Prop) [Decidable c] (f : State → State) (u : State),
      ((f u).ax = u.ax ∧ (f u).cpu_data = u.cpu_data) →
      ((if c then f u else u).ax = u.ax ∧ (if c then f u else u).cpu_data = u.cpu_data) := by
    intro c _ f u h
    by_cases hc : c
    · rw [if_pos hc]; exact h
    · rw [if_neg hc]; exact ⟨rfl, rfl⟩
  have h5 : (set_zf 0 (set_of 0 (set_pzs 8 s4))).ax = s4.ax ∧
      (set_zf 0 (set_of 0 (set_pzs 8 s4))).cpu_data = s4.cpu_data := by
    simp only [set_zf, set_zf_ex, set_of, set_pzs, set_sf, set_pf, and_self]
  unfold aaa_flags
  dsimp only
  generalize set_zf 0 (set_of 0 (set_pzs 8 s4)) = s5 at h5 ⊢
  have h7 := k (new_al = 0) (set_zf 1) { s5 with flags := andNot16 s5.flags 0x80 } ⟨rfl, rfl⟩
  generalize (if new_al = 0 then set_zf 1 { s5 with flags := andNot16 s5.flags 0x80 }
    else { s5 with flags := andNot16 s5.flags 0x80 }) = s7 at h7 ⊢
  have h8 := k (old_al ≥ 0x7a ∧ old_al ≤ 0x7f) (set_of 1) s7 ⟨rfl, rfl⟩
  generalize (if old_al ≥ 0x7a ∧ old_al ≤ 0x7f then set_of 1 s7 else s7) = s8 at h8 ⊢
  have h9 := k (old_al ≤ 0x7a ∧ old_al ≤ 0xf9)
    (fun u : State => { u with flags := u.flags ||| 0x80 }) s8 ⟨rfl, rfl⟩
  exact ⟨h9.1.trans (h8.1.trans (h7.1.trans h5.1)), h9.2.trans (h8.2.trans (h7.2.trans h5.2))⟩

/-- What the two branches of the adjustment leave behind. -/
theorem aaa_adjust_effect (env : Env) (s1 : State) :
    ((s1.flags &&& A_FLAG) ≠ 0 ∨ (AL s1 &&& 0xf) > 9 →
      (aaa_adjust env s1).1 = (AL s1 + 6) % 256 ∧
      (aaa_adjust env s1).2.ax = ((AH s1 + 1) % 256) * 256 + AL s1 ∧
      (aaa_adjust env s1).2.cpu_src = 6 ∧
      (aaa_adjust env s1).2.flags.testBit 0 = true ∧
      (aaa_adjust env s1).2.flags.testBit 4 = true) ∧
    (¬ ((s1.flags &&& A_FLAG) ≠ 0 ∨ (AL s1 &&& 0xf) > 9) →
      (aaa_adjust env s1).1 = AL s1 ∧
      (aaa_adjust env s1).2.ax = s1.ax ∧
      (aaa_adjust env s1).2.cpu_src = 0 ∧
      (aaa_adjust env s1).2.flags.testBit 0 = false ∧
      (aaa_adjust env s1).2.flags.testBit 4 = false) := by
  constructor
  · intro h
    unfold aaa_adjust
    rw [if_pos h]
    refine ⟨rfl, rfl, rfl, ?_, ?_⟩
    · show (set_af true (set_cf true _)).flags.testBit 0 = true
      rw [set_af_testBit, set_cf_testBit]; rfl
    · show (set_af true (set_cf true _)).flags.testBit 4 = true
      rw [set_af_testBit]; rfl
  · intro h
    unfold aaa_adjust
    rw [if_neg h]
    dsimp only
    refine ⟨rfl, ?_, ?_, ?_, ?_⟩
    · rw [wait_idle_ax]; rfl
    · exact congrArg Arch.cpu_src (wait_arch env 1 0 _)
    · rw [wait_flags]
      show (set_af false (set_cf false _)).flags.testBit 0 = false
      rw [set_af_testBit, set_cf_testBit]; rfl
    · rw [wait_flags]
      show (set_af false (set_cf false _)).flags.testBit 4 = false
      rw [set_af_testBit]; rfl

theorem AL_lt (s : State) : AL s < 256 := Nat.mod_lt _ (by decide)

theorem AH_lt (s : State) : AH s < 256 := Nat.mod_lt _ (by decide)

theorem AL_of_ax (a : Nat) (s : State) (h : s.ax = a) : AL s = a % 256 := by
  unfold AL; rw [h]

theorem exec_aaa_eq (env : Env) (s : State) :
    exec_aaa env s =
      aa env (aaa_flags (AL (wait env 1 0 s)) (aaa_adjust env (wait env 1 0 s)).1
        { (aaa_adjust env (wait env 1 0 s)).2 with
          cpu_dest := AL (aaa_adjust env (wait env 1 0 s)).2,
          cpu_data := (AL (aaa_adjust env (wait env 1 0 s)).2 +
            (aaa_adjust env (wait env 1 0 s)).2.cpu_src) % 4294967296 }) := rfl

theorem and_0f (x : Nat) : x &&& 0x0f = x % 16 := by
  have := mask_eq_mod x 4
  simpa using this

theorem aa_effect (env : Env) (s : State) :
    (aa env s).flags = s.flags ∧ AL (aa env s) = s.cpu_data % 16 ∧ AH (aa env s) = AH s := by
  have hax : (aa env s).ax = AH s * 256 + (s.cpu_data &&& 0x0f) % 256 := by
    unfold aa
    exact wait_idle_ax env 6 _
  have l := AH_lt s
  refine ⟨wait_flags env 6 0 _, ?_, ?_⟩
  · unfold AL; rw [hax, and_0f]; omega
  · show (aa env s).ax / 256 % 256 = AH s
    rw [hax, and_0f]; omega

/-- AAA: the adjusted digit, AH and the flags C and A. -/
theorem aaa_adjusts (env : Env) (s : State) :
    ((s.flags &&& A_FLAG) ≠ 0 ∨ (AL s &&& 0xf) > 9 →
      AL (exec_aaa env s) = (AL s + 6) &&& 0x0f ∧ AH (exec_aaa env s) = (AH s + 1) % 256 ∧
      (exec_aaa env s).flags.testBit 0 = true ∧ (exec_aaa env s).flags.testBit 4 = true) ∧
    (¬ ((s.flags &&& A_FLAG) ≠ 0 ∨ (AL s &&& 0xf) > 9) →
      AL (exec_aaa env s) = AL s &&& 0x0f ∧ AH (exec_aaa env s) = AH s ∧
      (exec_aaa env s).flags.testBit 0 = false ∧ (exec_aaa env s).flags.testBit 4 = false) := by
  have hfl : (wait env 1 0 s).flags = s.flags := wait_flags env 1 0 s
  have hax : (wait env 1 0 s).ax = s.ax := wait_idle_ax env 1 s
  have hAL : AL (wait env 1 0 s) = AL s := by unfold AL; rw [hax]
  have hAH : AH (wait env 1 0 s) = AH s := by unfold AH; rw [hax]
  obtain ⟨ht, hn⟩ := aaa_adjust_effect env (wait env 1 0 s)
  simp only [hfl, hAL, hAH, hax, and_0f] at ht hn
  rw [exec_aaa_eq]
  generalize aaa_adjust env (wait env 1 0 s) = adj at ht hn ⊢
  generalize AL (wait env 1 0 s) = old_al
  have l3 := AL_lt s
  have l4 := AH_lt s
  obtain ⟨f1, f2, f3⟩ := aa_effect env (aaa_flags old_al adj.1
    { adj.2 with cpu_dest := AL adj.2, cpu_data := (AL adj.2 + adj.2.cpu_src) % 4294967296 })
  obtain ⟨g1, g2⟩ := aaa_flags_regs old_al adj.1
    { adj.2 with cpu_dest := AL adj.2, cpu_data := (AL adj.2 + adj.2.cpu_src) % 4294967296 }
  have k0 := aaa_flags_keeps old_al adj.1
    { adj.2 with cpu_dest := AL adj.2, cpu_data := (AL adj.2 + adj.2.cpu_src) % 4294967296 }
    0 (Or.inl rfl)
  have k4 := aaa_flags_keeps old_al adj.1
    { adj.2 with cpu_dest := AL adj.2, cpu_data := (AL adj.2 + adj.2.cpu_src) % 4294967296 }
    4 (Or.inr rfl)
  have g3 : AH (aaa_flags old_al adj.1
      { adj.2 with cpu_dest := AL adj.2, cpu_data := (AL adj.2 + adj.2.cpu_src) % 4294967296 })
      = AH adj.2 := by
    unfold AH; rw [g1]
  rw [f1, f2, f3, g2, g3, k0, k4, and_0f, and_0f]
  show (_ → (AL adj.2 + adj.2.cpu_src) % 4294967296 % 16 = _ ∧ _) ∧
    (_ → (AL adj.2 + adj.2.cpu_src) % 4294967296 % 16 = _ ∧ _)
  constructor
  · intro h
    obtain ⟨e1, e2, e3, e4, e5⟩ := ht h
    have hAL2 : AL adj.2 = AL s := by
      rw [AL_of_ax _ _ e2]; omega
    have hAH2 : AH adj.2 = (AH s + 1) % 256 := by
      show adj.2.ax / 256 % 256 = _
      rw [e2]; omega
    rw [hAL2, e3, hAH2]
    exact ⟨by omega, rfl, e4, e5⟩
  · intro h
    obtain ⟨e1, e2, e3, e4, e5⟩ := hn h
    have hAL2 : AL adj.2 = AL s := by unfold AL; rw [e2]
    have hAH2 : AH adj.2 = AH s := by unfold AH; rw [e2]
    rw [hAL2, e3, hAH2]
    exact ⟨by omega, rfl, e4, e5⟩

theorem exec_aaa_zf (env : Env) (s : State) : ((exec_aaa env s).flags &&& Z_FLAG) ≠ 0 := by
  have hax : (wait env 1 0 s).ax = s.ax := wait_idle_ax env 1 s
  have hAL : AL (wait env 1 0 s) = AL s := by unfold AL; rw [hax]
  have hAH : AH (wait env 1 0 s) = AH s := by unfold AH; rw [hax]
  obtain ⟨ht, hn⟩ := aaa_adjust_effect env (wait env 1 0 s)
  simp only [hAL, hAH, hax] at ht hn
  rw [exec_aaa_eq]
  generalize aaa_adjust env (wait env 1 0 s) = adj at ht hn ⊢
  generalize AL (wait env 1 0 s) = old_al
  have l3 := AL_lt s
  rw [flag_tb _ Z_FLAG 6 (by decide), (aa_effect env _).1]
  apply aaa_flags_zero
  intro h0
  show ((AL adj.2 + adj.2.cpu_src) % 4294967296) &&& 1 = 0
  rw [Nat.and_one_is_mod]
  by_cases c : ((wait env 1 0 s).flags &&& A_FLAG) ≠ 0 ∨ (AL s &&& 0xf) > 9
  · obtain ⟨e1, e2, e3, -, -⟩ := ht c
    have hAL2 : AL adj.2 = AL s := by
      rw [AL_of_ax _ _ e2]; omega
    rw [hAL2, e3]
    rw [e1] at h0
    omega
  · obtain ⟨e1, e2, e3, -, -⟩ := hn c
    have hAL2 : AL adj.2 = AL s := by unfold AL; rw [e2]
    rw [hAL2, e3]
    rw [e1] at h0
    omega

/-- C36: after AAA the zero flag is set for every AL, AH and flags, also when the adjusted
byte is not zero: `set_zf(0)` and `set_zf(1)` take a bit count, not the flag value, and
`set_zf(0)` sets the flag. -/
theorem aaa_zero_flag_always_set (env : Env) (s : State) :
    ((exec_aaa env s).flags &&& Z_FLAG) ≠ 0 :=
  exec_aaa_zf env s

/-- AAA on AL = 1, AH = 0 with all flags clear: no adjustment, AL stays 1, and the zero
flag is set. -/
theorem aaa_one_sets_zero :
    AL (exec_aaa idle_env aaa_one_state) = 1 ∧
    ((exec_aaa idle_env aaa_one_state).flags &&& Z_FLAG) ≠ 0 :=
  ⟨((aaa_adjusts idle_env aaa_one_state).2 (by decide)).1.trans (by decide),
   exec_aaa_zf idle_env aaa_one_state⟩

theorem instr_end_boundary (env : Env) (f : Nat) (v : State) (hc : v.completed ≠ 0) :
    instr_end env f v = (check_interrupts env f (boundary_state env v)).map boundary_finish :=
  instr_end_eq env f v hc

theorem boundary_state_fields (env : Env) (v : State) :
    (boundary_state env v).noint = v.noint ∧ (boundary_state env v).flags = v.flags := by
  unfold boundary_state
  have h := clock_end_core env
    (if ({ v with repeating := 0, ovr_seg := none, in_rep := 0, rep_c_flag := 0 } : State).in_lock ≠ 0
     then { ({ v with repeating := 0, ovr_seg := none, in_rep := 0, rep_c_flag := 0 } : State) with clear_lock := 1 }
     else { v with repeating := 0, ovr_seg := none, in_rep := 0, rep_c_flag := 0 })
  have h1 := congrArg Core.noint h
  have h2 := congrArg Core.flags h
  refine ⟨h1.trans ?_, h2.trans ?_⟩ <;> split_ifs <;> rfl

theorem exec_pop_seg_noint (env : Env) (s : State) : (exec_pop_seg env s).noint = 1 := rfl

theorem exec_iret_noint (env : Env) (f : Nat) (s t : State)
    (h : exec_iret env f s = some (some t)) : t.noint = 1 := by
  unfold exec_iret at h
  cases hq : farret env f 1 (wait env 1 0 (wait env 1 0 s)) with
  | none => rw [hq] at h; cases h
  | some o =>
    rw [hq] at h
    cases o with
    | none => cases h
    | some u =>
      have e := Option.some.inj (Option.some.inj h)
      rw [← e]

theorem instr_begin_noint (env : Env) (f : Nat) (s t : State)
    (h : instr_begin env f s = some t) : t.noint = s.noint := by
  unfold instr_begin at h
  dsimp only at h
  by_cases hr : (clock_start s).repeating = 0
  · rw [if_pos hr] at h
    cases hq : pfq_fetchb_common env f { clock_start s with oldpc := (clock_start s).pc } with
    | none => rw [hq] at h; cases h
    | some r =>
      rw [hq] at h
      have e := Option.some.inj h
      have a : r.2.noint = s.noint := congrArg Arch.noint (pfq_fetchb_common_frame env f _ r hq).1
      have w : ∀ x : State, (wait env 1 0 x).noint = x.noint :=
        fun x => congrArg Arch.noint (wait_arch env 1 0 x)
      rw [← e]
      show (wait env 1 0 _).noint = s.noint
      rw [w]
      split_ifs <;> exact a
  · rw [if_neg hr] at h
    have e := Option.some.inj h
    rw [← e]
    rfl

theorem shadow_skips (env : Env) (f : Nat) (v : State) (hc : v.completed ≠ 0)
    (hn : v.noint ≠ 0)
    (hnmi : ¬((boundary_state env v).nmi ≠ 0 ∧ (boundary_state env v).nmi_enable ≠ 0 ∧
      (boundary_state env v).nmi_mask ≠ 0)) :
    instr_end env f v = some { boundary_state env v with noint := 0, cpu_alu_op := 0 } := by
  obtain ⟨b1, b2⟩ := boundary_state_fields env v
  have hb : (boundary_state env v).noint ≠ 0 := by rw [b1]; exact hn
  rw [instr_end_boundary env f v hc,
    check_interrupts_none env f _ (fun h => hb h.2) hnmi (fun h => hb h.2.2)]
  show some (boundary_finish (boundary_state env v)) = _
  unfold boundary_finish
  rw [if_pos hb]

theorem boundary_trap (env : Env) (f : Nat) (v : State) (hc : v.completed ≠ 0)
    (hn : v.noint = 0) (ht : (v.flags &&& T_FLAG) ≠ 0) :
    instr_end env f v =
      (intr_routine env f 1 false (wait env 2 0 (boundary_state env v))).map boundary_finish := by
  obtain ⟨b1, b2⟩ := boundary_state_fields env v
  rw [instr_end_boundary env f v hc,
    check_interrupts_trap env f _ ⟨by rw [b2]; exact ht, by rw [b1]; exact hn⟩]

theorem boundary_irq (env : Env) (f : Nat) (v : State) (hc : v.completed ≠ 0)
    (hn : v.noint = 0) (ht : (v.flags &&& T_FLAG) = 0) (hi : (v.flags &&& I_FLAG) ≠ 0)
    (hp : (boundary_state env v).pic_int_pending ≠ 0)
    (hnmi : ¬((boundary_state env v).nmi ≠ 0 ∧ (boundary_state env v).nmi_enable ≠ 0 ∧
      (boundary_state env v).nmi_mask ≠ 0)) :
    instr_end env f v =
      (let a1 := bus_pic_ack env (wait env 4 0
        { boundary_state env v with repeating := 0, completed := 1, ovr_seg := none })
      let a2 := bus_pic_ack env (wait env 1 0 a1.2)
      let s5 : State := { wait env 1 0 a2.2 with in_lock := 0, clear_lock := 0 }
      let s6 := if BUS_CYCLE s5 ≠ BUS_T3 then wait env 1 0 s5 else s5
      intr_routine env f (a2.1 % 65536).toNat false { wait env 5 0 s6 with opcode := 0 }).map
        boundary_finish := by
  obtain ⟨b1, b2⟩ := boundary_state_fields env v
  rw [instr_end_boundary env f v hc,
    check_interrupts_irq env f _ (fun h => h.1 (by rw [b2]; exact ht)) hnmi
      ⟨by rw [b2]; exact hi, hp, by rw [b1]; exact hn⟩]

/-- C31: POP seg (the branch that is not a NEC extension opcode) and IRET leave
`noint = 1`.  At a boundary reached with `noint` set and no NMI pending, `instr_end`
services nothing, whatever T, I and the interrupt controller say: the result is the state
`check_interrupts` was given, with `noint` cleared.  The head of the loop keeps `noint`, and
at a boundary reached with `noint = 0` a set T flag is serviced by `intr_routine(1, 0)` and,
with T clear and no NMI, a set I flag with a pending request by the two acknowledge cycles
and `intr_routine`. -/
theorem noint_shadow_one_instruction (env : Env) (f : Nat) (s : State) :
    (exec_pop_seg env s).noint = 1 ∧
    (∀ t, exec_iret env f s = some (some t) → t.noint = 1) ∧
    (s.completed ≠ 0 → s.noint ≠ 0 →
      ¬((boundary_state env s).nmi ≠ 0 ∧ (boundary_state env s).nmi_enable ≠ 0 ∧
        (boundary_state env s).nmi_mask ≠ 0) →
      instr_end env f s = some { boundary_state env s with noint := 0, cpu_alu_op := 0 }) ∧
    (∀ t, instr_begin env f s = some t → t.noint = s.noint) ∧
    (s.completed ≠ 0 → s.noint = 0 → (s.flags &&& T_FLAG) ≠ 0 →
      instr_end env f s =
        (intr_routine env f 1 false (wait env 2 0 (boundary_state env s))).map
          boundary_finish) ∧
    (s.completed ≠ 0 → s.noint = 0 → (s.flags &&& T_FLAG) = 0 → (s.flags &&& I_FLAG) ≠ 0 →
      (boundary_state env s).pic_int_pending ≠ 0 →
      ¬((boundary_state env s).nmi ≠ 0 ∧ (boundary_state env s).nmi_enable ≠ 0 ∧
        (boundary_state env s).nmi_mask ≠ 0) →
      instr_end env f s =
        (let a1 := bus_pic_ack env (wait env 4 0
          { boundary_state env s with repeating := 0, completed := 1, ovr_seg := none })
        let a2 := bus_pic_ack env (wait env 1 0 a1.2)
        let s5 : State := { wait env 1 0 a2.2 with in_lock := 0, clear_lock := 0 }
        let s6 := if BUS_CYCLE s5 ≠ BUS_T3 then wait env 1 0 s5 else s5
        intr_routine env f (a2.1 % 65536).toNat false { wait env 5 0 s6 with opcode := 0 }).map
          boundary_finish) :=
  ⟨exec_pop_seg_noint env s, fun t h => exec_iret_noint env f s t h,
   fun hc hn hnmi => shadow_skips env f s hc hn hnmi,
   fun t h => instr_begin_noint env f s t h,
   fun hc hn ht => boundary_trap env f s hc hn ht,
   fun hc hn ht hi hp hnmi => boundary_irq env f s hc hn ht hi hp hnmi⟩

set_option maxRecDepth 100000 in
theorem noint_shadow_one_instruction_witness :
    (∃ t, exec_iret idle_env 3 { init_state with opcode := 0xCF } = some (some t) ∧
      t.noint = 1) ∧
    instr_end idle_env 3 shadow_state =
      some { boundary_state idle_env shadow_state with noint := 0, cpu_alu_op := 0 } ∧
    (∃ t, instr_begin idle_env 6 init_state = some t ∧ t.noint = init_state.noint) ∧
    instr_end idle_env 3 { shadow_state with noint := 0 } =
      (intr_routine idle_env 3 1 false
        (wait idle_env 2 0 (boundary_state idle_env { shadow_state with noint := 0 }))).map
        boundary_finish ∧
    instr_end idle_env 3 { shadow_state with noint := 0, flags := 0x0202 } =
      (let a1 := bus_pic_ack idle_env (wait idle_env 4 0
        { boundary_state idle_env { shadow_state with noint := 0, flags := 0x0202 } with
          repeating := 0, completed := 1, ovr_seg := none })
      let a2 := bus_pic_ack idle_env (wait idle_env 1 0 a1.2)
      let s5 : State := { wait idle_env 1 0 a2.2 with in_lock := 0, clear_lock := 0 }
      let s6 := if BUS_CYCLE s5 ≠ BUS_T3 then wait idle_env 1 0 s5 else s5
      intr_routine idle_env 3 (a2.1 % 65536).toNat false
        { wait idle_env 5 0 s6 with opcode := 0 }).map boundary_finish :=
  ⟨((exec_iret_not_fatal idle_env 3 { init_state with opcode := 0xCF } (by decide)).2
      (le_refl 3)).elim (fun t h => ⟨t, h,
        (noint_shadow_one_instruction idle_env 3 { init_state with opcode := 0xCF }).2.1 t h⟩),
   (noint_shadow_one_instruction idle_env 3 shadow_state).2.2.1
     (by decide) (by decide) (by decide),
   ((instr_begin_ovr idle_env 6 init_state (by decide) (by decide) (le_refl 6)).elim
     (fun t h => ⟨t, h.1,
       (noint_shadow_one_instruction idle_env 6 init_state).2.2.2.1 t h.1⟩)),
   (noint_shadow_one_instruction idle_env 3 { shadow_state with noint := 0 }).2.2.2.2.1
     (by decide) (by decide) (by decide),
   (noint_shadow_one_instruction idle_env 3
     { shadow_state with noint := 0, flags := 0x0202 }).2.2.2.2.2
     (by decide) (by decide) (by decide) (by decide) (by decide) (by decide)⟩

set_option maxRecDepth 100000 in
/-- C33: OUTSB with AL = 0xAA and the byte 0x55 at DS:SI: the byte read from memory lands
in `cpu_data` and SI advances by one, but the value the port receives is AL (0xAA), not
the byte read (0x55); the bus log shows one memory read and one IO write. -/
theorem outs_writes_accumulator :
    (exec_outs port_env 3 outs_state).map (fun t => (t.dev, t.cpu_data, t.si, t.bus_log)) =
      some (0xAA, 0x55, 0x11, [BUS_MEM, BUS_IO ||| BUS_OUT]) := by
  decide

set_option maxRecDepth 100000 in
/-- C34: INSB with the port returning 0x77 and `cpu_data = 0x11` left by an earlier
instruction: the byte stored at ES:DI is the old `cpu_data` (0x11), not the byte read from
the port, and the byte read from the port lands in AL, so AX changes from 0 to 0x77; DI
advances by one. -/
theorem ins_stores_stale_data :
    (exec_ins port_env 3 ins_state).map (fun t => (t.mem 0x20, t.ax, t.di, t.bus_log)) =
      some (0x11, 0x77, 0x21, [ BUS_IO, BUS_MEM ||| BUS_OUT]) := by
  decide

set_option maxRecDepth 1000000 in
/-- C32: BOUND with the register 0, lower bound 0xFFFF and upper bound 0x0005.  As signed
16-bit integers -1 <= 0 <= 5, yet interrupt 5 is taken (CS:pc becomes the vector
1234:5678, the return address pushed is the start 0x0100 of the instruction): the code
compares `uint16_t` values.  With AX = 0x0105 and the bounds 0x0100 and 0x0200 the
interrupt is taken as well: `get_reg` selects the byte register AL because bit 0 of the
opcode 0x62 is clear. -/
theorem bound_compares_unsigned :
    (exec_bound idle_env 6 bound_state).map
        (fun t => (t.seg_cs.seg, t.pc, t.sp, t.mem 0xFFFA, t.mem 0xFFFB)) =
      some (0x1234, 0x5678, 0xFFFA, 0x00, 0x01) ∧
    (exec_bound idle_env 6 bound_wide_state).map
        (fun t => (t.seg_cs.seg, t.pc, t.sp, t.mem 0xFFFA, t.mem 0xFFFB)) =
      some (0x1234, 0x5678, 0xFFFA, 0x00, 0x01) := by
  constructor <;> decide

set_option maxRecDepth 1000000 in
/-- C35: `IMUL AX, CX, 0xFF` with CX = 1 leaves 0x00FF in AX; the low 16 bits of
1 * sign_extend(0xFF) = -1 are 0xFFFF.  The immediate byte is stored to a `uint16_t`
without sign extension. -/
theorem imul_imm8_zero_extends :
    (exec_imul_imm8 idle_env 6 imul_state).map (fun t => (t.ax, t.pc)) =
      some (0x00FF, 0x103) := by
  decide

set_option maxRecDepth 1000000 in
/-- BOUND with AX = 5 and the bounds 1 and 9: no interrupt, execution continues after the
ModR/M byte. -/
theorem bound_in_range :
    (exec_bound idle_env 6
        { bound_state with ax := 5, mem := fun a => if a = 0x40 then 1 else if a = 0x42 then 9 else 0 }).map
        (fun t => (t.seg_cs.seg, t.pc, t.sp)) = some (0, 0x102, 0) := by
  decide

set_option maxRecDepth 1000000 in
/-- The neighbouring case 0x6A (`PUSH imm8`) sign-extends its immediate: 0xFF is pushed as
0xFFFF. -/
theorem push_imm8_sign_extends :
    (exec_push_imm8 idle_env 6 { imul_state with opcode := 0x6A, pfq := [0xFF, 0x90, 0x90, 0] }).map
        (fun t => (t.sp, t.mem 0xFFFE, t.mem 0xFFFF)) = some (0xFFFE, 0xFF, 0xFF) := by
  decide

set_option maxRecDepth 1000000 in
/-- With a small positive immediate the product is the one expected: 3 * 5 = 15. -/
theorem imul_imm8_positive :
    (exec_imul_imm8 idle_env 6 { imul_state with cx := 3, pfq := [0xC1, 0x05, 0x90, 0] }).map
        (fun t => (t.ax, t.pc)) = some (15, 0x103) := by
  decide

/-! ## One operand bus cycle: memory and IO requests -/

theorem process_timers_log (env : Env) (s : State) :
    (process_timers env s).bus_log = s.bus_log := by
  unfold process_timers clock_start
  exact congrArg Priv.bus_log (clock_end_priv env s)

theorem resub_loop_log (n : Nat) (s : State) : (resub_loop n s).bus_log = s.bus_log := by
  induction n generalizing s with
  | zero => rfl
  | succ n ih =>
    unfold resub_loop
    rw [ih]
    split_ifs <;> rfl

theorem resub_cycles_log (env : Env) (c : Int) (s : State) :
    (resub_cycles env c s).bus_log = s.bus_log := by
  unfold resub_cycles
  simp only
  rw [process_timers_log]
  split_ifs
  · exact resub_loop_log _ s
  · rfl

theorem bus_outb_log (env : Env) (p v : Nat) (s : State) :
    (bus_outb env p v s).bus_log = s.bus_log := by
  unfold bus_outb
  simp only
  rw [resub_cycles_log]; rfl

theorem bus_outw_log (env : Env) (p v : Nat) (s : State) :
    (bus_outw env p v s).bus_log = s.bus_log := by
  unfold bus_outw
  simp only
  rw [resub_cycles_log]; rfl

theorem bus_inb_log (env : Env) (p : Nat) (s : State) :
    (bus_inb env p s).2.bus_log = s.bus_log := by
  unfold bus_inb
  simp only
  rw [resub_cycles_log]; rfl

theorem bus_inw_log (env : Env) (p : Nat) (s : State) :
    (bus_inw env p s).2.bus_log = s.bus_log := by
  unfold bus_inw
  simp only
  rw [resub_cycles_log]; rfl

theorem bus_do_io_log (env : Env) (io : Nat) (s : State) :
    (bus_do_io env io s).bus_log = s.bus_log ++ [io] := by
  unfold bus_do_io
  simp only
  rw [process_timers_log]
  split_ifs
  · rw [bus_outw_log]
  · rw [bus_outb_log]
  · rw [bus_outb_log]
  · exact (bus_inw_log env _ _).trans rfl
  · exact (bus_inb_log env _ _).trans rfl
  · exact (bus_inb_log env _ _).trans rfl

theorem acc_io_code (io : Nat) (h : (io &&& BUS_ACCESS_TYPE) = BUS_IO) :
    io ≠ 0 ∧ (io &&& BUS_CODE) = 0 := by
  constructor
  · rintro rfl
    revert h; decide
  · have e : io &&& BUS_CODE = (io &&& BUS_ACCESS_TYPE) &&& BUS_CODE := by
      rw [Nat.land_assoc]; rfl
    rw [e, h]; rfl

theorem run_bus_cycle_io_log (env : Env) (io : Nat) (s : State)
    (hio : (io &&& BUS_ACCESS_TYPE) = BUS_IO) :
    (run_bus_cycle env io s).bus_log =
      if (BUS_CYCLE s = 1 ∧ (io &&& BUS_OUT) ≠ 0) ∨ (BUS_CYCLE s = 2 ∧ (io &&& BUS_OUT) = 0)
      then (s.bus_log ++ [io]) else s.bus_log := by
  obtain ⟨hn, hcode⟩ := acc_io_code io hio
  unfold run_bus_cycle
  rw [if_pos ⟨hn, Or.inl hcode⟩]
  have h1 := bus_ready_log env s
  have h3 : BUS_CYCLE (bus_ready env s) = BUS_CYCLE s := bus_cycle_of_core (ready_wait_core env s)
  have hlt : BUS_CYCLE s < 4 := by rw [bus_cycle_eq_mod]; omega
  generalize bus_ready env s = s1 at h1 h3
  have hcg : (bus_do_io env io s1).bus_log = s.bus_log ++ [io] := by
    rw [bus_do_io_log, h1]
  have hne2 : ¬ ( BUS_IO = BUS_CODE) := by decide
  simp only [h3, hio, hne2, if_false, if_true]
  generalize BUS_CYCLE s = p at hlt
  interval_cases p
  · have hc : ¬ (((0 : Nat) = 1 ∧ (io &&& BUS_OUT) ≠ 0) ∨ ((0 : Nat) = 2 ∧ (io &&& BUS_OUT) = 0)) := by
      simp
    rw [if_neg hc]; exact h1
  · by_cases ho : (io &&& BUS_OUT) = 0
    · have hc : ¬ (((1 : Nat) = 1 ∧ (io &&& BUS_OUT) ≠ 0) ∨ ((1 : Nat) = 2 ∧ (io &&& BUS_OUT) = 0)) := by
        simp [ho]
      rw [if_neg hc]; simp only [ho, ne_eq, not_true_eq_false, if_false]; exact h1
    · have hc : (((1 : Nat) = 1 ∧ (io &&& BUS_OUT) ≠ 0) ∨ ((1 : Nat) = 2 ∧ (io &&& BUS_OUT) = 0)) := by
        simp [ho]
      rw [if_pos hc]; simp only [ho, ne_eq, not_false_eq_true, if_true]; exact hcg
  · by_cases ho : (io &&& BUS_OUT) = 0
    · have hc : (((2 : Nat) = 1 ∧ (io &&& BUS_OUT) ≠ 0) ∨ ((2 : Nat) = 2 ∧ (io &&& BUS_OUT) = 0)) := by
        simp [ho]
      rw [if_pos hc]; simp only [ho, if_true]; exact hcg
    · have hc : ¬ (((2 : Nat) = 1 ∧ (io &&& BUS_OUT) ≠ 0) ∨ ((2 : Nat) = 2 ∧ (io &&& BUS_OUT) = 0)) := by
        simp [ho]
      rw [if_neg hc]; simp only [ho, if_false]; exact h1
  · have hc : ¬ (((3 : Nat) = 1 ∧ (io &&& BUS_OUT) ≠ 0) ∨ ((3 : Nat) = 2 ∧ (io &&& BUS_OUT) = 0)) := by
      simp
    rw [if_neg hc]; exact h1

theorem run_bus_cycle_op_log (env : Env) (io : Nat) (s : State)
    (hio : (io &&& BUS_ACCESS_TYPE) = BUS_MEM ∨ (io &&& BUS_ACCESS_TYPE) = BUS_IO) :
    (run_bus_cycle env io s).bus_log =
      if (BUS_CYCLE s = 1 ∧ (io &&& BUS_OUT) ≠ 0) ∨ (BUS_CYCLE s = 2 ∧ (io &&& BUS_OUT) = 0)
      then (s.bus_log ++ [io]) else s.bus_log :=
  hio.elim (run_bus_cycle_mem_log env io s) (run_bus_cycle_io_log env io s)

theorem biu_access_op_log (env : Env) (init : Nat) (s : State)
    (hreq : (s.bus_request_type &&& BUS_ACCESS_TYPE) = BUS_MEM ∨
      (s.bus_request_type &&& BUS_ACCESS_TYPE) = BUS_IO) :
    (biu_access env 1 init s).bus_log =
      if init ≠ 0 ∧ s.schedule_fetch ≠ 0 then s.bus_log
      else if (BUS_CYCLE s = 1 ∧ (s.bus_request_type &&& BUS_OUT) ≠ 0) ∨
              (BUS_CYCLE s = 2 ∧ (s.bus_request_type &&& BUS_OUT) = 0)
        then (s.bus_log ++ [s.bus_request_type]) else s.bus_log := by
  unfold biu_access
  rw [if_pos (by decide)]
  simp only
  by_cases hab : init ≠ 0 ∧ s.schedule_fetch ≠ 0
  · rw [if_pos hab, if_pos hab]
    have ha := biu_abort_effect env s
    have hr : (biu_abort env s).bus_request_type = s.bus_request_type :=
      congrArg Ctl.bus_request_type ha.1
    have hb : BUS_CYCLE (biu_abort env s) = 0 := by unfold BUS_CYCLE; rw [ha.2.1]; rfl
    rw [run_bus_cycle_op_log env _ _ (by rw [hr]; exact hreq), hb]
    have hc : ¬ (((0 : Nat) = 1 ∧ ((biu_abort env s).bus_request_type &&& BUS_OUT) ≠ 0) ∨
        ((0 : Nat) = 2 ∧ ((biu_abort env s).bus_request_type &&& BUS_OUT) = 0)) := by simp
    rw [if_neg hc]
    exact biu_abort_log env s
  · rw [if_neg hab, if_neg hab]
    exact run_bus_cycle_op_log env _ s hreq

theorem cycles_biu_op_log (env : Env) (init : Nat) (s : State)
    (hreq : (s.bus_request_type &&& BUS_ACCESS_TYPE) = BUS_MEM ∨
      (s.bus_request_type &&& BUS_ACCESS_TYPE) = BUS_IO) :
    (cycles_biu env 1 init s).bus_log =
      if init ≠ 0 ∧ s.schedule_fetch ≠ 0 then s.bus_log
      else if (BUS_CYCLE s = 1 ∧ (s.bus_request_type &&& BUS_OUT) ≠ 0) ∨
              (BUS_CYCLE s = 2 ∧ (s.bus_request_type &&& BUS_OUT) = 0)
        then (s.bus_log ++ [s.bus_request_type]) else s.bus_log := by
  unfold cycles_biu
  simp only
  have h1 := biu_access_op_log env init
    ({ s with pasv := if (1 : Nat) ≠ 0 ∨ (BUS_CYCLE s = BUS_T1 ∧ s.schedule_fetch ≠ 0) then 0 else 1 } : State)
    hreq
  generalize biu_access env 1 init
    ({ s with pasv := if (1 : Nat) ≠ 0 ∨ (BUS_CYCLE s = BUS_T1 ∧ s.schedule_fetch ≠ 0) then 0 else 1 } : State)
    = s1 at h1
  have h2 : (if BUS_CYCLE s1 = BUS_T2 then pfq_schedule 1 s1 else s1).bus_log = s1.bus_log := by
    split_ifs <;> rfl
  generalize (if BUS_CYCLE s1 = BUS_T2 then pfq_schedule 1 s1 else s1) = s2 at h2
  have h3 := run_dma_cycle_log s2.pasv s2
  generalize run_dma_cycle s2.pasv s2 = s3 at h3
  show s3.bus_log = _
  rw [h3, h2, h1]
  rfl

theorem wait_tick_op_log (env : Env) (d : Nat) (s : State)
    (hreq : (s.bus_request_type &&& BUS_ACCESS_TYPE) = BUS_MEM ∨
      (s.bus_request_type &&& BUS_ACCESS_TYPE) = BUS_IO) :
    (wait_tick env 1 d s).bus_log =
      if d = 0 ∧ s.schedule_fetch ≠ 0 then s.bus_log
      else if (BUS_CYCLE s = 1 ∧ (s.bus_request_type &&& BUS_OUT) ≠ 0) ∨
              (BUS_CYCLE s = 2 ∧ (s.bus_request_type &&& BUS_OUT) = 0)
        then (s.bus_log ++ [s.bus_request_type]) else s.bus_log := by
  unfold wait_tick
  simp only
  rw [if_neg (fun hh => absurd hh.1 (by decide)), cycles_forward_log env,
    cycles_biu_op_log env _ s hreq]
  by_cases hd : d = 0
  · simp [hd]
  · simp [hd]

theorem wait_from_op_log (env : Env) (n d : Nat) (s : State)
    (hd : d ≠ 0) (hn : n ≤ 3)
    (hreq : (s.bus_request_type &&& BUS_ACCESS_TYPE) = BUS_MEM ∨
      (s.bus_request_type &&& BUS_ACCESS_TYPE) = BUS_IO) :
    (wait_from env 1 n d s).bus_log =
      if ((if (s.bus_request_type &&& BUS_OUT) ≠ 0 then 1 else 2) + 4 - BUS_CYCLE s) % 4 < n
      then (s.bus_log ++ [s.bus_request_type]) else s.bus_log := by
  induction n generalizing d s with
  | zero => simp [wait_from]
  | succ n ih =>
    unfold wait_from
    have hdt := wait_tick_op_log env d s hreq
    rw [if_neg (fun hh => hd hh.1)] at hdt
    have hph := wait_tick_phase env 1 d s
    rw [if_neg (fun hh => absurd hh.1 (by decide)), if_neg (fun hh => hd hh.2.1)] at hph
    have hctl := wait_tick_ctl env 1 d s
    have hr : (wait_tick env 1 d s).bus_request_type = s.bus_request_type :=
      congrArg Ctl.bus_request_type hctl
    have hih := ih (d + 1) (wait_tick env 1 d s) (by omega) (by omega) (by rw [hr]; exact hreq)
    have hcg : (wait_tick env 1 d s).bus_log = s.bus_log →
        (wait_tick env 1 d s).bus_log ++ [s.bus_request_type] =
          (s.bus_log ++ [s.bus_request_type]) := fun h => by rw [h]
    rw [hr, hph] at hih
    rw [hih]
    simp only [mem_active_iff] at hdt
    have hlt : BUS_CYCLE s < 4 := by rw [bus_cycle_eq_mod]; omega
    have hk2 : (if (s.bus_request_type &&& BUS_OUT) ≠ 0 then 1 else 2) = 1 ∨
        (if (s.bus_request_type &&& BUS_OUT) ≠ 0 then 1 else 2) = 2 := by
      split_ifs <;> simp
    generalize (if (s.bus_request_type &&& BUS_OUT) ≠ 0 then 1 else 2) = k at hdt hk2 ⊢
    generalize BUS_CYCLE s = p at hdt hlt ⊢
    by_cases hact : p = k
    · rw [if_pos hact] at hdt
      rw [if_neg (by omega), if_pos (by omega), hdt]
    · rw [if_neg hact] at hdt
      by_cases hj : (k + 4 - (p + 1) % 4) % 4 < n
      · rw [if_pos hj, if_pos (by omega), hcg hdt]
      · rw [if_neg hj, if_neg (by omega), hdt]

theorem wait_op_log (env : Env) (s : State)
    (hreq : (s.bus_request_type &&& BUS_ACCESS_TYPE) = BUS_MEM ∨
      (s.bus_request_type &&& BUS_ACCESS_TYPE) = BUS_IO) :
    (wait env 4 1 s).bus_log = (s.bus_log ++ [s.bus_request_type]) := by
  show (wait_from env 1 3 1 (wait_tick env 1 0 s)).bus_log = _
  have hdt := wait_tick_op_log env 0 s hreq
  have hph := wait_tick_phase env 1 0 s
  rw [if_neg (fun hh => absurd hh.1 (by decide))] at hph
  have hctl := wait_tick_ctl env 1 0 s
  have hr : (wait_tick env 1 0 s).bus_request_type = s.bus_request_type :=
    congrArg Ctl.bus_request_type hctl
  have hcg : (wait_tick env 1 0 s).bus_log = s.bus_log →
      (wait_tick env 1 0 s).bus_log ++ [s.bus_request_type] =
        (s.bus_log ++ [s.bus_request_type]) := fun h => by rw [h]
  rw [wait_from_op_log env 3 1 _ (by decide) (by decide) (by rw [hr]; exact hreq), hr]
  simp only [mem_active_iff] at hdt
  have hlt : BUS_CYCLE s < 4 := by rw [bus_cycle_eq_mod]; omega
  have hk2 : (if (s.bus_request_type &&& BUS_OUT) ≠ 0 then 1 else 2) = 1 ∨
      (if (s.bus_request_type &&& BUS_OUT) ≠ 0 then 1 else 2) = 2 := by
    split_ifs <;> simp
  generalize (if (s.bus_request_type &&& BUS_OUT) ≠ 0 then 1 else 2) = k at hdt hk2 ⊢
  by_cases hab : s.schedule_fetch ≠ 0
  · rw [if_pos ⟨by decide, rfl, hab⟩] at hph
    rw [if_pos ⟨trivial, hab⟩] at hdt
    rw [hph, if_pos (by simp only [BUS_T2]; omega), hcg hdt]
  · rw [if_neg (fun hh => hab hh.2.2)] at hph
    rw [if_neg (fun hh => hab hh.2)] at hdt
    generalize BUS_CYCLE s = p at hdt hlt hph ⊢
    rw [hph]
    by_cases hact : p = k
    · rw [if_pos hact] at hdt
      rw [if_neg (by omega), hdt]
    · rw [if_neg hact] at hdt
      rw [if_pos (by omega), hcg hdt]

/-- C38: with a memory or IO request latched (any of read or write, byte, HIGH or WIDE),
from every bus phase and with every value of `schedule_fetch`, the four ticks of
`wait(4, 1)` append exactly one entry to the log of physical accesses (`bus_do_mem`,
`bus_do_io`).  Tick by tick: the tick that aborts a scheduled prefetch (first tick,
`schedule_fetch` set) restarts the BIU at T1 and makes no access; any other tick makes the
access iff it starts in T2 and the request is a write, or starts in T3 and the request is a
read. -/
theorem operand_cycle_one_access (env : Env) (s : State)
    (hreq : (s.bus_request_type &&& BUS_ACCESS_TYPE) = BUS_MEM ∨
      (s.bus_request_type &&& BUS_ACCESS_TYPE) = BUS_IO) :
    wait env 4 1 s =
      wait_tick env 1 3 (wait_tick env 1 2 (wait_tick env 1 1 (wait_tick env 1 0 s))) ∧
    (wait env 4 1 s).bus_log = s.bus_log ++ [s.bus_request_type] ∧
    (∀ d, (wait_tick env 1 d s).bus_log =
      if d = 0 ∧ s.schedule_fetch ≠ 0 then s.bus_log
      else if (BUS_CYCLE s = BUS_T2 ∧ (s.bus_request_type &&& BUS_OUT) ≠ 0) ∨
              (BUS_CYCLE s = BUS_T3 ∧ (s.bus_request_type &&& BUS_OUT) = 0)
        then s.bus_log ++ [s.bus_request_type] else s.bus_log) ∧
    (∀ d, (wait_tick env 1 d s).bus_request_type = s.bus_request_type ∧
      BUS_CYCLE (wait_tick env 1 d s) =
        if d = 0 ∧ s.schedule_fetch ≠ 0 then BUS_T2 else (BUS_CYCLE s + 1) % 4) := by
  refine ⟨rfl, wait_op_log env s hreq, fun d => wait_tick_op_log env d s hreq, fun d => ⟨?_, ?_⟩⟩
  · exact congrArg Ctl.bus_request_type (wait_tick_ctl env 1 d s)
  · rw [wait_tick_phase, if_neg (fun hh => absurd hh.1 (by decide))]
    by_cases h : d = 0 ∧ s.schedule_fetch ≠ 0
    · rw [if_pos h, if_pos ⟨by decide, h⟩]
    · rw [if_neg h, if_neg (fun hh => h hh.2)]

theorem operand_cycle_one_access_witness :
    (({ init_state with bus_request_type := BUS_IO ||| BUS_OUT } : State).bus_request_type
      &&& BUS_ACCESS_TYPE) = BUS_IO ∧
    (wait idle_env 4 1 { init_state with bus_request_type := BUS_IO ||| BUS_OUT }).bus_log =
      [ BUS_IO ||| BUS_OUT] :=
  ⟨by decide,
   (operand_cycle_one_access idle_env { init_state with bus_request_type := BUS_IO ||| BUS_OUT }
     (Or.inr (by decide))).2.1⟩

theorem shifted_top_bit (n k l0 I : Nat) (hn : n = 8 ∨ n = 16) (hk : k < n) (hI : I < 2 ^ k) :
    ((l0 * 2 ^ k + I) % 65536).testBit (n - 1) = l0.testBit (n - 1 - k) := by
  have e : (65536 : Nat) = 2 ^ 16 := by norm_num
  have hlt : n - 1 < 16 := by rcases hn with rfl | rfl <;> decide
  rw [e, Nat.testBit_mod_two_pow, decide_eq_true hlt, Bool.true_and, Nat.mul_comm,
    Nat.testBit_mul_pow_two_add _ hI, if_neg (by omega)]

theorem div_pow_step (x m : Nat) (hm : 0 < m) :
    x / 2 ^ (m - 1) = 2 * (x / 2 ^ m) + (if x.testBit (m - 1) then 1 else 0) := by
  have e : x / 2 ^ m = x / 2 ^ (m - 1) / 2 := by
    rw [Nat.div_div_eq_div_mul, ← pow_succ]
    congr 2
    omega
  rw [e, Nat.testBit_to_div_mod]
  by_cases h : x / 2 ^ (m - 1) % 2 = 1
  · rw [decide_eq_true h]; simp only [if_true]; omega
  · rw [decide_eq_false h]; simp only [Bool.false_eq_true, if_false]; omega

theorem top_bit_ge (h n : Nat) (hn : n = 8 ∨ n = 16) (hlt : h < 2 ^ n) :
    (top_bit h n ≠ 0) ↔ 2 ^ (n - 1) ≤ h := by
  rw [top_bit_ne h n hn, Nat.testBit_to_div_mod, decide_eq_true_iff]
  rcases hn with rfl | rfl
  · norm_num at hlt ⊢; omega
  · norm_num at hlt ⊢; omega

/-- One pass of the loop keeps the invariant, in each of its three branches. -/
theorem div_step_arith (n k l0 h0 d l h : Nat) (c : Bool) (hn : n = 8 ∨ n = 16)
    (hk : k < n) (hd : d < 2 ^ n) (hv : div_inv n l0 h0 d k (l, h, c)) :
    (top_bit h n ≠ 0 →
      div_inv n l0 h0 d (k + 1)
        (((l <<< 1) + (if c then 1 else 0)) % 65536,
         (((h <<< 1) + (if decide (top_bit l n ≠ 0) then 1 else 0)) % 65536 + 4294967296
            - d % 4294967296) % 4294967296 % 65536, false)) ∧
    (¬ top_bit h n ≠ 0 →
      d > ((h <<< 1) + (if decide (top_bit l n ≠ 0) then 1 else 0)) % 65536 →
      div_inv n l0 h0 d (k + 1)
        (((l <<< 1) + (if c then 1 else 0)) % 65536,
         ((h <<< 1) + (if decide (top_bit l n ≠ 0) then 1 else 0)) % 65536, true)) ∧
    (¬ top_bit h n ≠ 0 →
      ¬ d > ((h <<< 1) + (if decide (top_bit l n ≠ 0) then 1 else 0)) % 65536 →
      div_inv n l0 h0 d (k + 1)
        (((l <<< 1) + (if c then 1 else 0)) % 65536,
         (((h <<< 1) + (if decide (top_bit l n ≠ 0) then 1 else 0)) % 65536 + 4294967296
            - d % 4294967296) % 4294967296 % 65536, false)) := by
  obtain ⟨Q, I, i1, i2, i3, i4, i5, i6⟩ := hv
  simp only at i1 i2 i3 i4 i5 i6
  have hh : h < 2 ^ n := lt_trans i1 hd
  have tb := top_bit_ge h n hn hh
  have hbit : (top_bit l n ≠ 0) ↔ l0.testBit (n - 1 - k) = true := by
    rw [top_bit_ne l n hn, i4, shifted_top_bit n k l0 I hn hk i3]
  have hstep := div_pow_step l0 (n - k) (by omega)
  have e1 : n - k - 1 = n - 1 - k := by omega
  have e2 : n - (k + 1) = n - 1 - k := by omega
  rw [e1] at hstep
  have p1 : 2 ^ (k + 1) = 2 * 2 ^ k := by rw [pow_succ]; omega
  have p2 : 2 ^ (k + 1 + 1) = 2 * 2 ^ (k + 1) := by rw [pow_succ]; omega
  have m1 : l0 * 2 ^ (k + 1) = 2 * (l0 * 2 ^ k) := by rw [p1]; ring
  have m2 : h0 * 2 ^ (k + 1) = 2 * (h0 * 2 ^ k) := by rw [p1]; ring
  have q1 : (2 * Q + 1) * d = 2 * (Q * d) + d := by ring
  have q0 : (2 * Q) * d = 2 * (Q * d) := by ring
  have sl : ∀ x : Nat, x <<< 1 = 2 * x := fun x => by rw [Nat.shiftLeft_eq]; omega
  have hl : ((l <<< 1) + (if c then 1 else 0)) % 65536
      = (l0 * 2 ^ (k + 1) + (2 * I + (if c then 1 else 0))) % 65536 := by
    rw [sl, i4, m1]; omega
  have hI : 2 * I + (if c then 1 else 0) < 2 ^ (k + 1) := by
    rw [p1]; split_ifs <;> omega
  obtain ⟨β, hβ, hdec, hst⟩ : ∃ β : Nat, β ≤ 1 ∧
      (if decide (top_bit l n ≠ 0) = true then 1 else 0) = β ∧
      l0 / 2 ^ (n - 1 - k) = 2 * (l0 / 2 ^ (n - k)) + β := by
    by_cases hb : l0.testBit (n - 1 - k) = true
    · refine ⟨1, le_refl 1, ?_, ?_⟩
      · rw [decide_eq_true (hbit.2 hb)]; rfl
      · rw [hstep, if_pos hb]
    · refine ⟨0, Nat.zero_le 1, ?_, ?_⟩
      · rw [decide_eq_false (fun hh => hb (hbit.1 hh))]; rfl
      · rw [hstep, if_neg hb]
  rw [hdec, sl h]
  have hq : h0 * 2 ^ (k + 1) + l0 / 2 ^ (n - (k + 1)) = 2 * (Q * d) + (2 * h + β) := by
    rw [e2, hst, m2]; omega
  have hHi : 2 ^ (n - 1) ≤ h →
      ((2 * h + β) % 65536 + 4294967296 - d % 4294967296) % 4294967296 % 65536 + d
        = 2 * h + β := by
    intro t2
    rcases hn with rfl | rfl <;> norm_num at hd t2 hh ⊢ <;> omega
  have hLo : ¬ 2 ^ (n - 1) ≤ h → (2 * h + β) % 65536 = 2 * h + β := by
    intro t2
    rcases hn with rfl | rfl <;> norm_num at hd t2 hh ⊢ <;> omega
  have hSub : ¬ 2 ^ (n - 1) ≤ h → ¬ d > (2 * h + β) % 65536 →
      ((2 * h + β) % 65536 + 4294967296 - d % 4294967296) % 4294967296 % 65536 + d
        = 2 * h + β := by
    intro t2 g
    rcases hn with rfl | rfl <;> norm_num at hd t2 hh g ⊢ <;> omega
  generalize ((2 * h + β) % 65536 + 4294967296 - d % 4294967296) % 4294967296 % 65536 = sb
    at hHi hSub ⊢
  generalize (2 * h + β) % 65536 = hs at hLo hSub ⊢
  refine ⟨fun t => ?_, fun t g => ?_, fun t g => ?_⟩
  · have t3 := hHi (tb.1 t)
    refine ⟨2 * Q + 1, 2 * I + (if c then 1 else 0), ?_, ?_, hI, hl, ?_, ?_⟩
    · show sb < d
      omega
    · show _ = (2 * Q + 1) * d + sb
      rw [hq, q1]; omega
    · show 2 * (2 * I + (if c then 1 else 0)) + (if false = true then 1 else 0) + (2 * Q + 1) + 1
        = 2 ^ (k + 1 + 1)
      rw [p2]; simp only [Bool.false_eq_true, if_false]; omega
    · rw [p1]; omega
  · have t2 : ¬ 2 ^ (n - 1) ≤ h := fun hh => t (tb.2 hh)
    have t3 := hLo t2
    refine ⟨2 * Q, 2 * I + (if c then 1 else 0), g, ?_, hI, hl, ?_, ?_⟩
    · show _ = (2 * Q) * d + hs
      rw [hq, q0]; omega
    · show 2 * (2 * I + (if c then 1 else 0)) + (if true = true then 1 else 0) + (2 * Q) + 1
        = 2 ^ (k + 1 + 1)
      rw [p2]; simp only [if_true]; omega
    · rw [p1]; omega
  · have t2 : ¬ 2 ^ (n - 1) ≤ h := fun hh => t (tb.2 hh)
    have t3 := hSub t2 g
    have t4 := hLo t2
    refine ⟨2 * Q + 1, 2 * I + (if c then 1 else 0), ?_, ?_, hI, hl, ?_, ?_⟩
    · show sb < d
      omega
    · show _ = (2 * Q + 1) * d + sb
      rw [hq, q1]; omega
    · show 2 * (2 * I + (if c then 1 else 0)) + (if false = true then 1 else 0) + (2 * Q + 1) + 1
        = 2 ^ (k + 1 + 1)
      rw [p2]; simp only [Bool.false_eq_true, if_false]; omega
    · rw [p1]; omega

theorem wait2_idle_frame (env : Env) (c1 c2 : Int) (s : State) :
    (wait env c2 0 (wait env c1 0 s)).arch = s.arch ∧
    (wait env c2 0 (wait env c1 0 s)).priv = s.priv ∧
    (env_keeps_mem env → (wait env c2 0 (wait env c1 0 s)).mem = s.mem) := by
  obtain ⟨a, b, c⟩ := wait_idle_frame env c1 s
  obtain ⟨a2, b2, c2'⟩ := wait_idle_frame env c2 (wait env c1 0 s)
  exact ⟨a2.trans a, b2.trans b, fun hk => (c2' hk).trans (c hk)⟩

theorem wait_cpu_src (env : Env) (c : Int) (bus : Nat) (s : State) :
    (wait env c bus s).cpu_src = s.cpu_src :=
  congrArg Arch.cpu_src (wait_arch env c bus s)

theorem div_step_snd (env : Env) (n b : Nat) (x : (Nat × Nat × Bool) × State) :
    (div_step env n b x).2.arch = x.2.arch ∧ (div_step env n b x).2.priv = x.2.priv ∧
    (env_keeps_mem env → (div_step env n b x).2.mem = x.2.mem) := by
  have w8 := wait_idle_frame env 8 x.2
  have w2 := wait2_idle_frame env 8 2 x.2
  have w1 := wait2_idle_frame env 8 1 x.2
  have w12 : (wait env 2 0 (wait env 1 0 (wait env 8 0 x.2))).arch = x.2.arch ∧
      (wait env 2 0 (wait env 1 0 (wait env 8 0 x.2))).priv = x.2.priv ∧
      (env_keeps_mem env → (wait env 2 0 (wait env 1 0 (wait env 8 0 x.2))).mem = x.2.mem) := by
    obtain ⟨a, b, c⟩ := wait_idle_frame env 2 (wait env 1 0 (wait env 8 0 x.2))
    exact ⟨a.trans w1.1, b.trans w1.2.1, fun hk => (c hk).trans (w1.2.2 hk)⟩
  unfold div_step
  dsimp only
  generalize ((x.1.1 <<< 1) + (if x.1.2.2 then 1 else 0)) % 65536 = l1
  generalize ((x.1.2.1 <<< 1) + (if decide (top_bit x.1.1 n ≠ 0) then 1 else 0)) % 65536 = h1
  generalize (h1 + 4294967296 - (wait env 8 0 x.2).cpu_src % 4294967296) % 4294967296 % 65536 = sb
  generalize decide (top_bit x.1.2.1 n ≠ 0) = c2
  generalize wait env 2 0 (wait env 1 0 (wait env 8 0 x.2)) = u12 at w12 ⊢
  generalize wait env 1 0 (wait env 8 0 x.2) = u1 at w1 ⊢
  generalize wait env 2 0 (wait env 8 0 x.2) = u2 at w2 ⊢
  generalize (wait env 8 0 x.2).cpu_src = cs
  generalize wait env 8 0 x.2 = u8 at w8 ⊢
  by_cases hc : c2 = true
  · rw [if_pos hc]
    by_cases hb : b = n - 1
    · rw [if_pos hb]; exact w2
    · rw [if_neg hb]; exact w8
  · rw [if_neg hc]
    by_cases g : cs > h1
    · rw [if_pos g]; exact w8
    · rw [if_neg g]
      by_cases hb : b = n - 1
      · rw [if_pos hb]; exact w12
      · rw [if_neg hb]; exact w1

theorem div_step_fst (env : Env) (n b : Nat) (x : (Nat × Nat × Bool) × State)
    (l0 h0 d k : Nat) (hn : n = 8 ∨ n = 16) (hk : k < n) (hd : d < 2 ^ n)
    (hsrc : x.2.cpu_src = d) (hv : div_inv n l0 h0 d k x.1) :
    div_inv n l0 h0 d (k + 1) (div_step env n b x).1 := by
  have hs1 : (wait env 8 0 x.2).cpu_src = d := (wait_cpu_src env 8 0 x.2).trans hsrc
  obtain ⟨A, B, C⟩ := div_step_arith n k l0 h0 d x.1.1 x.1.2.1 x.1.2.2 hn hk hd hv
  unfold div_step
  dsimp only
  rw [hs1]
  by_cases c2 : top_bit x.1.2.1 n ≠ 0
  · rw [if_pos (decide_eq_true c2)]
    exact A c2
  · rw [if_neg (by rw [decide_eq_false c2]; exact Bool.false_ne_true)]
    by_cases g : d > ((x.1.2.1 <<< 1) + (if decide (top_bit x.1.1 n ≠ 0) then 1 else 0)) % 65536
    · rw [if_pos g]
      exact B c2 g
    · rw [if_neg g]
      exact C c2 g

theorem div_loop_inv (env : Env) (n : Nat) (l0 h0 d : Nat) (hn : n = 8 ∨ n = 16)
    (hd : d < 2 ^ n) (m : Nat) :
    ∀ (b k : Nat) (x : (Nat × Nat × Bool) × State), k + m ≤ n → x.2.cpu_src = d →
      div_inv n l0 h0 d k x.1 →
      div_inv n l0 h0 d (k + m) (div_loop env n m b x).1 ∧
      (div_loop env n m b x).2.arch = x.2.arch ∧ (div_loop env n m b x).2.priv = x.2.priv ∧
      (env_keeps_mem env → (div_loop env n m b x).2.mem = x.2.mem) := by
  induction m with
  | zero =>
    intro b k x _ _ hv
    exact ⟨hv, rfl, rfl, fun _ => rfl⟩
  | succ m ih =>
    intro b k x hk hsrc hv
    obtain ⟨a, p, q⟩ := div_step_snd env n b x
    have hv1 := div_step_fst env n b x l0 h0 d k hn (by omega) hd hsrc hv
    have hsrc0 : (div_step env n b x).2.cpu_src = x.2.cpu_src := congrArg Arch.cpu_src a
    have hsrc1 : (div_step env n b x).2.cpu_src = d := hsrc0.trans hsrc
    obtain ⟨r1, r2, r3, r4⟩ := ih (b + 1) (k + 1) (div_step env n b x) (by omega) hsrc1 hv1
    show div_inv n l0 h0 d (k + (m + 1)) (div_loop env n m (b + 1) (div_step env n b x)).1 ∧ _
    have e : k + (m + 1) = k + 1 + m := by omega
    rw [e]
    exact ⟨r1, r2.trans a, r3.trans p, fun hk => (r4 hk).trans (q hk)⟩

/-- What the invariant says after all `n` passes. -/
theorem div_inv_final (n l0 h0 d : Nat) (x : Nat × Nat × Bool) (hn : n = 8 ∨ n = 16)
    (hl0 : l0 < 2 ^ n) (hv : div_inv n l0 h0 d n x) :
    x.2.1 = (h0 * 2 ^ n + l0) % d ∧
    not16 ((x.1 <<< 1) + (if x.2.2 then 1 else 0)) % 2 ^ n = (h0 * 2 ^ n + l0) / d ∧
    (h0 * 2 ^ n + l0) / d < 2 ^ n := by
  obtain ⟨Q, I, i1, i2, i3, i4, i5, i6⟩ := hv
  rw [Nat.sub_self, pow_zero, Nat.div_one] at i2
  have hQ : (h0 * 2 ^ n + l0) / d = Q := by
    rw [i2, Nat.add_comm, Nat.add_mul_div_right _ _ (by omega : 0 < d), Nat.div_eq_of_lt i1]
    omega
  have hR : (h0 * 2 ^ n + l0) % d = x.2.1 := by
    rw [i2, Nat.add_comm, Nat.add_mul_mod_self_right, Nat.mod_eq_of_lt i1]
  refine ⟨hR.symm, ?_, by rw [hQ]; exact i6⟩
  rw [hQ, i4]
  unfold not16
  rw [Nat.shiftLeft_eq]
  have p : 2 ^ (n + 1) = 2 * 2 ^ n := by rw [pow_succ]; omega
  rw [p] at i5
  generalize (if x.2.2 = true then 1 else 0) = c at i5 ⊢
  rcases hn with rfl | rfl
  · norm_num at i3 i5 i6 hl0 ⊢; omega
  · norm_num at i3 i5 i6 hl0 ⊢; omega

theorem div_inv_init (n l0 h0 d : Nat) (hl0 : l0 < 2 ^ n) (hn : n = 8 ∨ n = 16)
    (hlt : h0 < d) : div_inv n l0 h0 d 0 (l0, h0, true) := by
  refine ⟨0, 0, hlt, ?_, by norm_num, ?_, by norm_num, by norm_num⟩
  · show h0 * 2 ^ 0 + l0 / 2 ^ (n - 0) = 0 * d + h0
    rw [Nat.sub_zero, Nat.div_eq_of_lt hl0]; omega
  · show l0 = (l0 * 2 ^ 0 + 0) % 65536
    have : l0 < 65536 := by
      rcases hn with rfl | rfl <;> norm_num at hl0 <;> omega
    omega

theorem wait_fields (env : Env) (c : Int) (bus : Nat) (s : State) :
    (wait env c bus s).opcode = s.opcode ∧ (wait env c bus s).rmdat = s.rmdat ∧
    (wait env c bus s).cpu_src = s.cpu_src ∧ (wait env c bus s).cpu_mod = s.cpu_mod :=
  ⟨congrArg Arch.opcode (wait_arch env c bus s), congrArg Arch.rmdat (wait_arch env c bus s),
   congrArg Arch.cpu_src (wait_arch env c bus s), congrArg Arch.cpu_mod (wait_arch env c bus s)⟩

/-- The prologue of `x86_div` for DIV and AAM: no sign block. -/
theorem div_prologue_unsigned (env : Env) (l0 h0 : Nat) (s : State)
    (hop : s.opcode ≠ 0xd4) (hrm : (s.rmdat &&& 0x38) ≠ 0x38) :
    div_prologue env l0 h0 s =
      ((if (s.opcode &&& 1) ≠ 0 then s.ax % 65536 else l0 % 65536,
        if (s.opcode &&& 1) ≠ 0 then s.dx % 65536 else h0 % 65536, false, false),
       { wait env 8 0 (wait env 3 0 s) with
         cpu_src := (wait env 8 0 (wait env 3 0 s)).cpu_src &&&
           ((1 <<< (if (s.opcode &&& 1) ≠ 0 then 16 else 8)) - 1) }) := by
  unfold div_prologue
  dsimp only
  rw [if_pos hop, if_neg hrm]

theorem upd_cpu_src_frame (u : State) (c : Nat) :
    ({ u with cpu_src := c } : State).arch = { u.arch with cpu_src := c } ∧
    ({ u with cpu_src := c } : State).priv = u.priv ∧
    ({ u with cpu_src := c } : State).mem = u.mem := ⟨rfl, rfl, rfl⟩

theorem x86_div_eq (env : Env) (f l0 h0 : Nat) (s : State) :
    x86_div env f l0 h0 s =
      if (div_prologue env l0 h0 s).1.2.1 ≥ (div_prologue env l0 h0 s).2.cpu_src then
        (intr_routine env f 0 false
          (if (div_prologue env l0 h0 s).2.opcode ≠ 0xd4
           then wait env 1 0 (div_prologue env l0 h0 s).2
           else (div_prologue env l0 h0 s).2)).map (fun t => (false, t))
      else
        div_epilogue env f (if (s.opcode &&& 1) ≠ 0 then 16 else 8)
          (div_prologue env l0 h0 s).1.2.2.1 (div_prologue env l0 h0 s).1.2.2.2
          (div_loop env (if (s.opcode &&& 1) ≠ 0 then 16 else 8)
            (if (s.opcode &&& 1) ≠ 0 then 16 else 8) 0
            (((div_prologue env l0 h0 s).1.1, (div_prologue env l0 h0 s).1.2.1, true),
             wait env 2 0 (if (div_prologue env l0 h0 s).2.opcode ≠ 0xd4
               then wait env 1 0 (div_prologue env l0 h0 s).2
               else (div_prologue env l0 h0 s).2))) := rfl

theorem div_store_congr (l l' h : Nat) (s : State) (h8 : l % 256 = l' % 256)
    (h16 : (s.opcode &&& 1) ≠ 0 → l % 65536 = l' % 65536) :
    div_store l h s = div_store l' h s := by
  have a : l &&& 0xff = l' &&& 0xff := by
    have e : ∀ x : Nat, x &&& 0xff = x % 256 := fun x => by
      have := mask_eq_mod x 8
      simpa using this
    rw [e, e, h8]
  unfold div_store
  dsimp only
  rw [a]
  by_cases hd : s.opcode = 0xd4
  · rw [if_pos hd, if_pos hd]
  · rw [if_neg hd, if_neg hd]
    by_cases hw : ((set_AL (l' &&& 0xff) (set_AH (h &&& 0xff) s)).opcode &&& 1) ≠ 0
    · rw [if_pos hw, if_pos hw, h16 hw]
    · rw [if_neg hw, if_neg hw]

theorem div_prologue_unsigned_facts (env : Env) (l0 h0 : Nat) (s : State)
    (hop : s.opcode ≠ 0xd4) (hrm : (s.rmdat &&& 0x38) ≠ 0x38) :
    (div_prologue env l0 h0 s).1 =
      (if (s.opcode &&& 1) ≠ 0 then s.ax % 65536 else l0 % 65536,
       if (s.opcode &&& 1) ≠ 0 then s.dx % 65536 else h0 % 65536, false, false) ∧
    (div_prologue env l0 h0 s).2.arch =
      { s.arch with cpu_src := s.cpu_src % 2 ^ (if (s.opcode &&& 1) ≠ 0 then 16 else 8) } ∧
    (div_prologue env l0 h0 s).2.priv = s.priv ∧
    (env_keeps_mem env → (div_prologue env l0 h0 s).2.mem = s.mem) := by
  rw [div_prologue_unsigned env l0 h0 s hop hrm]
  obtain ⟨a, b, c⟩ := wait2_idle_frame env 3 8 s
  generalize wait env 8 0 (wait env 3 0 s) = w at a b c ⊢
  have hc : w.cpu_src = s.cpu_src := congrArg Arch.cpu_src a
  obtain ⟨u1, u2, u3⟩ := upd_cpu_src_frame w
    (w.cpu_src &&& ((1 <<< (if (s.opcode &&& 1) ≠ 0 then 16 else 8)) - 1))
  refine ⟨rfl, ?_, u2.trans b, fun hk => u3.trans (c hk)⟩
  refine u1.trans ?_
  rw [a, hc, mask_eq_mod]

theorem x86_div_unsigned (env : Env) (f l0 h0 : Nat) (s : State) (n l h : Nat)
    (hop : s.opcode ≠ 0xd4) (hrm : (s.rmdat &&& 0x38) ≠ 0x38)
    (hn : n = if (s.opcode &&& 1) ≠ 0 then 16 else 8)
    (hl : l = if (s.opcode &&& 1) ≠ 0 then s.ax % 65536 else l0 % 65536)
    (hh : h = if (s.opcode &&& 1) ≠ 0 then s.dx % 65536 else h0 % 65536)
    (hl0 : l < 2 ^ n) (hlt : h < s.cpu_src % 2 ^ n) :
    ∃ u : State, u.arch = { s.arch with cpu_src := s.cpu_src % 2 ^ n } ∧ u.priv = s.priv ∧
      (env_keeps_mem env → u.mem = s.mem) ∧
      x86_div env f l0 h0 s =
        some (true, div_store ((h * 2 ^ n + l) / (s.cpu_src % 2 ^ n))
                              ((h * 2 ^ n + l) % (s.cpu_src % 2 ^ n)) u) := by
  obtain ⟨p1, p2, p3, p4⟩ := div_prologue_unsigned_facts env l0 h0 s hop hrm
  rw [x86_div_eq]
  rw [← hl, ← hh] at p1
  rw [← hn] at p2 ⊢
  generalize div_prologue env l0 h0 s = P at p1 p2 p3 p4 ⊢
  have q1 : P.1.1 = l := congrArg (fun z : Nat × Nat × Bool × Bool => z.1) p1
  have q2 : P.1.2.1 = h := congrArg (fun z : Nat × Nat × Bool × Bool => z.2.1) p1
  have q3 : P.2.cpu_src = s.cpu_src % 2 ^ n := congrArg Arch.cpu_src p2
  have q4 : P.2.opcode = s.opcode := congrArg Arch.opcode p2
  have q5 : P.2.rmdat = s.rmdat := congrArg Arch.rmdat p2
  rw [q1, q2, q3, q4, if_neg (by omega), if_pos hop]
  have hn2 : n = 8 ∨ n = 16 := by
    rw [hn]; split_ifs
    · exact Or.inr rfl
    · exact Or.inl rfl
  have hd : s.cpu_src % 2 ^ n < 2 ^ n := Nat.mod_lt _ (by positivity)
  obtain ⟨a, b, c⟩ := wait2_idle_frame env 1 2 P.2
  have hsrc : (wait env 2 0 (wait env 1 0 P.2)).cpu_src = s.cpu_src % 2 ^ n :=
    (congrArg Arch.cpu_src a).trans q3
  obtain ⟨r1, r2, r3, r4⟩ := div_loop_inv env n l h (s.cpu_src % 2 ^ n) hn2 hd n 0 0
    ((l, h, true), wait env 2 0 (wait env 1 0 P.2)) (by omega) hsrc
    (div_inv_init n l h _ hl0 hn2 hlt)
  rw [Nat.zero_add] at r1
  obtain ⟨f1, f2, f3⟩ := div_inv_final n l h (s.cpu_src % 2 ^ n) _ hn2 hl0 r1
  generalize div_loop env n n 0 ((l, h, true), wait env 2 0 (wait env 1 0 P.2)) = x
    at r2 r3 r4 f1 f2 f3 ⊢
  have x1 : x.2.opcode = s.opcode := (congrArg Arch.opcode (r2.trans a)).trans q4
  have x2 : x.2.rmdat = s.rmdat := (congrArg Arch.rmdat (r2.trans a)).trans q5
  refine ⟨x.2, (r2.trans a).trans p2, (r3.trans b).trans p3,
    fun hk => ((r4 hk).trans (c hk)).trans (p4 hk), ?_⟩
  have h8 : not16 ((x.1.1 <<< 1) + (if x.1.2.2 then 1 else 0)) % 256
      = ((h * 2 ^ n + l) / (s.cpu_src % 2 ^ n)) % 256 := by
    rw [← f2]
    rcases hn2 with e | e <;> subst e <;> norm_num
  have h16 : (x.2.opcode &&& 1) ≠ 0 →
      not16 ((x.1.1 <<< 1) + (if x.1.2.2 then 1 else 0)) % 65536
        = ((h * 2 ^ n + l) / (s.cpu_src % 2 ^ n)) % 65536 := by
    intro hw
    rw [x1] at hw
    have e : n = 16 := by rw [hn, if_pos hw]
    subst e
    rw [← f2]
    norm_num
  unfold div_epilogue
  dsimp only
  rw [x2, if_neg (fun hh => hrm hh.2), f1, div_store_congr _ _ _ _ h8 h16]

theorem div_store_fields (l h : Nat) (u : State) (hop : u.opcode ≠ 0xd4) :
    (div_store l h u).pc = u.pc ∧ (div_store l h u).seg_cs = u.seg_cs ∧
    (div_store l h u).sp = u.sp ∧ (div_store l h u).flags = u.flags ∧
    (div_store l h u).bus_log = u.bus_log ∧ (div_store l h u).mem = u.mem ∧
    ((u.opcode &&& 1) = 0 →
      AL (div_store l h u) = l % 256 ∧ AH (div_store l h u) = h % 256 ∧
      (div_store l h u).dx = u.dx) ∧
    ((u.opcode &&& 1) ≠ 0 →
      (div_store l h u).ax = l % 65536 ∧ (div_store l h u).dx = h % 65536) := by
  have e : ∀ x : Nat, x &&& 0xff = x % 256 := fun x => by
    have := mask_eq_mod x 8
    simpa using this
  unfold div_store
  rw [if_neg hop]
  dsimp only
  by_cases hw : ((set_AL (l &&& 0xff) (set_AH (h &&& 0xff) u)).opcode &&& 1) ≠ 0
  · rw [if_pos hw]
    exact ⟨rfl, rfl, rfl, rfl, rfl, rfl, fun h0 => absurd h0 hw, fun _ => ⟨rfl, rfl⟩⟩
  · rw [if_neg hw]
    refine ⟨rfl, rfl, rfl, rfl, rfl, rfl, fun _ => ⟨?_, ?_, rfl⟩, fun h1 => absurd h1 hw⟩
    · show (AH (set_AH (h &&& 0xff) u) * 256 + (l &&& 0xff) % 256) % 256 = _
      rw [e l]; omega
    · show (AH (set_AH (h &&& 0xff) u) * 256 + (l &&& 0xff) % 256) / 256 % 256 = _
      have : AH (set_AH (h &&& 0xff) u) = h % 256 := by
        show ((h &&& 0xff) % 256 * 256 + AL u) / 256 % 256 = _
        have := AL_lt u
        rw [e h]; omega
      rw [this, e l]; omega

/-- The quotient and remainder that `exec_div` leaves for an unsigned division without
overflow, and what it does not touch. -/
theorem exec_div_unsigned (env : Env) (f : Nat) (s : State) (n : Nat)
    (hop : s.opcode ≠ 0xd4) (hrm : (s.rmdat &&& 0x38) ≠ 0x38)
    (hn : n = if (s.opcode &&& 1) ≠ 0 then 16 else 8)
    (N : Nat)
    (hN : N = if (s.opcode &&& 1) ≠ 0 then s.dx % 65536 * 65536 + s.ax % 65536
              else s.ax % 65536)
    (d b : Nat) (hd : d = s.cpu_data % 2 ^ n) (hb : b = 2 ^ n)
    (hlt : N / b < d) :
    ∃ t u, exec_div env f s = some t ∧
      t = wait env 1 0 (div_store (N / d) (N % d) u) ∧
      u.arch = { s.arch with cpu_src := d } ∧ u.priv = s.priv ∧
      (env_keeps_mem env → u.mem = s.mem) := by
  subst hd hb
  have hAL := AL_lt s
  have hAH := AH_lt s
  have key := x86_div_unsigned env f (AL { s with cpu_src := s.cpu_data })
    (AH { s with cpu_src := s.cpu_data }) { s with cpu_src := s.cpu_data } n
    (if (s.opcode &&& 1) ≠ 0 then s.ax % 65536 else AL s % 65536)
    (if (s.opcode &&& 1) ≠ 0 then s.dx % 65536 else AH s % 65536)
    hop hrm hn rfl rfl
  have hsplit : (if (s.opcode &&& 1) ≠ 0 then s.dx % 65536 else AH s % 65536) * 2 ^ n +
      (if (s.opcode &&& 1) ≠ 0 then s.ax % 65536 else AL s % 65536) = N ∧
      (if (s.opcode &&& 1) ≠ 0 then s.ax % 65536 else AL s % 65536) < 2 ^ n ∧
      (if (s.opcode &&& 1) ≠ 0 then s.dx % 65536 else AH s % 65536) = N / 2 ^ n := by
    by_cases hw : (s.opcode &&& 1) ≠ 0
    · rw [if_pos hw] at hn hN
      subst hn
      rw [if_pos hw, if_pos hw, hN]
      norm_num
      omega
    · rw [if_neg hw] at hn hN
      subst hn
      rw [if_neg hw, if_neg hw, hN]
      unfold AL AH at *
      norm_num
      omega
  obtain ⟨e1, e2, e3⟩ := hsplit
  obtain ⟨u, a, b, c, hx⟩ := key e2 (by rw [e3]; exact hlt)
  rw [e1] at hx
  refine ⟨_, u, ?_, rfl, a, b, c⟩
  unfold exec_div
  dsimp only
  rw [hx]
  rfl

theorem quot_rem_small (N d b : Nat) (hb : 0 < b) (hd : d ≤ b) (h : N / b < d) :
    N / d % b = N / d ∧ N % d % b = N % d := by
  have hd0 : 0 < d := lt_of_le_of_lt (Nat.zero_le _) h
  have h1 : N < d * b := (Nat.div_lt_iff_lt_mul hb).1 h
  have h2 : N / d < b := by
    rw [Nat.div_lt_iff_lt_mul hd0, Nat.mul_comm]
    exact h1
  have h3 : N % d < d := Nat.mod_lt _ hd0
  exact ⟨Nat.mod_eq_of_lt h2, Nat.mod_eq_of_lt (by omega)⟩

/-- C18: unsigned DIV.  In the DIV case of group 0xF6 with the operand in `cpu_data` and
AH below the divisor, `exec_div` returns with AL = AX div s and AH = AX mod s; in the DIV
case of group 0xF7 with DX below the divisor, with AX = (DX:AX) div s and DX = (DX:AX) mod
s.  No interrupt is raised: CS, pc, SP and FLAGS are unchanged and no bus access is
made. -/
theorem div_unsigned_quotient_remainder (env : Env) (f : Nat) (s : State)
    (hrm : (s.rmdat &&& 0x38) = 0x30) :
    (s.opcode = 0xF6 → AH s < s.cpu_data % 256 →
      ∃ t, exec_div env f s = some t ∧
        AL t = (s.ax % 65536) / (s.cpu_data % 256) ∧
        AH t = (s.ax % 65536) % (s.cpu_data % 256) ∧ t.dx = s.dx ∧
        t.pc = s.pc ∧ t.seg_cs = s.seg_cs ∧ t.sp = s.sp ∧ t.flags = s.flags ∧
        t.bus_log = s.bus_log) ∧
    (s.opcode = 0xF7 → s.dx % 65536 < s.cpu_data % 65536 →
      ∃ t, exec_div env f s = some t ∧
        t.ax = (s.dx % 65536 * 65536 + s.ax % 65536) / (s.cpu_data % 65536) ∧
        t.dx = (s.dx % 65536 * 65536 + s.ax % 65536) % (s.cpu_data % 65536) ∧
        t.pc = s.pc ∧ t.seg_cs = s.seg_cs ∧ t.sp = s.sp ∧ t.flags = s.flags ∧
        t.bus_log = s.bus_log) := by
  have hrm2 : (s.rmdat &&& 0x38) ≠ 0x38 := by rw [hrm]; decide
  constructor
  · intro hop hlt
    have hop1 : s.opcode ≠ 0xd4 := by rw [hop]; decide
    have hw : ¬ (s.opcode &&& 1) ≠ 0 := by rw [hop]; decide
    have hAH : s.ax % 65536 / 256 = AH s := by unfold AH; omega
    obtain ⟨t, u, h1, h2, a, b, -⟩ := exec_div_unsigned env f s 8 hop1 hrm2
      (by rw [if_neg hw]) (s.ax % 65536) (by rw [if_neg hw]) (s.cpu_data % 256) 256
      (by norm_num) (by norm_num) (by rw [hAH]; exact hlt)
    have uo : u.opcode = s.opcode := congrArg Arch.opcode a
    have uo1 : u.opcode ≠ 0xd4 := by rw [uo]; exact hop1
    have uw : (u.opcode &&& 1) = 0 := by rw [uo, hop]; decide
    obtain ⟨d1, d2, d3, d4, d5, -, d7, -⟩ := div_store_fields
      (s.ax % 65536 / (s.cpu_data % 256)) (s.ax % 65536 % (s.cpu_data % 256)) u uo1
    obtain ⟨d7a, d7b, d7c⟩ := d7 uw
    obtain ⟨wa, wp, -⟩ := wait_idle_frame env 1
      (div_store (s.ax % 65536 / (s.cpu_data % 256)) (s.ax % 65536 % (s.cpu_data % 256)) u)
    rw [← h2] at wa wp
    have tax : t.ax = (div_store (s.ax % 65536 / (s.cpu_data % 256))
        (s.ax % 65536 % (s.cpu_data % 256)) u).ax := congrArg Priv.ax wp
    obtain ⟨q1, q2⟩ := quot_rem_small (s.ax % 65536) (s.cpu_data % 256) 256 (by decide)
      (le_of_lt (Nat.mod_lt _ (by decide))) (by rw [hAH]; exact hlt)
    have tAL : AL t = AL (div_store (s.ax % 65536 / (s.cpu_data % 256))
        (s.ax % 65536 % (s.cpu_data % 256)) u) := by unfold AL; rw [tax]
    have tAH : AH t = AH (div_store (s.ax % 65536 / (s.cpu_data % 256))
        (s.ax % 65536 % (s.cpu_data % 256)) u) := by unfold AH; rw [tax]
    refine ⟨t, h1, ?_, ?_, ?_, ?_, ?_, ?_, ?_, ?_⟩
    · rw [tAL, d7a, q1]
    · rw [tAH, d7b, q2]
    · exact (congrArg Arch.dx wa).trans (d7c.trans (congrArg Arch.dx a))
    · exact (congrArg Arch.pc wa).trans (d1.trans (congrArg Arch.pc a))
    · exact (congrArg Arch.seg_cs wa).trans (d2.trans (congrArg Arch.seg_cs a))
    · exact (congrArg Arch.sp wa).trans (d3.trans (congrArg Arch.sp a))
    · exact (congrArg Arch.flags wa).trans (d4.trans (congrArg Arch.flags a))
    · exact (congrArg Priv.bus_log wp).trans (d5.trans (congrArg Priv.bus_log b))
  · intro hop hlt
    have hop1 : s.opcode ≠ 0xd4 := by rw [hop]; decide
    have hw : (s.opcode &&& 1) ≠ 0 := by rw [hop]; decide
    obtain ⟨t, u, h1, h2, a, b, -⟩ := exec_div_unsigned env f s 16 hop1 hrm2
      (by rw [if_pos hw]) (s.dx % 65536 * 65536 + s.ax % 65536) (by rw [if_pos hw])
      (s.cpu_data % 65536) 65536 (by norm_num) (by norm_num) (by omega)
    have uo : u.opcode = s.opcode := congrArg Arch.opcode a
    have uo1 : u.opcode ≠ 0xd4 := by rw [uo]; exact hop1
    have uw : (u.opcode &&& 1) ≠ 0 := by rw [uo]; exact hw
    obtain ⟨d1, d2, d3, d4, d5, -, -, d8⟩ := div_store_fields
      ((s.dx % 65536 * 65536 + s.ax % 65536) / (s.cpu_data % 65536))
      ((s.dx % 65536 * 65536 + s.ax % 65536) % (s.cpu_data % 65536)) u uo1
    obtain ⟨d8a, d8b⟩ := d8 uw
    obtain ⟨wa, wp, -⟩ := wait_idle_frame env 1
      (div_store ((s.dx % 65536 * 65536 + s.ax % 65536) / (s.cpu_data % 65536))
        ((s.dx % 65536 * 65536 + s.ax % 65536) % (s.cpu_data % 65536)) u)
    rw [← h2] at wa wp
    obtain ⟨q1, q2⟩ := quot_rem_small (s.dx % 65536 * 65536 + s.ax % 65536)
      (s.cpu_data % 65536) 65536 (by decide) (le_of_lt (Nat.mod_lt _ (by decide))) (by omega)
    refine ⟨t, h1, ?_, ?_, ?_, ?_, ?_, ?_, ?_⟩
    · exact (congrArg Priv.ax wp).trans (d8a.trans q1)
    · exact (congrArg Arch.dx wa).trans (d8b.trans q2)
    · exact (congrArg Arch.pc wa).trans (d1.trans (congrArg Arch.pc a))
    · exact (congrArg Arch.seg_cs wa).trans (d2.trans (congrArg Arch.seg_cs a))
    · exact (congrArg Arch.sp wa).trans (d3.trans (congrArg Arch.sp a))
    · exact (congrArg Arch.flags wa).trans (d4.trans (congrArg Arch.flags a))
    · exact (congrArg Priv.bus_log wp).trans (d5.trans (congrArg Priv.bus_log b))

theorem div_unsigned_quotient_remainder_witness :
    (div_state.rmdat &&& 0x38) = 0x30 ∧ div_state.opcode = 0xF6 ∧
    AH div_state < div_state.cpu_data % 256 ∧
    ∃ t, exec_div idle_env 3 div_state = some t ∧ AL t = 0x0F ∧ AH t = 0x0F :=
  ⟨by decide, rfl, by decide,
   ((div_unsigned_quotient_remainder idle_env 3 div_state (by decide)).1 rfl (by decide)).elim
     (fun t h => ⟨t, h.1, h.2.1.trans (by decide), h.2.2.1.trans (by decide)⟩)⟩

theorem top_bit_mod (w n : Nat) (hn : n = 8 ∨ n = 16) :
    (top_bit w n ≠ 0) ↔ 2 ^ (n - 1) ≤ w % 2 ^ n := by
  rw [top_bit_ne w n hn, Nat.testBit_to_div_mod, decide_eq_true_iff]
  rcases hn with rfl | rfl
  · norm_num; omega
  · norm_num; omega

/-- The magnitude of the dividend computed by the sign block of IDIV. -/
theorem div_sign_dividend (n l h : Nat) (hn : n = 8 ∨ n = 16) (hl : l < 2 ^ n)
    (hh : h < 2 ^ n) (ht : 2 ^ (n - 1) ≤ h) :
    ((if neg16 l &&& ((1 <<< n) - 1) = 0 then (not16 h + 1) % 65536 else not16 h)
        &&& ((1 <<< n) - 1)) * 2 ^ n + (neg16 l &&& ((1 <<< n) - 1))
      = (signed_val (2 * n) (h * 2 ^ n + l)).natAbs ∧
    (neg16 l &&& ((1 <<< n) - 1)) < 2 ^ n ∧
    signed_val (2 * n) (h * 2 ^ n + l) < 0 := by
  simp only [mask_eq_mod]
  unfold neg16 not16 signed_val
  rcases hn with rfl | rfl
  · norm_num at hl hh ht ⊢
    have h1 : ¬ h * 256 + l < 32768 := by omega
    rw [if_neg h1]
    refine ⟨?_, by omega, by omega⟩
    split_ifs <;> omega
  · norm_num at hl hh ht ⊢
    have h1 : ¬ h * 65536 + l < 2147483648 := by omega
    rw [if_neg h1]
    refine ⟨?_, by omega, by omega⟩
    split_ifs <;> omega

theorem signed_nonneg (n l h : Nat) (hn : n = 8 ∨ n = 16) (hl : l < 2 ^ n)
    (ht : ¬ 2 ^ (n - 1) ≤ h) :
    h * 2 ^ n + l = (signed_val (2 * n) (h * 2 ^ n + l)).natAbs ∧
    ¬ signed_val (2 * n) (h * 2 ^ n + l) < 0 := by
  unfold signed_val
  rcases hn with rfl | rfl
  · norm_num at hl ht ⊢
    have h1 : h * 256 + l < 32768 := by omega
    rw [if_pos h1]
    omega
  · norm_num at hl ht ⊢
    have h1 : h * 65536 + l < 2147483648 := by omega
    rw [if_pos h1]
    omega

theorem divisor_magnitude (n c : Nat) (hn : n = 8 ∨ n = 16) :
    (2 ^ (n - 1) ≤ c % 2 ^ n →
      (((4294967295 - c % 4294967296) + 1) % 4294967296) % 2 ^ n
        = (signed_val n (c % 2 ^ n)).natAbs ∧ signed_val n (c % 2 ^ n) < 0) ∧
    (¬ 2 ^ (n - 1) ≤ c % 2 ^ n →
      c % 2 ^ n = (signed_val n (c % 2 ^ n)).natAbs ∧ ¬ signed_val n (c % 2 ^ n) < 0) := by
  unfold signed_val
  rcases hn with rfl | rfl
  · norm_num
    constructor
    · intro h
      rw [if_neg (by omega)]
      omega
    · intro h
      rw [if_pos (by omega)]
      omega
  · norm_num
    constructor
    · intro h
      rw [if_neg (by omega)]
      omega
    · intro h
      rw [if_pos (by omega)]
      omega

theorem div_sign_eq (env : Env) (n l h : Nat) (s : State) :
    div_sign env n l h s =
      ((if top_bit h n ≠ 0 then neg16 l &&& ((1 <<< n) - 1) else l,
        if top_bit h n ≠ 0 then
          (if neg16 l &&& ((1 <<< n) - 1) = 0 then (not16 h + 1) % 65536 else not16 h)
            &&& ((1 <<< n) - 1)
        else h,
        if top_bit (if top_bit h n ≠ 0 then wait env 4 0 s else s).cpu_src n ≠ 0
          then !(decide (top_bit h n ≠ 0)) else decide (top_bit h n ≠ 0),
        decide (top_bit h n ≠ 0)),
       wait env 9 0
        (if top_bit (if top_bit h n ≠ 0 then wait env 4 0 s else s).cpu_src n ≠ 0 then
          { (if top_bit h n ≠ 0 then wait env 4 0 s else s) with
            cpu_src := ((4294967295 -
              (if top_bit h n ≠ 0 then wait env 4 0 s else s).cpu_src % 4294967296) + 1)
                % 4294967296 }
         else wait env 1 0 (if top_bit h n ≠ 0 then wait env 4 0 s else s))) := by
  unfold div_sign
  dsimp only
  by_cases ht : top_bit h n ≠ 0
  · rw [if_pos ht, if_pos ht, if_pos ht, if_pos ht, decide_eq_true ht]
    dsimp only
    by_cases hc : top_bit (wait env 4 0 s).cpu_src n ≠ 0
    · rw [if_pos hc, if_pos hc, if_pos hc]
    · rw [if_neg hc, if_neg hc, if_neg hc]
  · rw [if_neg ht, if_neg ht, if_neg ht, if_neg ht, decide_eq_false ht]
    dsimp only
    by_cases hc : top_bit s.cpu_src n ≠ 0
    · rw [if_pos hc, if_pos hc, if_pos hc]
    · rw [if_neg hc, if_neg hc, if_neg hc]

theorem wait3_idle_frame (env : Env) (c1 c2 c3 : Int) (s : State) :
    (wait env c3 0 (wait env c2 0 (wait env c1 0 s))).arch = s.arch ∧
    (wait env c3 0 (wait env c2 0 (wait env c1 0 s))).priv = s.priv ∧
    (env_keeps_mem env → (wait env c3 0 (wait env c2 0 (wait env c1 0 s))).mem = s.mem) := by
  obtain ⟨a, b, c⟩ := wait2_idle_frame env c1 c2 s
  obtain ⟨a2, b2, c2'⟩ := wait_idle_frame env c3 (wait env c2 0 (wait env c1 0 s))
  exact ⟨a2.trans a, b2.trans b, fun hk => (c2' hk).trans (c hk)⟩

/-- The state that the sign block of IDIV and the following ticks leave. -/
theorem div_sign_state (env : Env) (n : Nat) (s : State) (hn : n = 8 ∨ n = 16) (t : Prop)
    [Decidable t] :
    ∃ u : State,
      u = wait env 8 0 (wait env 3 0 (wait env 9 0
        (if top_bit (if t then wait env 4 0 s else s).cpu_src n ≠ 0 then
          { (if t then wait env 4 0 s else s) with
            cpu_src := ((4294967295 -
              (if t then wait env 4 0 s else s).cpu_src % 4294967296) + 1) % 4294967296 }
         else wait env 1 0 (if t then wait env 4 0 s else s)))) ∧
      u.cpu_src % 2 ^ n = (signed_val n (s.cpu_src % 2 ^ n)).natAbs ∧
      ((top_bit (if t then wait env 4 0 s else s).cpu_src n ≠ 0) ↔
        signed_val n (s.cpu_src % 2 ^ n) < 0) ∧
      u.arch = { s.arch with cpu_src := u.cpu_src } ∧ u.priv = s.priv ∧
      (env_keeps_mem env → u.mem = s.mem) := by
  refine ⟨_, rfl, ?_⟩
  have hA : (if t then wait env 4 0 s else s).arch = s.arch ∧
      (if t then wait env 4 0 s else s).priv = s.priv ∧
      (env_keeps_mem env → (if t then wait env 4 0 s else s).mem = s.mem) := by
    by_cases ht : t
    · rw [if_pos ht]; exact wait_idle_frame env 4 s
    · rw [if_neg ht]; exact ⟨rfl, rfl, fun _ => rfl⟩
  generalize (if t then wait env 4 0 s else s) = A at hA ⊢
  obtain ⟨a1, a2, a3⟩ := hA
  have hcs : A.cpu_src = s.cpu_src := congrArg Arch.cpu_src a1
  obtain ⟨m1, m2⟩ := divisor_magnitude n s.cpu_src hn
  have tb : (top_bit A.cpu_src n ≠ 0) ↔ 2 ^ (n - 1) ≤ s.cpu_src % 2 ^ n := by
    rw [hcs]; exact top_bit_mod s.cpu_src n hn
  by_cases hc : top_bit A.cpu_src n ≠ 0
  · rw [if_pos hc]
    obtain ⟨w1, w2, w3⟩ := wait3_idle_frame env 9 3 8
      { A with cpu_src := ((4294967295 - A.cpu_src % 4294967296) + 1) % 4294967296 }
    obtain ⟨e1, e2⟩ := m1 (tb.1 hc)
    generalize wait env 8 0 (wait env 3 0 (wait env 9 0
      { A with cpu_src := ((4294967295 - A.cpu_src % 4294967296) + 1) % 4294967296 })) = W
      at w1 w2 w3 ⊢
    have hW : W.cpu_src = ((4294967295 - A.cpu_src % 4294967296) + 1) % 4294967296 :=
      congrArg Arch.cpu_src w1
    refine ⟨?_, ⟨fun _ => e2, fun _ => hc⟩, ?_, w2.trans a2, fun hk => (w3 hk).trans (a3 hk)⟩
    · rw [hW, hcs]; exact e1
    · rw [w1, hW]
      show ({ A.arch with cpu_src := _ } : Arch) = _
      rw [a1]
  · rw [if_neg hc]
    obtain ⟨w1, w2, w3⟩ := wait3_idle_frame env 9 3 8 (wait env 1 0 A)
    obtain ⟨v1, v2, v3⟩ := wait_idle_frame env 1 A
    obtain ⟨e1, e2⟩ := m2 (fun hh => hc (tb.2 hh))
    generalize wait env 8 0 (wait env 3 0 (wait env 9 0 (wait env 1 0 A))) = W at w1 w2 w3 ⊢
    have hW : W.cpu_src = s.cpu_src := (congrArg Arch.cpu_src (w1.trans (v1.trans a1)))
    refine ⟨?_, ⟨fun hh => absurd hh hc, fun hh => absurd hh e2⟩, ?_,
      w2.trans (v2.trans a2), fun hk => (w3 hk).trans ((v3 hk).trans (a3 hk))⟩
    · rw [hW]; exact e1
    · rw [w1, v1, a1, hW]
      rfl

theorem div_prologue_signed (env : Env) (l0 h0 : Nat) (s : State)
    (hop : s.opcode ≠ 0xd4) (hrm : (s.rmdat &&& 0x38) = 0x38) :
    div_prologue env l0 h0 s =
      ((div_sign env (if (s.opcode &&& 1) ≠ 0 then 16 else 8)
          (if (s.opcode &&& 1) ≠ 0 then s.ax % 65536 else l0 % 65536)
          (if (s.opcode &&& 1) ≠ 0 then s.dx % 65536 else h0 % 65536) s).1,
       { wait env 8 0 (wait env 3 0 (div_sign env (if (s.opcode &&& 1) ≠ 0 then 16 else 8)
          (if (s.opcode &&& 1) ≠ 0 then s.ax % 65536 else l0 % 65536)
          (if (s.opcode &&& 1) ≠ 0 then s.dx % 65536 else h0 % 65536) s).2) with
         cpu_src := (wait env 8 0 (wait env 3 0
          (div_sign env (if (s.opcode &&& 1) ≠ 0 then 16 else 8)
          (if (s.opcode &&& 1) ≠ 0 then s.ax % 65536 else l0 % 65536)
          (if (s.opcode &&& 1) ≠ 0 then s.dx % 65536 else h0 % 65536) s).2)).cpu_src &&&
           ((1 <<< (if (s.opcode &&& 1) ≠ 0 then 16 else 8)) - 1) }) := by
  unfold div_prologue
  dsimp only
  rw [if_pos hop, if_pos hrm]

theorem natAbs_signed_lt (n x : Nat) (hn : n = 8 ∨ n = 16) :
    (signed_val n (x % 2 ^ n)).natAbs < 2 ^ n := by
  unfold signed_val
  rcases hn with rfl | rfl
  · norm_num; split_ifs <;> omega
  · norm_num; split_ifs <;> omega

theorem div_prologue_signed_facts (env : Env) (l0 h0 : Nat) (s : State) (n l h : Nat)
    (hop : s.opcode ≠ 0xd4) (hrm : (s.rmdat &&& 0x38) = 0x38)
    (hn : n = if (s.opcode &&& 1) ≠ 0 then 16 else 8)
    (hl : l = if (s.opcode &&& 1) ≠ 0 then s.ax % 65536 else l0 % 65536)
    (hh : h = if (s.opcode &&& 1) ≠ 0 then s.dx % 65536 else h0 % 65536)
    (hl0 : l < 2 ^ n) (hh0 : h < 2 ^ n) :
    (div_prologue env l0 h0 s).1.2.1 * 2 ^ n + (div_prologue env l0 h0 s).1.1
      = (signed_val (2 * n) (h * 2 ^ n + l)).natAbs ∧
    (div_prologue env l0 h0 s).1.1 < 2 ^ n ∧
    (div_prologue env l0 h0 s).2.cpu_src = (signed_val n (s.cpu_src % 2 ^ n)).natAbs ∧
    (div_prologue env l0 h0 s).2.arch =
      { s.arch with cpu_src := (signed_val n (s.cpu_src % 2 ^ n)).natAbs } ∧
    (div_prologue env l0 h0 s).2.priv = s.priv ∧
    (env_keeps_mem env → (div_prologue env l0 h0 s).2.mem = s.mem) := by
  have hn2 : n = 8 ∨ n = 16 := by
    rw [hn]; split_ifs
    · exact Or.inr rfl
    · exact Or.inl rfl
  rw [div_prologue_signed env l0 h0 s hop hrm, ← hn, ← hl, ← hh, div_sign_eq]
  dsimp only
  obtain ⟨u, hu, c1, -, c3, c4, c5⟩ := div_sign_state env n s hn2 (top_bit h n ≠ 0)
  rw [← hu]
  have hlt := natAbs_signed_lt n s.cpu_src hn2
  have hc : u.cpu_src &&& ((1 <<< n) - 1) = (signed_val n (s.cpu_src % 2 ^ n)).natAbs := by
    rw [mask_eq_mod, c1]
  obtain ⟨u1, u2, u3⟩ := upd_cpu_src_frame u (u.cpu_src &&& ((1 <<< n) - 1))
  refine ⟨?_, ?_, hc, ?_, u2.trans c4, fun hk => u3.trans (c5 hk)⟩
  · by_cases ht : top_bit h n ≠ 0
    · rw [if_pos ht, if_pos ht]
      exact (div_sign_dividend n l h hn2 hl0 hh0 ((top_bit_ge h n hn2 hh0).1 ht)).1
    · rw [if_neg ht, if_neg ht]
      exact (signed_nonneg n l h hn2 hl0 (fun hh => ht ((top_bit_ge h n hn2 hh0).2 hh))).1
  · by_cases ht : top_bit h n ≠ 0
    · rw [if_pos ht]
      exact (div_sign_dividend n l h hn2 hl0 hh0 ((top_bit_ge h n hn2 hh0).1 ht)).2.1
    · rw [if_neg ht]
      exact hl0
  · refine u1.trans ?_
    rw [c3, hc]

/-- Both exits of `x86_div` through `intr_routine(0, 0)`: the test before the loop, and for
IDIV the test of the top bit of the quotient after the loop. -/
theorem x86_div_trap (env : Env) (f l0 h0 : Nat) (s : State) (n d : Nat)
    (hop : s.opcode ≠ 0xd4) (hn : n = if (s.opcode &&& 1) ≠ 0 then 16 else 8)
    (pa : (div_prologue env l0 h0 s).2.arch = { s.arch with cpu_src := d })
    (pp : (div_prologue env l0 h0 s).2.priv = s.priv)
    (pl : (div_prologue env l0 h0 s).1.1 < 2 ^ n) (hd : d < 2 ^ n)
    (hcond : (div_prologue env l0 h0 s).1.2.1 ≥ d ∨
      ((s.rmdat &&& 0x38) = 0x38 ∧
        2 ^ (n - 1) ≤ ((div_prologue env l0 h0 s).1.2.1 * 2 ^ n +
          (div_prologue env l0 h0 s).1.1) / d)) :
    ∃ s', x86_div env f l0 h0 s = (intr_routine env f 0 false s').map (fun t => (false, t)) ∧
      s'.arch = { s.arch with cpu_src := d } ∧ s'.priv = s.priv := by
  have hn2 : n = 8 ∨ n = 16 := by
    rw [hn]; split_ifs
    · exact Or.inr rfl
    · exact Or.inl rfl
  rw [x86_div_eq, ← hn]
  generalize div_prologue env l0 h0 s = P at pa pp pl hcond ⊢
  have q3 : P.2.cpu_src = d := congrArg Arch.cpu_src pa
  have q4 : P.2.opcode = s.opcode := congrArg Arch.opcode pa
  have q5 : P.2.rmdat = s.rmdat := congrArg Arch.rmdat pa
  obtain ⟨w1, w2, -⟩ := wait_idle_frame env 1 P.2
  rw [q3, q4, if_pos hop]
  by_cases hge : P.1.2.1 ≥ d
  · rw [if_pos hge]
    exact ⟨_, rfl, w1.trans pa, w2.trans pp⟩
  · rw [if_neg hge]
    have hq := hcond.resolve_left hge
    obtain ⟨a, b, -⟩ := wait2_idle_frame env 1 2 P.2
    have hsrc : (wait env 2 0 (wait env 1 0 P.2)).cpu_src = d :=
      (congrArg Arch.cpu_src a).trans q3
    obtain ⟨r1, r2, r3, -⟩ := div_loop_inv env n P.1.1 P.1.2.1 d hn2 hd n 0 0
      ((P.1.1, P.1.2.1, true), wait env 2 0 (wait env 1 0 P.2)) (by omega) hsrc
      (div_inv_init n P.1.1 P.1.2.1 d pl hn2 (by omega))
    rw [Nat.zero_add] at r1
    obtain ⟨-, f2, -⟩ := div_inv_final n P.1.1 P.1.2.1 d _ hn2 pl r1
    generalize div_loop env n n 0 ((P.1.1, P.1.2.1, true), wait env 2 0 (wait env 1 0 P.2)) = x
      at r2 r3 f2 ⊢
    have x1 : x.2.opcode = s.opcode := (congrArg Arch.opcode (r2.trans a)).trans q4
    have x2 : x.2.rmdat = s.rmdat := (congrArg Arch.rmdat (r2.trans a)).trans q5
    have htop : top_bit (not16 ((x.1.1 <<< 1) + (if x.1.2.2 then 1 else 0))) n ≠ 0 := by
      rw [top_bit_mod _ n hn2, f2]
      exact hq.2
    obtain ⟨v1, v2, -⟩ := wait_idle_frame env 4 x.2
    obtain ⟨v3, v4, -⟩ := wait2_idle_frame env 4 1 x.2
    unfold div_epilogue
    dsimp only
    rw [x1, x2, if_pos ⟨hop, hq.1⟩, if_pos htop]
    refine ⟨_, rfl, ?_, ?_⟩
    · by_cases hm : (wait env 4 0 x.2).cpu_mod = 3
      · rw [if_pos hm]; exact v3.trans ((r2.trans a).trans pa)
      · rw [if_neg hm]; exact v1.trans ((r2.trans a).trans pa)
    · by_cases hm : (wait env 4 0 x.2).cpu_mod = 3
      · rw [if_pos hm]; exact v4.trans ((r3.trans b).trans pp)
      · rw [if_neg hm]; exact v2.trans ((r3.trans b).trans pp)

theorem div_operands (s : State) (n l h N : Nat)
    (hn : n = if (s.opcode &&& 1) ≠ 0 then 16 else 8)
    (hl : l = if (s.opcode &&& 1) ≠ 0 then s.ax % 65536 else AL s % 65536)
    (hh : h = if (s.opcode &&& 1) ≠ 0 then s.dx % 65536 else AH s % 65536)
    (hN : N = if (s.opcode &&& 1) ≠ 0 then s.dx % 65536 * 65536 + s.ax % 65536
              else s.ax % 65536) :
    h * 2 ^ n + l = N ∧ l < 2 ^ n ∧ h < 2 ^ n := by
  have hAL := AL_lt s
  have hAH := AH_lt s
  by_cases hw : (s.opcode &&& 1) ≠ 0
  · rw [if_pos hw] at hn hl hh hN
    subst hn hl hh hN
    norm_num
    omega
  · rw [if_neg hw] at hn hl hh hN
    subst hn hl hh hN
    unfold AL AH at *
    norm_num
    omega

theorem unsigned_overflow_high (n l h d : Nat) (hn : n = 8 ∨ n = 16) (hl : l < 2 ^ n)
    (hov : d = 0 ∨ 2 ^ n ≤ (h * 2 ^ n + l) / d) : h ≥ d := by
  rcases hov with h0 | h1
  · omega
  · by_cases hd : d = 0
    · omega
    · have := (Nat.le_div_iff_mul_le (Nat.pos_of_ne_zero hd)).1 h1
      rcases hn with rfl | rfl
      · norm_num at hl this ⊢; omega
      · norm_num at hl this ⊢; omega

theorem signed_overflow_quotient (n : Nat) (a b : Int) (hn : n = 8 ∨ n = 16)
    (hov : ¬ (-(2 : Int) ^ (n - 1) ≤ a.tdiv b ∧ a.tdiv b ≤ 2 ^ (n - 1) - 1)) :
    2 ^ (n - 1) ≤ a.natAbs / b.natAbs := by
  have e : (a.tdiv b).natAbs = a.natAbs / b.natAbs := Int.natAbs_tdiv a b
  rw [← e]
  generalize a.tdiv b = q at hov ⊢
  rcases hn with rfl | rfl
  · norm_num at hov ⊢; omega
  · norm_num at hov ⊢; omega

/-- C17: DIV and IDIV in both widths.  When the divisor is 0 or the quotient does not fit
the destination, `x86_div` ends in `intr_routine(0, 0)` and returns 0 (it does return, given
the 3 ticks of `pfq_do_suspend`), and the state in which the interrupt routine is entered
has the AX and DX of the state in which `x86_div` was called. -/
theorem div_overflow_traps (env : Env) (f : Nat) (s : State)
    (hop : s.opcode = 0xF6 ∨ s.opcode = 0xF7)
    (hrm : (s.rmdat &&& 0x38) = 0x30 ∨ (s.rmdat &&& 0x38) = 0x38)
    (hov : div_overflow s) :
    ∃ s', x86_div env f (AL s) (AH s) s =
        (intr_routine env f 0 false s').map (fun t => (false, t)) ∧
      s'.ax = s.ax ∧ s'.dx = s.dx ∧
      (3 ≤ f → ∃ t, x86_div env f (AL s) (AH s) s = some (false, t)) := by
  have hop1 : s.opcode ≠ 0xd4 := by rcases hop with h | h <;> rw [h] <;> decide
  obtain ⟨n, hn⟩ : ∃ n, n = if (s.opcode &&& 1) ≠ 0 then 16 else 8 := ⟨_, rfl⟩
  obtain ⟨l, hl⟩ : ∃ l, l = if (s.opcode &&& 1) ≠ 0 then s.ax % 65536 else AL s % 65536 :=
    ⟨_, rfl⟩
  obtain ⟨h, hh⟩ : ∃ h, h = if (s.opcode &&& 1) ≠ 0 then s.dx % 65536 else AH s % 65536 :=
    ⟨_, rfl⟩
  obtain ⟨N, hN⟩ : ∃ N, N = if (s.opcode &&& 1) ≠ 0 then s.dx % 65536 * 65536 + s.ax % 65536
      else s.ax % 65536 := ⟨_, rfl⟩
  have hn2 : n = 8 ∨ n = 16 := by
    rw [hn]; split_ifs
    · exact Or.inr rfl
    · exact Or.inl rfl
  obtain ⟨o1, o2, o3⟩ := div_operands s n l h N hn hl hh hN
  unfold div_overflow at hov
  dsimp only at hov
  rw [← hn, ← hN] at hov
  have key : ∃ s', x86_div env f (AL s) (AH s) s =
        (intr_routine env f 0 false s').map (fun t => (false, t)) ∧
      s'.ax = s.ax ∧ s'.dx = s.dx := by
    rcases hrm with hr | hr
    · have hr2 : (s.rmdat &&& 0x38) ≠ 0x38 := by rw [hr]; decide
      rw [if_neg hr2, ← o1] at hov
      obtain ⟨p1, p2, p3, -⟩ := div_prologue_unsigned_facts env (AL s) (AH s) s hop1 hr2
      rw [← hl, ← hh] at p1
      rw [← hn] at p2
      have q1 : (div_prologue env (AL s) (AH s) s).1.1 = l :=
        congrArg (fun z : Nat × Nat × Bool × Bool => z.1) p1
      have q2 : (div_prologue env (AL s) (AH s) s).1.2.1 = h :=
        congrArg (fun z : Nat × Nat × Bool × Bool => z.2.1) p1
      obtain ⟨s', e, a, b⟩ := x86_div_trap env f (AL s) (AH s) s n (s.cpu_src % 2 ^ n) hop1 hn
        p2 p3 (by rw [q1]; exact o2) (Nat.mod_lt _ (by positivity))
        (Or.inl (by rw [q2]; exact unsigned_overflow_high n l h _ hn2 o2 hov))
      exact ⟨s', e, (congrArg Priv.ax b), (congrArg Arch.dx a)⟩
    · rw [if_pos hr, ← o1] at hov
      obtain ⟨p1, p2, p3, p4, p5, -⟩ :=
        div_prologue_signed_facts env (AL s) (AH s) s n l h hop1 hr hn hl hh o2 o3
      have hd := natAbs_signed_lt n s.cpu_src hn2
      obtain ⟨s', e, a, b⟩ := x86_div_trap env f (AL s) (AH s) s n
        (signed_val n (s.cpu_src % 2 ^ n)).natAbs hop1 hn p4 p5 p2 hd (by
          by_cases hge : (div_prologue env (AL s) (AH s) s).1.2.1 ≥
              (signed_val n (s.cpu_src % 2 ^ n)).natAbs
          · exact Or.inl hge
          · refine Or.inr ⟨hr, ?_⟩
            rw [p1]
            apply signed_overflow_quotient n _ _ hn2
            rcases hov with h0 | h1
            · exfalso
              rw [h0] at hge
              exact hge (Nat.zero_le _)
            · exact h1)
      exact ⟨s', e, (congrArg Priv.ax b), (congrArg Arch.dx a)⟩
  obtain ⟨s', e, a, b⟩ := key
  refine ⟨s', e, a, b, fun hf => ?_⟩
  obtain ⟨t, ht, -⟩ := intr_routine_ovr env f 0 false s' hf
  exact ⟨t, by rw [e, ht]; rfl⟩

theorem idiv_state_overflow : div_overflow idiv_state := by
  unfold div_overflow idiv_state init_state signed_val
  decide

theorem div_by_zero_overflow : div_overflow { div_state with cpu_src := 0 } := by
  unfold div_overflow div_state init_state
  decide

theorem div_overflow_traps_witness :
    (div_overflow idiv_state ∧
      ∃ t, x86_div idle_env 3 (AL idiv_state) (AH idiv_state) idiv_state = some (false, t)) ∧
    (div_overflow { div_state with cpu_src := 0 } ∧
      ∃ t, x86_div idle_env 3 (AL { div_state with cpu_src := 0 })
        (AH { div_state with cpu_src := 0 }) { div_state with cpu_src := 0 } = some (false, t)) :=
  ⟨⟨idiv_state_overflow,
    (div_overflow_traps idle_env 3 idiv_state (Or.inl rfl) (Or.inr (by decide))
      idiv_state_overflow).elim (fun _ h => h.2.2.2 (le_refl 3))⟩,
   ⟨div_by_zero_overflow,
    (div_overflow_traps idle_env 3 { div_state with cpu_src := 0 } (Or.inl rfl)
      (Or.inl (by decide)) div_by_zero_overflow).elim (fun _ h => h.2.2.2 (le_refl 3))⟩⟩

theorem mod_pow_succ_bit (A k : Nat) :
    A % 2 ^ (k + 1) = A % 2 ^ k + (if A.testBit k then 1 else 0) * 2 ^ k := by
  rw [Nat.testBit_to_div_mod]
  have h1 : A % 2 ^ (k + 1) = A % 2 ^ k + 2 ^ k * (A / 2 ^ k % 2) := by
    rw [pow_succ, Nat.mod_mul]
  rw [h1]
  by_cases h : A / 2 ^ k % 2 = 1
  · rw [decide_eq_true h, h, if_pos rfl]
    omega
  · have h0 : A / 2 ^ k % 2 = 0 := by omega
    rw [decide_eq_false h, h0, if_neg Bool.false_ne_true]
    omega

/-- One pass of the loop of `mul` keeps the invariant; `yc` and `yk` are the sum and the
carry out of the conditional addition. -/
theorem mul_step_arith (n A B k a c : Nat) (m : Bool) (yc : Nat) (yk : Bool)
    (hn : n = 8 ∨ n = 16) (hk : k < n) (hB : B < 2 ^ n)
    (hv : mul_inv n A B k (a, c, m))
    (hy : yc + (if yk then 2 ^ n else 0) = c + (if m then B else 0)) (hyc : yc < 2 ^ n) :
    mul_inv n A B (k + 1)
      (((a >>> 1) + (if decide ((yc &&& 1) ≠ 0) then 1 <<< (n - 1) else 0)) % 65536,
       ((yc >>> 1) + (if yk then 1 <<< (n - 1) else 0)) % 65536,
       decide ((a &&& 1) ≠ 0)) := by
  obtain ⟨i1, i2, i3, i4, i5⟩ := hv
  simp only at i1 i2 i3 i4 i5
  have sr : ∀ x : Nat, x >>> 1 = x / 2 := fun x => by rw [Nat.shiftRight_eq_div_pow, pow_one]
  have a1 : ∀ x : Nat, x &&& 1 = x % 2 := fun x => Nat.and_one_is_mod x
  have hb : (1 : Nat) <<< (n - 1) = 2 ^ (n - 1) := Nat.one_shiftLeft _
  simp only [sr, a1, hb]
  -- the pieces
  obtain ⟨s0, hs0, hs0v⟩ : ∃ s0 : Nat, s0 ≤ 1 ∧
      (if decide (yc % 2 ≠ 0) = true then 2 ^ (n - 1) else 0) = s0 * 2 ^ (n - 1) ∧
      yc % 2 = s0 := by
    by_cases h : yc % 2 ≠ 0
    · exact ⟨1, le_refl 1, by simp [h], by omega⟩
    · exact ⟨0, Nat.zero_le 1, by simp [h], by omega⟩
  obtain ⟨k0, hk0, hk0v⟩ : ∃ k0 : Nat, k0 ≤ 1 ∧
      (if yk = true then 2 ^ (n - 1) else 0) = k0 * 2 ^ (n - 1) ∧
      (if yk = true then 2 ^ n else 0) = k0 * 2 ^ n := by
    cases yk
    · exact ⟨0, Nat.zero_le 1, by simp, by simp⟩
    · exact ⟨1, le_refl 1, by simp, by simp⟩
  obtain ⟨m0, hm0, hm0v, hm0t⟩ : ∃ m0 : Nat, m0 ≤ 1 ∧ (if m = true then B else 0) = m0 * B ∧
      (if A.testBit k then 1 else 0) = m0 := by
    rw [← i3]
    cases m
    · exact ⟨0, Nat.zero_le 1, by simp, by simp⟩
    · exact ⟨1, le_refl 1, by simp, by simp⟩
  rw [hs0v.1, hk0v.1]
  rw [hk0v.2, hm0v] at hy
  have pn : 2 ^ n = 2 * 2 ^ (n - 1) := by
    rw [← pow_succ']; congr 1; omega
  have pk : 2 ^ (k + 1) = 2 * 2 ^ k := by rw [pow_succ]; omega
  have pnk : 2 ^ (n - k) = 2 * 2 ^ (n - (k + 1)) := by
    rw [← pow_succ']; congr 1; omega
  have psplit : 2 ^ (n - 1) = 2 ^ k * 2 ^ (n - (k + 1)) := by
    rw [← pow_add]; congr 1; omega
  have hpos : 0 < 2 ^ (n - (k + 1)) := by positivity
  have hP : 2 ^ (n - 1) ≤ 32768 := by
    rcases hn with rfl | rfl <;> norm_num
  have hc1b : yc / 2 + k0 * 2 ^ (n - 1) < 2 ^ n := by
    rcases Nat.le_one_iff_eq_zero_or_eq_one.1 hk0 with rfl | rfl
    · rw [Nat.zero_mul]; omega
    · rw [Nat.one_mul]; omega
  have ha1b : a / 2 + s0 * 2 ^ (n - 1) < 2 ^ n := by
    rcases Nat.le_one_iff_eq_zero_or_eq_one.1 hs0 with rfl | rfl
    · rw [Nat.zero_mul]; omega
    · rw [Nat.one_mul]; omega
  have hc1 : (yc / 2 + k0 * 2 ^ (n - 1)) % 65536 = yc / 2 + k0 * 2 ^ (n - 1) :=
    Nat.mod_eq_of_lt (by omega)
  have ha1 : (a / 2 + s0 * 2 ^ (n - 1)) % 65536 = a / 2 + s0 * 2 ^ (n - 1) :=
    Nat.mod_eq_of_lt (by omega)
  rw [hc1, ha1]
  -- S = c + m B = 2 * c1 + s0
  have hS : (yc / 2 + k0 * 2 ^ (n - 1)) * 2 + s0 = c + m0 * B := by
    have e : k0 * 2 ^ n = 2 * (k0 * 2 ^ (n - 1)) := by rw [pn]; ring
    have e2 := hs0v.2
    omega
  have hdiv : (a / 2 + s0 * 2 ^ (n - 1)) / 2 ^ (n - (k + 1)) = a / 2 ^ (n - k) + s0 * 2 ^ k := by
    rw [psplit, ← Nat.mul_assoc, Nat.add_mul_div_right _ _ hpos, Nat.div_div_eq_div_mul, ← pnk]
  have hmod : (a / 2 + s0 * 2 ^ (n - 1)) % 2 ^ (n - (k + 1)) = A / 2 ^ (k + 1 + 1) := by
    rw [psplit, ← Nat.mul_assoc, Nat.add_mul_mod_self_right]
    have e1 : a / 2 % 2 ^ (n - (k + 1)) = a % 2 ^ (n - k) / 2 := by
      rw [pnk, Nat.mod_mul_right_div_self]
    rw [e1, i2, Nat.div_div_eq_div_mul, ← pow_succ]
  have hbit : decide (a % 2 ≠ 0) = A.testBit (k + 1) := by
    rw [Nat.testBit_to_div_mod, ← i2]
    have : a % 2 ^ (n - k) % 2 = a % 2 := by
      rw [pnk]; exact Nat.mod_mul_right_mod _ _ _
    rw [this]
    by_cases h : a % 2 = 1
    · rw [decide_eq_true (by omega), decide_eq_true h]
    · rw [decide_eq_false (by omega), decide_eq_false h]
  refine ⟨?_, hmod, hbit, ?_, ?_⟩
  · show (yc / 2 + k0 * 2 ^ (n - 1)) * 2 ^ (k + 1) + _ = _
    rw [hdiv, mod_pow_succ_bit, hm0t]
    have e1 : (yc / 2 + k0 * 2 ^ (n - 1)) * 2 ^ (k + 1) + s0 * 2 ^ k
        = c * 2 ^ k + m0 * (B * 2 ^ k) := by
      calc (yc / 2 + k0 * 2 ^ (n - 1)) * 2 ^ (k + 1) + s0 * 2 ^ k
          = ((yc / 2 + k0 * 2 ^ (n - 1)) * 2 + s0) * 2 ^ k := by rw [pk]; ring
        _ = (c + m0 * B) * 2 ^ k := by rw [hS]
        _ = c * 2 ^ k + m0 * (B * 2 ^ k) := by ring
    have e2 : (A % 2 ^ k + m0 * 2 ^ k) * B = A % 2 ^ k * B + m0 * (B * 2 ^ k) := by ring
    rw [e2, ← i1]
    omega
  · exact hc1b
  · exact ha1b

theorem upd_flags_mulctl (f : Nat) (t : State) :
    ({ t with flags := f } : State).mulctl = t.mulctl := rfl

theorem upd_data_mulctl (f : Nat) (t : State) :
    ({ t with cpu_data := f } : State).mulctl = t.mulctl := rfl

theorem upd_operands_mulctl (f g : Nat) (t : State) :
    ({ t with cpu_src := f, cpu_dest := g } : State).mulctl = t.mulctl := rfl

theorem upd_result_mulctl (f g : Nat) (t : State) :
    ({ t with cpu_data := f, cpu_dest := g } : State).mulctl = t.mulctl := rfl

theorem set_cf_mulctl (c : Bool) (t : State) : (set_cf c t).mulctl = t.mulctl := rfl
theorem set_of_mulctl (c : Nat) (t : State) : (set_of c t).mulctl = t.mulctl := rfl
theorem set_af_mulctl (c : Bool) (t : State) : (set_af c t).mulctl = t.mulctl := rfl
theorem set_zf_ex_mulctl (c : Bool) (t : State) : (set_zf_ex c t).mulctl = t.mulctl := rfl
theorem set_sf_mulctl (c : Nat) (t : State) : (set_sf c t).mulctl = t.mulctl := rfl
theorem set_pf_mulctl (t : State) : (set_pf t).mulctl = t.mulctl := rfl

theorem add_mulctl (bits : Nat) (s : State) : (add bits s).mulctl = s.mulctl := by
  simp only [add, set_apzs, set_pzs, set_zf, do_af, set_of_add]
  split
  · rw [upd_flags_mulctl, set_of_mulctl, set_af_mulctl, set_sf_mulctl, set_zf_ex_mulctl,
      set_pf_mulctl, upd_data_mulctl]
  · rw [set_cf_mulctl, set_of_mulctl, set_af_mulctl, set_sf_mulctl, set_zf_ex_mulctl,
      set_pf_mulctl, upd_data_mulctl]

theorem mulctl_of_frame (s t : State) (h1 : t.arch = s.arch) (h2 : t.priv = s.priv) :
    t.mulctl = s.mulctl := by
  have a1 : t.opcode = s.opcode := congrArg Arch.opcode h1
  have a2 : t.rmdat = s.rmdat := congrArg Arch.rmdat h1
  have a3 : t.cpu_alu_op = s.cpu_alu_op := congrArg Arch.cpu_alu_op h1
  have a4 : t.is_nec = s.is_nec := congrArg Arch.is_nec h1
  have a5 : t.ax = s.ax := congrArg Priv.ax h2
  have a6 : t.dx = s.dx := congrArg Arch.dx h1
  unfold State.mulctl
  rw [a1, a2, a3, a4, a5, a6]

theorem mulctl_fields (s t : State) (h : t.mulctl = s.mulctl) :
    t.opcode = s.opcode ∧ t.rmdat = s.rmdat ∧ t.cpu_alu_op = s.cpu_alu_op ∧
    t.is_nec = s.is_nec ∧ t.ax = s.ax ∧ t.dx = s.dx :=
  ⟨congrArg MulCtl.opcode h, congrArg MulCtl.rmdat h, congrArg MulCtl.cpu_alu_op h,
   congrArg MulCtl.is_nec h, congrArg MulCtl.ax h, congrArg MulCtl.dx h⟩

theorem wait_mulctl (env : Env) (c : Int) (s : State) :
    (wait env c 0 s).mulctl = s.mulctl :=
  mulctl_of_frame s _ (wait_idle_frame env c s).1 (wait_idle_frame env c s).2.1

/-- The conditional addition of one pass: sum and carry out. -/
theorem mul_add_carry (env : Env) (n b c : Nat) (s1 : State) (hn : n = 8 ∨ n = 16)
    (hc : c < 2 ^ n) (halu : s1.cpu_alu_op ≠ 2) :
    ((add n { s1 with cpu_src := c, cpu_dest := b }).cpu_data &&& ((1 <<< n) - 1)) +
      (if decide (((wait env 1 0 (add n { s1 with cpu_src := c, cpu_dest := b })).flags
          &&& C_FLAG) ≠ 0) then 2 ^ n else 0) = c + b % 2 ^ n ∧
    ((add n { s1 with cpu_src := c, cpu_dest := b }).cpu_data &&& ((1 <<< n) - 1)) < 2 ^ n := by
  obtain ⟨h1, -, -, h4, -⟩ := add_flags_tb n { s1 with cpu_src := c, cpu_dest := b }
  have hf : (wait env 1 0 (add n { s1 with cpu_src := c, cpu_dest := b })).flags
      = (add n { s1 with cpu_src := c, cpu_dest := b }).flags :=
    congrArg Arch.flags (wait_arch env 1 0 _)
  rw [hf, h1]
  have hfl : ((add n { s1 with cpu_src := c, cpu_dest := b }).flags &&& C_FLAG ≠ 0) ↔
      (add n { s1 with cpu_src := c, cpu_dest := b }).flags.testBit 0 = true :=
    flag_tb _ C_FLAG 0 rfl
  rw [if_neg (fun hh => halu hh.1)] at h4
  simp only [mask_eq_mod] at h4 ⊢
  have hd : decide ((add n { s1 with cpu_src := c, cpu_dest := b }).flags &&& C_FLAG ≠ 0)
      = decide (c % 2 ^ n > (b + c) % 4294967296 % 2 ^ n) := by
    rw [← h4]
    by_cases hh : (add n { s1 with cpu_src := c, cpu_dest := b }).flags.testBit 0 = true
    · rw [decide_eq_true (hfl.2 hh), hh]
    · rw [decide_eq_false (fun x => hh (hfl.1 x))]
      simpa using hh
  rw [hd]
  show (b + c) % 4294967296 % 2 ^ n + _ = _ ∧ (b + c) % 4294967296 % 2 ^ n < 2 ^ n
  rcases hn with rfl | rfl
  · norm_num at hc ⊢
    constructor
    · split_ifs <;> omega
    · omega
  · norm_num at hc ⊢
    constructor
    · split_ifs <;> omega
    · omega

theorem mul_step_snd (env : Env) (n b : Nat) (x : (Nat × Nat × Bool) × State) :
    (mul_step env n b x).2.mulctl = x.2.mulctl := by
  have w7 := wait_mulctl env 7 x.2
  have w1 : (wait env 1 0 (add n { wait env 7 0 x.2 with cpu_src := x.1.2.1, cpu_dest := b })).mulctl
      = x.2.mulctl := by
    rw [wait_mulctl, add_mulctl, upd_operands_mulctl]
    exact w7
  unfold mul_step
  dsimp only
  generalize wait env 1 0 (add n { wait env 7 0 x.2 with cpu_src := x.1.2.1, cpu_dest := b })
    = u1 at w1 ⊢
  generalize wait env 7 0 x.2 = u7 at w7 ⊢
  by_cases hm : x.1.2.2 = true
  · rw [if_pos hm]; exact w1
  · rw [if_neg hm]; exact w7

theorem mul_step_fst (env : Env) (n b A k : Nat) (x : (Nat × Nat × Bool) × State)
    (hn : n = 8 ∨ n = 16) (hk : k < n) (halu : x.2.cpu_alu_op ≠ 2)
    (hv : mul_inv n A (b % 2 ^ n) k x.1) :
    mul_inv n A (b % 2 ^ n) (k + 1) (mul_step env n b x).1 := by
  have hB : b % 2 ^ n < 2 ^ n := Nat.mod_lt _ (by positivity)
  have halu7 : (wait env 7 0 x.2).cpu_alu_op ≠ 2 := by
    rw [(mulctl_fields _ _ (wait_mulctl env 7 x.2)).2.2.1]
    exact halu
  obtain ⟨c1, c2⟩ := mul_add_carry env n b x.1.2.1 (wait env 7 0 x.2) hn hv.2.2.2.1 halu7
  unfold mul_step
  dsimp only
  generalize wait env 7 0 x.2 = u7 at c1 c2 ⊢
  by_cases hm : x.1.2.2 = true
  · rw [if_pos hm]
    dsimp only
    refine mul_step_arith n A (b % 2 ^ n) k x.1.1 x.1.2.1 x.1.2.2 _ _ hn hk hB hv ?_ c2
    rw [if_pos hm]
    exact c1
  · rw [if_neg hm]
    dsimp only
    refine mul_step_arith n A (b % 2 ^ n) k x.1.1 x.1.2.1 x.1.2.2 _ false hn hk hB hv ?_
      hv.2.2.2.1
    rw [if_neg hm, if_neg Bool.false_ne_true]

theorem mul_loop_inv (env : Env) (n b A : Nat) (hn : n = 8 ∨ n = 16) (m : Nat) :
    ∀ (k : Nat) (x : (Nat × Nat × Bool) × State), k + m ≤ n → x.2.cpu_alu_op ≠ 2 →
      mul_inv n A (b % 2 ^ n) k x.1 →
      mul_inv n A (b % 2 ^ n) (k + m) (mul_loop env n b m x).1 ∧
      (mul_loop env n b m x).2.mulctl = x.2.mulctl := by
  induction m with
  | zero =>
    intro k x _ _ hv
    exact ⟨hv, rfl⟩
  | succ m ih =>
    intro k x hk halu hv
    have a := mul_step_snd env n b x
    have hv1 := mul_step_fst env n b A k x hn (by omega) halu hv
    have halu1 : (mul_step env n b x).2.cpu_alu_op ≠ 2 := by
      rw [(mulctl_fields _ _ a).2.2.1]
      exact halu
    obtain ⟨r1, r2⟩ := ih (k + 1) (mul_step env n b x) (by omega) halu1 hv1
    show mul_inv n A (b % 2 ^ n) (k + (m + 1)) (mul_loop env n b m (mul_step env n b x)).1 ∧ _
    have e : k + (m + 1) = k + 1 + m := by omega
    rw [e]
    exact ⟨r1, r2.trans a⟩

/-- What the invariant says after all `n` passes: `c` and `a` are the two halves of the
product. -/
theorem mul_inv_final (n A B : Nat) (x : Nat × Nat × Bool) (hA : A < 2 ^ n)
    (hv : mul_inv n A B n x) :
    x.2.1 * 2 ^ n + x.1 = A * B ∧ x.1 < 2 ^ n ∧ x.2.1 < 2 ^ n := by
  obtain ⟨i1, -, -, i4, i5⟩ := hv
  rw [Nat.sub_self, pow_zero, Nat.div_one, Nat.mod_eq_of_lt hA] at i1
  exact ⟨i1, i5, i4⟩

theorem mul_inv_init (n A B : Nat) (hA : A < 2 ^ n) :
    mul_inv n A B 0 (A >>> 1, 0, decide ((A &&& 1) ≠ 0)) := by
  have sr : A >>> 1 = A / 2 := by rw [Nat.shiftRight_eq_div_pow, pow_one]
  have a1 : A &&& 1 = A % 2 := Nat.and_one_is_mod A
  have hlt : A / 2 < 2 ^ n := lt_of_le_of_lt (Nat.div_le_self _ _) hA
  refine ⟨?_, ?_, ?_, by positivity, ?_⟩
  · show 0 * 2 ^ 0 + (A >>> 1) / 2 ^ (n - 0) = A % 2 ^ 0 * B
    rw [sr, Nat.sub_zero, Nat.div_eq_of_lt hlt, pow_zero, Nat.mod_one]
    omega
  · show (A >>> 1) % 2 ^ (n - 0) = A / 2 ^ (0 + 1)
    rw [sr, Nat.sub_zero, Nat.mod_eq_of_lt hlt]
    norm_num
  · show decide ((A &&& 1) ≠ 0) = A.testBit 0
    rw [a1, Nat.testBit_to_div_mod]
    by_cases h : A % 2 = 1
    · simp [h]
    · have h0 : A % 2 = 0 := by omega
      simp [h0]
  · show A >>> 1 < 2 ^ n
    rw [sr]; exact hlt

theorem mul_sign_fst (env : Env) (n a b : Nat) (s : State) :
    (mul_sign env n a b s).1 =
      (if top_bit a n = 0 then a else neg16 a, if top_bit b n ≠ 0 then neg16 b else b,
        if top_bit a n = 0 then decide (top_bit b n ≠ 0) else decide (top_bit b n = 0)) := by
  unfold mul_sign
  dsimp only
  by_cases ha : top_bit a n = 0
  · rw [if_pos ha, if_pos ha, if_pos ha]
    by_cases hb : top_bit b n ≠ 0
    · rw [if_pos hb, if_pos hb, decide_eq_true hb]
    · rw [if_neg hb, if_neg hb, decide_eq_false hb]
  · rw [if_neg ha, if_neg ha, if_neg ha]
    by_cases hb : top_bit b n ≠ 0
    · rw [if_pos hb, if_pos hb, decide_eq_false (fun h => hb h)]
    · rw [if_neg hb, if_neg hb, decide_eq_true (not_not.1 hb)]

theorem mul_sign_snd (env : Env) (n a b : Nat) (s : State) :
    (mul_sign env n a b s).2.mulctl = s.mulctl := by
  unfold mul_sign
  dsimp only
  rw [wait_mulctl]
  by_cases ha : top_bit a n = 0
  · rw [if_pos ha]
    by_cases hb : top_bit b n ≠ 0
    · rw [if_pos hb]
      dsimp only
      split_ifs <;> simp only [wait_mulctl]
    · rw [if_neg hb]
  · rw [if_neg ha]
    by_cases hb : top_bit b n ≠ 0
    · rw [if_pos hb]
      dsimp only
      rw [wait_mulctl]
    · rw [if_neg hb]
      dsimp only
      rw [wait_mulctl, wait_mulctl]

theorem mul_prologue_fst (env : Env) (a0 b0 : Nat) (s : State)
    (hop : s.opcode = 0xF6 ∨ s.opcode = 0xF7) :
    (mul_prologue env a0 b0 s).1 =
      if (s.rmdat &&& 0x38) = 0x28 then
        (if top_bit (a0 % 65536) (if s.opcode = 0xF7 then 16 else 8) = 0 then a0 % 65536
          else neg16 (a0 % 65536),
         if top_bit (b0 % 65536) (if s.opcode = 0xF7 then 16 else 8) ≠ 0 then neg16 (b0 % 65536)
          else b0 % 65536,
         if top_bit (a0 % 65536) (if s.opcode = 0xF7 then 16 else 8) = 0
          then decide (top_bit (b0 % 65536) (if s.opcode = 0xF7 then 16 else 8) ≠ 0)
          else decide (top_bit (b0 % 65536) (if s.opcode = 0xF7 then 16 else 8) = 0))
      else (a0 % 65536, b0 % 65536, false) := by
  have h5 : s.opcode ≠ 0xd5 := by rcases hop with h | h <;> rw [h] <;> decide
  have hr : ∀ c : Int, (wait env c 0 s).rmdat = s.rmdat := fun c =>
    (mulctl_fields _ _ (wait_mulctl env c s)).2.1
  unfold mul_prologue
  dsimp only
  rw [if_pos h5]
  rcases hop with h | h
  · have hw : ¬ ((s.opcode &&& 1) ≠ 0) := by rw [h]; decide
    have hw2 : ¬ (s.opcode ≠ 0xd5 ∧ (s.opcode &&& 1) ≠ 0) := fun c => hw c.2
    have h7 : ¬ s.opcode = 0xF7 := by rw [h]; decide
    simp only [if_neg hw, if_neg hw2, if_neg h7, hr]
    by_cases hs : (s.rmdat &&& 0x38) = 0x28
    · rw [if_pos hs, if_pos hs, mul_sign_fst]
    · rw [if_neg hs, if_neg hs]
  · have hw : (s.opcode &&& 1) ≠ 0 := by rw [h]; decide
    have hw2 : s.opcode ≠ 0xd5 ∧ (s.opcode &&& 1) ≠ 0 := ⟨h5, hw⟩
    simp only [if_pos hw, if_pos hw2, if_pos h]
    by_cases hs : (s.rmdat &&& 0x38) = 0x28
    · rw [if_pos hs, if_pos hs, mul_sign_fst]
    · rw [if_neg hs, if_neg hs]

theorem mul_prologue_snd (env : Env) (a0 b0 : Nat) (s : State) :
    (mul_prologue env a0 b0 s).2.mulctl = s.mulctl := by
  have hr : ∀ c : Int, (wait env c 0 s).rmdat = s.rmdat := fun c =>
    (mulctl_fields _ _ (wait_mulctl env c s)).2.1
  unfold mul_prologue
  dsimp only
  by_cases h5 : s.opcode ≠ 0xd5
  · rw [if_pos h5]
    dsimp only
    rw [wait_mulctl]
    by_cases hw : (s.opcode &&& 1) ≠ 0
    · simp only [if_pos hw]
      by_cases hs : (s.rmdat &&& 0x38) = 0x28
      · rw [if_pos hs, mul_sign_snd]
      · rw [if_neg hs]
    · simp only [if_neg hw, hr]
      by_cases hs : (s.rmdat &&& 0x38) = 0x28
      · rw [if_pos hs, mul_sign_snd, wait_mulctl]
      · rw [if_neg hs, wait_mulctl]
  · rw [if_neg h5]

theorem mul_epilogue_facts (env : Env) (n : Nat) ( negate : Bool)
    (x : (Nat × Nat × Bool) × State) :
    (mul_epilogue env n negate x).cpu_data
        = (if negate then neg16 x.1.1 &&& ((1 <<< n) - 1) else x.1.1) ∧
    (mul_epilogue env n negate x).cpu_dest
        = (if negate then
            (if neg16 x.1.1 &&& ((1 <<< n) - 1) = 0 then (not16 x.1.2.1 + 1) % 65536
             else not16 x.1.2.1)
           else x.1.2.1) ∧
    (mul_epilogue env n negate x).mulctl = x.2.mulctl := by
  have w9 := wait_mulctl env 9 x.2
  unfold mul_epilogue
  dsimp only
  generalize wait env 9 0 x.2 = u at w9 ⊢
  rw [(set_af_frame _ _).1, (set_pf_frame _).1, (set_sf_frame _ _).1,
    (set_af_frame _ _).2.2.1, (set_pf_frame _).2.2.1, (set_sf_frame _ _).2.2.1,
    set_af_mulctl, set_pf_mulctl, set_sf_mulctl, upd_result_mulctl]
  cases negate
  · rw [if_neg Bool.false_ne_true, if_neg Bool.false_ne_true, if_neg Bool.false_ne_true]
    exact ⟨rfl, rfl, rfl⟩
  · rw [if_pos rfl, if_pos rfl, if_pos rfl]
    exact ⟨rfl, rfl, w9⟩

/-- What `mul` leaves for MUL and IMUL: the two halves `a` and `c` of the product of the
operand magnitudes, negated as a pair when the prologue asks for it. -/
theorem mul_facts (env : Env) (a0 b0 : Nat) (s : State) (n : Nat)
    (hop : s.opcode = 0xF6 ∨ s.opcode = 0xF7) (hn : n = if s.opcode = 0xF7 then 16 else 8)
    (halu : s.cpu_alu_op ≠ 2) :
    ∃ a c, c * 2 ^ n + a
        = ((mul_prologue env a0 b0 s).1.1 % 2 ^ n) * ((mul_prologue env a0 b0 s).1.2.1 % 2 ^ n) ∧
      a < 2 ^ n ∧ c < 2 ^ n ∧
      (mul env a0 b0 s).cpu_data
        = (if (mul_prologue env a0 b0 s).1.2.2 then neg16 a &&& ((1 <<< n) - 1) else a) ∧
      (mul env a0 b0 s).cpu_dest
        = (if (mul_prologue env a0 b0 s).1.2.2 then
            (if neg16 a &&& ((1 <<< n) - 1) = 0 then (not16 c + 1) % 65536 else not16 c)
           else c) ∧
      (mul env a0 b0 s).mulctl = s.mulctl := by
  have hn8 : n = 8 ∨ n = 16 := by
    rcases hop with h | h
    · left; rw [hn, h]; rfl
    · right; rw [hn, if_pos h]
  have hbc : (if s.opcode ≠ 0xd5 ∧ (s.opcode &&& 1) ≠ 0 then 16 else 8) = n := by
    rw [hn]
    rcases hop with h | h <;> rw [h] <;> rfl
  have hp := mul_prologue_snd env a0 b0 s
  have halu1 : (mul_prologue env a0 b0 s).2.cpu_alu_op ≠ 2 := by
    rw [(mulctl_fields _ _ hp).2.2.1]
    exact halu
  have hA : (mul_prologue env a0 b0 s).1.1 &&& ((1 <<< n) - 1) < 2 ^ n := by
    rw [mask_eq_mod]
    exact Nat.mod_lt _ (by positivity)
  obtain ⟨v, hx⟩ := mul_loop_inv env n (mul_prologue env a0 b0 s).1.2.1
    ((mul_prologue env a0 b0 s).1.1 &&& ((1 <<< n) - 1)) hn8 n 0
    ((((mul_prologue env a0 b0 s).1.1 &&& ((1 <<< n) - 1)) >>> 1, 0,
        decide ((((mul_prologue env a0 b0 s).1.1 &&& ((1 <<< n) - 1)) &&& 1) ≠ 0)),
      (mul_prologue env a0 b0 s).2) (by omega) halu1 (mul_inv_init n _ _ hA)
  rw [Nat.zero_add] at v
  obtain ⟨e1, e2, e3⟩ := mul_epilogue_facts env n (mul_prologue env a0 b0 s).1.2.2
    (mul_loop env n (mul_prologue env a0 b0 s).1.2.1 n
      ((((mul_prologue env a0 b0 s).1.1 &&& ((1 <<< n) - 1)) >>> 1, 0,
        decide ((((mul_prologue env a0 b0 s).1.1 &&& ((1 <<< n) - 1)) &&& 1) ≠ 0)),
      (mul_prologue env a0 b0 s).2))
  have g1 : (mul env a0 b0 s) = mul_epilogue env n (mul_prologue env a0 b0 s).1.2.2
      (mul_loop env n (mul_prologue env a0 b0 s).1.2.1 n
        ((((mul_prologue env a0 b0 s).1.1 &&& ((1 <<< n) - 1)) >>> 1, 0,
          decide ((((mul_prologue env a0 b0 s).1.1 &&& ((1 <<< n) - 1)) &&& 1) ≠ 0)),
        (mul_prologue env a0 b0 s).2)) := by
    unfold mul
    dsimp only
    rw [hbc]
  rw [g1]
  generalize mul_loop env n (mul_prologue env a0 b0 s).1.2.1 n
      ((((mul_prologue env a0 b0 s).1.1 &&& ((1 <<< n) - 1)) >>> 1, 0,
        decide ((((mul_prologue env a0 b0 s).1.1 &&& ((1 <<< n) - 1)) &&& 1) ≠ 0)),
      (mul_prologue env a0 b0 s).2) = X at v hx e1 e2 e3 ⊢
  obtain ⟨f1, f2, f3⟩ := mul_inv_final n _ _ _ hA v
  rw [mask_eq_mod] at f1
  exact ⟨_, _, f1, f2, f3, e1, e2, e3.trans (hx.trans hp)⟩

/-- The magnitude that the sign block of IMUL leaves for an operand, modulo the operand
width, and when the operand counts as negative. -/
theorem mul_magnitude (n w : Nat) (hn : n = 8 ∨ n = 16) :
    (top_bit (w % 65536) n ≠ 0 ↔ signed_val n (w % 2 ^ n) < 0) ∧
    (top_bit (w % 65536) n ≠ 0 →
      neg16 (w % 65536) % 2 ^ n = (signed_val n (w % 2 ^ n)).natAbs) ∧
    (¬ top_bit (w % 65536) n ≠ 0 →
      (w % 65536) % 2 ^ n = (signed_val n (w % 2 ^ n)).natAbs) := by
  rw [top_bit_mod (w % 65536) n hn]
  unfold signed_val neg16
  rcases hn with rfl | rfl
  · norm_num
    refine ⟨?_, ?_, ?_⟩
    · split_ifs <;> omega
    · intro h; split_ifs <;> omega
    · intro h; split_ifs <;> omega
  · norm_num
    refine ⟨?_, ?_, ?_⟩
    · split_ifs <;> omega
    · intro h; split_ifs <;> omega
    · intro h; split_ifs <;> omega

theorem signed_natAbs_le (n A : Nat) (hn : n = 8 ∨ n = 16) (hA : A < 2 ^ n) :
    (signed_val n A).natAbs ≤ 2 ^ (n - 1) := by
  unfold signed_val
  rcases hn with rfl | rfl
  · norm_num at hA ⊢; split_ifs <;> omega
  · norm_num at hA ⊢; split_ifs <;> omega

theorem signed_mul_natAbs (x y : Int) ( negate : Bool)
    (hneg : negate = true ↔ ((x < 0) ↔ ¬ (y < 0))) :
    x * y = if negate then -((x.natAbs * y.natAbs : Nat) : Int) else ((x.natAbs * y.natAbs : Nat) : Int) := by
  have hx := Int.natAbs_eq x
  have hy := Int.natAbs_eq y
  rw [Nat.cast_mul]
  by_cases h1 : x < 0
  · have ex : x = -(x.natAbs : Int) := by omega
    by_cases h2 : y < 0
    · have ey : y = -(y.natAbs : Int) := by omega
      have hf : negate = false := by
        cases negate
        · rfl
        · exact absurd (hneg.1 rfl) (fun c => (c.1 h1) h2)
      rw [hf, if_neg Bool.false_ne_true]
      nth_rewrite 1 [ex, ey]
      ring
    · have ey : y = (y.natAbs : Int) := by omega
      have ht : negate = true := hneg.2 ⟨fun _ => h2, fun _ => h1⟩
      rw [ht, if_pos rfl]
      nth_rewrite 1 [ex, ey]
      ring
  · have ex : x = (x.natAbs : Int) := by omega
    by_cases h2 : y < 0
    · have ey : y = -(y.natAbs : Int) := by omega
      have ht : negate = true := hneg.2 ⟨fun c => absurd c h1, fun c => absurd h2 c⟩
      rw [ht, if_pos rfl]
      nth_rewrite 1 [ex, ey]
      ring
    · have ey : y = (y.natAbs : Int) := by omega
      have hf : negate = false := by
        cases negate
        · rfl
        · exact absurd ((hneg.1 rfl).2 h2) h1
      rw [hf, if_neg Bool.false_ne_true]
      nth_rewrite 1 [ex, ey]
      ring

/-- The two halves that `mul` leaves for IMUL are the two's-complement product. -/
theorem imul_halves (n a c P : Nat) ( negate : Bool) (S : Int) (hn : n = 8 ∨ n = 16)
    (ha : a < 2 ^ n) (h : c * 2 ^ n + a = P) (hP : P ≤ 2 ^ (n - 1) * 2 ^ (n - 1))
    (hS : S = if negate then -(P : Int) else (P : Int)) :
    (if negate then neg16 a &&& ((1 <<< n) - 1) else a) < 2 ^ n ∧
    signed_val (2 * n)
      (((if negate then
          (if neg16 a &&& ((1 <<< n) - 1) = 0 then (not16 c + 1) % 65536 else not16 c)
         else c) % 2 ^ n) * 2 ^ n + (if negate then neg16 a &&& ((1 <<< n) - 1) else a)) = S ∧
    ((((if negate then
          (if neg16 a &&& ((1 <<< n) - 1) = 0 then (not16 c + 1) % 65536 else not16 c)
         else c) % 2 ^ n) ≠
        (if 2 ^ (n - 1) ≤ (if negate then neg16 a &&& ((1 <<< n) - 1) else a)
          then 2 ^ n - 1 else 0)) ↔
      ¬ (-(2 : Int) ^ (n - 1) ≤ S ∧ S < 2 ^ (n - 1))) := by
  simp only [mask_eq_mod]
  unfold signed_val neg16 not16
  subst hS
  cases negate
  · simp only [if_neg Bool.false_ne_true]
    rcases hn with rfl | rfl
    · norm_num at ha hP ⊢
      refine ⟨ha, ?_, ?_⟩
      · split_ifs <;> omega
      · split_ifs <;> omega
    · norm_num at ha hP ⊢
      refine ⟨ha, ?_, ?_⟩
      · split_ifs <;> omega
      · split_ifs <;> omega
  · simp only [if_pos]
    rcases hn with rfl | rfl
    · norm_num at ha hP ⊢
      refine ⟨by omega, ?_, ?_⟩
      · split_ifs <;> omega
      · split_ifs <;> omega
    · norm_num at ha hP ⊢
      refine ⟨by omega, ?_, ?_⟩
      · split_ifs <;> omega
      · split_ifs <;> omega

theorem wait_cpu_data (env : Env) (c : Int) (bus : Nat) (s : State) :
    (wait env c bus s).cpu_data = s.cpu_data :=
  congrArg Arch.cpu_data (wait_arch env c bus s)

theorem set_co_mul_facts (env : Env) (c : Bool) (s : State) :
    (set_co_mul env c s).flags.testBit 0 = c ∧ (set_co_mul env c s).flags.testBit 11 = c ∧
    (set_co_mul env c s).mulctl = s.mulctl := by
  have w := wait_mulctl env 1 (set_zf_ex (!c) (set_of (if c then 1 else 0) (set_cf c s)))
  have wf := wait_flags env 1 0 (set_zf_ex (!c) (set_of (if c then 1 else 0) (set_cf c s)))
  have m0 : (set_zf_ex (!c) (set_of (if c then 1 else 0) (set_cf c s))).mulctl = s.mulctl := by
    rw [set_zf_ex_mulctl, set_of_mulctl, set_cf_mulctl]
  have f0 : (set_zf_ex (!c) (set_of (if c then 1 else 0) (set_cf c s))).flags.testBit 0 = c := by
    rw [set_zf_ex_testBit, set_of_testBit, set_cf_testBit]
    simp
  have f11 : (set_zf_ex (!c) (set_of (if c then 1 else 0) (set_cf c s))).flags.testBit 11
      = c := by
    rw [set_zf_ex_testBit, set_of_testBit]
    cases c <;> simp
  unfold set_co_mul
  dsimp only
  generalize wait env 1 0 (set_zf_ex (!c) (set_of (if c then 1 else 0) (set_cf c s))) = u
    at w wf ⊢
  generalize set_zf_ex (!c) (set_of (if c then 1 else 0) (set_cf c s)) = v at w wf m0 f0 f11 ⊢
  by_cases h : (!c) = true
  · rw [if_pos h, wf]
    exact ⟨f0, f11, w.trans m0⟩
  · rw [if_neg h]
    exact ⟨f0, f11, m0⟩

theorem nec_restore_facts (u : State) (old : Nat) :
    (if u.is_nec then { u with flags := andNot16 u.flags Z_FLAG ||| (old &&& Z_FLAG) }
      else u).mulctl = u.mulctl ∧
    ((if u.is_nec then { u with flags := andNot16 u.flags Z_FLAG ||| (old &&& Z_FLAG) }
      else u).flags.testBit 0 = u.flags.testBit 0) ∧
    ((if u.is_nec then { u with flags := andNot16 u.flags Z_FLAG ||| (old &&& Z_FLAG) }
      else u).flags.testBit 11 = u.flags.testBit 11) := by
  have z0 : Nat.testBit Z_FLAG 0 = false := by decide
  have z11 : Nat.testBit Z_FLAG 11 = false := by decide
  by_cases h : u.is_nec = true
  · rw [if_pos h]
    refine ⟨rfl, ?_, ?_⟩
    · show (andNot16 u.flags Z_FLAG ||| (old &&& Z_FLAG)).testBit 0 = _
      rw [Nat.testBit_or, Nat.testBit_and, andNot16_testBit _ _ _ (by norm_num), z0]
      simp
    · show (andNot16 u.flags Z_FLAG ||| (old &&& Z_FLAG)).testBit 11 = _
      rw [Nat.testBit_or, Nat.testBit_and, andNot16_testBit _ _ _ (by norm_num), z11]
      simp
  · rw [if_neg h]
    exact ⟨rfl, rfl, rfl⟩

theorem sf_pf_facts (bits : Nat) (u : State) :
    (set_pf (set_sf bits u)).mulctl = u.mulctl ∧
    (set_pf (set_sf bits u)).flags.testBit 0 = u.flags.testBit 0 ∧
    (set_pf (set_sf bits u)).flags.testBit 11 = u.flags.testBit 11 := by
  refine ⟨by rw [set_pf_mulctl, set_sf_mulctl], ?_, ?_⟩
  · rw [set_pf_testBit, set_sf_testBit]; simp
  · rw [set_pf_testBit, set_sf_testBit]; simp

theorem exec_mul_eq (env : Env) (s : State) :
    exec_mul env s = mul_store env (8 <<< (s.opcode &&& 1)) s.flags
      (mul env (get_accum (8 <<< (s.opcode &&& 1)) (wait env 1 0 s)) (wait env 1 0 s).cpu_data
        (wait env 1 0 s)) := rfl

theorem mul_store_word_eq (env : Env) (bits old : Nat) (s2 : State)
    (hw : (s2.opcode &&& 1) ≠ 0) :
    ∃ (c : Bool) (s5 s6 s7 : State),
      s5 = { s2 with ax := s2.cpu_data % 65536, dx := s2.cpu_dest % 65536 } ∧
      c = decide (s2.cpu_dest % 65536 ≠
          (if ((s2.cpu_data % 65536) &&& 0x8000) = 0 ∨ (s2.rmdat &&& 0x38) = 0x20 then 0
           else 0xffff)) ∧
      s6 = set_co_mul env c s5 ∧
      s7 = set_pf (set_sf bits { s6 with cpu_data := s6.dx }) ∧
      mul_store env bits old s2 =
        if s7.is_nec then { s7 with flags := andNot16 s7.flags Z_FLAG ||| (old &&& Z_FLAG) }
        else s7 := by
  refine ⟨_, _, _, _, rfl, rfl, rfl, rfl, ?_⟩
  unfold mul_store
  rw [if_pos hw]

theorem mul_store_byte_eq (env : Env) (bits old : Nat) (s2 : State)
    (hw : ¬ (s2.opcode &&& 1) ≠ 0) :
    ∃ (c : Bool) (s5 s6 s3 s7 : State),
      s5 = set_AH (s2.cpu_dest % 256) (set_AL (s2.cpu_data % 256) s2) ∧
      c = decide (AH s5 ≠
          (if (AL s5 &&& 0x80) = 0 ∨ (s2.rmdat &&& 0x38) = 0x20 then 0 else 0xff)) ∧
      s6 = set_co_mul env c s5 ∧
      s3 = (if !s6.is_nec then { s6 with cpu_data := AH s6 } else s6) ∧
      s7 = set_pf (set_sf bits s3) ∧
      mul_store env bits old s2 =
        if s7.is_nec then { s7 with flags := andNot16 s7.flags Z_FLAG ||| (old &&& Z_FLAG) }
        else s7 := by
  refine ⟨_, _, _, _, _, rfl, rfl, rfl, rfl, rfl, ?_⟩
  unfold mul_store
  rw [if_neg hw]
  rfl

/-- The registers and the carry and overflow flags after the stores of the word form. -/
theorem mul_store_word (env : Env) (bits old : Nat) (s2 : State)
    (hw : (s2.opcode &&& 1) ≠ 0) :
    (mul_store env bits old s2).ax = s2.cpu_data % 65536 ∧
    (mul_store env bits old s2).dx = s2.cpu_dest % 65536 ∧
    (mul_store env bits old s2).flags.testBit 0 = decide (s2.cpu_dest % 65536 ≠
          (if ((s2.cpu_data % 65536) &&& 0x8000) = 0 ∨ (s2.rmdat &&& 0x38) = 0x20 then 0
           else 0xffff)) ∧
    (mul_store env bits old s2).flags.testBit 11 = decide (s2.cpu_dest % 65536 ≠
          (if ((s2.cpu_data % 65536) &&& 0x8000) = 0 ∨ (s2.rmdat &&& 0x38) = 0x20 then 0
           else 0xffff)) := by
  obtain ⟨c, s5, s6, s7, h5, hc, h6, h7, ht⟩ := mul_store_word_eq env bits old s2 hw
  obtain ⟨n1, n2, n3⟩ := nec_restore_facts s7 old
  rw [← ht] at n1 n2 n3
  obtain ⟨p1, p2, p3⟩ := sf_pf_facts bits { s6 with cpu_data := s6.dx }
  rw [← h7] at p1 p2 p3
  obtain ⟨q1, q2, q3⟩ := set_co_mul_facts env c s5
  rw [← h6] at q1 q2 q3
  have m : (mul_store env bits old s2).mulctl = s5.mulctl :=
    n1.trans (p1.trans ((upd_data_mulctl _ _).trans q3))
  have e0 : ({ s6 with cpu_data := s6.dx } : State).flags = s6.flags := rfl
  rw [e0] at p2 p3
  have a5 : s5.ax = s2.cpu_data % 65536 := by rw [h5]
  have d5 : s5.dx = s2.cpu_dest % 65536 := by rw [h5]
  obtain ⟨-, -, -, -, ma, md⟩ := mulctl_fields _ _ m
  rw [← hc]
  exact ⟨ma.trans a5, md.trans d5, n2.trans (p2.trans q1), n3.trans (p3.trans q2)⟩

/-- The accumulator and the carry and overflow flags after the stores of the byte form. -/
theorem mul_store_byte (env : Env) (bits old : Nat) (s2 : State)
    (hw : ¬ (s2.opcode &&& 1) ≠ 0) :
    (mul_store env bits old s2).ax = (s2.cpu_dest % 256) * 256 + s2.cpu_data % 256 ∧
    (mul_store env bits old s2).dx = s2.dx ∧
    (mul_store env bits old s2).flags.testBit 0 = decide (s2.cpu_dest % 256 ≠
          (if ((s2.cpu_data % 256) &&& 0x80) = 0 ∨ (s2.rmdat &&& 0x38) = 0x20 then 0
           else 0xff)) ∧
    (mul_store env bits old s2).flags.testBit 11 = decide (s2.cpu_dest % 256 ≠
          (if ((s2.cpu_data % 256) &&& 0x80) = 0 ∨ (s2.rmdat &&& 0x38) = 0x20 then 0
           else 0xff)) := by
  obtain ⟨c, s5, s6, s3, s7, h5, hc, h6, h3, h7, ht⟩ := mul_store_byte_eq env bits old s2 hw
  obtain ⟨n1, n2, n3⟩ := nec_restore_facts s7 old
  rw [← ht] at n1 n2 n3
  obtain ⟨p1, p2, p3⟩ := sf_pf_facts bits s3
  rw [← h7] at p1 p2 p3
  obtain ⟨q1, q2, q3⟩ := set_co_mul_facts env c s5
  rw [← h6] at q1 q2 q3
  have r : s3.mulctl = s6.mulctl ∧ s3.flags = s6.flags := by
    rw [h3]
    by_cases hn : (!s6.is_nec) = true
    · rw [if_pos hn]; exact ⟨rfl, rfl⟩
    · rw [if_neg hn]; exact ⟨rfl, rfl⟩
  have m : (mul_store env bits old s2).mulctl = s5.mulctl :=
    n1.trans (p1.trans (r.1.trans q3))
  rw [r.2] at p2 p3
  have hal := AL_lt s2
  have a5 : s5.ax = (s2.cpu_dest % 256) * 256 + s2.cpu_data % 256 := by
    rw [h5]
    show (s2.cpu_dest % 256) % 256 * 256 + (AH s2 * 256 + (s2.cpu_data % 256) % 256) % 256 = _
    omega
  have d5 : s5.dx = s2.dx := by rw [h5]; rfl
  have eAH : AH s5 = s2.cpu_dest % 256 := by
    unfold AH; rw [a5]; omega
  have eAL : AL s5 = s2.cpu_data % 256 := by
    unfold AL; rw [a5]; omega
  rw [eAH, eAL] at hc
  obtain ⟨-, -, -, -, ma, md⟩ := mulctl_fields _ _ m
  rw [← hc]
  exact ⟨ma.trans a5, md.trans d5, n2.trans (p2.trans q1), n3.trans (p3.trans q2)⟩

/-- The accumulator read by MUL/IMUL. -/
theorem mul_accum (env : Env) (s : State) (hop : s.opcode = 0xF6 ∨ s.opcode = 0xF7) :
    get_accum (8 <<< (s.opcode &&& 1)) (wait env 1 0 s)
      = if s.opcode = 0xF7 then s.ax % 65536 else AL s := by
  have hax := wait_idle_ax env 1 s
  unfold get_accum AL
  rw [hax]
  rcases hop with h | h
  · rw [h]; rfl
  · rw [h]; rfl

/-- MUL and IMUL up to the stores: the halves `a` and `c` of the product of the operand
magnitudes, and the registers and flags in terms of the (possibly negated) halves. -/
theorem exec_mul_halves (env : Env) (s : State) (n : Nat)
    (hop : s.opcode = 0xF6 ∨ s.opcode = 0xF7) (hn : n = if s.opcode = 0xF7 then 16 else 8)
    (halu : s.cpu_alu_op ≠ 2) (a0 : Nat)
    (ha0 : a0 = if s.opcode = 0xF7 then s.ax % 65536 else AL s) :
    ∃ a c lo hi, c * 2 ^ n + a
        = ((mul_prologue env a0 s.cpu_data (wait env 1 0 s)).1.1 % 2 ^ n) *
          ((mul_prologue env a0 s.cpu_data (wait env 1 0 s)).1.2.1 % 2 ^ n) ∧
      a < 2 ^ n ∧ c < 2 ^ n ∧
      lo = (if (mul_prologue env a0 s.cpu_data (wait env 1 0 s)).1.2.2
              then neg16 a &&& ((1 <<< n) - 1) else a) ∧
      hi = (if (mul_prologue env a0 s.cpu_data (wait env 1 0 s)).1.2.2 then
              (if neg16 a &&& ((1 <<< n) - 1) = 0 then (not16 c + 1) % 65536 else not16 c)
            else c) ∧
      (s.opcode = 0xF7 →
        (exec_mul env s).ax = lo % 65536 ∧ (exec_mul env s).dx = hi % 65536 ∧
        (exec_mul env s).flags.testBit 0 = decide (hi % 65536 ≠
          (if ((lo % 65536) &&& 0x8000) = 0 ∨ (s.rmdat &&& 0x38) = 0x20 then 0 else 0xffff)) ∧
        (exec_mul env s).flags.testBit 11 = decide (hi % 65536 ≠
          (if ((lo % 65536) &&& 0x8000) = 0 ∨ (s.rmdat &&& 0x38) = 0x20 then 0 else 0xffff))) ∧
      (s.opcode = 0xF6 →
        (exec_mul env s).ax = (hi % 256) * 256 + lo % 256 ∧ (exec_mul env s).dx = s.dx ∧
        (exec_mul env s).flags.testBit 0 = decide (hi % 256 ≠
          (if ((lo % 256) &&& 0x80) = 0 ∨ (s.rmdat &&& 0x38) = 0x20 then 0 else 0xff)) ∧
        (exec_mul env s).flags.testBit 11 = decide (hi % 256 ≠
          (if ((lo % 256) &&& 0x80) = 0 ∨ (s.rmdat &&& 0x38) = 0x20 then 0 else 0xff))) := by
  have w := wait_mulctl env 1 s
  obtain ⟨wo, wr, wa, -, -, wd⟩ := mulctl_fields _ _ w
  have hcd := wait_cpu_data env 1 0 s
  have hacc := mul_accum env s hop
  rw [← ha0] at hacc
  rw [exec_mul_eq, hacc, hcd]
  have hop1 : (wait env 1 0 s).opcode = 0xF6 ∨ (wait env 1 0 s).opcode = 0xF7 := by
    rw [wo]; exact hop
  have hn1 : n = if (wait env 1 0 s).opcode = 0xF7 then 16 else 8 := by rw [wo]; exact hn
  have halu1 : (wait env 1 0 s).cpu_alu_op ≠ 2 := by rw [wa]; exact halu
  obtain ⟨a, c, f1, f2, f3, f4, f5, f6⟩ :=
    mul_facts env a0 s.cpu_data (wait env 1 0 s) n hop1 hn1 halu1
  obtain ⟨mo, mr, -, -, -, md⟩ := mulctl_fields _ _ f6
  generalize wait env 1 0 s = s1 at *
  generalize mul env a0 s.cpu_data s1 = s2 at *
  refine ⟨a, c, _, _, f1, f2, f3, rfl, rfl, ?_, ?_⟩
  · intro h7
    have hw : (s2.opcode &&& 1) ≠ 0 := by rw [mo, wo, h7]; decide
    obtain ⟨g1, g2, g3, g4⟩ := mul_store_word env (8 <<< (s.opcode &&& 1)) s.flags s2 hw
    rw [f4, f5, mr, wr] at g3 g4
    rw [f4] at g1
    rw [f5] at g2
    exact ⟨g1, g2, g3, g4⟩
  · intro h6
    have hw : ¬ (s2.opcode &&& 1) ≠ 0 := by rw [mo, wo, h6]; decide
    obtain ⟨g1, g2, g3, g4⟩ := mul_store_byte env (8 <<< (s.opcode &&& 1)) s.flags s2 hw
    rw [f4, f5, mr, wr] at g3 g4
    rw [f4, f5] at g1
    exact ⟨g1, g2.trans (md.trans wd), g3, g4⟩

theorem and_top_word (x : Nat) (hx : x < 65536) : (x &&& 0x8000) = 0 ↔ x < 32768 := by
  have h := flag_and_ne x 15
  rw [Nat.testBit_to_div_mod, decide_eq_true_iff] at h
  norm_num at h
  constructor
  · intro h0
    by_contra hc
    exact (h.2 (by omega)) h0
  · intro hl
    by_contra hc
    have := h.1 hc
    omega

theorem and_top_byte (x : Nat) (hx : x < 256) : (x &&& 0x80) = 0 ↔ x < 128 := by
  have h := flag_and_ne x 7
  rw [Nat.testBit_to_div_mod, decide_eq_true_iff] at h
  norm_num at h
  constructor
  · intro h0
    by_contra hc
    exact (h.2 (by omega)) h0
  · intro hl
    by_contra hc
    have := h.1 hc
    omega

theorem mul_prologue_unsigned (env : Env) (a0 b0 : Nat) (s : State)
    (hop : s.opcode = 0xF6 ∨ s.opcode = 0xF7) (hrm : (s.rmdat &&& 0x38) = 0x20) :
    (mul_prologue env a0 b0 s).1 = (a0 % 65536, b0 % 65536, false) := by
  rw [mul_prologue_fst env a0 b0 s hop, if_neg (by rw [hrm]; decide)]

/-- MUL r/m16: DX:AX is the unsigned product. -/
theorem exec_mul_word_unsigned (env : Env) (s : State) (hop : s.opcode = 0xF7)
    (hrm : (s.rmdat &&& 0x38) = 0x20) (halu : s.cpu_alu_op ≠ 2) :
    (exec_mul env s).dx * 65536 + (exec_mul env s).ax
        = (s.ax % 65536) * (s.cpu_data % 65536) ∧
    (exec_mul env s).ax < 65536 ∧
    (exec_mul env s).flags.testBit 0 = decide ((exec_mul env s).dx ≠ 0) ∧
    (exec_mul env s).flags.testBit 11 = decide ((exec_mul env s).dx ≠ 0) := by
  obtain ⟨a, c, lo, hi, f1, f2, f3, hlo, hhi, hw, -⟩ :=
    exec_mul_halves env s 16 (Or.inr hop) (by rw [if_pos hop]) halu (s.ax % 65536)
      (by rw [if_pos hop])
  obtain ⟨g1, g2, g3, g4⟩ := hw hop
  have w := wait_mulctl env 1 s
  obtain ⟨wo, wr, -⟩ := mulctl_fields _ _ w
  have hp := mul_prologue_unsigned env (s.ax % 65536) s.cpu_data (wait env 1 0 s)
    (by rw [wo]; exact Or.inr hop) (by rw [wr]; exact hrm)
  generalize mul_prologue env (s.ax % 65536) s.cpu_data (wait env 1 0 s) = p at *
  rw [hp] at f1 hlo hhi
  simp only [Bool.false_eq_true, if_false] at hlo hhi
  subst hlo hhi
  norm_num at f1 f2 f3
  have e1 : s.ax % 65536 % 65536 = s.ax % 65536 := by omega
  have e2 : s.cpu_data % 65536 % 65536 = s.cpu_data % 65536 := by omega
  rw [g1, g2, g3, g4]
  rw [if_pos (Or.inr hrm)]
  exact ⟨by omega, by omega, rfl, rfl⟩

/-- MUL r/m8: AX is the unsigned product. -/
theorem exec_mul_byte_unsigned (env : Env) (s : State) (hop : s.opcode = 0xF6)
    (hrm : (s.rmdat &&& 0x38) = 0x20) (halu : s.cpu_alu_op ≠ 2) :
    (exec_mul env s).ax = AL s * (s.cpu_data % 256) ∧
    (exec_mul env s).dx = s.dx ∧
    (exec_mul env s).flags.testBit 0 = decide (AH (exec_mul env s) ≠ 0) ∧
    (exec_mul env s).flags.testBit 11 = decide (AH (exec_mul env s) ≠ 0) := by
  have h7 : ¬ s.opcode = 0xF7 := by rw [hop]; decide
  obtain ⟨a, c, lo, hi, f1, f2, f3, hlo, hhi, -, hb⟩ :=
    exec_mul_halves env s 8 (Or.inl hop) (by rw [if_neg h7]) halu (AL s)
      (by rw [if_neg h7])
  obtain ⟨g1, g2, g3, g4⟩ := hb hop
  have w := wait_mulctl env 1 s
  obtain ⟨wo, wr, -⟩ := mulctl_fields _ _ w
  have hp := mul_prologue_unsigned env (AL s) s.cpu_data (wait env 1 0 s)
    (by rw [wo]; exact Or.inl hop) (by rw [wr]; exact hrm)
  generalize mul_prologue env (AL s) s.cpu_data (wait env 1 0 s) = p at *
  rw [hp] at f1 hlo hhi
  simp only [Bool.false_eq_true, if_false] at hlo hhi
  subst hlo hhi
  norm_num at f1 f2 f3
  have hal := AL_lt s
  have e1 : AL s % 256 = AL s := by omega
  rw [e1] at f1
  have eah : AH (exec_mul env s) = hi % 256 := by
    unfold AH; rw [g1]; omega
  rw [eah, g1, g2, g3, g4]
  rw [if_pos (Or.inr hrm)]
  exact ⟨by omega, rfl, rfl, rfl⟩

/-- The sign block of IMUL: magnitudes of both operands, and `negate` exactly when one
operand is negative and the other is not. -/
theorem mul_prologue_signed (env : Env) (a0 b0 : Nat) (s : State) (n : Nat)
    (hop : s.opcode = 0xF6 ∨ s.opcode = 0xF7) (hn : n = if s.opcode = 0xF7 then 16 else 8)
    (hrm : (s.rmdat &&& 0x38) = 0x28) :
    (mul_prologue env a0 b0 s).1.1 % 2 ^ n = (signed_val n (a0 % 2 ^ n)).natAbs ∧
    (mul_prologue env a0 b0 s).1.2.1 % 2 ^ n = (signed_val n (b0 % 2 ^ n)).natAbs ∧
    ((mul_prologue env a0 b0 s).1.2.2 = true ↔
      (signed_val n (a0 % 2 ^ n) < 0 ↔ ¬ signed_val n (b0 % 2 ^ n) < 0)) := by
  have hn8 : n = 8 ∨ n = 16 := by
    rcases hop with h | h
    · left; rw [hn, h]; rfl
    · right; rw [hn, if_pos h]
  obtain ⟨a1, a2, a3⟩ := mul_magnitude n a0 hn8
  obtain ⟨b1, b2, b3⟩ := mul_magnitude n b0 hn8
  rw [mul_prologue_fst env a0 b0 s hop, if_pos hrm, ← hn]
  dsimp only
  by_cases ha : top_bit (a0 % 65536) n = 0
  · have na : ¬ signed_val n (a0 % 2 ^ n) < 0 := fun c => (a1.2 c) ha
    rw [if_pos ha, if_pos ha]
    by_cases hb : top_bit (b0 % 65536) n ≠ 0
    · rw [if_pos hb, decide_eq_true hb]
      refine ⟨a3 (fun c => c ha), b2 hb, ?_⟩
      have nb := b1.1 hb
      exact ⟨fun _ => ⟨fun c => absurd c na, fun c => absurd nb c⟩, fun _ => rfl⟩
    · rw [if_neg hb, decide_eq_false hb]
      refine ⟨a3 (fun c => c ha), b3 hb, ?_⟩
      have nb : ¬ signed_val n (b0 % 2 ^ n) < 0 := fun c => hb (b1.2 c)
      exact ⟨fun c => absurd c Bool.false_ne_true, fun c => absurd (c.2 nb) na⟩
  · have pa := a1.1 ha
    rw [if_neg ha, if_neg ha]
    by_cases hb : top_bit (b0 % 65536) n ≠ 0
    · rw [if_pos hb, decide_eq_false (fun c => hb c)]
      refine ⟨a2 ha, b2 hb, ?_⟩
      have nb := b1.1 hb
      exact ⟨fun c => absurd c Bool.false_ne_true, fun c => absurd nb (c.1 pa)⟩
    · rw [if_neg hb, decide_eq_true (not_not.1 hb)]
      refine ⟨a2 ha, b3 hb, ?_⟩
      have nb : ¬ signed_val n (b0 % 2 ^ n) < 0 := fun c => hb (b1.2 c)
      exact ⟨fun _ => ⟨fun _ => nb, fun _ => pa⟩, fun _ => rfl⟩

/-- The halves left by `mul` for IMUL, as a signed double-width number. -/
theorem imul_product (n a c A B : Nat) ( negate : Bool) (hn : n = 8 ∨ n = 16)
    (hA : A < 2 ^ n) (hB : B < 2 ^ n) (ha : a < 2 ^ n)
    (h : c * 2 ^ n + a = (signed_val n A).natAbs * (signed_val n B).natAbs)
    (hneg : negate = true ↔ (signed_val n A < 0 ↔ ¬ signed_val n B < 0)) :
    (if negate then neg16 a &&& ((1 <<< n) - 1) else a) < 2 ^ n ∧
    signed_val (2 * n)
      (((if negate then
          (if neg16 a &&& ((1 <<< n) - 1) = 0 then (not16 c + 1) % 65536 else not16 c)
         else c) % 2 ^ n) * 2 ^ n + (if negate then neg16 a &&& ((1 <<< n) - 1) else a))
      = signed_val n A * signed_val n B ∧
    ((((if negate then
          (if neg16 a &&& ((1 <<< n) - 1) = 0 then (not16 c + 1) % 65536 else not16 c)
         else c) % 2 ^ n) ≠
        (if 2 ^ (n - 1) ≤ (if negate then neg16 a &&& ((1 <<< n) - 1) else a)
          then 2 ^ n - 1 else 0)) ↔
      ¬ (-(2 : Int) ^ (n - 1) ≤ signed_val n A * signed_val n B ∧
          signed_val n A * signed_val n B < 2 ^ (n - 1))) :=
  imul_halves n a c _ negate _ hn ha h
    (Nat.mul_le_mul (signed_natAbs_le n A hn hA) (signed_natAbs_le n B hn hB))
    (signed_mul_natAbs _ _ negate hneg)

/-- IMUL r/m16: DX:AX is the signed product. -/
theorem exec_imul_word (env : Env) (s : State) (hop : s.opcode = 0xF7)
    (hrm : (s.rmdat &&& 0x38) = 0x28) (halu : s.cpu_alu_op ≠ 2) :
    signed_val 32 ((exec_mul env s).dx * 65536 + (exec_mul env s).ax)
        = signed_val 16 (s.ax % 65536) * signed_val 16 (s.cpu_data % 65536) ∧
    (exec_mul env s).ax < 65536 ∧ (exec_mul env s).dx < 65536 ∧
    (exec_mul env s).flags.testBit 0
        = decide ((exec_mul env s).dx ≠ (if 32768 ≤ (exec_mul env s).ax then 65535 else 0)) ∧
    (exec_mul env s).flags.testBit 11
        = decide ((exec_mul env s).dx ≠ (if 32768 ≤ (exec_mul env s).ax then 65535 else 0)) := by
  obtain ⟨a, c, lo, hi, f1, f2, f3, hlo, hhi, hw, -⟩ :=
    exec_mul_halves env s 16 (Or.inr hop) (by rw [if_pos hop]) halu (s.ax % 65536)
      (by rw [if_pos hop])
  obtain ⟨g1, g2, g3, g4⟩ := hw hop
  have w := wait_mulctl env 1 s
  obtain ⟨wo, wr, -⟩ := mulctl_fields _ _ w
  obtain ⟨p1, p2, p3⟩ := mul_prologue_signed env (s.ax % 65536) s.cpu_data (wait env 1 0 s) 16
    (by rw [wo]; exact Or.inr hop) (by rw [wo, if_pos hop]) (by rw [wr]; exact hrm)
  generalize mul_prologue env (s.ax % 65536) s.cpu_data (wait env 1 0 s) = p at *
  rw [p1, p2] at f1
  obtain ⟨r1, r2, -⟩ := imul_product 16 a c (s.ax % 65536 % 2 ^ 16) (s.cpu_data % 2 ^ 16) p.1.2.2
    (Or.inr rfl) (Nat.mod_lt _ (by norm_num)) (Nat.mod_lt _ (by norm_num)) f2 f1 p3
  rw [← hlo] at r1 r2
  rw [← hhi] at r2
  have e1 : s.ax % 65536 % 2 ^ 16 = s.ax % 65536 := by norm_num
  have e2 : s.cpu_data % 2 ^ 16 = s.cpu_data % 65536 := by norm_num
  rw [e1, e2] at r2
  have e3 : (2 : Nat) ^ 16 = 65536 := by norm_num
  rw [e3] at r1 r2
  have hlo2 : lo % 65536 = lo := Nat.mod_eq_of_lt r1
  have hne : ¬ (s.rmdat &&& 0x38) = 0x20 := by rw [hrm]; decide
  have hc : decide (hi % 65536 ≠
        (if ((lo % 65536) &&& 0x8000) = 0 ∨ (s.rmdat &&& 0x38) = 0x20 then 0 else 0xffff))
      = decide (hi % 65536 ≠ (if 32768 ≤ lo then 65535 else 0)) := by
    have ht := and_top_word lo r1
    rw [hlo2]
    by_cases hl : lo < 32768
    · rw [if_pos (Or.inl (ht.2 hl)), if_neg (by omega)]
    · rw [if_neg (fun c => c.elim (fun c1 => hl (ht.1 c1)) hne), if_pos (by omega)]
  rw [g1, g2, g3, g4, hc, hlo2]
  exact ⟨r2, r1, Nat.mod_lt _ (by norm_num), rfl, rfl⟩

/-- IMUL r/m8: AX is the signed product. -/
theorem exec_imul_byte (env : Env) (s : State) (hop : s.opcode = 0xF6)
    (hrm : (s.rmdat &&& 0x38) = 0x28) (halu : s.cpu_alu_op ≠ 2) :
    signed_val 16 (exec_mul env s).ax
        = signed_val 8 (AL s) * signed_val 8 (s.cpu_data % 256) ∧
    (exec_mul env s).ax < 65536 ∧ (exec_mul env s).dx = s.dx ∧
    (exec_mul env s).flags.testBit 0
        = decide (AH (exec_mul env s) ≠ (if 128 ≤ AL (exec_mul env s) then 255 else 0)) ∧
    (exec_mul env s).flags.testBit 11
        = decide (AH (exec_mul env s) ≠ (if 128 ≤ AL (exec_mul env s) then 255 else 0)) := by
  have h7 : ¬ s.opcode = 0xF7 := by rw [hop]; decide
  obtain ⟨a, c, lo, hi, f1, f2, f3, hlo, hhi, -, hb⟩ :=
    exec_mul_halves env s 8 (Or.inl hop) (by rw [if_neg h7]) halu (AL s)
      (by rw [if_neg h7])
  obtain ⟨g1, g2, g3, g4⟩ := hb hop
  have w := wait_mulctl env 1 s
  obtain ⟨wo, wr, -⟩ := mulctl_fields _ _ w
  obtain ⟨p1, p2, p3⟩ := mul_prologue_signed env (AL s) s.cpu_data (wait env 1 0 s) 8
    (by rw [wo]; exact Or.inl hop) (by rw [wo, if_neg h7]) (by rw [wr]; exact hrm)
  generalize mul_prologue env (AL s) s.cpu_data (wait env 1 0 s) = p at *
  rw [p1, p2] at f1
  obtain ⟨r1, r2, -⟩ := imul_product 8 a c (AL s % 2 ^ 8) (s.cpu_data % 2 ^ 8) p.1.2.2
    (Or.inl rfl) (Nat.mod_lt _ (by norm_num)) (Nat.mod_lt _ (by norm_num)) f2 f1 p3
  rw [← hlo] at r1 r2
  rw [← hhi] at r2
  have hal := AL_lt s
  have e1 : AL s % 2 ^ 8 = AL s := Nat.mod_eq_of_lt (by norm_num; exact hal)
  have e2 : s.cpu_data % 2 ^ 8 = s.cpu_data % 256 := by norm_num
  rw [e1, e2] at r2
  have e3 : (2 : Nat) ^ 8 = 256 := by norm_num
  have e4 : 2 * 8 = 16 := by norm_num
  rw [e3] at r1 r2
  rw [e4] at r2
  have hlo2 : lo % 256 = lo := Nat.mod_eq_of_lt r1
  have hne : ¬ (s.rmdat &&& 0x38) = 0x20 := by rw [hrm]; decide
  have hc : decide (hi % 256 ≠
        (if ((lo % 256) &&& 0x80) = 0 ∨ (s.rmdat &&& 0x38) = 0x20 then 0 else 0xff))
      = decide (hi % 256 ≠ (if 128 ≤ lo then 255 else 0)) := by
    have ht := and_top_byte lo r1
    rw [hlo2]
    by_cases hl : lo < 128
    · rw [if_pos (Or.inl (ht.2 hl)), if_neg (by omega)]
    · rw [if_neg (fun c => c.elim (fun c1 => hl (ht.1 c1)) hne), if_pos (by omega)]
  have hh : hi % 256 < 256 := Nat.mod_lt _ (by norm_num)
  have eah : AH (exec_mul env s) = hi % 256 := by
    unfold AH; rw [g1]; omega
  have eal : AL (exec_mul env s) = lo := by
    unfold AL; rw [g1]; omega
  rw [eah, eal, g1, g2, g3, g4, hc, hlo2]
  exact ⟨r2, by omega, rfl, rfl, rfl⟩

/-- C19: MUL and IMUL leave the exact double-width product.  With `cpu_alu_op` not 2 (the
closing block of every instruction sets it to 0) and the operand in `cpu_data`: MUL r/m8
leaves AX = AL * src and MUL r/m16 leaves DX:AX = AX * src as unsigned numbers; IMUL r/m8
leaves in AX, and IMUL r/m16 in DX:AX, the two's-complement product of the operands read
as signed numbers.  C and V are equal: set exactly when the upper half (AH, DX) is not 0
for MUL, and exactly when it is not the sign extension of the lower half (AL, AX) for
IMUL. -/
theorem mul_exact_product (env : Env) (s : State) (halu : s.cpu_alu_op ≠ 2) :
    (s.opcode = 0xF6 → (s.rmdat &&& 0x38) = 0x20 →
      (exec_mul env s).ax = AL s * (s.cpu_data % 256) ∧
      (exec_mul env s).flags.testBit 0 = decide (AH (exec_mul env s) ≠ 0) ∧
      (exec_mul env s).flags.testBit 11 = decide (AH (exec_mul env s) ≠ 0)) ∧
    (s.opcode = 0xF7 → (s.rmdat &&& 0x38) = 0x20 →
      (exec_mul env s).dx * 65536 + (exec_mul env s).ax
        = (s.ax % 65536) * (s.cpu_data % 65536) ∧
      (exec_mul env s).ax < 65536 ∧
      (exec_mul env s).flags.testBit 0 = decide ((exec_mul env s).dx ≠ 0) ∧
      (exec_mul env s).flags.testBit 11 = decide ((exec_mul env s).dx ≠ 0)) ∧
    (s.opcode = 0xF6 → (s.rmdat &&& 0x38) = 0x28 →
      signed_val 16 (exec_mul env s).ax
        = signed_val 8 (AL s) * signed_val 8 (s.cpu_data % 256) ∧
      (exec_mul env s).ax < 65536 ∧
      (exec_mul env s).flags.testBit 0
        = decide (AH (exec_mul env s) ≠ (if 128 ≤ AL (exec_mul env s) then 255 else 0)) ∧
      (exec_mul env s).flags.testBit 11
        = decide (AH (exec_mul env s) ≠ (if 128 ≤ AL (exec_mul env s) then 255 else 0))) ∧
    (s.opcode = 0xF7 → (s.rmdat &&& 0x38) = 0x28 →
      signed_val 32 ((exec_mul env s).dx * 65536 + (exec_mul env s).ax)
        = signed_val 16 (s.ax % 65536) * signed_val 16 (s.cpu_data % 65536) ∧
      (exec_mul env s).ax < 65536 ∧ (exec_mul env s).dx < 65536 ∧
      (exec_mul env s).flags.testBit 0
        = decide ((exec_mul env s).dx ≠ (if 32768 ≤ (exec_mul env s).ax then 65535 else 0)) ∧
      (exec_mul env s).flags.testBit 11
        = decide ((exec_mul env s).dx ≠
            (if 32768 ≤ (exec_mul env s).ax then 65535 else 0))) := by
  refine ⟨fun hop hrm => ?_, fun hop hrm => ?_, fun hop hrm => ?_, fun hop hrm => ?_⟩
  · obtain ⟨a, -, b, c⟩ := exec_mul_byte_unsigned env s hop hrm halu
    exact ⟨a, b, c⟩
  · exact exec_mul_word_unsigned env s hop hrm halu
  · obtain ⟨a, b, -, c, d⟩ := exec_imul_byte env s hop hrm halu
    exact ⟨a, b, c, d⟩
  · exact exec_imul_word env s hop hrm halu

theorem mul_exact_product_witness :
    mul_state.cpu_alu_op ≠ 2 ∧ mul_state.opcode = 0xF6 ∧ (mul_state.rmdat &&& 0x38) = 0x20 ∧
    (exec_mul idle_env mul_state).ax = 132 :=
  ⟨by decide, rfl, by decide,
   ((mul_exact_product idle_env mul_state (by decide)).1 rfl (by decide)).1.trans (by decide)⟩

theorem clock_end_irq (env : Env) (hk : env_keeps_irq env) (s : State) :
    (clock_end env s).irq = s.irq := by
  unfold clock_end
  simp only
  split_ifs
  · obtain ⟨a, b, c, d⟩ := hk ({ s with tsc := (s.tsc + ((s.cycdiff - s.cycles) % 18446744073709551616).toNat * env.xt_cpu_multi_hi) % 18446744073709551616 } : State).ext
    simp only [State.irq, State.setExt, a, b, c, d]
    rfl
  · rfl

theorem process_timers_irq (env : Env) (hk : env_keeps_irq env) (s : State) :
    (process_timers env s).irq = s.irq := by
  unfold process_timers clock_start
  exact clock_end_irq env hk s

theorem cycles_forward_irq (env : Env) (hk : env_keeps_irq env) (c : Int) (s : State) :
    (cycles_forward env c s).irq = s.irq := by
  unfold cycles_forward
  simp only
  split_ifs
  · rw [process_timers_irq env hk]; rfl
  · rfl

theorem bus_ready_irq (env : Env) (hk : env_keeps_irq env) (s : State) :
    (bus_ready env s).irq = s.irq := by
  unfold bus_ready
  split_ifs
  · exact cycles_forward_irq env hk _ s
  · rfl

theorem run_dma_cycle_irq (idle : Nat) (s : State) : (run_dma_cycle idle s).irq = s.irq := by
  unfold run_dma_cycle
  simp only
  split_ifs <;> rfl

theorem cycles_idle_loop_irq (env : Env) (hk : env_keeps_irq env) (n : Nat) (s : State) :
    (cycles_idle_loop env n s).irq = s.irq := by
  induction n generalizing s with
  | zero => rfl
  | succ n ih =>
    unfold cycles_idle_loop
    rw [ih, run_dma_cycle_irq, cycles_forward_irq env hk]

theorem pfq_write_irq (s : State) : (pfq_write s).irq = s.irq := by
  unfold pfq_write
  simp only [readmemwf, readmembf]
  split_ifs <;> rfl

theorem pfq_add_irq (s : State) : (pfq_add s).irq = s.irq := by
  unfold pfq_add
  split_ifs
  · exact pfq_write_irq s
  · rfl

theorem bus_do_mem_irq (io : Nat) (s : State) : (bus_do_mem io s).irq = s.irq := by
  unfold bus_do_mem
  simp only [bus_writew, bus_writeb, write_mem_w, write_mem_b]
  split_ifs <;> rfl

/-- A bus cycle that is neither a port access nor an interrupt acknowledge leaves the
interrupt request lines alone. -/
theorem run_bus_cycle_irq (env : Env) (hk : env_keeps_irq env) (io : Nat) (s : State)
    (h1 : (io &&& BUS_ACCESS_TYPE) ≠ BUS_IO) (h2 : (io &&& BUS_ACCESS_TYPE) ≠ BUS_PIC) :
    (run_bus_cycle env io s).irq = s.irq := by
  unfold run_bus_cycle
  have hr := bus_ready_irq env hk s
  generalize bus_ready env s = s1 at hr
  have hmem : ∀ x, (bus_do_mem x s1).irq = s.irq := fun x => (bus_do_mem_irq x s1).trans hr
  have hadd : (pfq_add s1).irq = s.irq := (pfq_add_irq s1).trans hr
  split_ifs <;> (try simp only) <;> (try split) <;>
    first
    | exact hr
    | rfl
    | exact hmem _
    | exact hadd

theorem biu_abort_irq (env : Env) (hk : env_keeps_irq env) (s : State) :
    (biu_abort env s).irq = s.irq := by
  unfold biu_abort
  simp only
  split_ifs
  · rfl
  · exact cycles_idle_loop_irq env hk _ s

theorem code_not_io : (BUS_CODE &&& BUS_ACCESS_TYPE) ≠ BUS_IO ∧
    (BUS_CODE &&& BUS_ACCESS_TYPE) ≠ BUS_PIC := by decide

theorem biu_access_irq (env : Env) (hk : env_keeps_irq env) (bus init : Nat) (s : State)
    (h1 : bus ≠ 0 → (s.bus_request_type &&& BUS_ACCESS_TYPE) ≠ BUS_IO)
    (h2 : bus ≠ 0 → (s.bus_request_type &&& BUS_ACCESS_TYPE) ≠ BUS_PIC) :
    (biu_access env bus init s).irq = s.irq := by
  unfold biu_access
  simp only
  have ha := biu_abort_effect env s
  have hr : (biu_abort env s).bus_request_type = s.bus_request_type :=
    congrArg Ctl.bus_request_type ha.1
  by_cases hb : bus ≠ 0
  · rw [if_pos hb]
    by_cases hi : init ≠ 0 ∧ s.schedule_fetch ≠ 0
    · rw [if_pos hi, hr]
      exact (run_bus_cycle_irq env hk _ _ (h1 hb) (h2 hb)).trans (biu_abort_irq env hk s)
    · rw [if_neg hi]
      exact run_bus_cycle_irq env hk _ _ (h1 hb) (h2 hb)
  · rw [if_neg hb]
    split_ifs
    · exact run_bus_cycle_irq env hk _ _ code_not_io.1 code_not_io.2
    · rfl

theorem cycles_biu_irq (env : Env) (hk : env_keeps_irq env) (bus init : Nat) (s : State)
    (h1 : bus ≠ 0 → (s.bus_request_type &&& BUS_ACCESS_TYPE) ≠ BUS_IO)
    (h2 : bus ≠ 0 → (s.bus_request_type &&& BUS_ACCESS_TYPE) ≠ BUS_PIC) :
    (cycles_biu env bus init s).irq = s.irq := by
  unfold cycles_biu
  simp only
  have h := biu_access_irq env hk bus init
    ({ s with pasv :=
      if bus ≠ 0 ∨ (BUS_CYCLE s = BUS_T1 ∧ s.schedule_fetch ≠ 0) then 0 else 1 } : State) h1 h2
  generalize biu_access env bus init
    ({ s with pasv :=
      if bus ≠ 0 ∨ (BUS_CYCLE s = BUS_T1 ∧ s.schedule_fetch ≠ 0) then 0 else 1 } : State)
    = s1 at h
  have h2 : (if BUS_CYCLE s1 = BUS_T2 then pfq_schedule 1 s1 else s1).irq = s1.irq := by
    split_ifs <;> rfl
  generalize (if BUS_CYCLE s1 = BUS_T2 then pfq_schedule 1 s1 else s1) = s2 at h2
  have h3 := run_dma_cycle_irq s2.pasv s2
  generalize run_dma_cycle s2.pasv s2 = s3 at h3
  show s3.irq = _
  exact h3.trans (h2.trans h)

theorem cycles_pasv_irq (s : State) : (cycles_pasv s).irq = s.irq := by
  unfold cycles_pasv
  exact (run_dma_cycle_irq 1 (pfq_schedule 1 s)).trans rfl

theorem wait_tick_irq (env : Env) (hk : env_keeps_irq env) (bus d : Nat) (s : State)
    (h1 : bus ≠ 0 → (s.bus_request_type &&& BUS_ACCESS_TYPE) ≠ BUS_IO)
    (h2 : bus ≠ 0 → (s.bus_request_type &&& BUS_ACCESS_TYPE) ≠ BUS_PIC) :
    (wait_tick env bus d s).irq = s.irq := by
  unfold wait_tick
  simp only
  rw [cycles_forward_irq env hk]
  by_cases hp : bus = 0 ∧ s.schedule_fetch = 0 ∧ BUS_CYCLE s = BUS_T1
  · rw [if_pos hp]
    exact cycles_pasv_irq s
  · rw [if_neg hp]
    exact cycles_biu_irq env hk bus _ s h1 h2

theorem wait_from_irq (env : Env) (hk : env_keeps_irq env) (bus n d : Nat) (s : State)
    (h1 : bus ≠ 0 → (s.bus_request_type &&& BUS_ACCESS_TYPE) ≠ BUS_IO)
    (h2 : bus ≠ 0 → (s.bus_request_type &&& BUS_ACCESS_TYPE) ≠ BUS_PIC) :
    (wait_from env bus n d s).irq = s.irq := by
  induction n generalizing d s with
  | zero => rfl
  | succ n ih =>
    unfold wait_from
    have hr : (wait_tick env bus d s).bus_request_type = s.bus_request_type :=
      congrArg Ctl.bus_request_type (wait_tick_ctl env bus d s)
    rw [ih (d + 1) (wait_tick env bus d s) (by rw [hr]; exact h1) (by rw [hr]; exact h2)]
    exact wait_tick_irq env hk bus d s h1 h2

/-- No tick of `wait` changes the interrupt request lines, unless the bus cycle is a port
access or an interrupt acknowledge. -/
theorem wait_irq (env : Env) (hk : env_keeps_irq env) (c : Int) (bus : Nat) (s : State)
    (h1 : bus ≠ 0 → (s.bus_request_type &&& BUS_ACCESS_TYPE) ≠ BUS_IO)
    (h2 : bus ≠ 0 → (s.bus_request_type &&& BUS_ACCESS_TYPE) ≠ BUS_PIC) :
    (wait env c bus s).irq = s.irq :=
  wait_from_irq env hk bus _ 0 s h1 h2

theorem wait_idle_irq (env : Env) (hk : env_keeps_irq env) (c : Int) (s : State) :
    (wait env c 0 s).irq = s.irq :=
  wait_irq env hk c 0 s (fun h => absurd rfl h) (fun h => absurd rfl h)

theorem repctl_of_arch (s t : State) (h : t.arch = s.arch) : t.repctl = s.repctl := by
  have a1 : t.in_rep = s.in_rep := congrArg Arch.in_rep h
  have a2 : t.rep_c_flag = s.rep_c_flag := congrArg Arch.rep_c_flag h
  have a3 : t.cx = s.cx := congrArg Arch.cx h
  have a4 : t.repeating = s.repeating := congrArg Arch.repeating h
  have a5 : t.completed = s.completed := congrArg Arch.completed h
  have a6 : t.opcode = s.opcode := congrArg Arch.opcode h
  have a7 : t.noint = s.noint := congrArg Arch.noint h
  have a8 : t.flags = s.flags := congrArg Arch.flags h
  unfold State.repctl
  rw [a1, a2, a3, a4, a5, a6, a7, a8]

theorem repctl_fields (s t : State) (h : t.repctl = s.repctl) :
    t.in_rep = s.in_rep ∧ t.rep_c_flag = s.rep_c_flag ∧ t.cx = s.cx ∧
    t.repeating = s.repeating ∧ t.completed = s.completed ∧ t.opcode = s.opcode ∧
    t.noint = s.noint ∧ t.flags.testBit 8 = s.flags.testBit 8 :=
  ⟨congrArg RepCtl.in_rep h, congrArg RepCtl.rep_c_flag h, congrArg RepCtl.cx h,
   congrArg RepCtl.repeating h, congrArg RepCtl.completed h, congrArg RepCtl.opcode h,
   congrArg RepCtl.noint h, congrArg RepCtl.trap h⟩

theorem wait_repctl (env : Env) (c : Int) (bus : Nat) (s : State) :
    (wait env c bus s).repctl = s.repctl :=
  repctl_of_arch s _ (wait_arch env c bus s)

theorem readmemb_arch (env : Env) (seg a : Nat) (s : State) :
    (readmemb env seg a s).2.arch = s.arch := by
  unfold readmemb
  exact (upd_req_arch _ 0).trans ((wait_arch env 4 1 _).trans rfl)

theorem upd_req_irq (t : State) (r : Nat) :
    ({ t with bus_request_type := r } : State).irq = t.irq := rfl

theorem readmemb_irq (env : Env) (hk : env_keeps_irq env) (seg a : Nat) (s : State) :
    (readmemb env seg a s).2.irq = s.irq := by
  unfold readmemb
  exact (upd_req_irq _ 0).trans ((wait_irq env hk 4 1 _
    (fun _ => (by decide : BUS_MEM &&& BUS_ACCESS_TYPE ≠ BUS_IO))
    (fun _ => (by decide : BUS_MEM &&& BUS_ACCESS_TYPE ≠ BUS_PIC))).trans rfl)

theorem pfq_schedule_irq (v : Nat) (t : State) : (pfq_schedule v t).irq = t.irq := rfl

theorem read_cycles_irq (env : Env) (hk : env_keeps_irq env) (c : Bool) (s1 : State) :
    (if c = true then
        wait env 4 1 { s1 with bus_request_type := BUS_MEM ||| BUS_WIDE }
      else
        wait env 4 1 { pfq_schedule 0
          (wait env 4 1 { s1 with bus_request_type := BUS_MEM ||| BUS_HIGH })
            with bus_request_type := BUS_MEM }).irq = s1.irq := by
  cases c
  · rw [if_neg Bool.false_ne_true, wait_irq env hk 4 1 _
      (fun _ => (by decide : BUS_MEM &&& BUS_ACCESS_TYPE ≠ BUS_IO))
      (fun _ => (by decide : BUS_MEM &&& BUS_ACCESS_TYPE ≠ BUS_PIC)), upd_req_irq,
      pfq_schedule_irq, wait_irq env hk 4 1 _
      (fun _ => (by decide : (BUS_MEM ||| BUS_HIGH) &&& BUS_ACCESS_TYPE ≠ BUS_IO))
      (fun _ => (by decide : (BUS_MEM ||| BUS_HIGH) &&& BUS_ACCESS_TYPE ≠ BUS_PIC)),
      upd_req_irq]
  · rw [if_pos rfl, wait_irq env hk 4 1 _
      (fun _ => (by decide : (BUS_MEM ||| BUS_WIDE) &&& BUS_ACCESS_TYPE ≠ BUS_IO))
      (fun _ => (by decide : (BUS_MEM ||| BUS_WIDE) &&& BUS_ACCESS_TYPE ≠ BUS_PIC)),
      upd_req_irq]

theorem upd_mem_irq (s : State) (a b : Nat) :
    ({ s with mem_seg := a, mem_addr := b } : State).irq = s.irq := rfl

theorem readmemw_irq (env : Env) (hk : env_keeps_irq env) (seg a : Nat) (s : State) :
    (readmemw env seg a s).2.irq = s.irq :=
  (read_cycles_irq env hk (s.is8086 && decide (((a % 65536) &&& 1) = 0))
    { s with mem_seg := seg % 4294967296, mem_addr := a % 65536 }).trans (upd_mem_irq s _ _)

theorem upd_si_repctl (t : State) (a : Nat) : ({ t with si := a } : State).repctl = t.repctl := rfl
theorem upd_di_repctl (t : State) (a : Nat) : ({ t with di := a } : State).repctl = t.repctl := rfl
theorem upd_ea_repctl (t : State) (a : Nat) :
    ({ t with eaaddr := a } : State).repctl = t.repctl := rfl
theorem upd_data_repctl (t : State) (a : Nat) :
    ({ t with cpu_data := a } : State).repctl = t.repctl := rfl
theorem upd_operands_repctl (t : State) (a b : Nat) :
    ({ t with cpu_src := a, cpu_dest := b } : State).repctl = t.repctl := rfl
theorem string_increment_repctl (bits : Nat) (t : State) :
    (string_increment bits t).repctl = t.repctl := rfl

theorem upd_si_irq (t : State) (a : Nat) : ({ t with si := a } : State).irq = t.irq := rfl
theorem upd_di_irq (t : State) (a : Nat) : ({ t with di := a } : State).irq = t.irq := rfl
theorem upd_ea_irq (t : State) (a : Nat) : ({ t with eaaddr := a } : State).irq = t.irq := rfl
theorem upd_data_irq (t : State) (a : Nat) :
    ({ t with cpu_data := a } : State).irq = t.irq := rfl
theorem upd_operands_irq (t : State) (a b : Nat) :
    ({ t with cpu_src := a, cpu_dest := b } : State).irq = t.irq := rfl
theorem string_increment_irq (bits : Nat) (t : State) :
    (string_increment bits t).irq = t.irq := rfl

theorem lods_repctl (env : Env) (bits : Nat) (s : State) :
    (lods env bits s).repctl = s.repctl := by
  unfold lods
  dsimp only
  rw [upd_si_repctl, string_increment_repctl, upd_data_repctl]
  by_cases hb : bits = 16
  · rw [if_pos hb, repctl_of_arch _ _ (readmemw_arch env _ _ _), upd_ea_repctl]
  · rw [if_neg hb, repctl_of_arch _ _ (readmemb_arch env _ _ _), upd_ea_repctl]

theorem lods_irq (env : Env) (hk : env_keeps_irq env) (bits : Nat) (s : State) :
    (lods env bits s).irq = s.irq := by
  unfold lods
  dsimp only
  rw [upd_si_irq, string_increment_irq, upd_data_irq]
  by_cases hb : bits = 16
  · rw [if_pos hb, readmemw_irq env hk, upd_ea_irq]
  · rw [if_neg hb, readmemb_irq env hk, upd_ea_irq]

theorem lods_di_repctl (env : Env) (bits : Nat) (s : State) :
    (lods_di env bits s).repctl = s.repctl := by
  unfold lods_di
  dsimp only
  rw [upd_di_repctl, string_increment_repctl, upd_data_repctl]
  by_cases hb : bits = 16
  · rw [if_pos hb, repctl_of_arch _ _ (readmemw_arch env _ _ _), upd_ea_repctl]
  · rw [if_neg hb, repctl_of_arch _ _ (readmemb_arch env _ _ _), upd_ea_repctl]

theorem lods_di_irq (env : Env) (hk : env_keeps_irq env) (bits : Nat) (s : State) :
    (lods_di env bits s).irq = s.irq := by
  unfold lods_di
  dsimp only
  rw [upd_di_irq, string_increment_irq, upd_data_irq]
  by_cases hb : bits = 16
  · rw [if_pos hb, readmemw_irq env hk, upd_ea_irq]
  · rw [if_neg hb, readmemb_irq env hk, upd_ea_irq]

theorem repctl_ext (s t : State) (h1 : t.in_rep = s.in_rep) (h2 : t.rep_c_flag = s.rep_c_flag)
    (h3 : t.cx = s.cx) (h4 : t.repeating = s.repeating) (h5 : t.completed = s.completed)
    (h6 : t.opcode = s.opcode) (h7 : t.noint = s.noint)
    (h8 : t.flags.testBit 8 = s.flags.testBit 8) : t.repctl = s.repctl := by
  unfold State.repctl
  rw [h1, h2, h3, h4, h5, h6, h7, h8]

theorem set_cf_repctl (c : Bool) (t : State) : (set_cf c t).repctl = t.repctl :=
  repctl_ext _ _ rfl rfl rfl rfl rfl rfl rfl (by rw [set_cf_testBit]; simp)

theorem set_of_repctl (c : Nat) (t : State) : (set_of c t).repctl = t.repctl :=
  repctl_ext _ _ rfl rfl rfl rfl rfl rfl rfl (by rw [set_of_testBit]; simp)

theorem set_af_repctl (c : Bool) (t : State) : (set_af c t).repctl = t.repctl :=
  repctl_ext _ _ rfl rfl rfl rfl rfl rfl rfl (by rw [set_af_testBit]; simp)

theorem set_zf_ex_repctl (c : Bool) (t : State) : (set_zf_ex c t).repctl = t.repctl :=
  repctl_ext _ _ rfl rfl rfl rfl rfl rfl rfl (by rw [set_zf_ex_testBit]; simp)

theorem set_sf_repctl (c : Nat) (t : State) : (set_sf c t).repctl = t.repctl :=
  repctl_ext _ _ rfl rfl rfl rfl rfl rfl rfl (by rw [set_sf_testBit]; simp)

theorem set_pf_repctl (t : State) : (set_pf t).repctl = t.repctl :=
  repctl_ext _ _ rfl rfl rfl rfl rfl rfl rfl (by rw [set_pf_testBit]; simp)

theorem or_carry_repctl (t : State) :
    ({ t with flags := t.flags ||| C_FLAG } : State).repctl = t.repctl :=
  repctl_ext _ _ rfl rfl rfl rfl rfl rfl rfl (by
    show (t.flags ||| C_FLAG).testBit 8 = _
    rw [Nat.testBit_or, (by decide : Nat.testBit C_FLAG 8 = false), Bool.or_false])

theorem sub_repctl (bits : Nat) (s : State) : (sub bits s).repctl = s.repctl := by
  simp only [sub, set_apzs, set_pzs, set_zf, do_af, set_of_sub]
  split
  · rw [or_carry_repctl, set_of_repctl, set_af_repctl, set_sf_repctl, set_zf_ex_repctl,
      set_pf_repctl, upd_data_repctl]
  · rw [set_cf_repctl, set_of_repctl, set_af_repctl, set_sf_repctl, set_zf_ex_repctl,
      set_pf_repctl, upd_data_repctl]

theorem upd_flags_irq (f : Nat) (t : State) : ({ t with flags := f } : State).irq = t.irq := rfl
theorem set_cf_irq (c : Bool) (t : State) : (set_cf c t).irq = t.irq := rfl
theorem set_of_irq (c : Nat) (t : State) : (set_of c t).irq = t.irq := rfl
theorem set_af_irq (c : Bool) (t : State) : (set_af c t).irq = t.irq := rfl
theorem set_zf_ex_irq (c : Bool) (t : State) : (set_zf_ex c t).irq = t.irq := rfl
theorem set_sf_irq (c : Nat) (t : State) : (set_sf c t).irq = t.irq := rfl
theorem set_pf_irq (t : State) : (set_pf t).irq = t.irq := rfl

theorem sub_irq (bits : Nat) (s : State) : (sub bits s).irq = s.irq := by
  simp only [sub, set_apzs, set_pzs, set_zf, do_af, set_of_sub]
  split
  · rw [upd_flags_irq, set_of_irq, set_af_irq, set_sf_irq, set_zf_ex_irq, set_pf_irq,
      upd_data_irq]
  · rw [set_cf_irq, set_of_irq, set_af_irq, set_sf_irq, set_zf_ex_irq, set_pf_irq,
      upd_data_irq]

/-- The compare of CMPS and SCAS changes neither the repeat control, nor the trap flag, nor
the interrupt request lines. -/
theorem cmps_scas_compare_frame (env : Env) (hk : env_keeps_irq env) (bits : Nat) (s : State) :
    (cmps_scas_compare env bits s).repctl = s.repctl ∧
    (cmps_scas_compare env bits s).irq = s.irq := by
  unfold cmps_scas_compare
  dsimp only
  rw [sub_repctl, sub_irq, wait_repctl, wait_idle_irq env hk, upd_operands_repctl,
    upd_operands_irq, lods_di_repctl, lods_di_irq env hk, wait_repctl, wait_idle_irq env hk]
  by_cases h : (s.opcode &&& 8) = 0
  · rw [if_pos h]
    dsimp only
    rw [lods_repctl, lods_irq env hk, wait_repctl, wait_idle_irq env hk]
    exact ⟨rfl, rfl⟩
  · rw [if_neg h]
    exact ⟨rfl, rfl⟩

theorem no_irq_pending (s : State) (h : no_irq s) : irq_pending s = false := by
  obtain ⟨h1, h2, h3⟩ := h
  cases hp : irq_pending s
  · rfl
  · rcases (irq_pending_iff s).1 hp with a | a | a
    · exact absurd h1 a.1
    · exact absurd h2 a.1
    · exact absurd h3 a.2.1

theorem no_irq_of (s t : State) (hi : t.irq = s.irq) (hf : t.flags = s.flags)
    (h : no_irq s) : no_irq t := by
  obtain ⟨h1, h2, h3⟩ := h
  have a1 : t.nmi = s.nmi := congrArg Irq.nmi hi
  have a2 : t.pic_int_pending = s.pic_int_pending := congrArg Irq.pic_int_pending hi
  exact ⟨a1.trans h1, by rw [hf]; exact h2, a2.trans h3⟩

theorem no_irq_of_trap (s t : State) (hi : t.irq = s.irq)
    (hf : t.flags.testBit 8 = s.flags.testBit 8) (h : no_irq s) : no_irq t := by
  obtain ⟨h1, h2, h3⟩ := h
  have a1 : t.nmi = s.nmi := congrArg Irq.nmi hi
  have a2 : t.pic_int_pending = s.pic_int_pending := congrArg Irq.pic_int_pending hi
  refine ⟨a1.trans h1, ?_, a2.trans h3⟩
  by_contra hc
  have := (flag_tb t.flags T_FLAG 8 rfl).1 hc
  rw [hf] at this
  exact ((flag_tb s.flags T_FLAG 8 rfl).2 this) h2

theorem cmps_scas_rep_eq (env : Env) (f : Nat) (c : State) (hin : c.in_rep ≠ 0) :
    ∃ s8 s9 : State,
      s8 = wait env 1 0 { c with completed := 0, repeating := 1 } ∧
      s9 = { s8 with cx := (s8.cx + 65535) % 65536 } ∧
      cmps_scas_rep env f c =
        if decide ((s9.flags &&& (if s9.rep_c_flag ≠ 0 then C_FLAG else Z_FLAG)) ≠ 0)
            = decide (s9.in_rep = 1) then
          some (wait env 1 0 (wait env 1 0 { s9 with completed := 1 }))
        else
          (if irq_pending (wait env 1 0 s9) then
              rep_interrupt env f (wait env 1 0 (wait env 1 0 s9))
            else some (wait env 1 0 s9)).map
            (fun t => if (wait env 1 0 t).cx = 0 then rep_end (wait env 1 0 t)
                      else wait env 1 0 (wait env 1 0 t)) := by
  refine ⟨_, _, rfl, rfl, ?_⟩
  unfold cmps_scas_rep
  rw [if_pos hin]

theorem arch_rep_fields (s t : State) (h : t.arch = s.arch) :
    t.in_rep = s.in_rep ∧ t.rep_c_flag = s.rep_c_flag ∧ t.cx = s.cx ∧
    t.repeating = s.repeating ∧ t.completed = s.completed ∧ t.flags = s.flags ∧
    t.opcode = s.opcode :=
  ⟨congrArg Arch.in_rep h, congrArg Arch.rep_c_flag h, congrArg Arch.cx h,
   congrArg Arch.repeating h, congrArg Arch.completed h, congrArg Arch.flags h,
   congrArg Arch.opcode h⟩

theorem wait2_idle_irq (env : Env) (hk : env_keeps_irq env) (c1 c2 : Int) (s : State) :
    (wait env c2 0 (wait env c1 0 s)).irq = s.irq :=
  (wait_idle_irq env hk c2 _).trans (wait_idle_irq env hk c1 s)

theorem wait2_arch (env : Env) (c1 c2 : Int) (s : State) :
    (wait env c2 0 (wait env c1 0 s)).arch = s.arch :=
  (wait2_idle_frame env c1 c2 s).1

theorem upd_cx_fields (t : State) (a : Nat) :
    ({ t with cx := a } : State).in_rep = t.in_rep ∧
    ({ t with cx := a } : State).rep_c_flag = t.rep_c_flag ∧
    ({ t with cx := a } : State).cx = a ∧
    ({ t with cx := a } : State).repeating = t.repeating ∧
    ({ t with cx := a } : State).completed = t.completed ∧
    ({ t with cx := a } : State).flags = t.flags ∧
    ({ t with cx := a } : State).irq = t.irq :=
  ⟨rfl, rfl, rfl, rfl, rfl, rfl, rfl⟩

theorem upd_completed_fields (t : State) (a : Nat) :
    ({ t with completed := a } : State).in_rep = t.in_rep ∧
    ({ t with completed := a } : State).rep_c_flag = t.rep_c_flag ∧
    ({ t with completed := a } : State).cx = t.cx ∧
    ({ t with completed := a } : State).repeating = t.repeating ∧
    ({ t with completed := a } : State).completed = a ∧
    ({ t with completed := a } : State).flags = t.flags ∧
    ({ t with completed := a } : State).irq = t.irq :=
  ⟨rfl, rfl, rfl, rfl, rfl, rfl, rfl⟩

theorem upd_pass_fields (t : State) (a b : Nat) :
    ({ t with completed := a, repeating := b } : State).in_rep = t.in_rep ∧
    ({ t with completed := a, repeating := b } : State).rep_c_flag = t.rep_c_flag ∧
    ({ t with completed := a, repeating := b } : State).cx = t.cx ∧
    ({ t with completed := a, repeating := b } : State).repeating = b ∧
    ({ t with completed := a, repeating := b } : State).completed = a ∧
    ({ t with completed := a, repeating := b } : State).flags = t.flags ∧
    ({ t with completed := a, repeating := b } : State).irq = t.irq :=
  ⟨rfl, rfl, rfl, rfl, rfl, rfl, rfl⟩

theorem rep_end_fields (t : State) :
    (rep_end t).in_rep = 0 ∧ (rep_end t).rep_c_flag = t.rep_c_flag ∧ (rep_end t).cx = t.cx ∧
    (rep_end t).repeating = 0 ∧ (rep_end t).completed = 1 ∧ (rep_end t).flags = t.flags ∧
    (rep_end t).irq = t.irq :=
  ⟨rfl, rfl, rfl, rfl, rfl, rfl, rfl⟩

theorem cmps_scas_rep_split (env : Env) (f : Nat) (c : State) (hin : c.in_rep ≠ 0) :
    ∃ s7 s8 s9 s9c tz s10 : State,
      s7 = { c with completed := 0, repeating := 1 } ∧
      s8 = wait env 1 0 s7 ∧
      s9 = { s8 with cx := (s8.cx + 65535) % 65536 } ∧
      s9c = { s9 with completed := 1 } ∧
      tz = wait env 1 0 (wait env 1 0 s9c) ∧
      s10 = wait env 1 0 s9 ∧
      cmps_scas_rep env f c =
        if decide ((s9.flags &&& (if s9.rep_c_flag ≠ 0 then C_FLAG else Z_FLAG)) ≠ 0)
            = decide (s9.in_rep = 1) then some tz
        else
          (if irq_pending s10 then rep_interrupt env f (wait env 1 0 s10) else some s10).map
            (fun t => if (wait env 1 0 t).cx = 0 then rep_end (wait env 1 0 t)
                      else wait env 1 0 (wait env 1 0 t)) := by
  refine ⟨_, _, _, _, _, _, rfl, rfl, rfl, rfl, rfl, rfl, ?_⟩
  unfold cmps_scas_rep
  rw [if_pos hin]

/-- One pass of the block `if (in_rep) { ... }` of CMPS/SCAS under REPE with no interrupt
pending: CX is decremented once; the pass ends the instruction when Z is clear or CX has
reached 0, and asks for another pass otherwise. -/
theorem cmps_scas_rep_repe (env : Env) (hk : env_keeps_irq env) (f : Nat) (c : State)
    (h2 : c.in_rep = 2) (hc : c.rep_c_flag = 0) (hcx : 0 < c.cx) (hlt : c.cx < 65536)
    (hq : no_irq c) :
    ∃ t, cmps_scas_rep env f c = some t ∧ t.cx = c.cx - 1 ∧ t.rep_c_flag = 0 ∧
      t.flags = c.flags ∧ t.irq = c.irq ∧
      ((c.flags &&& Z_FLAG) = 0 → t.completed = 1 ∧ t.in_rep = 2) ∧
      ((c.flags &&& Z_FLAG) ≠ 0 → c.cx = 1 →
        t.completed = 1 ∧ t.in_rep = 0 ∧ t.repeating = 0) ∧
      ((c.flags &&& Z_FLAG) ≠ 0 → c.cx ≠ 1 →
        t.completed = 0 ∧ t.repeating = 1 ∧ t.in_rep = 2) := by
  obtain ⟨s7, s8, s9, s9c, tz, s10, h7, h8, h9, h9c, hz, h10, he⟩ :=
    cmps_scas_rep_split env f c (by rw [h2]; decide)
  -- s7
  obtain ⟨a1, a2, a3, a4, a5, a6, a7⟩ := upd_pass_fields c 0 1
  rw [← h7] at a1 a2 a3 a4 a5 a6 a7
  -- s8
  obtain ⟨b1, b2, b3, b4, b5, b6, -⟩ := arch_rep_fields _ _ (wait_arch env 1 0 s7)
  have b7 := wait_idle_irq env hk 1 s7
  rw [← h8] at b1 b2 b3 b4 b5 b6 b7
  -- s9
  obtain ⟨c1, c2, c3, c4, c5, c6, c7⟩ := upd_cx_fields s8 ((s8.cx + 65535) % 65536)
  rw [← h9] at c1 c2 c3 c4 c5 c6 c7
  have g1 : s9.in_rep = 2 := c1.trans (b1.trans (a1.trans h2))
  have g2 : s9.rep_c_flag = 0 := c2.trans (b2.trans (a2.trans hc))
  have g3 : s9.cx = c.cx - 1 := by
    rw [c3, b3, a3]; omega
  have g4 : s9.repeating = 1 := c4.trans (b4.trans a4)
  have g5 : s9.completed = 0 := c5.trans (b5.trans a5)
  have g6 : s9.flags = c.flags := c6.trans (b6.trans a6)
  have gi : s9.irq = c.irq := c7.trans (b7.trans a7)
  clear a1 a2 a3 a4 a5 a6 a7 b1 b2 b3 b4 b5 b6 b7 c1 c2 c3 c4 c5 c6 c7 h7 h8 h9
  rw [he, g2, g1, g6]
  rw [if_neg (fun x : (0 : Nat) ≠ 0 => x rfl)]
  have hd1 : decide ((2 : Nat) = 1) = false := by decide
  rw [hd1]
  clear he
  by_cases hzf : (c.flags &&& Z_FLAG) = 0
  · have hdz : decide ((c.flags &&& Z_FLAG) ≠ 0) = false := decide_eq_false (fun x => x hzf)
    rw [hdz, if_pos rfl]
    obtain ⟨d1, d2, d3, d4, d5, d6, d7⟩ := upd_completed_fields s9 1
    rw [← h9c] at d1 d2 d3 d4 d5 d6 d7
    obtain ⟨k1, k2, k3, k4, k5, k6, -⟩ := arch_rep_fields _ _ (wait2_arch env 1 1 s9c)
    have ki := wait2_idle_irq env hk 1 1 s9c
    rw [← hz] at k1 k2 k3 k4 k5 k6 ki
    exact ⟨tz, rfl, k3.trans (d3.trans g3), k2.trans (d2.trans g2), k6.trans (d6.trans g6),
      ki.trans (d7.trans gi), fun _ => ⟨k5.trans d5, k1.trans (d1.trans g1)⟩,
      fun x => absurd hzf x, fun x => absurd hzf x⟩
  · have hdz : decide ((c.flags &&& Z_FLAG) ≠ 0) = true := decide_eq_true hzf
    rw [hdz, if_neg (fun x => Bool.noConfusion x)]
    obtain ⟨j1, j2, j3, j4, j5, j6, -⟩ := arch_rep_fields _ _ (wait_arch env 1 0 s9)
    have ji := wait_idle_irq env hk 1 s9
    rw [← h10] at j1 j2 j3 j4 j5 j6 ji
    have q10 : no_irq s10 := no_irq_of c _ (ji.trans gi) (j6.trans g6) hq
    rw [no_irq_pending _ q10, if_neg Bool.false_ne_true]
    obtain ⟨k1, k2, k3, k4, k5, k6, -⟩ := arch_rep_fields _ _ (wait_arch env 1 0 s10)
    have ki := wait_idle_irq env hk 1 s10
    rw [Option.map_some']
    generalize wait env 1 0 s10 = u at k1 k2 k3 k4 k5 k6 ki ⊢
    show ∃ t, some (if u.cx = 0 then rep_end u else wait env 1 0 u) = some t ∧ _
    obtain ⟨m1, m2, m3, m4, m5, m6, -⟩ := arch_rep_fields _ _ (wait_arch env 1 0 u)
    have mi := wait_idle_irq env hk 1 u
    obtain ⟨r1, r2, r3, r4, r5, r6, r7⟩ := rep_end_fields u
    have ucx : u.cx = c.cx - 1 := k3.trans (j3.trans g3)
    have urc : u.rep_c_flag = 0 := k2.trans (j2.trans g2)
    have ufl : u.flags = c.flags := k6.trans (j6.trans g6)
    have uirq : u.irq = c.irq := ki.trans (ji.trans gi)
    by_cases h1 : c.cx = 1
    · have hu0 : u.cx = 0 := by rw [ucx, h1]
      rw [if_pos hu0]
      exact ⟨_, rfl, r3.trans ucx, r2.trans urc, r6.trans ufl, r7.trans uirq,
        fun x => absurd x hzf, fun _ _ => ⟨r5, r1, r4⟩, fun _ x => absurd h1 x⟩
    · have hu0 : ¬ u.cx = 0 := by rw [ucx]; omega
      rw [if_neg hu0]
      exact ⟨_, rfl, m3.trans ucx, m2.trans urc, m6.trans ufl, mi.trans uirq,
        fun x => absurd x hzf, fun _ x => absurd x h1,
        fun _ _ => ⟨m5.trans (k5.trans (j5.trans g5)), m4.trans (k4.trans (j4.trans g4)),
          m1.trans (k1.trans (j1.trans g1))⟩⟩

theorem rep_start_eq (env : Env) (s : State) (hin : s.in_rep ≠ 0) (hcx : s.cx ≠ 0) :
    ∃ u : State, (rep_start env s) = (true, { u with completed := 1 }) ∧
      u.arch = s.arch ∧ (env_keeps_irq env → u.irq = s.irq) := by
  unfold rep_start
  by_cases hr : s.repeating = 0
  · have a := wait_arch env 2 0 s
    have e1 : (wait env 2 0 s).in_rep = s.in_rep := congrArg Arch.in_rep a
    have e2 : (wait env 2 0 s).cx = s.cx := congrArg Arch.cx a
    rw [if_pos hr]
    dsimp only
    rw [if_pos (by rw [e1]; exact hin), if_neg (by rw [e2]; exact hcx)]
    exact ⟨_, rfl, wait2_arch env 2 7 s, fun hk => wait2_idle_irq env hk 2 7 s⟩
  · rw [if_neg hr]
    exact ⟨s, rfl, rfl, fun _ => rfl⟩

/-- One pass of CMPS/SCAS under REPE with no interrupt pending. -/
theorem exec_cmps_scas_repe (env : Env) (hk : env_keeps_irq env) (f : Nat) (s : State)
    (h2 : s.in_rep = 2) (hc : s.rep_c_flag = 0) (hcx : 0 < s.cx) (hlt : s.cx < 65536)
    (hq : no_irq s) :
    ∃ t, exec_cmps_scas env f s = some t ∧ t.cx = s.cx - 1 ∧ t.rep_c_flag = 0 ∧ no_irq t ∧
      t.flags = (cmps_scas_compare env (8 <<< (s.opcode &&& 1)) (rep_start env s).2).flags ∧
      ((t.flags &&& Z_FLAG) = 0 → t.completed = 1 ∧ t.in_rep = 2) ∧
      ((t.flags &&& Z_FLAG) ≠ 0 → s.cx = 1 →
        t.completed = 1 ∧ t.in_rep = 0 ∧ t.repeating = 0) ∧
      ((t.flags &&& Z_FLAG) ≠ 0 → s.cx ≠ 1 →
        t.completed = 0 ∧ t.repeating = 1 ∧ t.in_rep = 2) := by
  obtain ⟨u, hu, ua, ui⟩ := rep_start_eq env s (by rw [h2]; decide) (by omega)
  obtain ⟨p1, p2, p3, -, -, p6, -⟩ := arch_rep_fields _ _ ua
  obtain ⟨q1, q2, q3, q4, q5, q6, q7⟩ := upd_completed_fields u 1
  obtain ⟨ca, ci⟩ := cmps_scas_compare_frame env hk (8 <<< (s.opcode &&& 1))
    ({ u with completed := 1 } : State)
  obtain ⟨r1, r2, r3, -, -, -, -, r8⟩ := repctl_fields _ _ ca
  have e : exec_cmps_scas env f s = cmps_scas_rep env f
      (cmps_scas_compare env (8 <<< (s.opcode &&& 1)) (rep_start env s).2) := by
    unfold exec_cmps_scas
    dsimp only
    rw [hu, if_pos rfl]
  rw [e, hu]
  dsimp only
  generalize cmps_scas_compare env (8 <<< (s.opcode &&& 1))
    ({ u with completed := 1 } : State) = c at ca ci r1 r2 r3 r8 ⊢
  have c1 : c.in_rep = 2 := r1.trans (q1.trans (p1.trans h2))
  have c2 : c.rep_c_flag = 0 := r2.trans (q2.trans (p2.trans hc))
  have c3 : c.cx = s.cx := r3.trans (q3.trans p3)
  have c8 : c.flags.testBit 8 = s.flags.testBit 8 := by
    rw [r8, q6, p6]
  have cq : no_irq c := no_irq_of_trap s c (ci.trans (q7.trans (ui hk))) c8 hq
  obtain ⟨t, ht, t1, t2, t3, t4, t5, t6, t7⟩ :=
    cmps_scas_rep_repe env hk f c c1 c2 (by rw [c3]; exact hcx) (by rw [c3]; exact hlt) cq
  rw [c3] at t1 t6 t7
  rw [← t3] at t5 t6 t7
  exact ⟨t, ht, t1, t2, no_irq_of c t t4 t3 cq, t3, t5, t6, t7⟩

theorem instr_end_pending (env : Env) (f : Nat) (t : State) (hc : t.completed = 0) :
    instr_end env f t = some t := by
  unfold instr_end
  rw [if_neg (not_not.2 hc)]

theorem instr_begin_repeating (env : Env) (f : Nat) (t : State) (hr : t.repeating ≠ 0) :
    instr_begin env f t = some { clock_start t with completed := 1 } := by
  unfold instr_begin
  dsimp only
  rw [if_neg (show ¬ (clock_start t).repeating = 0 from hr)]
  rfl

theorem clock_start_fields (t : State) :
    ({ clock_start t with completed := 1 } : State).in_rep = t.in_rep ∧
    ({ clock_start t with completed := 1 } : State).rep_c_flag = t.rep_c_flag ∧
    ({ clock_start t with completed := 1 } : State).cx = t.cx ∧
    ({ clock_start t with completed := 1 } : State).flags = t.flags ∧
    ({ clock_start t with completed := 1 } : State).irq = t.irq :=
  ⟨rfl, rfl, rfl, rfl, rfl⟩

theorem rep_passes_succ (env : Env) (f : Nat) (h : Env → Nat → State → Option State)
    (n : Nat) (s : State) :
    rep_passes env f h (n + 1) s =
      (h env f s).bind (fun t =>
        if t.completed = 0 then
          (instr_end env f t).bind (fun u =>
            (instr_begin env f u).bind (rep_passes env f h n))
        else some t) := rfl

/-- The passes of CMPS/SCAS under REPE with no interrupt pending end after `k` compares,
`1 ≤ k ≤ CX`, with CX decremented `k` times and `rep_c_flag` still 0: on a compare that
left Z clear, or with CX = 0. -/
theorem repe_passes_stop (env : Env) (hk : env_keeps_irq env) (f : Nat) (n : Nat) :
    ∀ s : State, s.in_rep = 2 → s.rep_c_flag = 0 → 0 < s.cx → s.cx < 65536 → s.cx ≤ n →
      no_irq s →
      ∃ t k, rep_passes env f exec_cmps_scas n s = some t ∧ 1 ≤ k ∧ k ≤ s.cx ∧
        t.cx = s.cx - k ∧ t.completed = 1 ∧ t.rep_c_flag = 0 ∧
        ((t.flags &&& Z_FLAG) = 0 ∨ t.cx = 0) := by
  induction n with
  | zero =>
    intro s _ _ h0 _ hn _
    omega
  | succ n ih =>
    intro s h2 hc hcx hlt hn hq
    obtain ⟨t, ht, t1, t2, tq, -, t5, t6, t7⟩ := exec_cmps_scas_repe env hk f s h2 hc hcx hlt hq
    rw [rep_passes_succ, ht, Option.some_bind]
    by_cases hz : (t.flags &&& Z_FLAG) = 0
    · have hcomp := (t5 hz).1
      rw [if_neg (by rw [hcomp]; decide)]
      exact ⟨t, 1, rfl, le_refl 1, hcx, t1, hcomp, t2, Or.inl hz⟩
    · by_cases h1 : s.cx = 1
      · obtain ⟨hcomp, -, -⟩ := t6 hz h1
        rw [if_neg (by rw [hcomp]; decide)]
        exact ⟨t, 1, rfl, le_refl 1, hcx, t1, hcomp, t2, Or.inr (by rw [t1, h1])⟩
      · obtain ⟨hcomp, hrep, hin⟩ := t7 hz h1
        rw [if_pos hcomp, instr_end_pending env f t hcomp, Option.some_bind,
          instr_begin_repeating env f t (by rw [hrep]; decide), Option.some_bind]
        obtain ⟨b1, b2, b3, b4, b5⟩ := clock_start_fields t
        generalize ({ clock_start t with completed := 1 } : State) = s' at b1 b2 b3 b4 b5 ⊢
        obtain ⟨w, k, hw, k1, k2, w1, w2, w3, w4⟩ := ih s' (b1.trans hin) (b2.trans t2)
          (by rw [b3, t1]; omega) (by rw [b3, t1]; omega) (by rw [b3, t1]; omega)
          (no_irq_of t s' b5 b4 tq)
        rw [b3, t1] at k2 w1
        exact ⟨w, k + 1, hw, by omega, by omega, by rw [w1]; omega, w2, w3, w4⟩

theorem idle_env_keeps_irq : env_keeps_irq idle_env := fun _ => ⟨rfl, rfl, rfl, rfl⟩

theorem exec_rep_prefix_fields (env : Env) (p : State) (hop : p.opcode = 0xF3) :
    ( exec_rep_prefix env p).in_rep = 2 ∧ ( exec_rep_prefix env p).rep_c_flag = 0 ∧
    ( exec_rep_prefix env p).completed = 0 ∧
    ( exec_rep_prefix env p).prefetching = p.prefetching ∧
    ( exec_rep_prefix env p).pfq_size = p.pfq_size := by
  have wa := wait_arch env 1 0 p
  have e1 : (wait env 1 0 p).opcode = p.opcode := congrArg Arch.opcode wa
  have e2 : (wait env 1 0 p).prefetching = p.prefetching := congrArg Arch.prefetching wa
  have e3 : (wait env 1 0 p).pfq_size = p.pfq_size := congrArg Arch.pfq_size wa
  refine ⟨?_, rfl, rfl, e2, e3⟩
  show (if (wait env 1 0 p).opcode = 0xf2 then 1 else 2) = 2
  rw [e1, hop]
  rfl

theorem instr_begin_rep (env : Env) (f : Nat) (t : State) (hpre : t.prefetching ≠ 0)
    (hsz : t.pfq_size = 4 ∨ t.pfq_size = 6) (hf : 6 ≤ f) :
    ∃ u, instr_begin env f t = some u ∧ u.in_rep = t.in_rep ∧
      u.rep_c_flag = t.rep_c_flag ∧ u.completed = 1 := by
  unfold instr_begin
  by_cases hr : (clock_start t).repeating = 0
  · obtain ⟨r, h1, -, -⟩ := pfq_fetchb_common_ok env
      { clock_start t with oldpc := (clock_start t).pc } f hpre hsz hf
    have ha := (pfq_fetchb_common_frame env f _ r h1).1
    have e1 : r.2.in_rep = t.in_rep := congrArg Arch.in_rep ha
    have e2 : r.2.rep_c_flag = t.rep_c_flag := congrArg Arch.rep_c_flag ha
    dsimp only
    rw [if_pos hr, h1]
    refine ⟨_, rfl, ?_, ?_, rfl⟩
    · show (wait env 1 0 _).in_rep = _
      rw [(arch_rep_fields _ _ (wait_arch env 1 0 _)).1]
      split_ifs
      · exact e1
      · exact e1
    · show (wait env 1 0 _).rep_c_flag = _
      rw [(arch_rep_fields _ _ (wait_arch env 1 0 _)).2.1]
      split_ifs
      · exact e2
      · exact e2
  · dsimp only
    rw [if_neg hr]
    exact ⟨_, rfl, rfl, rfl, rfl⟩

/-- C22: REPE CMPS/SCAS.  The prefix 0xF3 sets `in_rep = 2` and `rep_c_flag = 0` and leaves
`completed = 0`, so the closing block does nothing and the head of the loop keeps both.
From a state with `in_rep = 2`, `rep_c_flag = 0`, CX = N > 0 and no interrupt pending
(`no_irq`, with a timer service that raises none): each pass of CMPS/SCAS decrements CX once
and leaves `rep_c_flag = 0`; it ends the instruction when the compare left Z clear, or when
CX has reached 0, and otherwise asks for another pass with `in_rep = 2`.  The passes end
after `k` compares, `1 ≤ k ≤ N`, with CX = N - k, on a compare that left Z clear or with
CX = 0. -/
theorem repe_stops_on_mismatch (env : Env) (hk : env_keeps_irq env) (f : Nat) :
    (∀ p : State, p.opcode = 0xF3 →
      ( exec_rep_prefix env p).in_rep = 2 ∧ ( exec_rep_prefix env p).rep_c_flag = 0 ∧
      instr_end env f ( exec_rep_prefix env p) = some ( exec_rep_prefix env p) ∧
      (p.prefetching ≠ 0 → (p.pfq_size = 4 ∨ p.pfq_size = 6) → 6 ≤ f →
        ∃ u, instr_begin env f ( exec_rep_prefix env p) = some u ∧ u.in_rep = 2 ∧
          u.rep_c_flag = 0)) ∧
    (∀ s : State, s.in_rep = 2 → s.rep_c_flag = 0 → 0 < s.cx → s.cx < 65536 → no_irq s →
      (∃ t, exec_cmps_scas env f s = some t ∧ t.cx = s.cx - 1 ∧ t.rep_c_flag = 0 ∧
        no_irq t ∧
        ((t.flags &&& Z_FLAG) = 0 → t.completed = 1) ∧
        ((t.flags &&& Z_FLAG) ≠ 0 → s.cx = 1 →
          t.completed = 1 ∧ t.in_rep = 0 ∧ t.repeating = 0) ∧
        ((t.flags &&& Z_FLAG) ≠ 0 → s.cx ≠ 1 →
          t.completed = 0 ∧ t.repeating = 1 ∧ t.in_rep = 2)) ∧
      (∀ n, s.cx ≤ n →
        ∃ t k, rep_passes env f exec_cmps_scas n s = some t ∧ 1 ≤ k ∧ k ≤ s.cx ∧
          t.cx = s.cx - k ∧ t.completed = 1 ∧ t.rep_c_flag = 0 ∧
          ((t.flags &&& Z_FLAG) = 0 ∨ t.cx = 0))) := by
  refine ⟨fun p hop => ?_, fun s h2 hc hcx hlt hq => ⟨?_, fun n hn => ?_⟩⟩
  · obtain ⟨a1, a2, a3, a4, a5⟩ := exec_rep_prefix_fields env p hop
    refine ⟨a1, a2, instr_end_pending env f _ a3, fun hpre hsz hf => ?_⟩
    obtain ⟨u, hu, u1, u2, -⟩ := instr_begin_rep env f ( exec_rep_prefix env p)
      (by rw [a4]; exact hpre) (by rw [a5]; exact hsz) hf
    exact ⟨u, hu, u1.trans a1, u2.trans a2⟩
  · obtain ⟨t, ht, t1, t2, tq, -, t5, t6, t7⟩ := exec_cmps_scas_repe env hk f s h2 hc hcx hlt hq
    exact ⟨t, ht, t1, t2, tq, fun z => (t5 z).1, t6, t7⟩
  · exact repe_passes_stop env hk f n s h2 hc hcx hlt hn hq

theorem repe_stops_on_mismatch_witness :
    env_keeps_irq idle_env ∧ repe_state.in_rep = 2 ∧ repe_state.rep_c_flag = 0 ∧
    0 < repe_state.cx ∧ repe_state.cx < 65536 ∧ no_irq repe_state ∧ repe_state.cx ≤ 2 ∧
    ∃ t k, rep_passes idle_env 6 exec_cmps_scas 2 repe_state = some t ∧ 1 ≤ k ∧ k ≤ 2 ∧
      t.cx = 2 - k ∧ t.completed = 1 ∧ t.rep_c_flag = 0 ∧
      ((t.flags &&& Z_FLAG) = 0 ∨ t.cx = 0) :=
  ⟨idle_env_keeps_irq, rfl, rfl, by decide, by decide, ⟨rfl, by decide, rfl⟩, by decide,
   ((repe_stops_on_mismatch idle_env idle_env_keeps_irq 6).2 repe_state rfl rfl (by decide)
      (by decide) ⟨rfl, by decide, rfl⟩).2 2 (by decide)⟩

theorem low_byte_merge (m b : Nat) (hb : b < 256) : ((m &&& 0xff00) ||| b) &&& 0xff = b := by
  apply Nat.eq_of_testBit_eq
  intro i
  have e1 : (0xff00 : Nat) = (2 ^ 8 - 1) <<< 8 := by decide
  have e2 : (0xff : Nat) = 2 ^ 8 - 1 := by decide
  rw [e1, e2]
  simp only [Nat.testBit_or, Nat.testBit_and, Nat.testBit_shiftLeft, Nat.testBit_two_pow_sub_one]
  by_cases hi : i < 8
  · have h8 : ¬ (i ≥ 8) := by omega
    simp [hi, h8]
  · have hbi : b.testBit i = false :=
      Nat.testBit_lt_two_pow (lt_of_lt_of_le hb (by
        have : (2 : Nat) ^ 8 ≤ 2 ^ i := Nat.pow_le_pow_right (by norm_num) (by omega)
        simpa using this))
    simp [hi, hbi]

theorem readmemb_eq (env : Env) (seg a : Nat) (s : State) :
    readmemb env seg a s =
      ((wait env 4 1 { ({ s with mem_seg := seg % 4294967296, mem_addr := a % 65536 } : State)
          with bus_request_type := BUS_MEM }).mem_data &&& 0xff,
       { wait env 4 1 { ({ s with mem_seg := seg % 4294967296, mem_addr := a % 65536 } : State)
          with bus_request_type := BUS_MEM } with bus_request_type := 0 }) := rfl

/-- A byte read: the value is the byte at the physical address, memory is unchanged and one
read cycle is logged. -/
theorem readmemb_effect (env : Env) (hk : env_keeps_mem env) (seg a : Nat) (s : State) :
    (readmemb env seg a s).1 = s.mem (word_lo seg a) % 256 ∧
    (readmemb env seg a s).2.arch = s.arch ∧
    (readmemb env seg a s).2.mem = s.mem ∧
    (readmemb env seg a s).2.bus_log = s.bus_log ++ [BUS_MEM] := by
  obtain ⟨hd, ha, -, -⟩ := mem_cycle env hk BUS_MEM
    ({ s with mem_seg := seg % 4294967296, mem_addr := a % 65536 } : State) (by decide)
  rw [bus_do_mem_in_low] at hd
  rw [readmemb_eq]
  generalize wait env 4 1 { ({ s with mem_seg := seg % 4294967296, mem_addr := a % 65536 } : State)
      with bus_request_type := BUS_MEM } = w at hd ha
  have h1 : w.mem_data = _ := congrArg Data.mem_data hd
  have h2 : w.mem = _ := congrArg Data.mem hd
  have h3 : w.bus_log = _ := congrArg Data.bus_log hd
  refine ⟨?_, ha, h2, h3⟩
  show w.mem_data &&& 0xff = _
  rw [h1]
  exact low_byte_merge _ _ (Nat.mod_lt _ (by norm_num))

theorem writememb_eq (env : Env) (seg a v : Nat) (s : State) :
    writememb env seg a v s =
      write_done ((seg + a) % 4294967296)
        (wait env 4 1 { ({ s with mem_seg := seg % 4294967296, mem_addr := a % 65536, mem_data := v % 256 } : State) with bus_request_type := (BUS_MEM ||| BUS_OUT) }) := rfl

/-- A byte write: the byte lands at the physical address, the rest of memory is unchanged
and one write cycle is logged. -/
theorem writememb_effect (env : Env) (hk : env_keeps_mem env) (seg a v : Nat) (s : State) :
    (writememb env seg a v s).arch = s.arch ∧
    (∀ x, (writememb env seg a v s).mem x = if x = word_lo seg a then v % 256 else s.mem x) ∧
    (writememb env seg a v s).bus_log = s.bus_log ++ [BUS_MEM ||| BUS_OUT] := by
  obtain ⟨hd, ha, -, -⟩ := mem_cycle env hk (BUS_MEM ||| BUS_OUT)
    ({ s with mem_seg := seg % 4294967296, mem_addr := a % 65536, mem_data := v % 256 } : State)
    (by decide)
  rw [bus_do_mem_out_low] at hd
  rw [writememb_eq]
  obtain ⟨wd, wa⟩ := write_done_frame ((seg + a) % 4294967296)
    (wait env 4 1 { ({ s with mem_seg := seg % 4294967296, mem_addr := a % 65536, mem_data := v % 256 } : State) with bus_request_type := (BUS_MEM ||| BUS_OUT) })
  generalize wait env 4 1 { ({ s with mem_seg := seg % 4294967296, mem_addr := a % 65536, mem_data := v % 256 } : State) with bus_request_type := (BUS_MEM ||| BUS_OUT) } = w
    at hd ha wd wa
  generalize write_done ((seg + a) % 4294967296) w = w2 at wd wa
  have h2 : w2.mem = _ := (congrArg Data.mem wd).trans (congrArg Data.mem hd)
  have h3 : w2.bus_log = _ := (congrArg Data.bus_log wd).trans (congrArg Data.bus_log hd)
  refine ⟨wa.trans ha, fun x => ?_, h3⟩
  rw [h2]
  show (if x = ((seg % 4294967296 + a % 65536) % 4294967296) % 1048576 then
      (v % 256 &&& 0xff) % 256 % 256 else s.mem x) = _
  rw [and_ff]
  unfold word_lo
  have : v % 256 % 256 % 256 % 256 = v % 256 := by omega
  rw [this]

theorem seg_or_override_ea (d a : Nat) (s : State) :
    seg_or_override d ({ s with eaaddr := a } : State) = seg_or_override d s := rfl

theorem string_increment_up (t : State) (hdf : (t.flags &&& D_FLAG) = 0) :
    (string_increment 8 t).eaaddr = (t.eaaddr + 1) % 65536 ∧
    string_increment 8 t = { t with eaaddr := (string_increment 8 t).eaaddr } := by
  constructor
  · unfold string_increment
    dsimp only
    rw [if_neg (fun h => h hdf), and_ffff]
    have : (8 : Nat) >>> 3 = 1 := by decide
    rw [this]
    omega
  · rfl

theorem lods_byte_eq (env : Env) (s : State) :
    ∃ r : Nat × State, ∃ t2 t3 : State,
      r = readmemb env (seg_or_override s.seg_ds.base s) s.si { s with eaaddr := s.si } ∧
      t2 = { r.2 with cpu_data := r.1 } ∧ t3 = string_increment 8 t2 ∧
      lods env 8 s = { t3 with si := t3.eaaddr } := by
  refine ⟨_, _, _, rfl, rfl, rfl, ?_⟩
  unfold lods
  dsimp only
  rw [if_neg (by decide)]
  rfl

theorem upd_ea_arch2 (t : State) (a : Nat) :
    ({ t with eaaddr := a } : State).arch = { t.arch with eaaddr := a } := rfl
theorem upd_data_arch2 (t : State) (a : Nat) :
    ({ t with cpu_data := a } : State).arch = { t.arch with cpu_data := a } := rfl
theorem upd_si_arch2 (t : State) (a : Nat) :
    ({ t with si := a } : State).arch = { t.arch with si := a } := rfl
theorem upd_di_arch2 (t : State) (a : Nat) :
    ({ t with di := a } : State).arch = { t.arch with di := a } := rfl

/-- LODSB with the direction flag clear. -/
theorem lods_byte (env : Env) (hk : env_keeps_mem env) (s : State)
    (hdf : (s.flags &&& D_FLAG) = 0) :
    (lods env 8 s).arch =
      { s.arch with eaaddr := (s.si + 1) % 65536, si := (s.si + 1) % 65536,
                    cpu_data := s.mem (word_lo (seg_or_override s.seg_ds.base s) s.si) % 256 } ∧
    (lods env 8 s).mem = s.mem ∧
    (lods env 8 s).bus_log = s.bus_log ++ [BUS_MEM] ∧
    (env_keeps_irq env → (lods env 8 s).irq = s.irq) := by
  obtain ⟨r, t2, t3, hr, h2, h3, he⟩ := lods_byte_eq env s
  obtain ⟨e1, e2, e3, e4⟩ := readmemb_effect env hk (seg_or_override s.seg_ds.base s) s.si
    ({ s with eaaddr := s.si } : State)
  have e5 := fun hq => readmemb_irq env hq (seg_or_override s.seg_ds.base s) s.si
    ({ s with eaaddr := s.si } : State)
  rw [← hr] at e1 e2 e3 e4 e5
  have f2 : t2.flags = s.flags := by
    rw [h2]
    exact (congrArg Arch.flags e2)
  have f2e : t2.eaaddr = s.si := by
    rw [h2]
    exact (congrArg Arch.eaaddr e2)
  obtain ⟨i1, i2⟩ := string_increment_up t2 (by rw [f2]; exact hdf)
  rw [← h3] at i1 i2
  rw [f2e] at i1
  have a2 : t2.arch = { s.arch with eaaddr := s.si, cpu_data := r.1 } := by
    rw [h2, upd_data_arch2, e2]
    rfl
  have a3 : t3.arch = { s.arch with eaaddr := (s.si + 1) % 65536, cpu_data := r.1 } := by
    rw [i2, upd_ea_arch2, a2, i1]
  rw [he]
  refine ⟨?_, ?_, ?_, fun hq => ?_⟩
  · rw [upd_si_arch2, a3, i1, e1]
  · show t3.mem = _
    rw [i2, h2]
    exact e3
  · show t3.bus_log = _
    rw [i2, h2]
    exact e4
  · show t3.irq = _
    rw [i2, h2]
    exact e5 hq

theorem write_done_irq (addr : Nat) (s : State) : (write_done addr s).irq = s.irq := by
  unfold write_done
  dsimp only
  split_ifs <;> rfl

theorem writememb_irq (env : Env) (hk : env_keeps_irq env) (seg a v : Nat) (s : State) :
    (writememb env seg a v s).irq = s.irq := by
  rw [writememb_eq, write_done_irq]
  exact (wait_irq env hk 4 1 _
    (fun _ => (by decide : (BUS_MEM ||| BUS_OUT) &&& BUS_ACCESS_TYPE ≠ BUS_IO))
    (fun _ => (by decide : (BUS_MEM ||| BUS_OUT) &&& BUS_ACCESS_TYPE ≠ BUS_PIC))).trans rfl

theorem stos_byte_eq (env : Env) (s : State) :
    ∃ t2 t3 : State,
      t2 = writememb env s.seg_es.base s.di (s.cpu_data &&& 0xff) { s with eaaddr := s.di } ∧
      t3 = string_increment 8 t2 ∧
      stos env 8 s = { t3 with di := t3.eaaddr } := by
  refine ⟨_, _, rfl, rfl, ?_⟩
  unfold stos
  dsimp only
  rw [if_neg (by decide)]

/-- STOSB with the direction flag clear. -/
theorem stos_byte (env : Env) (hk : env_keeps_mem env) (s : State)
    (hdf : (s.flags &&& D_FLAG) = 0) :
    (stos env 8 s).arch =
      { s.arch with eaaddr := (s.di + 1) % 65536, di := (s.di + 1) % 65536 } ∧
    (∀ x, (stos env 8 s).mem x =
      if x = word_lo s.seg_es.base s.di then s.cpu_data % 256 else s.mem x) ∧
    (stos env 8 s).bus_log = s.bus_log ++ [BUS_MEM ||| BUS_OUT] ∧
    (env_keeps_irq env → (stos env 8 s).irq = s.irq) := by
  obtain ⟨t2, t3, h2, h3, he⟩ := stos_byte_eq env s
  obtain ⟨e2, e3, e4⟩ := writememb_effect env hk s.seg_es.base s.di (s.cpu_data &&& 0xff)
    ({ s with eaaddr := s.di } : State)
  have e5 := fun hq => writememb_irq env hq s.seg_es.base s.di (s.cpu_data &&& 0xff)
    ({ s with eaaddr := s.di } : State)
  rw [← h2] at e2 e3 e4 e5
  have f2 : t2.flags = s.flags := congrArg Arch.flags e2
  have f2e : t2.eaaddr = s.di := congrArg Arch.eaaddr e2
  obtain ⟨i1, i2⟩ := string_increment_up t2 (by rw [f2]; exact hdf)
  rw [← h3] at i1 i2
  rw [f2e] at i1
  have a2 : t2.arch = { s.arch with eaaddr := s.di } := e2
  have a3 : t3.arch = { s.arch with eaaddr := (s.di + 1) % 65536 } := by
    rw [i2, upd_ea_arch2, a2, i1]
  rw [he]
  refine ⟨?_, fun x => ?_, ?_, fun hq => ?_⟩
  · rw [upd_di_arch2, a3, i1]
  · show t3.mem x = _
    rw [i2]
    show t2.mem x = _
    rw [e3 x, and_ff]
    have : s.cpu_data % 256 % 256 = s.cpu_data % 256 := by omega
    rw [this]
  · show t3.bus_log = _
    rw [i2]
    exact e4
  · show t3.irq = _
    rw [i2]
    exact e5 hq

theorem movview_of_arch (s t : State) (h : t.arch = s.arch) : t.movview = s.movview := by
  unfold State.movview
  rw [h]

theorem wait_movview (env : Env) (c : Int) (bus : Nat) (s : State) :
    (wait env c bus s).movview = s.movview :=
  movview_of_arch s _ (wait_arch env c bus s)

theorem lods_movview (env : Env) (hk : env_keeps_mem env) (s : State)
    (hdf : (s.flags &&& D_FLAG) = 0) :
    (lods env 8 s).movview =
      { s.movview with si := (s.si + 1) % 65536, cpu_data := s.mem (word_lo (seg_or_override s.seg_ds.base s) s.si) % 256 } := by
  unfold State.movview
  rw [(lods_byte env hk s hdf).1]
  rfl

theorem stos_movview (env : Env) (hk : env_keeps_mem env) (s : State)
    (hdf : (s.flags &&& D_FLAG) = 0) :
    (stos env 8 s).movview = { s.movview with di := (s.di + 1) % 65536 } := by
  unfold State.movview
  rw [(stos_byte env hk s hdf).1]
  rfl

theorem upd_pass_movview (t : State) (a b : Nat) :
    ({ t with completed := a, repeating := b } : State).movview
      = { t.movview with completed := a, repeating := b } := rfl

theorem upd_completed_movview (t : State) (a : Nat) :
    ({ t with completed := a } : State).movview = { t.movview with completed := a } := rfl

theorem upd_cx_movview (t : State) (a : Nat) :
    ({ t with cx := a } : State).movview = { t.movview with cx := a } := rfl

theorem rep_end_movview (t : State) :
    (rep_end t).movview = { t.movview with repeating := 0, in_rep := 0, completed := 1 } := rfl

theorem rep_start_go (env : Env) (s : State) (hin : s.in_rep ≠ 0) (hcx : s.cx ≠ 0) :
    ∃ u : State, (rep_start env s) = (true, { u with completed := 1 }) ∧
      u.arch = s.arch ∧ u.priv = s.priv ∧ (env_keeps_mem env → u.mem = s.mem) ∧
      (env_keeps_irq env → u.irq = s.irq) := by
  unfold rep_start
  by_cases hr : s.repeating = 0
  · have a := wait_arch env 2 0 s
    have e1 : (wait env 2 0 s).in_rep = s.in_rep := congrArg Arch.in_rep a
    have e2 : (wait env 2 0 s).cx = s.cx := congrArg Arch.cx a
    rw [if_pos hr]
    dsimp only
    rw [if_pos (by rw [e1]; exact hin), if_neg (by rw [e2]; exact hcx)]
    obtain ⟨w1, w2, w3⟩ := wait2_idle_frame env 2 7 s
    exact ⟨_, rfl, w1, w2, w3, fun hk => wait2_idle_irq env hk 2 7 s⟩
  · rw [if_neg hr]
    exact ⟨s, rfl, rfl, rfl, fun _ => rfl, fun _ => rfl⟩

theorem exec_movs_split (env : Env) (f : Nat) (s s0 : State) (hop : s.opcode = 0xA4)
    (h0 : rep_start env s = (true, s0)) :
    ∃ s1 s2 s3 s4 s5 s6 s7 : State,
      s1 = lods env 8 s0 ∧ s2 = wait env 1 0 s1 ∧ s3 = stos env 8 s2 ∧
      s4 = wait env 1 0 s3 ∧ s5 = { s4 with completed := 0, repeating := 1 } ∧
      s6 = { s5 with cx := (s5.cx + 65535) % 65536 } ∧ s7 = wait env 2 0 s6 ∧
      exec_movs env f s =
        if s4.in_rep ≠ 0 then
          (if irq_pending s6 then rep_interrupt env f (wait env 2 0 s6)
           else some (if s7.cx = 0 then rep_end s7 else wait env 1 0 s7))
        else some (wait env 1 0 s4) := by
  have hb : 8 <<< (s.opcode &&& 1) = 8 := by rw [hop]; rfl
  refine ⟨_, _, _, _, _, _, _, rfl, rfl, rfl, rfl, rfl, rfl, rfl, ?_⟩
  unfold exec_movs
  dsimp only
  rw [hb, h0]
  rfl

theorem movview_fields (v w : MovView) (h : v = w) :
    v.flags = w.flags ∧ v.opcode = w.opcode ∧ v.seg_es = w.seg_es ∧ v.seg_ds = w.seg_ds ∧
    v.in_rep = w.in_rep ∧ v.cx = w.cx ∧ v.si = w.si ∧ v.di = w.di ∧
    v.cpu_data = w.cpu_data ∧ v.completed = w.completed ∧ v.repeating = w.repeating := by
  subst h
  exact ⟨rfl, rfl, rfl, rfl, rfl, rfl, rfl, rfl, rfl, rfl, rfl⟩

theorem seg_or_override_segs (d : Nat) (s t : State) (h1 : t.ovr_seg = s.ovr_seg)
    (h2 : t.seg_es = s.seg_es) (h3 : t.seg_cs = s.seg_cs) (h4 : t.seg_ss = s.seg_ss)
    (h5 : t.seg_ds = s.seg_ds) : seg_or_override d t = seg_or_override d s := by
  unfold seg_or_override get_opseg
  rw [h1]
  cases s.ovr_seg with
  | none => rfl
  | some i =>
    dsimp only
    split <;> simp only [h2, h3, h4, h5]

theorem wait_idle_mem (env : Env) (hk : env_keeps_mem env) (c : Int) (s : State) :
    (wait env c 0 s).mem = s.mem ∧ (wait env c 0 s).bus_log = s.bus_log :=
  ⟨(wait_idle_frame env c s).2.2 hk, congrArg Priv.bus_log (wait_idle_frame env c s).2.1⟩

theorem upd_pass_frame (t : State) (a b : Nat) :
    ({ t with completed := a, repeating := b } : State).mem = t.mem ∧
    ({ t with completed := a, repeating := b } : State).bus_log = t.bus_log ∧
    ({ t with completed := a, repeating := b } : State).irq = t.irq ∧
    ({ t with completed := a, repeating := b } : State).flags = t.flags ∧
    ({ t with completed := a, repeating := b } : State).cx = t.cx := ⟨rfl, rfl, rfl, rfl, rfl⟩

theorem upd_cx_frame (t : State) (a : Nat) :
    ({ t with cx := a } : State).mem = t.mem ∧
    ({ t with cx := a } : State).bus_log = t.bus_log ∧
    ({ t with cx := a } : State).irq = t.irq ∧
    ({ t with cx := a } : State).flags = t.flags := ⟨rfl, rfl, rfl, rfl⟩

/-- One pass of MOVSB under REP with the direction flag clear and no interrupt pending:
one byte is copied, SI and DI move up by one, CX is decremented, one read and one write
cycle are logged. -/
theorem exec_movs_pass (env : Env) (hkm : env_keeps_mem env) (hki : env_keeps_irq env)
    (f : Nat) (s : State) (hop : s.opcode = 0xA4) (hin : s.in_rep ≠ 0) (hcx : 0 < s.cx)
    (hlt : s.cx < 65536) (hdf : (s.flags &&& D_FLAG) = 0) (hq : no_irq s) :
    ∃ t, exec_movs env f s = some t ∧
      t.movview = { s.movview with
          si := (s.si + 1) % 65536, di := (s.di + 1) % 65536,
          cpu_data := s.mem (word_lo (seg_or_override s.seg_ds.base s) s.si) % 256,
          cx := s.cx - 1, completed := (if s.cx = 1 then 1 else 0),
          repeating := (if s.cx = 1 then 0 else 1),
          in_rep := (if s.cx = 1 then 0 else s.in_rep) } ∧
      (∀ x, t.mem x = if x = word_lo s.seg_es.base s.di
          then s.mem (word_lo (seg_or_override s.seg_ds.base s) s.si) % 256 else s.mem x) ∧
      t.bus_log = s.bus_log ++ [BUS_MEM, BUS_MEM ||| BUS_OUT] ∧ t.irq = s.irq := by
  obtain ⟨u, hu, ua, up, um, ui⟩ := rep_start_go env s hin (by omega)
  obtain ⟨s1, s2, s3, s4, s5, s6, s7, h1, h2, h3, h4, h5, h6, h7, he⟩ :=
    exec_movs_split env f s _ hop hu
  -- the state after rep_start
  have a0 : ({ u with completed := 1 } : State).flags = s.flags ∧
      ({ u with completed := 1 } : State).ovr_seg = s.ovr_seg ∧
      ({ u with completed := 1 } : State).seg_es = s.seg_es ∧
      ({ u with completed := 1 } : State).seg_cs = s.seg_cs ∧
      ({ u with completed := 1 } : State).seg_ss = s.seg_ss ∧
      ({ u with completed := 1 } : State).seg_ds = s.seg_ds ∧
      ({ u with completed := 1 } : State).si = s.si :=
    ⟨congrArg Arch.flags ua, congrArg Arch.ovr_seg ua, congrArg Arch.seg_es ua,
     congrArg Arch.seg_cs ua, congrArg Arch.seg_ss ua, congrArg Arch.seg_ds ua,
     congrArg Arch.si ua⟩
  have v0 : ({ u with completed := 1 } : State).movview = { s.movview with completed := 1 } := by
    rw [upd_completed_movview, movview_of_arch s u ua]
  have m0 : ({ u with completed := 1 } : State).mem = s.mem := um hkm
  have l0 : ({ u with completed := 1 } : State).bus_log = s.bus_log := congrArg Priv.bus_log up
  have i0 : ({ u with completed := 1 } : State).irq = s.irq := ui hki
  generalize ({ u with completed := 1 } : State) = s0 at h1 v0 m0 l0 i0 a0
  obtain ⟨f0, o0, e0, c0, ss0, d0, si0⟩ := a0
  -- lods
  have v1 := lods_movview env hkm s0 (by rw [f0]; exact hdf)
  obtain ⟨-, m1, l1, i1⟩ := lods_byte env hkm s0 (by rw [f0]; exact hdf)
  rw [← h1] at v1 m1 l1 i1
  rw [seg_or_override_segs _ s s0 o0 e0 c0 ss0 d0, si0, d0, m0, v0] at v1
  -- wait
  have v2 : s2.movview = s1.movview := by rw [h2]; exact wait_movview env 1 0 s1
  have m2 : s2.mem = s1.mem ∧ s2.bus_log = s1.bus_log := by
    rw [h2]; exact wait_idle_mem env hkm 1 s1
  have i2 : s2.irq = s1.irq := by rw [h2]; exact wait_idle_irq env hki 1 s1
  rw [v1] at v2
  -- stos
  obtain ⟨f2, -, e2, -, -, -, -, di2, c2, -⟩ := movview_fields _ _ v2
  have f2' : s2.flags = s.flags := f2
  have e2' : s2.seg_es = s.seg_es := e2
  have di2' : s2.di = s.di := di2
  have c2' : s2.cpu_data = s.mem (word_lo (seg_or_override s.seg_ds.base s) s.si) % 256 := c2
  have v3 := stos_movview env hkm s2 (by rw [f2']; exact hdf)
  obtain ⟨-, m3, l3, i3⟩ := stos_byte env hkm s2 (by rw [f2']; exact hdf)
  rw [← h3] at v3 m3 l3 i3
  rw [di2', v2] at v3
  -- wait
  have v4 : s4.movview = s3.movview := by rw [h4]; exact wait_movview env 1 0 s3
  have m4 : s4.mem = s3.mem ∧ s4.bus_log = s3.bus_log := by
    rw [h4]; exact wait_idle_mem env hkm 1 s3
  have i4 : s4.irq = s3.irq := by rw [h4]; exact wait_idle_irq env hki 1 s3
  rw [v3] at v4
  obtain ⟨f4, -, -, -, in4, cx4, -⟩ := movview_fields _ _ v4
  have f4' : s4.flags = s.flags := f4
  have in4' : s4.in_rep = s.in_rep := in4
  have cx4' : s4.cx = s.cx := cx4
  -- the repeat tail
  have v5 : s5.movview = { s4.movview with completed := 0, repeating := 1 } := by
    rw [h5]; rfl
  have m5 : s5.mem = s4.mem ∧ s5.bus_log = s4.bus_log ∧ s5.irq = s4.irq ∧
      s5.flags = s4.flags ∧ s5.cx = s4.cx := by
    rw [h5]; exact upd_pass_frame s4 0 1
  have cx5 : s5.cx = s4.cx := m5.2.2.2.2
  have v6 : s6.movview = { s5.movview with cx := (s5.cx + 65535) % 65536 } := by
    rw [h6]; exact upd_cx_movview s5 _
  have m6 : s6.mem = s4.mem ∧ s6.bus_log = s4.bus_log ∧ s6.irq = s4.irq ∧
      s6.flags = s4.flags := by
    obtain ⟨a1, a2, a3, a4⟩ := upd_cx_frame s5 ((s5.cx + 65535) % 65536)
    rw [← h6] at a1 a2 a3 a4
    exact ⟨a1.trans m5.1, a2.trans m5.2.1, a3.trans m5.2.2.1, a4.trans m5.2.2.2.1⟩
  have v7 : s7.movview = s6.movview := by rw [h7]; exact wait_movview env 2 0 s6
  have m7 : s7.mem = s6.mem ∧ s7.bus_log = s6.bus_log := by
    rw [h7]; exact wait_idle_mem env hkm 2 s6
  have i7 : s7.irq = s6.irq := by rw [h7]; exact wait_idle_irq env hki 2 s6
  have i6 : s6.irq = s.irq :=
    m6.2.2.1.trans (i4.trans ((i3 hki).trans (i2.trans ((i1 hki).trans i0))))
  have q6 : no_irq s6 := no_irq_of s s6 i6 (m6.2.2.2.trans f4') hq
  have cx6 : (s5.cx + 65535) % 65536 = s.cx - 1 := by rw [cx5, cx4']; omega
  rw [cx6, v5, v4] at v6
  rw [v6] at v7
  have cx7 : s7.cx = s.cx - 1 := (movview_fields _ _ v7).2.2.2.2.2.1
  have hmem : ∀ x, s7.mem x = if x = word_lo s.seg_es.base s.di
      then s.mem (word_lo (seg_or_override s.seg_ds.base s) s.si) % 256 else s.mem x := by
    intro x
    rw [m7.1, m6.1, m4.1, m3 x, e2', di2', c2', m2.1, m1, m0, Nat.mod_mod]
  have hlog : s7.bus_log = s.bus_log ++ [BUS_MEM, BUS_MEM ||| BUS_OUT] := by
    rw [m7.2, m6.2.1, m4.2, l3, m2.2, l1, l0, List.append_assoc]
    rfl
  have hirq : s7.irq = s.irq := i7.trans i6
  rw [he, if_pos (by rw [in4']; exact hin), no_irq_pending _ q6, if_neg Bool.false_ne_true]
  by_cases hc1 : s.cx = 1
  · rw [if_pos (by rw [cx7, hc1])]
    refine ⟨_, rfl, ?_, hmem, hlog, hirq⟩
    rw [rep_end_movview, v7, if_pos hc1, if_pos hc1, if_pos hc1]
  · rw [if_neg (by rw [cx7]; omega)]
    obtain ⟨w1, w2⟩ := wait_idle_mem env hkm 1 s7
    refine ⟨_, rfl, ?_, fun x => by rw [w1]; exact hmem x, w2.trans hlog,
      (wait_idle_irq env hki 1 s7).trans hirq⟩
    rw [wait_movview, v7, if_neg hc1, if_neg hc1, if_neg hc1]
    rfl

theorem movview_segs (v w : MovView) (h : v = w) :
    v.ovr_seg = w.ovr_seg ∧ v.seg_es = w.seg_es ∧ v.seg_cs = w.seg_cs ∧
    v.seg_ss = w.seg_ss ∧ v.seg_ds = w.seg_ds := by
  subst h
  exact ⟨rfl, rfl, rfl, rfl, rfl⟩

theorem clock_start_movs (t : State) :
    ({ clock_start t with completed := 1 } : State).movview
        = { t.movview with completed := 1 } ∧
    ({ clock_start t with completed := 1 } : State).mem = t.mem ∧
    ({ clock_start t with completed := 1 } : State).bus_log = t.bus_log ∧
    ({ clock_start t with completed := 1 } : State).irq = t.irq :=
  ⟨rfl, rfl, rfl, rfl⟩

theorem movs_log_succ (k : Nat) (l : List Nat) :
    (l ++ [BUS_MEM, BUS_MEM ||| BUS_OUT]) ++ movs_log k = l ++ movs_log (k + 1) := by
  unfold movs_log
  rw [List.replicate_succ, List.flatten_cons, List.append_assoc]

/-- REP MOVSB with CX = N > 0, DF clear and no interrupt pending runs N passes: CX ends
at 0, SI and DI have moved up by N modulo 0x10000, the bus log has grown by N read/write
pairs and memory is that of N byte moves. -/
theorem movs_passes (env : Env) (hkm : env_keeps_mem env) (hki : env_keeps_irq env)
    (f : Nat) (n : Nat) :
    ∀ s : State, s.opcode = 0xA4 → s.in_rep ≠ 0 → 0 < s.cx → s.cx < 65536 → s.cx ≤ n →
      (s.flags &&& D_FLAG) = 0 → no_irq s →
      ∃ t, rep_passes env f exec_movs n s = some t ∧ t.completed = 1 ∧ t.cx = 0 ∧
        t.si = (s.si + s.cx) % 65536 ∧ t.di = (s.di + s.cx) % 65536 ∧
        t.bus_log = s.bus_log ++ movs_log s.cx ∧
        t.mem = movs_mem (seg_or_override s.seg_ds.base s) s.seg_es.base s.cx s.si s.di
          s.mem := by
  induction n with
  | zero =>
    intro s _ _ h0 _ hn _ _
    omega
  | succ n ih =>
    intro s hop hin hcx hlt hn hdf hq
    obtain ⟨t, ht, tv, tm, tl, ti⟩ := exec_movs_pass env hkm hki f s hop hin hcx hlt hdf hq
    obtain ⟨g1, g2, g3, g4, g5, g6, g7, g8, g9, g10, g11⟩ := movview_fields _ _ tv
    obtain ⟨o1, o2, o3, o4, o5⟩ := movview_segs _ _ tv
    have tf : t.flags = s.flags := g1
    have top : t.opcode = s.opcode := g2
    have tes : t.seg_es = s.seg_es := g3
    have tds : t.seg_ds = s.seg_ds := g4
    have tin : t.in_rep = (if s.cx = 1 then 0 else s.in_rep) := g5
    have tcx : t.cx = s.cx - 1 := g6
    have tsi : t.si = (s.si + 1) % 65536 := g7
    have tdi : t.di = (s.di + 1) % 65536 := g8
    have tco : t.completed = (if s.cx = 1 then 1 else 0) := g10
    have tre : t.repeating = (if s.cx = 1 then 0 else 1) := g11
    have tfun : t.mem = fun x => if x = word_lo s.seg_es.base s.di
        then s.mem (word_lo (seg_or_override s.seg_ds.base s) s.si) % 256 else s.mem x :=
      funext tm
    obtain ⟨k, hk⟩ : ∃ k, s.cx = k + 1 := ⟨s.cx - 1, by omega⟩
    rw [rep_passes_succ, ht, Option.some_bind]
    by_cases h1 : s.cx = 1
    · rw [if_pos h1] at tco
      rw [if_neg (by rw [tco]; decide)]
      refine ⟨t, rfl, tco, by rw [tcx, h1], by rw [tsi, h1], by rw [tdi, h1], ?_, ?_⟩
      · rw [tl, h1]; rfl
      · rw [tfun, h1]; rfl
    · rw [if_neg h1] at tco tre tin
      rw [if_pos tco, instr_end_pending env f t tco, Option.some_bind,
        instr_begin_repeating env f t (by rw [tre]; decide), Option.some_bind]
      obtain ⟨b1, b2, b3, b4⟩ := clock_start_movs t
      generalize ({ clock_start t with completed := 1 } : State) = s' at b1 b2 b3 b4 ⊢
      obtain ⟨c1, c2, c3, c4, c5, c6, c7, c8, -, -, -⟩ := movview_fields _ _ b1
      obtain ⟨p1, p2, p3, p4, p5⟩ := movview_segs _ _ b1
      have sf : s'.flags = s.flags := Eq.trans c1 tf
      have sop : s'.opcode = s.opcode := Eq.trans c2 top
      have ses : s'.seg_es = s.seg_es := Eq.trans c3 tes
      have sds : s'.seg_ds = s.seg_ds := Eq.trans c4 tds
      have sin : s'.in_rep = s.in_rep := Eq.trans c5 tin
      have scx : s'.cx = s.cx - 1 := Eq.trans c6 tcx
      have ssi : s'.si = (s.si + 1) % 65536 := Eq.trans c7 tsi
      have sdi : s'.di = (s.di + 1) % 65536 := Eq.trans c8 tdi
      have sov : seg_or_override s.seg_ds.base s' = seg_or_override s.seg_ds.base s :=
        seg_or_override_segs _ s s' (Eq.trans p1 o1) (Eq.trans p2 o2) (Eq.trans p3 o3)
          (Eq.trans p4 o4) (Eq.trans p5 o5)
      obtain ⟨w, hw, w1, w2, w3, w4, w5, w6⟩ := ih s' (sop.trans hop) (by rw [sin]; exact hin)
        (by rw [scx]; omega) (by rw [scx]; omega) (by rw [scx]; omega)
        (by rw [sf]; exact hdf) (no_irq_of s s' (b4.trans ti) sf hq)
      refine ⟨w, hw, w1, w2, ?_, ?_, ?_, ?_⟩
      · rw [w3, ssi, scx]; omega
      · rw [w4, sdi, scx]; omega
      · rw [w5, b3, tl, scx, hk, Nat.add_sub_cancel, movs_log_succ]
      · rw [w6, sds, sov, ses, ssi, sdi, scx, b2, tfun, hk, Nat.add_sub_cancel]
        rfl

theorem word_lo_step (seg a j : Nat) :
    word_lo seg ((a + 1) % 65536 + j) = word_lo seg (a + (j + 1)) := by
  unfold word_lo
  have : ((a + 1) % 65536 + j) % 65536 = (a + (j + 1)) % 65536 := by omega
  rw [this]

theorem word_lo_inj (seg a i j : Nat) (hi : a + i < 65536) (hj : a + j < 65536)
    (hne : i ≠ j) : word_lo seg (a + i) ≠ word_lo seg (a + j) := by
  unfold word_lo
  omega

/-- An address that no move writes keeps its content. -/
theorem movs_mem_outside (src dst : Nat) (k : Nat) :
    ∀ (si di : Nat) (m : Nat → Nat) (x : Nat),
      (∀ j, j < k → x ≠ word_lo dst (di + j)) → movs_mem src dst k si di m x = m x := by
  induction k with
  | zero => intro si di m x _; rfl
  | succ k ih =>
    intro si di m x hx
    show movs_mem src dst k ((si + 1) % 65536) ((di + 1) % 65536) _ x = m x
    rw [ih _ _ _ x (fun j hj => by rw [word_lo_step]; exact hx (j + 1) (by omega))]
    exact if_neg (hx 0 (by omega))

/-- When no source address is a destination address and the destination addresses are
pairwise different, the `i`-th destination byte is the `i`-th source byte. -/
theorem movs_mem_get (src dst : Nat) (k : Nat) :
    ∀ (si di : Nat) (m : Nat → Nat),
      (∀ i, i < k → ∀ j, j < k → word_lo src (si + i) ≠ word_lo dst (di + j)) →
      (∀ i, i < k → ∀ j, j < k → i ≠ j → word_lo dst (di + i) ≠ word_lo dst (di + j)) →
      ∀ i, i < k →
        movs_mem src dst k si di m (word_lo dst (di + i)) = m (word_lo src (si + i)) % 256 := by
  induction k with
  | zero => intro si di m _ _ i hi; omega
  | succ k ih =>
    intro si di m hov hinj i hi
    show movs_mem src dst k ((si + 1) % 65536) ((di + 1) % 65536) _ _ = _
    cases i with
    | zero =>
      rw [movs_mem_outside src dst k _ _ _ _ (fun j hj => by
        rw [word_lo_step]; exact hinj 0 (by omega) (j + 1) (by omega) (by omega))]
      exact if_pos rfl
    | succ i =>
      rw [← word_lo_step dst di i, ih _ _ _
        (fun a ha b hb => by
          rw [word_lo_step, word_lo_step]; exact hov (a + 1) (by omega) (b + 1) (by omega))
        (fun a ha b hb hab => by
          rw [word_lo_step, word_lo_step]
          exact hinj (a + 1) (by omega) (b + 1) (by omega) (by omega))
        i (by omega), word_lo_step]
      rw [if_neg (show word_lo src (si + (i + 1)) ≠ word_lo dst di from
        hov (i + 1) (by omega) 0 (by omega))]

theorem movs_log_count (k : Nat) :
    (movs_log k).count BUS_MEM = k ∧ (movs_log k).count (BUS_MEM ||| BUS_OUT) = k ∧
    (movs_log k).length = 2 * k := by
  induction k with
  | zero => exact ⟨rfl, rfl, rfl⟩
  | succ k ih =>
    obtain ⟨h1, h2, h3⟩ := ih
    have e : movs_log (k + 1) = [BUS_MEM, BUS_MEM ||| BUS_OUT] ++ movs_log k := by
      unfold movs_log
      rw [List.replicate_succ, List.flatten_cons]
    rw [e, List.count_append, List.count_append, List.length_append, h1, h2, h3]
    refine ⟨?_, ?_, ?_⟩
    · have : List.count BUS_MEM [BUS_MEM, BUS_MEM ||| BUS_OUT] = 1 := by decide
      omega
    · have : List.count (BUS_MEM ||| BUS_OUT) [BUS_MEM, BUS_MEM ||| BUS_OUT] = 1 := by decide
      omega
    · have : [BUS_MEM, BUS_MEM ||| BUS_OUT].length = 2 := rfl
      omega

/-- C21: REP MOVSB.  From a state about to run MOVSB (0xA4) under REP (`in_rep ≠ 0`) with
CX = N, 0 < N < 0x10000, DF clear, no interrupt pending (`no_irq`, with a timer service
that raises none and leaves memory alone), DI0 + N ≤ 0x10000 and no source address among
the destination addresses (the bound SI0 + N ≤ 0x10000 is not needed): the passes end (`completed = 1`) with the
N destination bytes equal to the N original source bytes, CX = 0, SI = (SI0 + N) mod
0x10000 and DI = (DI0 + N) mod 0x10000, which is SI0 + N and DI0 + N when the range ends
below the top of the segment and 0 when it ends at the top, and the bus log has grown by
N memory reads and N memory writes, in pairs. -/
theorem rep_movsb_copies (env : Env) (hkm : env_keeps_mem env) (hki : env_keeps_irq env)
    (f n : Nat) (s : State) (hop : s.opcode = 0xA4) (hin : s.in_rep ≠ 0) (hcx : 0 < s.cx)
    (hlt : s.cx < 65536) (hn : s.cx ≤ n) (hdf : (s.flags &&& D_FLAG) = 0) (hq : no_irq s)
    (hdi : s.di + s.cx ≤ 65536)
    (hov : ∀ i, i < s.cx → ∀ j, j < s.cx →
      word_lo (seg_or_override s.seg_ds.base s) (s.si + i) ≠ word_lo s.seg_es.base (s.di + j)) :
    ∃ t, rep_passes env f exec_movs n s = some t ∧ t.completed = 1 ∧
      (∀ i, i < s.cx → t.mem (word_lo s.seg_es.base (s.di + i))
          = s.mem (word_lo (seg_or_override s.seg_ds.base s) (s.si + i)) % 256) ∧
      (∀ x, (∀ j, j < s.cx → x ≠ word_lo s.seg_es.base (s.di + j)) → t.mem x = s.mem x) ∧
      t.cx = 0 ∧
      t.si = (s.si + s.cx) % 65536 ∧ t.di = (s.di + s.cx) % 65536 ∧
      (s.si + s.cx < 65536 → t.si = s.si + s.cx) ∧
      (s.di + s.cx < 65536 → t.di = s.di + s.cx) ∧
      (s.si + s.cx = 65536 → t.si = 0) ∧ (s.di + s.cx = 65536 → t.di = 0) ∧
      t.bus_log = s.bus_log ++ movs_log s.cx ∧
      (movs_log s.cx).count BUS_MEM = s.cx ∧
      (movs_log s.cx).count (BUS_MEM ||| BUS_OUT) = s.cx ∧
      (movs_log s.cx).length = 2 * s.cx := by
  obtain ⟨t, ht, t1, t2, t3, t4, t5, t6⟩ := movs_passes env hkm hki f n s hop hin hcx hlt hn hdf hq
  obtain ⟨l1, l2, l3⟩ := movs_log_count s.cx
  refine ⟨t, ht, t1, fun i hi => ?_, fun x hx => ?_, t2, t3, t4, fun h => ?_, fun h => ?_,
    fun h => ?_, fun h => ?_, t5, l1, l2, l3⟩
  · rw [t6]
    exact movs_mem_get _ _ _ _ _ _ hov
      (fun a ha b hb hab => word_lo_inj _ _ _ _ (by omega) (by omega) hab) i hi
  · rw [t6]
    exact movs_mem_outside _ _ _ _ _ _ x hx
  · rw [t3]; omega
  · rw [t4]; omega
  · rw [t3, h]
  · rw [t4, h]

theorem movs_state_apart : ∀ i, i < movs_state.cx → ∀ j, j < movs_state.cx →
    word_lo (seg_or_override movs_state.seg_ds.base movs_state) (movs_state.si + i)
      ≠ word_lo movs_state.seg_es.base (movs_state.di + j) := by
  intro i hi j hj
  have hi' : i < 2 := hi
  have hj' : j < 2 := hj
  show word_lo 0 (0x10 + i) ≠ word_lo 0 (0x20 + j)
  unfold word_lo
  omega

theorem rep_movsb_copies_witness :
    ∃ t, rep_passes idle_env 0 exec_movs 2 movs_state = some t ∧ t.completed = 1 ∧
      t.mem 0x20 = 0x10 ∧ t.mem 0x21 = 0x11 ∧ t.cx = 0 ∧ t.si = 0x12 ∧ t.di = 0x22 ∧
      t.bus_log = [BUS_MEM, BUS_MEM ||| BUS_OUT, BUS_MEM, BUS_MEM ||| BUS_OUT] := by
  obtain ⟨t, ht, t1, t2, -, t3, -, -, t4, t5, -, -, t6, -⟩ :=
    rep_movsb_copies idle_env idle_env_keeps_mem idle_env_keeps_irq 0 2 movs_state rfl
      (by decide) (by decide) (by decide) (by decide) rfl ⟨rfl, by decide, rfl⟩
      (by decide) movs_state_apart
  exact ⟨t, ht, t1, t2 0 (by decide), t2 1 (by decide), t3, t4 (by decide), t5 (by decide), t6⟩

/-- Counterexample to C21 as stated: for a range that ends at the top of the segment
(SI0 + N = 0x10000, which the premise allows) SI is not SI0 + N.  With SI0 = 0xFFFF and
N = 1 every premise holds and the instruction completes with SI = 0, not 0x10000. -/
theorem rep_movsb_si_wraps :
    movs_top_state.opcode = 0xA4 ∧ movs_top_state.in_rep ≠ 0 ∧ movs_top_state.cx = 1 ∧
    (movs_top_state.flags &&& D_FLAG) = 0 ∧ no_irq movs_top_state ∧
    movs_top_state.si + movs_top_state.cx ≤ 65536 ∧
    movs_top_state.di + movs_top_state.cx ≤ 65536 ∧
    word_lo (seg_or_override movs_top_state.seg_ds.base movs_top_state) movs_top_state.si
      ≠ word_lo movs_top_state.seg_es.base movs_top_state.di ∧
    ∃ t, rep_passes idle_env 0 exec_movs 1 movs_top_state = some t ∧ t.completed = 1 ∧
      t.si = 0 ∧ t.si ≠ movs_top_state.si + movs_top_state.cx := by
  refine ⟨rfl, by decide, rfl, rfl, ⟨rfl, by decide, rfl⟩, by decide, by decide, by decide, ?_⟩
  obtain ⟨t, ht, t1, -, t3, -⟩ :=
    movs_passes idle_env idle_env_keeps_mem idle_env_keeps_irq 0 1 movs_top_state rfl
      (by decide) (by decide) (by decide) (by decide) rfl ⟨rfl, by decide, rfl⟩
  have e : t.si = 0 := t3
  exact ⟨t, ht, t1, e, by rw [e]; decide⟩

end PCBox
